import Mathlib

/-! # Software rasterizer of svgwriter (`nanovg_sw.h`): embedding and checked properties

Conventions of the embedding.

* A C `float` is modelled by the rational number it denotes (`Rat`);
  infinities and NaN are outside the model.  Arithmetic is exact, except for
  the products `y * SWNVG__SUBSAMPLES` that `swnvg__addEdge` stores, which are
  rounded to the nearest `float` (`roundFloat`).
* A conversion `(int)f` is truncation toward zero (`truncf`); in image paint
  sampling, where the sample position is unbounded, it is the 32-bit conversion
  (`castInt`), which gives `INT_MIN` outside the range of `int`.
* A C `int` is modelled by `Int` (or `Nat` for counts and array indices that the
  code keeps non-negative); `x >> 10` is `x / 1024` and `x & 1023` is
  `x % 1024` (floor division, as on two's complement machines).
* An `unsigned char` is a natural number below 256; a narrowing store is `% 256`.
* The edge, call, vertex and tile arrays are `List`s; a read or write outside
  the list makes the operation return `none`.
* The framebuffer, the coverage scanlines, `lineLimits` and the accumulation
  buffer are total maps from index to value, so an access outside the
  allocation is not detected.
* Loops are structural recursions on an explicit iteration budget; a loop that
  exhausts its budget returns `none`.  The re-sort loop of the active list
  returns its list instead, and its budget is proved to be adequate.
* The tasks that the flush hands to the thread pool run one after the other in
  thread order.
* Whether a `realloc` or `malloc` succeeds is a boolean argument of the
  operation that calls it.
* Where the C code has no defined result (a load or store through `NULL`, an
  integer division by zero, a `memcpy` of negative size) the operation returns
  `none`.
-/

namespace NanoVGSW

/-! ## Part I. Definitions -/

/-! ### Edges and the edge sorter -/

/-- Edge record `SWNVGedge`; the `next` pointer of the C struct is never used. -/
structure SWNVGedge where
  x0 : Rat
  y0 : Rat
  x1 : Rat
  y1 : Rat
  dir : Int
deriving DecidableEq

/-- Macro `SWNVG__COMPARE(a,b)`: `(a)->y0 < (b)->y0`. -/
def SWNVG__COMPARE (a b : SWNVGedge) : Bool := decide (a.y0 < b.y0)

/-- Inner `while (j > 0)` loop of `swnvg__insSortEdges`, entered with `j`;
`t` is the saved element `p[i]`.  Returns the array and the final `j`. -/
def insSortInner (off : Nat) (t : SWNVGedge) :
    Nat → List SWNVGedge → Option (List SWNVGedge × Nat)
  | 0, p => some (p, 0)
  | j + 1, p =>
    match p[off + j]? with
    | none => none
    | some b =>
      if SWNVG__COMPARE t b then
        if off + (j + 1) < p.length then insSortInner off t j (p.set (off + (j + 1)) b)
        else none
      else some (p, j + 1)

/-- Body of the outer `for` loop of `swnvg__insSortEdges` for one `i`. -/
def insSortStep (off i : Nat) (p : List SWNVGedge) : Option (List SWNVGedge) :=
  match p[off + i]? with
  | none => none
  | some t =>
    match insSortInner off t i p with
    | none => none
    | some (p1, j) => if i ≠ j then some (p1.set (off + j) t) else some p1

/-- Outer loop `for (i = ...; i < n; ++i)` with `cnt` iterations left. -/
def insSortFrom (off : Nat) : Nat → Nat → List SWNVGedge → Option (List SWNVGedge)
  | 0, _, p => some p
  | cnt + 1, i, p =>
    match insSortStep off i p with
    | none => none
    | some p1 => insSortFrom off cnt (i + 1) p1

/-- Function `swnvg__insSortEdges(p, n)` where `p` points at index `off` of the
shared edge array. -/
def swnvg__insSortEdges (edges : List SWNVGedge) (off n : Nat) : Option (List SWNVGedge) :=
  insSortFrom off (n - 1) 1 edges

/-- Three-assignment exchange `t = p[a]; p[a] = p[b]; p[b] = t`. -/
def swapEdges (p : List SWNVGedge) (a b : Nat) : Option (List SWNVGedge) :=
  match p[a]?, p[b]? with
  | some ea, some eb => some ((p.set a eb).set b ea)
  | _, _ => none

/-- Median-of-three step of `swnvg__quickSortEdges`, including the final
exchange of `p[0]` and `p[m]`. -/
def medianOfThree (p : List SWNVGedge) (off n : Nat) : Option (List SWNVGedge) :=
  let m := n / 2
  match p[off]?, p[off + m]?, p[off + (n - 1)]? with
  | some e0, some em, some en =>
    let c01 := SWNVG__COMPARE e0 em
    let c12 := SWNVG__COMPARE em en
    let p1 :=
      if c01 != c12 then
        let c := SWNVG__COMPARE e0 en
        let z := if c == c12 then 0 else n - 1
        swapEdges p (off + z) (off + m)
      else some p
    match p1 with
    | none => none
    | some p1 => swapEdges p1 off (off + m)
  | _, _, _ => none

/-- Upward scan `for (;;++i) if (!SWNVG__COMPARE(&p[i], &p[0])) break;`. -/
def scanUp (p : List SWNVGedge) (off : Nat) : Nat → Nat → Option Nat
  | 0, _ => none
  | k + 1, i =>
    match p[off + i]?, p[off]? with
    | some a, some pv => if SWNVG__COMPARE a pv then scanUp p off k (i + 1) else some i
    | _, _ => none

/-- Downward scan `for (;;--j) if (!SWNVG__COMPARE(&p[0], &p[j])) break;`;
stepping below index 0 leaves the array. -/
def scanDown (p : List SWNVGedge) (off : Nat) : Nat → Option Nat
  | 0 =>
    match p[off]?, p[off + 0]? with
    | some pv, some b => if SWNVG__COMPARE pv b then none else some 0
    | _, _ => none
  | j + 1 =>
    match p[off]?, p[off + (j + 1)]? with
    | some pv, some b => if SWNVG__COMPARE pv b then scanDown p off j else some (j + 1)
    | _, _ => none

/-- Partition loop of `swnvg__quickSortEdges`; returns the array and the final
`i` and `j`. -/
def partitionLoop (off : Nat) :
    Nat → List SWNVGedge → Nat → Nat → Option (List SWNVGedge × Nat × Nat)
  | 0, _, _, _ => none
  | k + 1, p, i, j =>
    match scanUp p off p.length i with
    | none => none
    | some i1 =>
      match scanDown p off j with
      | none => none
      | some j1 =>
        if i1 ≥ j1 then some (p, i1, j1)
        else
          match swapEdges p (off + i1) (off + j1) with
          | none => none
          | some p1 => partitionLoop off k p1 (i1 + 1) (j1 - 1)

/-- One pass of the `while (n > 12)` body up to the end of the partition loop
(`i = 1; j = n-1` on entry of the loop). -/
def partitionEdges (p : List SWNVGedge) (off n : Nat) : Option (List SWNVGedge × Nat × Nat) :=
  match medianOfThree p off n with
  | none => none
  | some p1 => partitionLoop off n p1 1 (n - 1)

/-- Function `swnvg__quickSortEdges(p, n)` with `p` at index `off`; the first
argument bounds the number of loop iterations plus the recursion depth. -/
def swnvg__quickSortEdges : Nat → List SWNVGedge → Nat → Nat → Option (List SWNVGedge)
  | 0, _, _, _ => none
  | fuel + 1, p, off, n =>
    if n > 12 then
      match partitionEdges p off n with
      | none => none
      | some (p1, i, j) =>
        if j < n - i then
          match swnvg__quickSortEdges fuel p1 off j with
          | none => none
          | some p2 => swnvg__quickSortEdges fuel p2 (off + i) (n - i)
        else
          match swnvg__quickSortEdges fuel p1 (off + i) (n - i) with
          | none => none
          | some p2 => swnvg__quickSortEdges fuel p2 off j
    else some p

/-- Function `swnvg__sortCallEdges(p, n)`: quicksort down to runs of at most 12,
then one insertion sort over the whole slice. -/
def swnvg__sortCallEdges (edges : List SWNVGedge) (off n : Nat) : Option (List SWNVGedge) :=
  match swnvg__quickSortEdges (n + 1) edges off n with
  | none => none
  | some p1 => swnvg__insSortEdges p1 off n

/-! ### Renderer state -/

/-- Constant `SWNVG__SUBSAMPLES`. -/
def SWNVG__SUBSAMPLES : Nat := 5

/-- Constant `SWNVG__FIX` (`1 << SWNVG__FIXSHIFT`, with `SWNVG__FIXSHIFT = 10`). -/
def SWNVG__FIX : Int := 1024

/-- Function `swnvg__maxi`. -/
def swnvg__maxi (a b : Int) : Int := if a < b then b else a

/-- Function `swnvg__mini`. -/
def swnvg__mini (a b : Int) : Int := if a < b then a else b

/-- Function `swnvg__clampi`. -/
def swnvg__clampi (a mn mx : Int) : Int := if a < mn then mn else if a > mx then mx else a

/-- Function `swnvg__maxf`. -/
def swnvg__maxf (a b : Rat) : Rat := if a < b then b else a

/-- Function `swnvg__minf`. -/
def swnvg__minf (a b : Rat) : Rat := if a < b then a else b

/-- Function `swnvg__clampf`. -/
def swnvg__clampf (a mn mx : Rat) : Rat := if a < mn then mn else if a > mx then mx else a

/-- Conversion `(int)f` of a float whose value lies in the range of `int`:
truncation toward zero. -/
def truncf (q : Rat) : Int := if 0 ≤ q then Int.floor q else Int.ceil q

/-- Conversion `(int)f` of any float to the 32-bit `int`: truncation toward
zero, and `INT_MIN = -2^31` for a value outside the range of `int`, as the x86
conversion gives (C leaves that case undefined). -/
def castInt (q : Rat) : Int :=
  if -2147483648 ≤ truncf q ∧ truncf q ≤ 2147483647 then truncf q else -2147483648

/-- Power of two `2^e` for an integer exponent `e`. -/
def pow2 (e : Int) : Rat :=
  if 0 ≤ e then ((2 ^ e.toNat : Nat) : Rat) else 1 / ((2 ^ (-e).toNat : Nat) : Rat)

/-- Nearest integer of `m`, ties to the even one. -/
def roundEven (m : Rat) : Int :=
  let f := Int.floor m
  if m - f < 1 / 2 then f else if 1 / 2 < m - f then f + 1 else if f % 2 = 0 then f else f + 1

/-- Binary logarithm of `n` rounded down, by halving at most `fuel` times. -/
def log2Fuel : Nat → Nat → Nat
  | 0, _ => 0
  | fuel + 1, n => if n < 2 then 0 else log2Fuel fuel (n / 2) + 1

/-- Binary exponent of a positive value `a`: the `e` with `2^e <= a < 2^(e+1)`. -/
def floatExp (a : Rat) : Int :=
  let e : Int := (log2Fuel a.num.natAbs a.num.natAbs : Int) - (log2Fuel a.den a.den : Int)
  if a < pow2 e then e - 1 else e

/-- Nearest `float` (IEEE binary32: 24-bit significand, ties to even, gradual
underflow below `2^-126`) of a positive value `a`.  Overflow to infinity is not
modelled. -/
def roundFloatPos (a : Rat) : Rat :=
  let ulp := pow2 (max (floatExp a) (-126) - 23)
  (roundEven (a / ulp) : Rat) * ulp

/-- Nearest `float` of `q`: the result of a `float` operation whose exact value
is `q`. -/
def roundFloat (q : Rat) : Rat :=
  if q = 0 then 0 else if 0 < q then roundFloatPos q else -roundFloatPos (-q)

/-- Paint kinds `enum SWNVGpaintType`. -/
inductive SWNVGpaintType where
  | NONE
  | COLOR
  | GRAD
  | IMAGE
  | ATLAS
deriving DecidableEq

/-- The bits of `call->flags` that the renderer tests; their numeric values are
declared in `nanovg.h`, so each bit is a boolean: `NVG_PATH_EVENODD`,
`NVG_PATH_NO_AA`, `NVG_PATH_XC`, `NVG_SRGB`. -/
structure CallFlags where
  evenodd : Bool
  noAA : Bool
  xc : Bool
  srgb : Bool
deriving DecidableEq

/-- A 2x3 affine transform `float[6]`. -/
structure Xform where
  t0 : Rat
  t1 : Rat
  t2 : Rat
  t3 : Rat
  t4 : Rat
  t5 : Rat
deriving DecidableEq

/-- Texture record `SWNVGtexture`.  The untyped `data` buffer is read through
two views: `texels` for `rgba32_t` and `unsigned char` texels, `texelsF` for
`float` texels; `dataSet` tells whether `data` is non-`NULL`.  The `flags`
bits are booleans. -/
structure SWNVGtexture where
  id : Int
  texels : Int → Nat
  texelsF : Int → Rat
  dataSet : Bool
  width : Int
  height : Int
  type : Int
  nearest : Bool
  nocopy : Bool
  premultiplied : Bool

/-- Draw call record `SWNVGcall` (the fields the renderer reads). -/
structure SWNVGcall where
  type : SWNVGpaintType
  flags : CallFlags
  image : Int
  edgeOffset : Nat
  edgeCount : Nat
  triangleOffset : Nat
  triangleCount : Nat
  bounds0 : Int
  bounds1 : Int
  bounds2 : Int
  bounds3 : Int
  paintMat : Xform
  innerCol : Nat
  outerCol : Nat
  extent0 : Rat
  extent1 : Rat
  radius : Rat
  feather : Rat

/-- Vertex record `NVGvertex` of this nanovg fork: a directed segment
`(x0,y0)-(x1,y1)` for fills, position and texture coordinate for quads. -/
structure NVGvertex where
  x0 : Rat
  y0 : Rat
  x1 : Rat
  y1 : Rat
deriving DecidableEq

/-- Active edge record `SWNVGactiveEdge`; the list link is the `List`. -/
structure SWNVGactiveEdge where
  x : Int
  dx : Int
  ey : Rat
  dir : Int
deriving DecidableEq

/-- Per-tile context `SWNVGthreadCtx`.  Buffers are maps from index to value;
`lineLimits` is `none` while the pointer is `NULL`.  The arena and free list of
active-edge nodes are not part of the model (a node is a list cell). -/
structure SWNVGthreadCtx where
  threadnum : Nat
  x0 : Int
  y0 : Int
  x1 : Int
  y1 : Int
  scanline : Int → Nat
  cscanline : Int
  lineLimits : Option (Int → Int)

/-- Renderer context `SWNVGcontext`.  `bitmap` maps a byte offset in the
destination buffer to the byte; `calls` and `verts` hold the live entries
(`ncalls`, `nverts` are their lengths); `edges` is the edge array with its
counters; `covtex` is `none` while the pointer is `NULL`; `bitmapSet` tells
whether `bitmap` is non-`NULL`; `textures` holds the `ntextures` slots of the
texture store, a slot with `id = 0` being free. -/
structure SWNVGcontext where
  bitmap : Int → Nat
  bitmapSet : Bool
  width : Int
  height : Int
  stride : Int
  rshift : Nat
  gshift : Nat
  bshift : Nat
  ashift : Nat
  textures : List SWNVGtexture
  ctextures : Nat
  textureId : Int
  pathsXC : Bool
  srgb : Bool
  calls : List SWNVGcall
  ccalls : Nat
  verts : List NVGvertex
  cverts : Nat
  edges : List SWNVGedge
  nedges : Nat
  cedges : Nat
  threads : List SWNVGthreadCtx
  xthreads : Nat
  ythreads : Nat
  covtex : Option (Int → Rat)

/-- Body of the tile loops of `nvgswSetFramebuffer` for tile `(ii, jj)`:
rectangle, scanline buffer (reallocated and zeroed when it grows; allocation
is taken to succeed) and reset of `lineLimits` when `covtex` is `NULL`. -/
def setTile (w h threadw threadh : Int) (covtexNull : Bool) (ii jj : Nat)
    (r : SWNVGthreadCtx) : SWNVGthreadCtx :=
  let x0 : Int := ii * threadw
  let y0 : Int := jj * threadh
  let x1 : Int := swnvg__mini w (x0 + threadw) - 1
  let y1 : Int := swnvg__mini h (y0 + threadh) - 1
  let grow : Bool := decide (x1 - x0 + 1 > r.cscanline)
  { r with
    x0 := x0, y0 := y0, x1 := x1, y1 := y1,
    cscanline := if grow then x1 - x0 + 1 else r.cscanline,
    scanline := if grow then (fun _ => 0) else r.scanline,
    lineLimits := if covtexNull then none else r.lineLimits }

/-- Function `nvgswSetFramebuffer`. -/
def nvgswSetFramebuffer (gl : SWNVGcontext) (dest : Int → Nat) (w h : Int)
    (rshift gshift bshift ashift : Nat) : SWNVGcontext :=
  let covtex := if gl.covtex.isSome && (w != gl.width || h != gl.height) then none else gl.covtex
  let threadw : Int := w / gl.xthreads + 1
  let threadh : Int := h / gl.ythreads + 1
  let threads :=
    (List.range gl.ythreads).foldl (fun ths jj =>
      (List.range gl.xthreads).foldl (fun ths ii =>
        ths.modify (setTile w h threadw threadh covtex.isNone ii jj) (jj * gl.xthreads + ii))
        ths) gl.threads
  { gl with
    covtex := covtex, bitmap := dest, bitmapSet := true, width := w, height := h, stride := 4 * w,
    rshift := rshift, gshift := gshift, bshift := bshift, ashift := ashift,
    threads := threads }

/-- A zeroed `SWNVGthreadCtx` with the given `threadnum`. -/
def zeroThread (n : Nat) : SWNVGthreadCtx :=
  { threadnum := n, x0 := 0, y0 := 0, x1 := 0, y1 := 0,
    scanline := fun _ => 0, cscanline := 0, lineLimits := none }

/-- Function `nvgswCreate`: a zeroed context with the creation flags
(`NVGSW_PATHS_XC`, `NVG_SRGB`) and the default 1x1 thread grid. -/
def nvgswCreate (pathsXC srgb : Bool) : SWNVGcontext :=
  { bitmap := fun _ => 0, bitmapSet := false, width := 0, height := 0, stride := 0,
    rshift := 0, gshift := 0, bshift := 0, ashift := 0, textures := [],
    ctextures := 0, textureId := 0,
    pathsXC := pathsXC, srgb := srgb, calls := [], ccalls := 0, verts := [], cverts := 0,
    edges := [],
    nedges := 0, cedges := 0, threads := [zeroThread 0], xthreads := 1, ythreads := 1,
    covtex := none }

/-- Function `nvgswSetThreading` (the pool callbacks are not modelled; the
reallocation of the tile contexts is taken to succeed). -/
def nvgswSetThreading (gl : SWNVGcontext) (xthreads ythreads : Nat) : SWNVGcontext :=
  let nthreads := xthreads * ythreads
  if nthreads < 2 || gl.bitmapSet then gl
  else
    { gl with
      threads := (List.range nthreads).map zeroThread,
      xthreads := xthreads, ythreads := ythreads }

/-- Pixel `(x, y)` lies in the rectangle `[x0..x1] x [y0..y1]` of tile `r`. -/
def inTile (r : SWNVGthreadCtx) (x y : Int) : Prop :=
  r.x0 ≤ x ∧ x ≤ r.x1 ∧ r.y0 ≤ y ∧ y ≤ r.y1

/-! ### Edge builder -/

/-- Content of array memory that has been allocated but not written. -/
def zeroEdge : SWNVGedge := ⟨0, 0, 0, 0, 0⟩

/-- Growth step shared by `swnvg__addEdge` and `swnvg__addEdgeXC`:
`if (nedges+1 > cedges) { cedges = cedges > 0 ? cedges*2 : 64; realloc }`.
`allocOk` tells whether `realloc` succeeds; the result is the context and
whether the function goes on to store the edge. -/
def growEdges (r : SWNVGcontext) (allocOk : Bool) : SWNVGcontext × Bool :=
  if r.nedges + 1 > r.cedges then
    let cedges := if r.cedges > 0 then r.cedges * 2 else 64
    if allocOk then
      ({ r with cedges := cedges,
                edges := r.edges ++ List.replicate (cedges - r.edges.length) zeroEdge }, true)
    else ({ r with cedges := cedges, edges := [] }, false)
  else (r, true)

/-- Function `swnvg__addEdge`.  The products `vtx->y * SWNVG__SUBSAMPLES` are
`float` products: the exact product rounded to the nearest `float`. -/
def swnvg__addEdge (r : SWNVGcontext) (allocOk : Bool) (vtx : NVGvertex) : SWNVGcontext :=
  if vtx.y0 = vtx.y1 then r
  else
    let g := growEdges r allocOk
    if g.2 then
      let r1 := g.1
      let e : SWNVGedge :=
        if vtx.y0 < vtx.y1 then
          ⟨vtx.x0, roundFloat (vtx.y0 * SWNVG__SUBSAMPLES), vtx.x1,
            roundFloat (vtx.y1 * SWNVG__SUBSAMPLES), 1⟩
        else
          ⟨vtx.x1, roundFloat (vtx.y1 * SWNVG__SUBSAMPLES), vtx.x0,
            roundFloat (vtx.y0 * SWNVG__SUBSAMPLES), -1⟩
      { r1 with edges := r1.edges.set r1.nedges e, nedges := r1.nedges + 1 }
    else g.1

/-- Function `swnvg__addEdgeXC`. -/
def swnvg__addEdgeXC (r : SWNVGcontext) (allocOk : Bool) (vtx : NVGvertex) (xmax : Rat) :
    SWNVGcontext :=
  if vtx.y0 = vtx.y1 then r
  else
    let g := growEdges r allocOk
    if g.2 then
      let r1 := g.1
      let e : SWNVGedge := ⟨vtx.x0, vtx.y0, vtx.x1, vtx.y1, Int.ceil xmax⟩
      { r1 with edges := r1.edges.set r1.nedges e, nedges := r1.nedges + 1 }
    else g.1

/-! ### Scanline rasterizer -/

/-- Function `swnvg__addActive`; the node allocation is taken to succeed. -/
def swnvg__addActive (e : SWNVGedge) (startPoint : Rat) : SWNVGactiveEdge :=
  let dxdy := (e.x1 - e.x0) / (e.y1 - e.y0)
  let dx : Int :=
    if dxdy < 0 then -(Int.floor ((SWNVG__FIX : Rat) * -dxdy))
    else Int.floor ((SWNVG__FIX : Rat) * dxdy)
  let x : Int := Int.floor ((SWNVG__FIX : Rat) * (e.x0 + dxdy * (startPoint - e.y0)))
  { x := x, dx := dx, ey := e.y1, dir := e.dir }

/-- Store `scanline[i] = (unsigned char)(scanline[i] + v)`. -/
def addByte (scanline : Int → Nat) (i : Int) (v : Int) : Int → Nat :=
  fun k => if k = i then (((scanline i : Int) + v) % 256).toNat else scanline k

/-- Store `scanline[i] = v`. -/
def setByte (scanline : Int → Nat) (i : Int) (v : Nat) : Int → Nat :=
  fun k => if k = i then v else scanline k

/-- Function `swnvg__fillScanlineAA`.  The final `for (++i; i < j; ++i)` loop
adds `maxWeight` to every index strictly between the clipped `i` and `j`. -/
def swnvg__fillScanlineAA (scanline : Int → Nat) (len x0 x1 i j : Int) : Int → Nat :=
  let maxWeight : Int := 255 / SWNVG__SUBSAMPLES
  if i = j then addByte scanline i ((x1 - x0) * maxWeight / SWNVG__FIX)
  else
    let s1 :=
      if i ≥ 0 then addByte scanline i ((SWNVG__FIX - x0 % SWNVG__FIX) * maxWeight / SWNVG__FIX)
      else scanline
    let i1 : Int := if i ≥ 0 then i else -1
    let s2 := if j < len then addByte s1 j ((x1 % SWNVG__FIX) * maxWeight / SWNVG__FIX) else s1
    let j1 : Int := if j < len then j else len
    fun k => if i1 < k ∧ k < j1 then (((s2 k : Int) + maxWeight) % 256).toNat else s2 k

/-- Function `swnvg__fillScanline` (non-antialiased). -/
def swnvg__fillScanline (scanline : Int → Nat) (len x0 x1 i j : Int) : Int → Nat :=
  let maxWeight : Nat := 255
  if i = j then
    setByte scanline i
      (if x0 % SWNVG__FIX ≤ SWNVG__FIX / 2 ∧ x1 % SWNVG__FIX > SWNVG__FIX / 2 then maxWeight else 0)
  else
    let s1 :=
      if i ≥ 0 then setByte scanline i (if x0 % SWNVG__FIX ≤ SWNVG__FIX / 2 then maxWeight else 0)
      else scanline
    let i1 : Int := if i ≥ 0 then i else -1
    let s2 :=
      if j < len then setByte s1 j (if x1 % SWNVG__FIX > SWNVG__FIX / 2 then maxWeight else 0)
      else s1
    let j1 : Int := if j < len then j else len
    fun k => if i1 < k ∧ k < j1 then maxWeight else s2 k

/-- Loop state of `swnvg__fillActiveEdges`: the locals `x0`, `w`, the coverage
scanline and the caller's `*xmin`, `*xmax`. -/
structure FillState where
  x0 : Int
  w : Int
  scanline : Int → Nat
  xmin : Int
  xmax : Int

/-- One iteration of the `while (e != NULL)` loop of `swnvg__fillActiveEdges`
for the tile columns `[left, right]`. -/
def fillActiveStep (left right : Int) (flags : CallFlags) (st : FillState)
    (e : SWNVGactiveEdge) : FillState :=
  if st.w = 0 then
    { st with x0 := e.x, w := if flags.evenodd then 1 else st.w + e.dir }
  else
    let x1 := e.x
    let w : Int := if flags.evenodd then 0 else st.w + e.dir
    if w = 0 then
      let i := st.x0 / SWNVG__FIX
      let j := x1 / SWNVG__FIX
      if i ≤ right ∧ j ≥ left then
        let len := right - left + 1
        { x0 := st.x0, w := w,
          xmin := if i < st.xmin then i else st.xmin,
          xmax := if j > st.xmax then j else st.xmax,
          scanline :=
            if flags.noAA then swnvg__fillScanline st.scanline len st.x0 x1 (i - left) (j - left)
            else swnvg__fillScanlineAA st.scanline len st.x0 x1 (i - left) (j - left) }
      else { st with w := w }
    else { st with w := w }

/-- Function `swnvg__fillActiveEdges`: returns the coverage scanline and the
updated `*xmin`, `*xmax`. -/
def swnvg__fillActiveEdges (r : SWNVGthreadCtx) (active : List SWNVGactiveEdge)
    (xmin xmax : Int) (flags : CallFlags) : (Int → Nat) × Int × Int :=
  let st := active.foldl (fillActiveStep r.x0 r.x1 flags)
    { x0 := 0, w := 0, scanline := r.scanline, xmin := xmin, xmax := xmax }
  (st.scanline, st.xmin, st.xmax)

/-! ### Sampler and blender -/

/-- What the renderer takes from outside `nanovg_sw.h` enters as parameters:
the two colour tables that `swnvg__sRGBLUTCalc` fills with `powf`
(`sRGBToLinear[256]`, `linearToSRGB[2048]`), the library function `sqrtf`,
nanovg's `nvgTransformInverse` (in `nanovg.c`, not under src/), and whether the
build defines `FONS_SDF`. -/
structure Env where
  sRGBToLinear : Nat → Nat
  linearToSRGB : Nat → Nat
  sqrtf : Rat → Rat
  nvgTransformInverse : Xform → Xform
  fonsSDF : Bool

/-- Four consecutive destination bytes `dst[0..3]`. -/
structure Pixel where
  b0 : Nat
  b1 : Nat
  b2 : Nat
  b3 : Nat
deriving DecidableEq

/-- Read `dst[0..3]` at byte offset `a`. -/
def readPixel (m : Int → Nat) (a : Int) : Pixel := ⟨m a, m (a + 1), m (a + 2), m (a + 3)⟩

/-- Write `dst[0..3]` at byte offset `a`. -/
def writePixel (m : Int → Nat) (a : Int) (p : Pixel) : Int → Nat :=
  fun k => if k = a then p.b0 else if k = a + 1 then p.b1 else if k = a + 2 then p.b2
    else if k = a + 3 then p.b3 else m k

/-- Macro `COLOR0`. -/
def COLOR0 (c : Nat) : Nat := c % 256

/-- Macro `COLOR1`. -/
def COLOR1 (c : Nat) : Nat := c / 256 % 256

/-- Macro `COLOR2`. -/
def COLOR2 (c : Nat) : Nat := c / 65536 % 256

/-- Macro `COLOR3`. -/
def COLOR3 (c : Nat) : Nat := c / 16777216 % 256

/-- Macro `RGBA32_IS_OPAQUE` on a 32-bit word. -/
def RGBA32_IS_OPAQUE (c : Nat) : Bool := c / 16777216 % 256 == 255

/-- Function `swnvg__blendSRGB` on the destination bytes; the arguments are
byte values at every call site, so the C `int` arithmetic is non-negative. -/
def swnvg__blendSRGB (dst : Pixel) (cover cr cg cb ca : Nat) : Pixel :=
  let srca := cover * ca / 255
  let ia := 255 - srca
  let r := (srca * cr + ia * dst.b0) / 255
  let g := (srca * cg + ia * dst.b1) / 255
  let b := (srca * cb + ia * dst.b2) / 255
  let a := srca + ia * dst.b3 / 255
  ⟨r % 256, g % 256, b % 256, a % 256⟩

/-- Function `swnvg__blendLinear`; table entries are `unsigned char`. -/
def swnvg__blendLinear (env : Env) (dst : Pixel) (cover cr cg cb ca : Nat) : Pixel :=
  let d0 := env.sRGBToLinear dst.b0
  let d1 := env.sRGBToLinear dst.b1
  let d2 := env.sRGBToLinear dst.b2
  let s0 := env.sRGBToLinear cr
  let s1 := env.sRGBToLinear cg
  let s2 := env.sRGBToLinear cb
  let srca := cover * ca / 255
  let ia := 255 - srca
  let r := (srca * s0 + ia * d0) / 255
  let g := (srca * s1 + ia * d1) / 255
  let b := (srca * s2 + ia * d2) / 255
  let a := srca + ia * dst.b3 / 255
  ⟨env.linearToSRGB r % 256, env.linearToSRGB g % 256, env.linearToSRGB b % 256, a % 256⟩

/-- Function `swnvg__blend`. -/
def swnvg__blend (env : Env) (dst : Pixel) (cover cr cg cb ca : Nat) (linear : Bool) : Pixel :=
  if linear then swnvg__blendLinear env dst cover cr cg cb ca
  else swnvg__blendSRGB dst cover cr cg cb ca

/-- Function `swnvg__blend8888`. -/
def swnvg__blend8888 (env : Env) (dst : Pixel) (cover cr cg cb ca : Nat) (linear : Bool) :
    Pixel :=
  if cover = 255 ∧ ca = 255 then ⟨cr % 256, cg % 256, cb % 256, 255⟩
  else swnvg__blend env dst cover cr cg cb ca linear

/-- Function `swnvg__blendOpaque`; the word store `*(rgba32_t*)dst = rgba` puts
the low byte first (little-endian target). -/
def swnvg__blendOpaque (env : Env) (dst : Pixel) (cover : Nat) (rgba : Nat) (linear : Bool) :
    Pixel :=
  if cover = 255 then ⟨COLOR0 rgba, COLOR1 rgba, COLOR2 rgba, COLOR3 rgba⟩
  else swnvg__blend env dst cover (COLOR0 rgba) (COLOR1 rgba) (COLOR2 rgba) (COLOR3 rgba) linear

/-- Modelled from the spec: nanovg's `nvgTransformPoint` (declared in `nanovg.h`,
not under src/), the map through which "the destination pixel is inverse-mapped
through the call's paint transform": `(sx*t0 + sy*t2 + t4, sx*t1 + sy*t3 + t5)`. -/
def nvgTransformPoint (t : Xform) (sx sy : Rat) : Rat × Rat :=
  (sx * t.t0 + sy * t.t2 + t.t4, sx * t.t1 + sy * t.t3 + t.t5)

/-- Function `texelFetchRGBA32`. -/
def texelFetchRGBA32 (tex : SWNVGtexture) (x y : Int) : Nat := tex.texels (x + y * tex.width)

/-- Function `swnvg__mix8`. -/
def swnvg__mix8 (fx fy : Rat) (t00 t10 t01 t11 : Nat) : Nat :=
  let t0 : Rat := (t00 : Rat) + fx * (((t10 : Int) - (t00 : Int) : Int) : Rat)
  let t1 : Rat := (t01 : Rat) + fx * (((t11 : Int) - (t01 : Int) : Int) : Rat)
  (truncf (1 / 2 + t0 + fy * (t1 - t0))).toNat

/-- Function `swnvg__lerpAndBlend` on the destination bytes. -/
def swnvg__lerpAndBlend (env : Env) (dst : Pixel) (cover : Nat) (tex : SWNVGtexture)
    (ijx0 ijy0 : Rat) (linear : Bool) : Pixel :=
  let ijx := swnvg__maxf 0 ijx0
  let ijy := swnvg__maxf 0 ijy0
  let ij00x := swnvg__mini (castInt ijx) (tex.width - 1)
  let ij00y := swnvg__mini (castInt ijy) (tex.height - 1)
  let ij11x := swnvg__mini (castInt ijx + 1) (tex.width - 1)
  let ij11y := swnvg__mini (castInt ijy + 1) (tex.height - 1)
  let t00 := texelFetchRGBA32 tex ij00x ij00y
  let t10 := texelFetchRGBA32 tex ij11x ij00y
  let t01 := texelFetchRGBA32 tex ij00x ij11y
  let t11 := texelFetchRGBA32 tex ij11x ij11y
  let fx := ijx - (castInt ijx : Rat)
  let fy := ijy - (castInt ijy : Rat)
  let c0 := swnvg__mix8 fx fy (COLOR0 t00) (COLOR0 t10) (COLOR0 t01) (COLOR0 t11)
  let c1 := swnvg__mix8 fx fy (COLOR1 t00) (COLOR1 t10) (COLOR1 t01) (COLOR1 t11)
  let c2 := swnvg__mix8 fx fy (COLOR2 t00) (COLOR2 t10) (COLOR2 t01) (COLOR2 t11)
  let c3 := swnvg__mix8 fx fy (COLOR3 t00) (COLOR3 t10) (COLOR3 t01) (COLOR3 t11)
  swnvg__blend8888 env dst cover c0 c1 c2 c3 linear

/-- Apply a blend to the destination pixel at byte offset `a`. -/
def blendAt (m : Int → Nat) (a : Int) (f : Pixel → Pixel) : Int → Nat :=
  writePixel m a (f (readPixel m a))

/-- A loop `for (i = 0; i < count; ++i)` whose body `f i` updates the
destination buffer. -/
def pixelLoop (count : Nat) (f : Nat → (Int → Nat) → (Int → Nat)) (m : Int → Nat) :
    Int → Nat :=
  (List.range count).foldl (fun m i => f i m) m

/-- Pixel loop of the colour branch of `swnvg__scanlineSolid`. -/
def scanlineColor (env : Env) (bitmap : Int → Nat) (dst : Int) (count : Int)
    (cover : Int → Nat) (coff : Int) (call : SWNVGcall) : Int → Nat :=
  let linear := call.flags.srgb
  let c := call.innerCol
  if RGBA32_IS_OPAQUE c then
    pixelLoop count.toNat (fun i m =>
      blendAt m (dst + 4 * i) (fun d => swnvg__blendOpaque env d (cover (coff + i)) c linear)) bitmap
  else
    pixelLoop count.toNat (fun i m =>
      blendAt m (dst + 4 * i) (fun d =>
        swnvg__blend env d (cover (coff + i)) (COLOR0 c) (COLOR1 c) (COLOR2 c) (COLOR3 c) linear))
      bitmap

/-- Pixel loop of the image branch of `swnvg__scanlineSolid`, with `n`
iterations left; `i` is the loop counter and `qx`, `qy` the running texture
coordinates. -/
def imageLoop (env : Env) (call : SWNVGcall) (tex : SWNVGtexture) (dst : Int)
    (cover : Int → Nat) (coff : Int) (dqx dqy : Rat) :
    Nat → Nat → Rat → Rat → (Int → Nat) → (Int → Nat)
  | 0, _, _, _, m => m
  | n + 1, i, qx, qy, m =>
    let linear := call.flags.srgb
    let m1 :=
      if tex.nearest then
        let imgx := swnvg__clampi (castInt (1 / 2 + qx)) 0 (tex.width - 1)
        let imgy := swnvg__clampi (castInt (1 / 2 + qy)) 0 (tex.height - 1)
        let c := tex.texels (imgy * tex.width + imgx)
        if RGBA32_IS_OPAQUE c then
          blendAt m (dst + 4 * i) (fun d => swnvg__blendOpaque env d (cover (coff + i)) c linear)
        else
          blendAt m (dst + 4 * i) (fun d =>
            swnvg__blend env d (cover (coff + i)) (COLOR0 c) (COLOR1 c) (COLOR2 c) (COLOR3 c)
              linear)
      else
        blendAt m (dst + 4 * i) (fun d =>
          swnvg__lerpAndBlend env d (cover (coff + i)) tex qx qy linear)
    imageLoop env call tex dst cover coff dqx dqy n (i + 1) (qx + dqx) (qy + dqy) m1

/-- Function `swnvg__lengthf`. -/
def swnvg__lengthf (env : Env) (x y : Rat) : Rat := env.sqrtf (x * x + y * y)

/-- Normalized gradient distance `d` that the gradient branch of
`swnvg__scanlineSolid` computes for pixel `(x, y)`. -/
def gradientD (env : Env) (call : SWNVGcall) (x y : Int) : Rat :=
  let q := nvgTransformPoint call.paintMat x y
  let dx := |q.1| - (call.extent0 - call.radius)
  let dy := |q.2| - (call.extent1 - call.radius)
  let d0 := swnvg__minf (swnvg__maxf dx dy) 0
    + swnvg__lengthf env (swnvg__maxf dx 0) (swnvg__maxf dy 0) - call.radius
  swnvg__clampf ((d0 + call.feather * (1 / 2)) / call.feather) 0 1

/-- Channel interpolation `(int)(0.5f + c0*(1.0f - d) + c1*d)`. -/
def gradientChannel (c0 c1 : Nat) (d : Rat) : Nat :=
  (truncf (1 / 2 + (c0 : Rat) * (1 - d) + (c1 : Rat) * d)).toNat

/-- Pixel loop of the gradient branch of `swnvg__scanlineSolid`. -/
def scanlineGrad (env : Env) (bitmap : Int → Nat) (dst : Int) (count : Int)
    (cover : Int → Nat) (coff : Int) (x y : Int) (call : SWNVGcall) : Int → Nat :=
  let linear := call.flags.srgb
  pixelLoop count.toNat (fun i m =>
    let d := gradientD env call (x + i) y
    let cr := gradientChannel (COLOR0 call.innerCol) (COLOR0 call.outerCol) d
    let cg := gradientChannel (COLOR1 call.innerCol) (COLOR1 call.outerCol) d
    let cb := gradientChannel (COLOR2 call.innerCol) (COLOR2 call.outerCol) d
    let ca := gradientChannel (COLOR3 call.innerCol) (COLOR3 call.outerCol) d
    blendAt m (dst + 4 * i) (fun p => swnvg__blend8888 env p (cover (coff + i)) cr cg cb ca linear))
    bitmap

/-- Function `swnvg__scanlineSolid(dst, count, cover, x, y, call)`: `dst` is a
byte offset into the bitmap and `cover` points at index `coff` of a coverage
buffer.  The image branch dereferences `call->tex`; with a `NULL` texture the
result is `none`. -/
def swnvg__scanlineSolid (env : Env) (bitmap : Int → Nat) (dst : Int) (count : Int)
    (cover : Int → Nat) (coff : Int) (x y : Int) (call : SWNVGcall)
    (tex : Option SWNVGtexture) : Option (Int → Nat) :=
  match call.type with
  | SWNVGpaintType.COLOR => some (scanlineColor env bitmap dst count cover coff call)
  | SWNVGpaintType.IMAGE =>
    match tex with
    | none => none
    | some t =>
      let dqx := call.paintMat.t0 * t.width / call.extent0
      let dqy := call.paintMat.t1 * t.height / call.extent1
      let q := nvgTransformPoint call.paintMat x y
      let qx := (q.1 + 1 / 2) * t.width / call.extent0 - 1 / 2
      let qy := (q.2 + 1 / 2) * t.height / call.extent1 - 1 / 2
      some (imageLoop env call t dst cover coff dqx dqy count.toNat 0 qx qy bitmap)
  | SWNVGpaintType.GRAD => some (scanlineGrad env bitmap dst count cover coff x y call)
  | _ => some bitmap

/-! ### Scanline rasterizer: row loop -/

/-- First loop of a sub-scanline in `swnvg__rasterizeSortedEdges`: delete the
active edges with `ey <= scany`, advance the others by `dx`. -/
def advanceActive (scany : Rat) : List SWNVGactiveEdge → List SWNVGactiveEdge
  | [] => []
  | z :: rest =>
    if z.ey ≤ scany then advanceActive scany rest
    else { z with x := z.x + z.dx } :: advanceActive scany rest

/-- One pass of the adjacent-swap loop over the list that starts with node `a`:
returns the list and the `changed` flag. -/
def bubblePass (a : SWNVGactiveEdge) : List SWNVGactiveEdge → List SWNVGactiveEdge × Bool
  | [] => ([a], false)
  | b :: rest =>
    if a.x > b.x then
      let r := bubblePass a rest
      (b :: r.1, true)
    else
      let r := bubblePass b rest
      (a :: r.1, r.2)

/-- The `for (;;)` re-sort loop: passes are repeated until one changes nothing,
at most `fuel` times.  The section on the budget of the re-sort loop shows that
the budget `length + 1` used by `subScanline` never cuts the loop short. -/
def resortActive : Nat → List SWNVGactiveEdge → List SWNVGactiveEdge
  | 0, l => l
  | _, [] => []
  | fuel + 1, a :: rest =>
    let r := bubblePass a rest
    if r.2 then resortActive fuel r.1 else r.1

/-- Walk `while (p->next && p->next->x < z->x) p = p->next;` followed by the
insertion of `z` after `p`; the argument is the list after `p`. -/
def insertAfter (z : SWNVGactiveEdge) : List SWNVGactiveEdge → List SWNVGactiveEdge
  | [] => [z]
  | b :: rest => if b.x < z.x then b :: insertAfter z rest else z :: b :: rest

/-- Insertion of a new node `z` into the active list. -/
def insertActive (z : SWNVGactiveEdge) : List SWNVGactiveEdge → List SWNVGactiveEdge
  | [] => [z]
  | a :: rest => if z.x < a.x then z :: a :: rest else a :: insertAfter z rest

/-- Loop `while (e < eend && gl->edges[e].y0 <= scany)` that inserts the edges
starting at this sub-scanline; `cnt` is `eend - e`.  Returns `e` and the list. -/
def insertStarted (edges : List SWNVGedge) (scany : Rat) (noAA : Bool) :
    Nat → Nat → List SWNVGactiveEdge → Nat × List SWNVGactiveEdge
  | 0, e, active => (e, active)
  | cnt + 1, e, active =>
    match edges[e]? with
    | none => (e, active)
    | some ed =>
      if ed.y0 ≤ scany then
        if ed.y1 > scany then
          let z := swnvg__addActive ed scany
          let z1 := if noAA then { z with dx := z.dx * SWNVG__SUBSAMPLES } else z
          insertStarted edges scany noAA cnt (e + 1) (insertActive z1 active)
        else insertStarted edges scany noAA cnt (e + 1) active
      else (e, active)

/-- State carried through the sub-scanlines and rows of
`swnvg__rasterizeSortedEdges`: active list, edge cursor `e`, coverage scanline,
`xmin`, `xmax`. -/
structure RowState where
  active : List SWNVGactiveEdge
  e : Nat
  scanline : Int → Nat
  xmin : Int
  xmax : Int

/-- Body of the loop over `s` for one sub-scanline of row `y`. -/
def subScanline (r : SWNVGthreadCtx) (edges : List SWNVGedge) (call : SWNVGcall) (y : Int)
    (st : RowState) (s : Nat) : RowState :=
  if call.flags.noAA && s != SWNVG__SUBSAMPLES / 2 then st
  else
    let scany : Rat := ((y * SWNVG__SUBSAMPLES + s : Int) : Rat) + 1 / 2
    let a1 := advanceActive scany st.active
    let a2 := resortActive (a1.length + 1) a1
    let eend := call.edgeOffset + call.edgeCount
    let ins := insertStarted edges scany call.flags.noAA (eend - st.e) st.e a2
    match ins.2 with
    | [] => { st with active := [], e := ins.1 }
    | a :: rest =>
      let f := swnvg__fillActiveEdges { r with scanline := st.scanline } (a :: rest)
        st.xmin st.xmax call.flags
      { active := a :: rest, e := ins.1, scanline := f.1, xmin := f.2.1, xmax := f.2.2 }

/-- Coverage pass of one row `y`: `xmin = gl->width; xmax = 0;` and the loop
over the sub-scanlines.  The scanline of the result is the coverage buffer
that is handed to the blender. -/
def rowCoverage (gl : SWNVGcontext) (r : SWNVGthreadCtx) (call : SWNVGcall) (y : Int)
    (active : List SWNVGactiveEdge) (e : Nat) (scanline : Int → Nat) : RowState :=
  (List.range SWNVG__SUBSAMPLES).foldl (subScanline r gl.edges call y)
    { active := active, e := e, scanline := scanline, xmin := gl.width, xmax := 0 }

/-- State of the row loop: bitmap, coverage scanline, active list, cursor. -/
structure RasterState where
  bitmap : Int → Nat
  scanline : Int → Nat
  active : List SWNVGactiveEdge
  e : Nat

/-- Body of the row loop of `swnvg__rasterizeSortedEdges` for row `y`. -/
def rasterRow (env : Env) (gl : SWNVGcontext) (r : SWNVGthreadCtx) (call : SWNVGcall)
    (tex : Option SWNVGtexture) (y : Int) (st : RasterState) : Option RasterState :=
  let c := rowCoverage gl r call y st.active st.e st.scanline
  let xmin := swnvg__maxi c.xmin r.x0
  let xmax := swnvg__mini c.xmax r.x1
  let xmin1 := swnvg__maxi xmin call.bounds0
  let xmax1 := swnvg__mini xmax call.bounds2
  let blended :=
    if xmin1 ≤ xmax1 then
      swnvg__scanlineSolid env st.bitmap (y * gl.stride + xmin1 * 4) (xmax1 - xmin1 + 1)
        c.scanline (xmin1 - r.x0) xmin1 y call tex
    else some st.bitmap
  match blended with
  | none => none
  | some bm =>
    let cleared : Int → Nat :=
      if xmin ≤ xmax then
        fun k => if xmin - r.x0 ≤ k ∧ k < xmin - r.x0 + (xmax - xmin + 1) then 0 else c.scanline k
      else c.scanline
    some { bitmap := bm, scanline := cleared, active := c.active, e := c.e }

/-- Row loop `for (y = ...; y <= ...; y++)` with `cnt` rows left. -/
def rasterRows (env : Env) (gl : SWNVGcontext) (r : SWNVGthreadCtx) (call : SWNVGcall)
    (tex : Option SWNVGtexture) : Nat → Int → RasterState → Option RasterState
  | 0, _, st => some st
  | cnt + 1, y, st =>
    match rasterRow env gl r call tex y st with
    | none => none
    | some st1 => rasterRows env gl r call tex cnt (y + 1) st1

/-- Function `swnvg__rasterizeSortedEdges(r, call)` with `call->tex = tex`:
returns the bitmap and the tile's coverage scanline. -/
def swnvg__rasterizeSortedEdges (env : Env) (gl : SWNVGcontext) (r : SWNVGthreadCtx)
    (call : SWNVGcall) (tex : Option SWNVGtexture) : Option ((Int → Nat) × (Int → Nat)) :=
  let ystart := swnvg__maxi r.y0 call.bounds1
  let yend := swnvg__mini r.y1 call.bounds3
  match rasterRows env gl r call tex (yend - ystart + 1).toNat ystart
      { bitmap := gl.bitmap, scanline := r.scanline, active := [], e := call.edgeOffset } with
  | none => none
  | some st => some (st.bitmap, st.scanline)

/-! ### Glyph atlas sampling and quads -/

/-- Function `texFetchF32`. -/
def texFetchF32 (tex : SWNVGtexture) (x y : Int) : Rat := tex.texelsF (x + y * tex.width)

/-- Function `texFetchF32Lerp`. -/
def texFetchF32Lerp (tex : SWNVGtexture) (ijx ijy : Rat) (ijminx ijminy ijmaxx ijmaxy : Int) :
    Rat :=
  let ij00x := swnvg__clampi (truncf ijx) ijminx ijmaxx
  let ij00y := swnvg__clampi (truncf ijy) ijminy ijmaxy
  let ij11x := swnvg__clampi (truncf ijx + 1) ijminx ijmaxx
  let ij11y := swnvg__clampi (truncf ijy + 1) ijminy ijmaxy
  let t00 := texFetchF32 tex ij00x ij00y
  let t10 := texFetchF32 tex ij11x ij00y
  let t01 := texFetchF32 tex ij00x ij11y
  let t11 := texFetchF32 tex ij11x ij11y
  let fx := ijx - (castInt ijx : Rat)
  let fy := ijy - (castInt ijy : Rat)
  let t0 := t00 + fx * (t10 - t00)
  let t1 := t01 + fx * (t11 - t01)
  t0 + fy * (t1 - t0)

/-- Function `summedTextCov`. -/
def summedTextCov (tex : SWNVGtexture) (ijx ijy dx dy : Rat)
    (ijminx ijminy ijmaxx ijmaxy : Int) : Rat :=
  let s11 := texFetchF32Lerp tex (ijx + dx) (ijy + dy) ijminx ijminy ijmaxx ijmaxy
  let s01 := texFetchF32Lerp tex (ijx - dx) (ijy + dy) ijminx ijminy ijmaxx ijmaxy
  let s10 := texFetchF32Lerp tex (ijx + dx) (ijy - dy) ijminx ijminy ijmaxx ijmaxy
  let s00 := texFetchF32Lerp tex (ijx - dx) (ijy - dy) ijminx ijminy ijmaxx ijmaxy
  let cov := (s11 - s01 - s10 + s00) / (255 * 4 * dx * dy)
  swnvg__clampf cov 0 1

/-- Function `texFetch`. -/
def texFetch (tex : SWNVGtexture) (x y : Int) : Nat := tex.texels (x + y * tex.width)

/-- Function `texFetchLerp`. -/
def texFetchLerp (tex : SWNVGtexture) (ijx ijy : Rat) (ijminx ijminy ijmaxx ijmaxy : Int) :
    Rat :=
  let ij00x := swnvg__clampi (truncf ijx) ijminx ijmaxx
  let ij00y := swnvg__clampi (truncf ijy) ijminy ijmaxy
  let ij11x := swnvg__clampi (truncf ijx + 1) ijminx ijmaxx
  let ij11y := swnvg__clampi (truncf ijy + 1) ijminy ijmaxy
  let t00 : Rat := texFetch tex ij00x ij00y
  let t10 : Rat := texFetch tex ij11x ij00y
  let t01 : Rat := texFetch tex ij00x ij11y
  let t11 : Rat := texFetch tex ij11x ij11y
  let fx := ijx - (castInt ijx : Rat)
  let fy := ijy - (castInt ijy : Rat)
  let t0 := t00 + fx * (t10 - t00)
  let t1 := t01 + fx * (t11 - t01)
  t0 + fy * (t1 - t0)

/-- Function `sdfCov`. -/
def sdfCov (D sdfscale sdfoffset : Rat) : Rat :=
  if D > 0 then swnvg__clampf ((D - 255 * (1 / 2)) / sdfscale + sdfoffset) 0 1 else 0

/-- Function `superSDF`; the constant `1.415f` is `283/200`. -/
def superSDF (tex : SWNVGtexture) (s dr ijx ijy dx dy : Rat)
    (ijminx ijminy ijmaxx ijmaxy : Int) : Rat :=
  let ij0x := swnvg__clampi (truncf (ijx + 1 / 2)) ijminx ijmaxx
  let ij0y := swnvg__clampi (truncf (ijy + 1 / 2)) ijminy ijmaxy
  let d : Rat := texFetch tex ij0x ij0y
  let sd := (d - 255 * (1 / 2)) / s + (dr - 1 / 2)
  if sd < -(283 / 200) then 0
  else if sd > 283 / 200 then 1
  else
    let d11 := texFetchLerp tex (ijx + dx) (ijy + dy) ijminx ijminy ijmaxx ijmaxy
    let d10 := texFetchLerp tex (ijx - dx) (ijy + dy) ijminx ijminy ijmaxx ijmaxy
    let d01 := texFetchLerp tex (ijx + dx) (ijy - dy) ijminx ijminy ijmaxx ijmaxy
    let d00 := texFetchLerp tex (ijx - dx) (ijy - dy) ijminx ijminy ijmaxx ijmaxy
    1 / 4 * (sdfCov d11 s dr + sdfCov d10 s dr + sdfCov d01 s dr + sdfCov d00 s dr)

/-- Coverage that `swnvg__rasterizeQuad` computes for the texture position
`(s, t)`, by `superSDF` or `summedTextCov` according to `FONS_SDF`. -/
def quadCover (env : Env) (call : SWNVGcall) (tex : SWNVGtexture) (s t ds dt : Rat)
    (ijminx ijminy ijmaxx ijmaxy : Int) : Rat :=
  if env.fonsSDF then
    let sdfoffset := call.radius + 1 / 2
    let sdfscale := 1 / 2 * 32 * call.paintMat.t0
    superSDF tex sdfscale sdfoffset s t (ds / 2) (dt / 2) ijminx ijminy ijmaxx ijmaxy
  else summedTextCov tex s t ds dt ijminx ijminy ijmaxx ijmaxy

/-- Function `swnvg__rasterizeQuad(r, call, tex, v00, v11)` on the bitmap; the
running sums `s += 2*ds` and `t += 2*dt` are written in closed form. -/
def swnvg__rasterizeQuad (env : Env) (gl : SWNVGcontext) (r : SWNVGthreadCtx) (call : SWNVGcall)
    (tex : SWNVGtexture) (v00 v11 : NVGvertex) (bitmap : Int → Nat) : Int → Nat :=
  let ds := call.paintMat.t0 / 2
  let dt := call.paintMat.t3 / 2
  let s00 : Rat := (tex.width : Rat) * v00.x1 + (if env.fonsSDF then 4 + ds else 0)
  let t00 : Rat := (tex.height : Rat) * v00.y1 + (if env.fonsSDF then 4 + dt else 0)
  let linear := call.flags.srgb
  let cr := COLOR0 call.innerCol
  let cg := COLOR1 call.innerCol
  let cb := COLOR2 call.innerCol
  let ca := COLOR3 call.innerCol
  let extentx := truncf call.extent0
  let extenty := truncf call.extent1
  let ijminx := truncf (s00 / extentx + 1 / 2) * extentx
  let ijminy := truncf (t00 / extenty + 1 / 2) * extenty
  let ijmaxx := ijminx + extentx - 1
  let ijmaxy := ijminy + extenty - 1
  if ijminx < 0 ∨ ijminy < 0 then bitmap
  else
    let xmin := swnvg__maxi (swnvg__maxi call.bounds0 r.x0) (truncf v00.x0)
    let ymin := swnvg__maxi (swnvg__maxi call.bounds1 r.y0) (truncf v00.y0)
    let xmax := swnvg__mini (swnvg__mini call.bounds2 r.x1) (Int.ceil v11.x0)
    let ymax := swnvg__mini (swnvg__mini call.bounds3 r.y1) (Int.ceil v11.y0)
    if ymin > ymax ∨ xmin > xmax then bitmap
    else
      let s0 := s00 - 2 * ds * (v00.x0 - xmin)
      let t0 := t00 - 2 * dt * (v00.y0 - ymin)
      pixelLoop (ymax - ymin + 1).toNat (fun iy m =>
        pixelLoop (xmax - xmin + 1).toNat (fun ix m1 =>
          let cover := quadCover env call tex (s0 + ix * (2 * ds)) (t0 + iy * (2 * dt)) ds dt
            ijminx ijminy ijmaxx ijmaxy
          blendAt m1 ((ymin + iy) * gl.stride + xmin * 4 + 4 * ix) (fun d =>
            swnvg__blend8888 env d (truncf (255 * cover + 1 / 2)).toNat cr cg cb ca linear)) m)
        bitmap

/-! ### Exact-coverage rasterizer -/

/-- Function `areaEdge2`; the C function does not use its argument `v1y`. -/
def areaEdge2 (v0x v0y v1x _v1y slope : Rat) : Rat :=
  let win0 := swnvg__clampf v0x (-(1 / 2)) (1 / 2)
  let win1 := swnvg__clampf v1x (-(1 / 2)) (1 / 2)
  let width := win1 - win0
  if width = 0 then 0
  else if slope = 0 then width * swnvg__clampf (1 / 2 - v0y) 0 1
  else
    let midx := 1 / 2 * (win0 + win1)
    let y := v0y + (midx - v0x) * slope
    let dy := |slope * width|
    let sx := swnvg__clampf (y + 1 / 2 * dy + 1 / 2) 0 1
    let sy := swnvg__clampf (y - 1 / 2 * dy + 1 / 2) 0 1
    let sz := swnvg__clampf ((1 / 2 - y) / dy + 1 / 2) 0 1
    let sw := swnvg__clampf ((-(1 / 2) - y) / dy + 1 / 2) 0 1
    let area := 1 / 2 * (sz - sz * sy + 1 - sx + sx * sw)
    area * width

/-- State of the accumulation pass of `swnvg__rasterizeXC`: the coverage
accumulator `covtex` and the tile's `lineLimits`. -/
structure XCState where
  covtex : Int → Rat
  lims : Int → Int

/-- Column loop `for (ix = ixmin; ix <= ixmax; ++ix)` of the accumulation pass
with `n` columns left; returns the accumulator and the running `cov`. -/
def xcColumns (edge : SWNVGedge) (invslope : Rat) (width iy : Int) :
    Nat → Int → Rat → (Int → Rat) → (Int → Rat) × Rat
  | 0, _, cov, covtex => (covtex, cov)
  | n + 1, ix, cov, covtex =>
    let c := areaEdge2 (edge.y0 - iy - 1 / 2) (edge.x0 - ix - 1 / 2) (edge.y1 - iy - 1 / 2)
      (edge.x1 - ix - 1 / 2) invslope
    let a := iy * width + ix
    xcColumns edge invslope width iy n (ix + 1) c
      (fun k => if k = a then covtex a + (c - cov) else covtex k)

/-- Row loop `for (iy = iymin; iy <= iymax; ++iy)` of the accumulation pass for
one edge, with `n` rows left; `li` is the index of `lims[0]` in `lineLimits`. -/
def xcRows (edge : SWNVGedge) (invslope : Rat) (width : Int) (dir : Int) (ymin ymax : Rat)
    (ixleft ixright xedge : Int) :
    Nat → Int → Int → Rat → Rat → XCState → XCState
  | 0, _, _, _, _, st => st
  | n + 1, iy, li, xmin, xmax, st =>
    let ixmin := swnvg__maxi (truncf xmin) ixleft
    let ixmax := swnvg__mini (truncf xmax) ixright
    let cols := xcColumns edge invslope width iy (ixmax - ixmin + 1).toNat ixmin 0 st.covtex
    let ix := if ixmin ≤ ixmax then ixmax + 1 else ixmin
    let a := iy * width + ix
    let covtex1 : Int → Rat :=
      if ix ≤ xedge then
        fun k =>
          if k = a then
            cols.1 a + ((dir : Rat) * (swnvg__minf ymax (iy + 1) - swnvg__maxf ymin iy) - cols.2)
          else cols.1 k
      else cols.1
    let lims1 : Int → Int :=
      if ixmin < st.lims li then fun k => if k = li then ixmin else st.lims k else st.lims
    let lims2 : Int → Int :=
      if ixmax ≥ lims1 (li + 1) then fun k => if k = li + 1 then ixmax + 1 else lims1 k
      else lims1
    xcRows edge invslope width dir ymin ymax ixleft ixright xedge n (iy + 1) (li + 2)
      (xmin + invslope) (xmax + invslope) { covtex := covtex1, lims := lims2 }

/-- Body of the edge loop of `swnvg__rasterizeXC` for one edge. -/
def xcEdge (gl : SWNVGcontext) (r : SWNVGthreadCtx) (call : SWNVGcall) (st : XCState)
    (edge : SWNVGedge) : XCState :=
  let xb0 := swnvg__maxi call.bounds0 r.x0
  let yb0 := swnvg__maxi call.bounds1 r.y0
  let xb1 := swnvg__mini call.bounds2 r.x1
  let yb1 := swnvg__mini call.bounds3 r.y1
  let xedge := swnvg__mini edge.dir xb1
  let dir : Int := if edge.y0 > edge.y1 then -1 else 1
  let ymin := swnvg__minf edge.y0 edge.y1
  let ymax := swnvg__maxf edge.y0 edge.y1
  let iymin := swnvg__maxi (truncf ymin) yb0
  let iymax := swnvg__mini (truncf ymax) yb1
  let invslope := (edge.x1 - edge.x0) / (edge.y1 - edge.y0)
  let xtop := if edge.y0 > edge.y1 then edge.x1 else edge.x0
  let xt := ((iymin : Rat) - ymin) * invslope + xtop
  let xb := xt + invslope
  let xmin := swnvg__minf xt xb
  let xmax := swnvg__maxf xt xb
  let ixleft := swnvg__maxi (truncf (swnvg__minf edge.x0 edge.x1)) xb0
  let ixright := swnvg__mini (truncf (swnvg__maxf edge.x0 edge.x1)) xb1
  xcRows edge invslope gl.width dir ymin ymax ixleft ixright xedge
    (iymax - iymin + 1).toNat iymin (2 * (iymin - r.y0)) xmin xmax st

/-- Coverage byte `swnvg__mini(fabsf(cover)*255 + 0.5f, 255)`. -/
def xcCoverByte (cover : Rat) : Int := swnvg__mini (truncf (|cover| * 255 + 1 / 2)) 255

/-- State of a pixel loop of the fill pass of `swnvg__rasterizeXC`. -/
structure XCFill where
  cover : Rat
  icover : Int
  covtex : Int → Rat
  bitmap : Int → Nat
  scanline : Int → Nat

/-- One pixel of the fill pass: consume the accumulator cell at `dc`, then
apply `emit` (the blend, or the store into the scratch scanline). -/
def xcPixel (dc : Int) (emit : Int → XCFill → XCFill) (st : XCFill) : XCFill :=
  let st1 :=
    if st.covtex dc ≠ 0 then
      let cover := st.cover + st.covtex dc
      { st with cover := cover, icover := xcCoverByte cover,
                covtex := fun k => if k = dc then 0 else st.covtex k }
    else st
  emit st1.icover st1

/-- Pixel loop `for (i = 0; i < count; ++i, ++dcover, ...)` of the fill pass. -/
def xcPixels (dcover : Int) (emit : Nat → Int → XCFill → XCFill) (count : Nat) (st : XCFill) :
    XCFill :=
  (List.range count).foldl (fun st (i : Nat) => xcPixel (dcover + (i : Int)) (emit i) st) st

/-- State of the row loop of the fill pass. -/
structure XCOut where
  bitmap : Int → Nat
  covtex : Int → Rat
  lims : Int → Int
  scanline : Int → Nat

/-- Body of the row loop of the fill pass for row `iy`; `li` is the index of
`lims[0]`. -/
def xcFillRow (env : Env) (gl : SWNVGcontext) (call : SWNVGcall) (tex : Option SWNVGtexture)
    (xb0 xb1 : Int) (iy li : Int) (st : XCOut) : Option XCOut :=
  let linear := call.flags.srgb
  let c := call.innerCol
  let count := swnvg__mini (st.lims (li + 1)) xb1 - st.lims li + 1
  let dst := iy * gl.stride + st.lims li * 4
  let dcover := iy * gl.width + st.lims li
  let lims1 : Int → Int :=
    fun k => if k = li then gl.width else if k = li + 1 then 0 else st.lims k
  let st0 : XCFill :=
    { cover := 0, icover := 0, covtex := st.covtex, bitmap := st.bitmap, scanline := st.scanline }
  if call.type = SWNVGpaintType.COLOR then
    let f :=
      if RGBA32_IS_OPAQUE c then
        xcPixels dcover (fun i icover s =>
          if icover > 0 then
            { s with bitmap := blendAt s.bitmap (dst + 4 * i) (fun d =>
                swnvg__blendOpaque env d icover.toNat c linear) }
          else s) count.toNat st0
      else
        xcPixels dcover (fun i icover s =>
          if icover > 0 then
            { s with bitmap := blendAt s.bitmap (dst + 4 * i) (fun d =>
                swnvg__blend env d icover.toNat (COLOR0 c) (COLOR1 c) (COLOR2 c) (COLOR3 c)
                  linear) }
          else s) count.toNat st0
    some { bitmap := f.bitmap, covtex := f.covtex, lims := lims1, scanline := f.scanline }
  else
    let f := xcPixels dcover (fun i icover s =>
      { s with scanline := setByte s.scanline i (icover % 256).toNat }) count.toNat st0
    match swnvg__scanlineSolid env f.bitmap dst count f.scanline 0 xb0 iy call tex with
    | none => none
    | some bm => some { bitmap := bm, covtex := f.covtex, lims := lims1, scanline := f.scanline }

/-- Row loop `for (iy = yb0; iy <= yb1; ++iy)` of the fill pass, `n` rows left. -/
def xcFillRows (env : Env) (gl : SWNVGcontext) (call : SWNVGcall) (tex : Option SWNVGtexture)
    (xb0 xb1 : Int) : Nat → Int → Int → XCOut → Option XCOut
  | 0, _, _, st => some st
  | n + 1, iy, li, st =>
    match xcFillRow env gl call tex xb0 xb1 iy li st with
    | none => none
    | some st1 => xcFillRows env gl call tex xb0 xb1 n (iy + 1) (li + 2) st1

/-- Function `swnvg__rasterizeXC(r, call)` with `call->tex = tex`, on the
accumulator `covtex` and the tile's `lineLimits` (both non-`NULL`). -/
def swnvg__rasterizeXC (env : Env) (gl : SWNVGcontext) (r : SWNVGthreadCtx) (call : SWNVGcall)
    (tex : Option SWNVGtexture) (covtex : Int → Rat) (lims : Int → Int) : Option XCOut :=
  let xb0 := swnvg__maxi call.bounds0 r.x0
  let yb0 := swnvg__maxi call.bounds1 r.y0
  let xb1 := swnvg__mini call.bounds2 r.x1
  let yb1 := swnvg__mini call.bounds3 r.y1
  let acc := ((gl.edges.drop call.edgeOffset).take call.edgeCount).foldl (xcEdge gl r call)
    { covtex := covtex, lims := lims }
  xcFillRows env gl call tex xb0 xb1 (yb1 - yb0 + 1).toNat yb0 (2 * (yb0 - r.y0))
    { bitmap := gl.bitmap, covtex := acc.covtex, lims := acc.lims, scanline := r.scanline }

/-! ### Tile scheduler -/

/-- Function `swnvg__findTexture`. -/
def swnvg__findTexture (gl : SWNVGcontext) (id : Int) : Option SWNVGtexture :=
  gl.textures.find? (fun t => t.id == id)

/-- Quad loop `for (j = 0; j < call->triangleCount; j += 2)` of `swnvg__rasterize`
with `n` iterations left. -/
def quadLoop (env : Env) (gl : SWNVGcontext) (r : SWNVGthreadCtx) (call : SWNVGcall)
    (tex : SWNVGtexture) : Nat → Nat → (Int → Nat) → Option (Int → Nat)
  | 0, _, bm => some bm
  | n + 1, j, bm =>
    match gl.verts[call.triangleOffset + j]?, gl.verts[call.triangleOffset + j + 1]? with
    | some v00, some v11 =>
      quadLoop env gl r call tex n (j + 2) (swnvg__rasterizeQuad env gl r call tex v00 v11 bm)
    | _, _ => none

/-- Body of the call loop of `swnvg__rasterize` for one call: the context and
the tile context after the call.  Dereferencing a `NULL` texture, accumulator
or `lineLimits` gives `none`. -/
def rasterizeCall (env : Env) (gl : SWNVGcontext) (r : SWNVGthreadCtx) (call : SWNVGcall) :
    Option (SWNVGcontext × SWNVGthreadCtx) :=
  if call.bounds0 ≤ r.x1 ∧ call.bounds1 ≤ r.y1 ∧ call.bounds2 ≥ r.x0 ∧ call.bounds3 ≥ r.y0 then
    let tex := swnvg__findTexture gl call.image
    if call.type = SWNVGpaintType.ATLAS then
      if call.triangleCount = 0 then some (gl, r)
      else
        match tex with
        | none => none
        | some t =>
          match quadLoop env gl r call t ((call.triangleCount + 1) / 2) 0 gl.bitmap with
          | none => none
          | some bm => some ({ gl with bitmap := bm }, r)
    else if call.flags.xc then
      match gl.covtex, r.lineLimits with
      | some covtex, some lims =>
        match swnvg__rasterizeXC env gl r call tex covtex lims with
        | none => none
        | some o =>
          some ({ gl with bitmap := o.bitmap, covtex := some o.covtex },
                { r with lineLimits := some o.lims, scanline := o.scanline })
      | _, _ => none
    else
      match swnvg__rasterizeSortedEdges env gl r call tex with
      | none => none
      | some o => some ({ gl with bitmap := o.1 }, { r with scanline := o.2 })
  else some (gl, r)

/-- Call loop of `swnvg__rasterize`, in submission order. -/
def rasterizeCalls (env : Env) :
    List SWNVGcall → SWNVGcontext → SWNVGthreadCtx → Option (SWNVGcontext × SWNVGthreadCtx)
  | [], gl, r => some (gl, r)
  | c :: cs, gl, r =>
    match rasterizeCall env gl r c with
    | none => none
    | some o => rasterizeCalls env cs o.1 o.2

/-- Function `swnvg__rasterize` for tile context `r`; a fresh `lineLimits`
array holds `(gl->width, 0)` for every row (allocation is taken to succeed). -/
def swnvg__rasterize (env : Env) (gl : SWNVGcontext) (r : SWNVGthreadCtx) :
    Option (SWNVGcontext × SWNVGthreadCtx) :=
  let r1 :=
    if gl.covtex.isSome && r.lineLimits.isNone then
      { r with lineLimits := some (fun k => if k % 2 = 0 then gl.width else 0) }
    else r
  rasterizeCalls env gl.calls gl r1

/-- Loop `for (i = r->threadnum; i < gl->ncalls; i += nthreads)` of
`swnvg__sortEdges` on the edge array. -/
def sortEdgesLoop (gl : SWNVGcontext) (nthreads : Nat) :
    Nat → Nat → List SWNVGedge → Option (List SWNVGedge)
  | 0, i, edges => if i < gl.calls.length then none else some edges
  | fuel + 1, i, edges =>
    match gl.calls[i]? with
    | none => some edges
    | some call =>
      if call.flags.xc then sortEdgesLoop gl nthreads fuel (i + nthreads) edges
      else
        match swnvg__sortCallEdges edges call.edgeOffset call.edgeCount with
        | none => none
        | some e1 => sortEdgesLoop gl nthreads fuel (i + nthreads) e1

/-- Function `swnvg__sortEdges` for tile context `r`. -/
def swnvg__sortEdges (gl : SWNVGcontext) (r : SWNVGthreadCtx) : Option SWNVGcontext :=
  match sortEdgesLoop gl (gl.xthreads * gl.ythreads) gl.calls.length r.threadnum gl.edges with
  | none => none
  | some e => some { gl with edges := e }

/-- Sort phase of `swnvg__renderFlush` over the tile contexts with the given
indices, one after the other. -/
def sortPhase : List Nat → SWNVGcontext → Option SWNVGcontext
  | [], gl => some gl
  | i :: rest, gl =>
    match gl.threads[i]? with
    | none => none
    | some r =>
      match swnvg__sortEdges gl r with
      | none => none
      | some gl1 => sortPhase rest gl1

/-- Rasterize phase of `swnvg__renderFlush` over the tile contexts with the
given indices, one after the other. -/
def rasterPhase (env : Env) : List Nat → SWNVGcontext → Option SWNVGcontext
  | [], gl => some gl
  | i :: rest, gl =>
    match gl.threads[i]? with
    | none => none
    | some r =>
      match swnvg__rasterize env gl r with
      | none => none
      | some o => rasterPhase env rest { o.1 with threads := o.1.threads.set i o.2 }

/-- Function `swnvg__renderFlush`.  The tasks that the C code submits to the
thread pool are run one after the other in thread order. -/
def swnvg__renderFlush (env : Env) (gl : SWNVGcontext) : Option SWNVGcontext :=
  let nthreads := gl.xthreads * gl.ythreads
  if gl.calls.length = 0 then some gl
  else
    let idxs := if nthreads > 1 then List.range nthreads else [0]
    match sortPhase idxs gl with
    | none => none
    | some gl1 =>
      match rasterPhase env idxs gl1 with
      | none => none
      | some gl2 => some { gl2 with verts := [], nedges := 0, calls := [] }

/-! ### Call recorder -/

/-- Colour `NVGcolor` of this nanovg fork: four bytes (`c.r`, `c.g`, `c.b`,
`c.a`); the packed word `c.c` is compared through the four bytes. -/
structure NVGcolor where
  r : Nat
  g : Nat
  b : Nat
  a : Nat
deriving DecidableEq

/-- Paint descriptor `NVGpaint` (declared in `nanovg.h`). -/
structure NVGpaint where
  xform : Xform
  extent0 : Rat
  extent1 : Rat
  radius : Rat
  feather : Rat
  innerColor : NVGcolor
  outerColor : NVGcolor
  image : Int

/-- Scissor `NVGscissor` (declared in `nanovg.h`). -/
structure NVGscissor where
  xform : Xform
  extent0 : Rat
  extent1 : Rat

/-- Path `NVGpath` (declared in `nanovg.h`): the fill segments and the bounding
box `bounds[4]`. -/
structure NVGpath where
  fill : List NVGvertex
  bounds0 : Rat
  bounds1 : Rat
  bounds2 : Rat
  bounds3 : Rat

/-- Function `swnvg__convertColor`. -/
def swnvg__convertColor (gl : SWNVGcontext) (c : NVGcolor) : Nat :=
  c.r <<< gl.rshift ||| c.g <<< gl.gshift ||| c.b <<< gl.bshift ||| c.a <<< gl.ashift

/-- A call record after `memset(ret, 0, sizeof(SWNVGcall))`. -/
def zeroCall : SWNVGcall :=
  { type := SWNVGpaintType.NONE, flags := ⟨false, false, false, false⟩, image := 0,
    edgeOffset := 0, edgeCount := 0, triangleOffset := 0, triangleCount := 0,
    bounds0 := 0, bounds1 := 0, bounds2 := 0, bounds3 := 0,
    paintMat := ⟨0, 0, 0, 0, 0, 0⟩, innerCol := 0, outerCol := 0,
    extent0 := 0, extent1 := 0, radius := 0, feather := 0 }

/-- Function `swnvg__convertPaint` on the call record. -/
def swnvg__convertPaint (env : Env) (gl : SWNVGcontext) (call : SWNVGcall) (paint : NVGpaint)
    (scissor : NVGscissor) (flags : CallFlags) : SWNVGcall :=
  let c1 : SWNVGcall :=
    { call with
      flags := { flags with srgb := flags.srgb || gl.srgb },
      innerCol := swnvg__convertColor gl paint.innerColor,
      outerCol := swnvg__convertColor gl paint.outerColor,
      extent0 := paint.extent0, extent1 := paint.extent1,
      bounds0 := 0, bounds1 := 0, bounds2 := gl.width - 1, bounds3 := gl.height - 1 }
  let c2 : SWNVGcall :=
    if scissor.extent0 > -(1 / 2) ∧ scissor.extent1 > -(1 / 2) then
      if scissor.xform.t1 = 0 ∧ scissor.xform.t2 = 0 then
        let lt := nvgTransformPoint scissor.xform (-scissor.extent0) (-scissor.extent1)
        let rb := nvgTransformPoint scissor.xform scissor.extent0 scissor.extent1
        { c1 with
          bounds0 := swnvg__maxi c1.bounds0 (truncf (lt.1 + 1 / 2)),
          bounds1 := swnvg__maxi c1.bounds1 (truncf (lt.2 + 1 / 2)),
          bounds2 := swnvg__mini c1.bounds2 (truncf (rb.1 + 1 / 2)),
          bounds3 := swnvg__mini c1.bounds3 (truncf (rb.2 + 1 / 2)) }
      else c1
    else c1
  if paint.image ≠ 0 then
    { c2 with image := paint.image, radius := paint.radius,
              paintMat := env.nvgTransformInverse paint.xform, type := SWNVGpaintType.IMAGE }
  else if paint.innerColor ≠ paint.outerColor then
    { c2 with type := SWNVGpaintType.GRAD, radius := paint.radius, feather := paint.feather,
              paintMat := env.nvgTransformInverse paint.xform }
  else { c2 with type := SWNVGpaintType.COLOR }

/-- Function `swnvg__renderFill`.  `allocOk` tells whether the reallocations of
the call and edge arrays succeed; the accumulator allocation is taken to
succeed. -/
def swnvg__renderFill (env : Env) (gl : SWNVGcontext) (allocOk : Bool) (paint : NVGpaint)
    (scissor : NVGscissor) (flags : CallFlags) (b0 b1 b2 b3 : Rat) (paths : List NVGpath) :
    SWNVGcontext :=
  let ib0 := truncf b0
  let ib1 := truncf b1
  let ib2 := Int.ceil b2
  let ib3 := Int.ceil b3
  let maxverts := (paths.map (fun q => q.fill.length)).sum
  if maxverts = 0 then gl
  else if gl.calls.length + 1 > gl.ccalls ∧ allocOk = false then gl
  else
    let ccalls :=
      if gl.calls.length + 1 > gl.ccalls then
        (swnvg__maxi (gl.calls.length + 1) 128).toNat + gl.ccalls / 2
      else gl.ccalls
    let c1 := swnvg__convertPaint env gl zeroCall paint scissor flags
    let xc : Bool := gl.pathsXC && !c1.flags.noAA && !c1.flags.evenodd
    let c2 : SWNVGcall := if xc then { c1 with flags := { c1.flags with xc := true } } else c1
    let gl1 : SWNVGcontext :=
      { gl with ccalls := ccalls,
                covtex := if xc && gl.covtex.isNone then some (fun _ => 0) else gl.covtex }
    if ib0 > c2.bounds2 ∨ ib1 > c2.bounds3 ∨ ib2 < c2.bounds0 ∨ ib3 < c2.bounds1 then gl1
    else
      let c3 : SWNVGcall :=
        { c2 with
          bounds0 := swnvg__maxi ib0 c2.bounds0, bounds1 := swnvg__maxi ib1 c2.bounds1,
          bounds2 := swnvg__mini ib2 c2.bounds2, bounds3 := swnvg__mini ib3 c2.bounds3,
          triangleCount := 0, edgeOffset := gl1.nedges }
      let gl2 : SWNVGcontext :=
        paths.foldl (fun g q =>
          q.fill.foldl (fun g v =>
            if c3.flags.xc then swnvg__addEdgeXC g allocOk v q.bounds2
            else swnvg__addEdge g allocOk v) g) gl1
      { gl2 with calls := gl2.calls ++ [{ c3 with edgeCount := gl2.nedges - c3.edgeOffset }] }

/-- Slice `p[0..n)` of the shared edge array for a pointer `p` at index `off`. -/
def edgeSlice (edges : List SWNVGedge) (off n : Nat) : List SWNVGedge :=
  (edges.drop off).take n

/-- Relation between the shared edge array before (`p`) and after (`q`) an
operation that may only rearrange the slice `[off, off+n)`. -/
def SliceRel (off n : Nat) (p q : List SWNVGedge) : Prop :=
  q.length = p.length ∧ (∀ k, k < off ∨ off + n ≤ k → q[k]? = p[k]?) ∧ q.Perm p

/-- Ascending top-Y order of a list of edges: every earlier edge has a `y0` not
above that of every later edge. -/
def SortedByY0 (l : List SWNVGedge) : Prop := l.Pairwise (fun a b => a.y0 ≤ b.y0)

/-- Vertical edge at `x` from `y0` to `y1` with winding `dir` (used for concrete
inputs). -/
def vEdge (x y0 y1 : Rat) (dir : Int) : SWNVGedge := ⟨x, y0, x, y1, dir⟩

/-- A shared edge array of 16 edges; the slice `[1, 15)` has 14 edges with
repeated and unordered top-Y values. -/
def sampleEdges : List SWNVGedge :=
  [vEdge 0 99 100 1, vEdge 1 7 9 1, vEdge 2 3 9 (-1), vEdge 3 7 8 1, vEdge 4 1 2 (-1),
   vEdge 5 7 9 1, vEdge 6 0 9 (-1), vEdge 7 5 9 1, vEdge 8 7 9 (-1), vEdge 9 2 9 1,
   vEdge 10 7 9 (-1), vEdge 11 4 9 1, vEdge 12 7 9 (-1), vEdge 13 6 9 1, vEdge 14 7 9 (-1),
   vEdge 15 (-5) 0 1]

/-! ### Concrete scenarios -/

/-- An environment for concrete runs: the tables and `sqrtf` are never
consulted by solid-colour calls with gamma-space blending. -/
def sampleEnv : Env := ⟨id, id, id, id, false⟩

/-- Opaque red. -/
def opaqueRed : NVGcolor := ⟨255, 0, 0, 255⟩

/-- Solid opaque red paint (`innerColor == outerColor`, no image). -/
def redPaint : NVGpaint := ⟨⟨1, 0, 0, 1, 0, 0⟩, 0, 0, 0, 0, opaqueRed, opaqueRed, 0⟩

/-- A disabled scissor (`extent = (-1, -1)`). -/
def noScissor : NVGscissor := ⟨⟨1, 0, 0, 1, 0, 0⟩, -1, -1⟩

/-- Scenario: on a 10x10 all-zero framebuffer with byte order R,G,B,A and an
`xt` x `yt` thread grid, record one fill of the path `segs` with bounding box
`(b0, b1, b2, b3)` in opaque red, then flush. -/
def fillScenario (noAA : Bool) (xt yt : Nat) (b0 b1 b2 b3 : Rat) (segs : List NVGvertex) :
    Option SWNVGcontext :=
  let gl0 := nvgswSetThreading (nvgswCreate false false) xt yt
  let gl1 := nvgswSetFramebuffer gl0 (fun _ => 0) 10 10 0 8 16 24
  let gl2 := swnvg__renderFill sampleEnv gl1 true redPaint noScissor
    ⟨false, noAA, false, false⟩ b0 b1 b2 b3 [⟨segs, b0, b1, b2, b3⟩]
  swnvg__renderFlush sampleEnv gl2

/-- The four bytes of framebuffer pixel `(x, y)`. -/
def pixelAt (gl : SWNVGcontext) (x y : Nat) : Pixel :=
  readPixel gl.bitmap ((y : Int) * gl.stride + 4 * (x : Int))

/-- Pixel `(x, y)` of the framebuffer of a run, when the run returns. -/
def pixelOf (o : Option SWNVGcontext) (x y : Nat) : Option Pixel :=
  o.map (fun gl => pixelAt gl x y)

/-- The run returns and every pixel of the `w` x `h` framebuffer has the
expected bytes. -/
def FramebufferIs (o : Option SWNVGcontext) (w h : Nat) (expected : Nat → Nat → Pixel) : Prop :=
  match o with
  | none => False
  | some gl => ∀ x < w, ∀ y < h, pixelAt gl x y = expected x y

instance instDecidableFramebufferIs (o : Option SWNVGcontext) (w h : Nat)
    (expected : Nat → Nat → Pixel) : Decidable (FramebufferIs o w h expected) :=
  match o with
  | none => isFalse (fun h => h)
  | some gl => inferInstanceAs (Decidable (∀ x < w, ∀ y < h, pixelAt gl x y = expected x y))

/-- The axis-aligned square with corners `(3,3)` and `(7,7)` as fill segments. -/
def squareSegs : List NVGvertex := [⟨3, 3, 7, 3⟩, ⟨7, 3, 7, 7⟩, ⟨7, 7, 3, 7⟩, ⟨3, 7, 3, 3⟩]

/-- A quadrilateral with a slightly sloped left side from `(3, 0)` to
`(3 + 25/1024, 10)` and a vertical right side at `x = 7`; all coordinates and
the slope `1/2048` per sub-scanline are exact in single precision. -/
def slopedQuad : List NVGvertex :=
  [⟨3, 0, 3 + 25 / 1024, 10⟩, ⟨3 + 25 / 1024, 10, 7, 10⟩, ⟨7, 10, 7, 0⟩, ⟨7, 0, 3, 0⟩]

/-- A 10x10 framebuffer context on the default 1x1 grid. -/
def sampleGl : SWNVGcontext :=
  nvgswSetFramebuffer (nvgswCreate false false) (fun _ => 0) 10 10 0 8 16 24

/-- The tile `[0..9] x [0..9]`. -/
def sampleTile : SWNVGthreadCtx := { zeroThread 0 with x1 := 9, y1 := 9 }

/-- A solid-colour call with bounds `[3..7] x [3..7]`. -/
def sampleCall : SWNVGcall :=
  { zeroCall with type := SWNVGpaintType.COLOR, bounds0 := 3, bounds1 := 3, bounds2 := 7,
                  bounds3 := 7 }

/-- The edges of an active list pair up with opposite, non-zero winding
directions: `(e0, e1)`, `(e2, e3)`, ... each have `dir` summing to zero; a last
unpaired edge is unconstrained. -/
def AlternatingDirs : List SWNVGactiveEdge → Prop
  | [] => True
  | [_] => True
  | a :: b :: rest => a.dir ≠ 0 ∧ a.dir + b.dir = 0 ∧ AlternatingDirs rest

/-- Byte offset `a` of the bitmap belongs to a pixel `(x, y)` that lies inside
the rectangle of tile `r` and inside the bounds of `call`. -/
def InTileBounds (gl : SWNVGcontext) (r : SWNVGthreadCtx) (call : SWNVGcall) (a : Int) : Prop :=
  ∃ x y : Int, r.x0 ≤ x ∧ x ≤ r.x1 ∧ r.y0 ≤ y ∧ y ≤ r.y1 ∧
    call.bounds0 ≤ x ∧ x ≤ call.bounds2 ∧ call.bounds1 ≤ y ∧ y ≤ call.bounds3 ∧
    y * gl.stride + 4 * x ≤ a ∧ a < y * gl.stride + 4 * x + 4

/-- Weight that one antialiased sub-scanline span with fixed-point ends
`X0 <= X1` adds to pixel column `x`: the left and right end pixels get the
covered fraction of `51 = 255/5`, the pixels in between get `51`. -/
def spanWeightAA (X0 X1 x : Int) : Int :=
  if X0 / 1024 = X1 / 1024 then (if x = X0 / 1024 then (X1 - X0) * 51 / 1024 else 0)
  else if x = X0 / 1024 then (1024 - X0 % 1024) * 51 / 1024
  else if x = X1 / 1024 then X1 % 1024 * 51 / 1024
  else if X0 / 1024 < x ∧ x < X1 / 1024 then 51
  else 0

/-! ### Axis-aligned rectangles -/

/-- The call's edge slice holds two vertical edges at `xl` and `xr` with the
stored sub-scanline ordinates `yt * 5` and `yb * 5`, in either order, with
opposite non-zero winding directions: the vertical sides of the axis-aligned
rectangle `[xl, xr] x [yt, yb]` as they are stored when the products by 5 are
exact. -/
def IsRectCall (edges : List SWNVGedge) (call : SWNVGcall) (xl xr yt yb : Rat) : Prop :=
  call.edgeCount = 2 ∧ ∃ d : Int, d ≠ 0 ∧
    ((edges[call.edgeOffset]? = some (vEdge xl (yt * 5) (yb * 5) d) ∧
      edges[call.edgeOffset + 1]? = some (vEdge xr (yt * 5) (yb * 5) (-d))) ∨
     (edges[call.edgeOffset]? = some (vEdge xr (yt * 5) (yb * 5) (-d)) ∧
      edges[call.edgeOffset + 1]? = some (vEdge xl (yt * 5) (yb * 5) d)))

/-- Active list of a rectangle: the left side at fixed-point `XL`, then the
right side at `XR`, both vertical, ending at `ey`, with opposite winding. -/
def RectActive (XL XR : Int) (ey : Rat) (active : List SWNVGactiveEdge) : Prop :=
  ∃ a b, active = [a, b] ∧ a.x = XL ∧ b.x = XR ∧ a.dx = 0 ∧ b.dx = 0 ∧ a.ey = ey ∧ b.ey = ey ∧
    a.dir ≠ 0 ∧ a.dir + b.dir = 0

/-- Centre `n + 1/2` of sub-scanline number `n` (row `n / 5`, sample `n % 5`). -/
def sampleY (n : Int) : Rat := (n : Rat) + 1 / 2

/-- State of the active list and the edge cursor of a rectangle call before
sub-scanline number `n`: nothing inserted yet, or both sides active, or both
sides passed. -/
def RectInv (call : SWNVGcall) (XL XR : Int) (yt yb : Rat) (n : Int)
    (active : List SWNVGactiveEdge) (e : Nat) : Prop :=
  (active = [] ∧ e = call.edgeOffset) ∨
  (yt * 5 ≤ sampleY (n - 1) ∧ sampleY (n - 1) < yb * 5 ∧ RectActive XL XR (yb * 5) active ∧
    e = call.edgeOffset + 2) ∨
  (yb * 5 ≤ sampleY (n - 1) ∧ active = [] ∧ e = call.edgeOffset + 2)

/-- Number of the first `m` sub-scanlines of row `y` whose centre lies in
`[5 yt, 5 yb)`. -/
def rowSamples (yt yb : Rat) (y : Int) : Nat → Nat
  | 0 => 0
  | m + 1 =>
    rowSamples yt yb y m +
      (if yt * 5 ≤ sampleY (y * 5 + m) ∧ sampleY (y * 5 + m) < yb * 5 then 1 else 0)

/-- Coverage byte of pixel `(x, y)` in `swnvg__rasterizeSortedEdges(r, call)`:
the row loop runs from its first row up to row `y`, then the coverage pass of
row `y`; the result is the entry for column `x` of the coverage buffer that is
passed to `swnvg__scanlineSolid`. -/
def coverageAt (env : Env) (gl : SWNVGcontext) (r : SWNVGthreadCtx) (call : SWNVGcall)
    (tex : Option SWNVGtexture) (x y : Int) : Option Nat :=
  let ystart := swnvg__maxi r.y0 call.bounds1
  match rasterRows env gl r call tex (y - ystart).toNat ystart
      { bitmap := gl.bitmap, scanline := r.scanline, active := [], e := call.edgeOffset } with
  | none => none
  | some st => some ((rowCoverage gl r call y st.active st.e st.scanline).scanline (x - r.x0))

/-- The axis-aligned rectangle with corners `(13/4, 3)` and `(7, 7)` as fill
segments. -/
def rectSegs : List NVGvertex :=
  [⟨13 / 4, 3, 7, 3⟩, ⟨7, 3, 7, 7⟩, ⟨7, 7, 13 / 4, 7⟩, ⟨13 / 4, 7, 13 / 4, 3⟩]

/-- A context whose edge array holds the two vertical sides of the rectangle
`[13/4, 7] x [3, 7]`. -/
def rectGl : SWNVGcontext :=
  { sampleGl with edges := [vEdge (13 / 4) (3 * 5) (7 * 5) (-1), vEdge 7 (3 * 5) (7 * 5) 1],
                  nedges := 2, cedges := 2 }

/-- A solid-colour call over the two edges of `rectGl`. -/
def rectCall : SWNVGcall := { sampleCall with edgeOffset := 0, edgeCount := 2 }

/-- Per-pixel blend of the colour branch of `swnvg__scanlineSolid` for a
coverage byte `cover`. -/
def colorBlend (env : Env) (call : SWNVGcall) (cover : Nat) (d : Pixel) : Pixel :=
  if RGBA32_IS_OPAQUE call.innerCol then
    swnvg__blendOpaque env d cover call.innerCol call.flags.srgb
  else
    swnvg__blend env d cover (COLOR0 call.innerCol) (COLOR1 call.innerCol)
      (COLOR2 call.innerCol) (COLOR3 call.innerCol) call.flags.srgb

/-- Effect of a solid-colour rectangle call on the pixel of column `x` in a row
with `n` covered sub-scanlines: the pixels of the columns from `XL / 1024` to
`XR / 1024` inside the call bounds are blended with coverage `n * w`. -/
def rectRowPixel (env : Env) (call : SWNVGcall) (XL XR : Int) (n : Nat) (x : Int) (p : Pixel) :
    Pixel :=
  if 0 < n ∧ call.bounds0 ≤ x ∧ x ≤ call.bounds2 ∧ XL / 1024 ≤ x ∧ x ≤ XR / 1024 then
    colorBlend env call ((n : Int) * spanWeightAA XL XR x).toNat p
  else p

/-- Effect of a solid-colour call for the rectangle `[xl, xr] x [yt, yb]` on
pixel `(x, y)`. -/
def rectPixel (env : Env) (call : SWNVGcall) (xl xr yt yb : Rat) (x y : Int) (p : Pixel) :
    Pixel :=
  if call.bounds1 ≤ y ∧ y ≤ call.bounds3 then
    rectRowPixel env call (Int.floor (1024 * xl)) (Int.floor (1024 * xr)) (rowSamples yt yb y 5)
      x p
  else p

/-- A solid-colour, antialiased fill of an axis-aligned rectangle that goes
through the scanline rasterizer: the call's edge slice holds the two vertical
sides of some rectangle `[xl, xr] x [yt, yb]`. -/
def IsRectFill (edges : List SWNVGedge) (call : SWNVGcall) : Prop :=
  call.type = SWNVGpaintType.COLOR ∧ call.flags.noAA = false ∧ call.flags.xc = false ∧
    ∃ xl xr yt yb : Rat, xl ≤ xr ∧ IsRectCall edges call xl xr yt yb

/-- Bitmap `bm1` is `bm` with the pixel function `F` applied to every pixel of
tile `r` and every other byte kept, for rows of `stride` bytes. -/
def TileApplied (stride : Int) (r : SWNVGthreadCtx) (F : Int → Int → Pixel → Pixel)
    (bm bm1 : Int → Nat) : Prop :=
  (∀ x y, inTile r x y →
    readPixel bm1 (y * stride + 4 * x) = F x y (readPixel bm (y * stride + 4 * x))) ∧
  (∀ k, (¬ ∃ x y, inTile r x y ∧ y * stride + 4 * x ≤ k ∧ k < y * stride + 4 * x + 4) →
    bm1 k = bm k)

/-- The recorded state `gl` on an `xt` x `yt` thread grid: zeroed tile contexts
as `nvgswSetThreading` allocates them, with the rectangles that
`nvgswSetFramebuffer` assigns for the same framebuffer. -/
def withGrid (gl : SWNVGcontext) (xt yt : Nat) : SWNVGcontext :=
  nvgswSetFramebuffer
    { gl with threads := (List.range (xt * yt)).map zeroThread, xthreads := xt, ythreads := yt }
    gl.bitmap gl.width gl.height gl.rshift gl.gshift gl.bshift gl.ashift

/-- The state recorded by one antialiased non-zero fill of `rectSegs` in opaque
red on the 10x10 context. -/
def rectRecorded : SWNVGcontext :=
  swnvg__renderFill sampleEnv sampleGl true redPaint noScissor ⟨false, false, false, false⟩
    (13 / 4) 3 7 7 [⟨rectSegs, 13 / 4, 3, 7, 7⟩]

/-- Antiderivative of `u ↦ clamp(u, 0, 1)` that vanishes for `u <= 0`:
`0` below `0`, `u^2 / 2` on `[0, 1]`, `u - 1/2` above `1`. -/
def clampArea (u : Rat) : Rat := ((max 0 u) ^ 2 - (max 0 (u - 1)) ^ 2) / 2

/-- Constant `sRGBgamma = 2.31f`. -/
def sRGBgamma : Rat := 231 / 100

/-- Function `swnvg__sRGBLUTCalc`: the tables `sRGBToLinear[256]` and
`linearToSRGB[2048]` (`LINEAR_TO_SRGB_DIV = 2047`) computed with the library
function `powf`, which is a parameter. -/
def swnvg__sRGBLUTCalc (powf : Rat → Rat → Rat) : (Nat → Nat) × (Nat → Nat) :=
  (fun i => (truncf (1 / 2 + powf ((i : Rat) / 255) sRGBgamma * 2047)).toNat,
   fun i => (truncf (1 / 2 + powf ((i : Rat) / 2047) (1 / sRGBgamma) * 255)).toNat % 256)

/-- The environment whose colour tables are those that `swnvg__sRGBLUTCalc`
computes with `powf`. -/
def lutEnv (powf : Rat → Rat → Rat) : Env :=
  { sRGBToLinear := (swnvg__sRGBLUTCalc powf).1, linearToSRGB := (swnvg__sRGBLUTCalc powf).2,
    sqrtf := id, nvgTransformInverse := id, fonsSDF := false }

/-- The function `powf` returns, for a non-negative base, the real power up to
an absolute error of `eps`. -/
def PowfAccurate (powf : Rat → Rat → Rat) (eps : Rat) : Prop :=
  ∀ x y : Rat, 0 ≤ x → |((powf x y : Rat) : ℝ) - (x : ℝ) ^ (y : ℝ)| ≤ (eps : ℝ)

/-- A gradient call from opaque black to opaque white (byte order R,G,B,A) with
feather `10` and the identity paint transform. -/
def gradCall : SWNVGcall :=
  { sampleCall with type := SWNVGpaintType.GRAD, innerCol := 0xFF000000, outerCol := 0xFFFFFFFF,
                    paintMat := ⟨1, 0, 0, 1, 0, 0⟩, feather := 10 }

/-- Copy loop `for (i = 0; i < nverts; i += 6)` of `swnvg__renderTriangles` with
`m` iterations left: the vertices `verts[i]`, `verts[i+1]` stored per iteration,
in order; `none` when a read leaves the caller's array. -/
def triangleCopy (verts : List NVGvertex) : Nat → Nat → Option (List NVGvertex)
  | 0, _ => some []
  | m + 1, i =>
    match verts[i]?, verts[i + 1]? with
    | some a, some b => (triangleCopy verts m (i + 6)).map (fun rest => a :: b :: rest)
    | _, _ => none

/-- Function `swnvg__renderTriangles` (with `swnvg__allocCall` and
`swnvg__allocVerts` inlined).  `callsOk` and `vertsOk` tell whether the
reallocations of the call and vertex arrays succeed.  When the vertex
reallocation fails the code goes on with `offset = -1` and stores through
`gl->verts[-1]` (with `nverts <= cverts` a reallocation is only tried for at
least one triangle, so the copy loop runs); a store past the capacity `cverts`
and a read past the caller's array are undefined as well: these give `none`.
The loop stores two vertices per six, `nverts/3` of which become live
entries; stores that land in the spare capacity behind `gl->nverts` are not
live entries. -/
def swnvg__renderTriangles (env : Env) (gl : SWNVGcontext) (callsOk vertsOk : Bool)
    (paint : NVGpaint) (scissor : NVGscissor) (verts : List NVGvertex) : Option SWNVGcontext :=
  if gl.calls.length + 1 > gl.ccalls ∧ callsOk = false then some gl
  else
    let ccalls :=
      if gl.calls.length + 1 > gl.ccalls then
        (swnvg__maxi (gl.calls.length + 1) 128).toNat + gl.ccalls / 2
      else gl.ccalls
    let n := verts.length / 3
    if gl.verts.length + n > gl.cverts ∧ vertsOk = false then none
    else
      let cverts :=
        if gl.verts.length + n > gl.cverts then
          (swnvg__maxi (gl.verts.length + n) 4096).toNat + gl.cverts / 2
        else gl.cverts
      let offset := gl.verts.length
      match triangleCopy verts ((verts.length + 5) / 6) 0 with
      | none => none
      | some w =>
        if offset + w.length > cverts then none
        else
          let c0 : SWNVGcall := { zeroCall with triangleCount := n, triangleOffset := offset }
          let c1 := swnvg__convertPaint env gl c0 paint scissor ⟨false, false, false, false⟩
          some { gl with ccalls := ccalls, cverts := cverts, verts := gl.verts ++ w.take n,
                         calls := gl.calls ++ [{ c1 with type := SWNVGpaintType.ATLAS }] }

/-- States of the call recorder within a frame: a state with no recorded call,
edge or vertex (a new context, or the state after a flush), followed by any
sequence of `swnvg__renderFill` and `swnvg__renderTriangles` calls that
return. -/
inductive Recorded (env : Env) : SWNVGcontext → Prop
  | start (gl : SWNVGcontext) (hc : gl.calls = []) (he : gl.nedges = 0) (hv : gl.verts = []) :
      Recorded env gl
  | fill (gl : SWNVGcontext) (allocOk : Bool) (paint : NVGpaint) (scissor : NVGscissor)
      (flags : CallFlags) (b0 b1 b2 b3 : Rat) (paths : List NVGpath) (h : Recorded env gl) :
      Recorded env (swnvg__renderFill env gl allocOk paint scissor flags b0 b1 b2 b3 paths)
  | triangles (gl gl1 : SWNVGcontext) (callsOk vertsOk : Bool) (paint : NVGpaint)
      (scissor : NVGscissor) (verts : List NVGvertex) (h : Recorded env gl)
      (hr : swnvg__renderTriangles env gl callsOk vertsOk paint scissor verts = some gl1) :
      Recorded env gl1

/-- The bounds of a call lie inside the `width` x `height` framebuffer. -/
def BoundsInside (gl : SWNVGcontext) (c : SWNVGcall) : Prop :=
  0 ≤ c.bounds0 ∧ c.bounds2 ≤ gl.width - 1 ∧ 0 ≤ c.bounds1 ∧ c.bounds3 ≤ gl.height - 1

/-- Index `a` belongs to the edge slice `[edgeOffset, edgeOffset + edgeCount)` of
call `c`. -/
def InEdgeSlice (c : SWNVGcall) (a : Nat) : Prop :=
  c.edgeOffset ≤ a ∧ a < c.edgeOffset + c.edgeCount

/-- Invariant of the call recorder: with no recorded call there is no recorded
edge or vertex; every recorded call has bounds inside the framebuffer and an
edge slice that ends at or before `nedges`; and for two recorded calls the
earlier slice ends at or before the start of the later one unless the later
one is empty. -/
def RecorderInv (gl : SWNVGcontext) : Prop :=
  (gl.calls = [] → gl.nedges = 0 ∧ gl.verts = []) ∧
  (∀ c ∈ gl.calls, BoundsInside gl c) ∧
  (∀ c ∈ gl.calls, c.edgeOffset + c.edgeCount ≤ gl.nedges) ∧
  gl.calls.Pairwise (fun a b => a.edgeOffset + a.edgeCount ≤ b.edgeOffset ∨ b.edgeCount = 0)
/-- The state after a second fill (the unit square with corners `(1,1)` and
`(2,2)`) recorded on top of `rectRecorded`. -/
def twoFills : SWNVGcontext :=
  swnvg__renderFill sampleEnv rectRecorded true redPaint noScissor ⟨false, false, false, false⟩
    1 1 2 2 [⟨[⟨1, 1, 2, 1⟩, ⟨2, 1, 2, 2⟩, ⟨2, 2, 1, 2⟩, ⟨1, 2, 1, 1⟩], 1, 1, 2, 2⟩]

/-- Six textured vertices `(x, y, u, v)` of one glyph quad. -/
def sampleQuad : List NVGvertex :=
  [⟨2, 2, 0, 0⟩, ⟨5, 5, 3, 3⟩, ⟨5, 2, 3, 0⟩, ⟨2, 2, 0, 0⟩, ⟨2, 5, 0, 3⟩, ⟨5, 5, 3, 3⟩]

/-- The state after a triangle submission recorded on top of `twoFills`. -/
def withTriangles : Option SWNVGcontext :=
  swnvg__renderTriangles sampleEnv twoFills true true redPaint noScissor sampleQuad

/-! ### Texture store -/

/-- Texture type codes of `nanovg.h`, which the renderer only compares with
`tex->type`. -/
structure NVGtexture where
  NVG_TEXTURE_ALPHA : Int
  NVG_TEXTURE_RGBA : Int
  NVG_TEXTURE_FLOAT : Int

/-- The bits of `imageFlags` that the renderer tests (`NVG_IMAGE_NEAREST`,
`NVG_IMAGE_NOCOPY`, `NVG_IMAGE_PREMULTIPLIED`). -/
structure ImageFlags where
  nearest : Bool
  nocopy : Bool
  premultiplied : Bool

/-- A caller's `data` buffer, read through the same two views as the data of a
texture. -/
structure TexData where
  texels : Int → Nat
  texelsF : Int → Rat

/-- A slot after `memset(tex, 0, sizeof(*tex))`. -/
def zeroTexture : SWNVGtexture :=
  { id := 0, texels := fun _ => 0, texelsF := fun _ => 0, dataSet := false, width := 0,
    height := 0, type := 0, nearest := false, nocopy := false, premultiplied := false }

/-- Search loop `for (i = 0; i < gl->ntextures; i++) if (gl->textures[i].id == id)`
of `swnvg__findTexture` and (with `id = 0`) of `swnvg__allocTexture`: the index
of the first slot with that id. -/
def slotIndex : List SWNVGtexture → Int → Option Nat
  | [], _ => none
  | t :: ts, id => if t.id = id then some 0 else (slotIndex ts id).map (fun i => i + 1)

/-- Function `swnvg__allocTexture`: the context and the index of the slot that is
returned, `none` for `NULL`.  `allocOk` tells whether `realloc` succeeds. -/
def swnvg__allocTexture (gl : SWNVGcontext) (allocOk : Bool) : SWNVGcontext × Option Nat :=
  match slotIndex gl.textures 0 with
  | some i =>
    ({ gl with textures := gl.textures.set i { zeroTexture with id := gl.textureId + 1 },
               textureId := gl.textureId + 1 }, some i)
  | none =>
    if gl.textures.length + 1 > gl.ctextures ∧ allocOk = false then (gl, none)
    else
      let ctextures :=
        if gl.textures.length + 1 > gl.ctextures then
          (swnvg__maxi (gl.textures.length + 1) 4).toNat + gl.ctextures / 2
        else gl.ctextures
      ({ gl with ctextures := ctextures,
                 textures := gl.textures ++ [{ zeroTexture with id := gl.textureId + 1 }],
                 textureId := gl.textureId + 1 }, some gl.textures.length)

/-- Function `swnvg__copyRGBAData`: the `rgba32_t` view of `tex->data` after the
copy from `src` (`none` for a `NULL` source).  The result is `none` where the C
code is undefined: a division by an alpha of 0 in the un-premultiply loop, a
load or store through a `NULL` pointer, and a `memcpy` with a `NULL` pointer or
a negative size. -/
def swnvg__copyRGBAData (gl : SWNVGcontext) (tex : SWNVGtexture) (src : Option (Int → Nat)) :
    Option (Int → Nat) :=
  let npix := tex.width * tex.height
  if tex.premultiplied then
    if npix ≤ 0 then some tex.texels
    else
      match src with
      | none => none
      | some s =>
        if tex.dataSet = false then none
        else if (List.range npix.toNat).any (fun ii => COLOR3 (s ii) == 0) then none
        else
          some (fun k =>
            if 0 ≤ k ∧ k < npix then
              ((255 * COLOR0 (s k) / COLOR3 (s k)) <<< gl.rshift |||
                (255 * COLOR1 (s k) / COLOR3 (s k)) <<< gl.gshift |||
                (255 * COLOR2 (s k) / COLOR3 (s k)) <<< gl.bshift |||
                COLOR3 (s k) <<< gl.ashift) % 4294967296
            else tex.texels k)
  else if gl.rshift = 0 ∧ gl.gshift = 8 ∧ gl.bshift = 16 ∧ gl.ashift = 24 then
    match src with
    | none => none
    | some s =>
      if tex.dataSet = false ∨ npix < 0 then none
      else some (fun k => if 0 ≤ k ∧ k < npix then s k else tex.texels k)
  else
    if npix ≤ 0 then some tex.texels
    else
      match src with
      | none => none
      | some s =>
        if tex.dataSet = false then none
        else
          some (fun k =>
            if 0 ≤ k ∧ k < npix then
              (COLOR0 (s k) <<< gl.rshift ||| COLOR1 (s k) <<< gl.gshift |||
                COLOR2 (s k) <<< gl.bshift ||| COLOR3 (s k) <<< gl.ashift) % 4294967296
            else tex.texels k)

/-- Function `swnvg__renderCreateTexture`: the context and the returned id.
`slotsOk` tells whether the `realloc` of the slot array succeeds and `dataOk`
whether the `malloc` of the pixel buffer does.  The result is `none` where the C
code is undefined: `swnvg__allocTexture` returned `NULL` (the slot is written
without a check), the copy of the pixels is undefined, or `memcpy` gets a
`NULL` destination or a negative size.  A buffer from `malloc` reads as zero
until it is written.  Textures of type alpha and of other types hold bytes in
`texels`, float textures hold their texels in `texelsF`. -/
def swnvg__renderCreateTexture (tt : NVGtexture) (gl : SWNVGcontext) (slotsOk dataOk : Bool)
    (type w h : Int) (imageFlags : ImageFlags) (data : Option TexData) :
    Option (SWNVGcontext × Int) :=
  match swnvg__allocTexture gl slotsOk with
  | (_, none) => none
  | (gl1, some i) =>
    let tex0 : SWNVGtexture :=
      { zeroTexture with
        id := gl1.textureId, width := w, height := h, type := type,
        nearest := imageFlags.nearest, nocopy := imageFlags.nocopy,
        premultiplied := imageFlags.premultiplied }
    let tex1 : Option SWNVGtexture :=
      if imageFlags.nocopy then
        match data with
        | none => some tex0
        | some d => some { tex0 with texels := d.texels, texelsF := d.texelsF, dataSet := true }
      else
        let tex : SWNVGtexture := { tex0 with dataSet := dataOk }
        match data with
        | none => some tex
        | some d =>
          if type = tt.NVG_TEXTURE_RGBA then
            (swnvg__copyRGBAData gl1 tex (some d.texels)).map (fun v => { tex with texels := v })
          else if dataOk = false ∨ w * h < 0 then none
          else if type = tt.NVG_TEXTURE_ALPHA then
            some { tex with texels := fun k => if 0 ≤ k ∧ k < w * h then d.texels k else 0 }
          else if type = tt.NVG_TEXTURE_FLOAT then
            some { tex with texelsF := fun k => if 0 ≤ k ∧ k < w * h then d.texelsF k else 0 }
          else
            some { tex with texels := fun k => if 0 ≤ k ∧ k < w * h * 4 then d.texels k else 0 }
    tex1.map (fun t => ({ gl1 with textures := gl1.textures.set i t }, t.id))

/-- Function `swnvg__renderDeleteTexture`: the context and the return value. -/
def swnvg__renderDeleteTexture (gl : SWNVGcontext) (image : Int) : SWNVGcontext × Int :=
  match slotIndex gl.textures image with
  | none => (gl, 0)
  | some i => ({ gl with textures := gl.textures.set i zeroTexture }, 1)

/-- Function `swnvg__renderUpdateTexture`: the context and the return value.
The result of `swnvg__findTexture` is used without a check, so the result is
`none` when no slot has the id `image`; it is `none` as well when the copy is
undefined (`NULL` pointers, a negative size, rows outside the buffer of
`width * height` texels). -/
def swnvg__renderUpdateTexture (tt : NVGtexture) (gl : SWNVGcontext) (image _x y _w h : Int)
    (data : Option TexData) : Option (SWNVGcontext × Int) :=
  match slotIndex gl.textures image, gl.textures.find? (fun t => t.id == image) with
  | some i, some tex =>
    let tex1 : Option SWNVGtexture :=
      if tex.type = tt.NVG_TEXTURE_RGBA then
        (swnvg__copyRGBAData gl tex (data.map (fun d => d.texels))).map
          (fun v => { tex with texels := v })
      else
        let start := y * tex.width
        let n := tex.width * h
        let cap :=
          if tex.type = tt.NVG_TEXTURE_ALPHA ∨ tex.type = tt.NVG_TEXTURE_FLOAT then
            tex.width * tex.height
          else tex.width * tex.height * 4
        match data with
        | none => none
        | some d =>
          if tex.dataSet = false ∨ n < 0 ∨ start < 0 ∨ start + n > cap then none
          else if tex.type = tt.NVG_TEXTURE_FLOAT then
            some { tex with
              texelsF := fun k => if start ≤ k ∧ k < start + n then d.texelsF k else tex.texelsF k }
          else
            some { tex with
              texels := fun k => if start ≤ k ∧ k < start + n then d.texels k else tex.texels k }
    tex1.map (fun t => ({ gl with textures := gl.textures.set i t }, 1))
  | _, _ => none

/-- Function `swnvg__renderGetTextureSize`: the return value and the size stored
through the (non-`NULL`) pointers `w` and `h`. -/
def swnvg__renderGetTextureSize (gl : SWNVGcontext) (image : Int) : Int × Option (Int × Int) :=
  match swnvg__findTexture gl image with
  | none => (0, none)
  | some tex => (1, some (tex.width, tex.height))

/-- The handle `id` is the id of a live texture: a slot in use (`id != 0`) has
it. -/
def LiveId (gl : SWNVGcontext) (id : Int) : Prop := ∃ t ∈ gl.textures, t.id ≠ 0 ∧ t.id = id

/-- States of the texture store with the ids that `swnvg__renderCreateTexture`
has returned so far (latest first): a new context, followed by any sequence of
returning create, delete and update operations and of operations that leave
the store alone. -/
inductive TexStore (tt : NVGtexture) : SWNVGcontext → List Int → Prop
  | start (gl : SWNVGcontext) (ht : gl.textures = []) (hid : gl.textureId = 0) : TexStore tt gl []
  | create (gl gl1 : SWNVGcontext) (ids : List Int) (slotsOk dataOk : Bool) (type w h : Int)
      (imageFlags : ImageFlags) (data : Option TexData) (id : Int) (hs : TexStore tt gl ids)
      (hr : swnvg__renderCreateTexture tt gl slotsOk dataOk type w h imageFlags data =
        some (gl1, id)) : TexStore tt gl1 (id :: ids)
  | delete (gl : SWNVGcontext) (ids : List Int) (image : Int) (hs : TexStore tt gl ids) :
      TexStore tt (swnvg__renderDeleteTexture gl image).1 ids
  | update (gl gl1 : SWNVGcontext) (ids : List Int) (image x y w h : Int)
      (data : Option TexData) (ret : Int) (hs : TexStore tt gl ids)
      (hr : swnvg__renderUpdateTexture tt gl image x y w h data = some (gl1, ret)) :
      TexStore tt gl1 ids
  | other (gl gl1 : SWNVGcontext) (ids : List Int) (hs : TexStore tt gl ids)
      (ht : gl1.textures = gl.textures) (hid : gl1.textureId = gl.textureId) : TexStore tt gl1 ids

/-- Invariant of the texture store: the ids of the slots and the ids returned so
far lie in `[0, textureId]`, the returned ones being positive. -/
def TexInv (gl : SWNVGcontext) (ids : List Int) : Prop :=
  0 ≤ gl.textureId ∧ (∀ t ∈ gl.textures, 0 ≤ t.id ∧ t.id ≤ gl.textureId) ∧
  (∀ j ∈ ids, 0 < j ∧ j ≤ gl.textureId)

/-- Type codes for concrete runs. -/
def sampleTypes : NVGtexture := ⟨1, 2, 4⟩

/-- The store after creating a 2x3 alpha texture without data in a new context. -/
def storeOne : Option (SWNVGcontext × Int) :=
  swnvg__renderCreateTexture sampleTypes (nvgswCreate false false) true true 1 2 3
    ⟨false, false, false⟩ none

/-- The store after creating a texture and deleting it again: one free slot. -/
def storeFreed : Option SWNVGcontext :=
  storeOne.map (fun o => (swnvg__renderDeleteTexture o.1 o.2).1)

/-- Rows of the accumulation pass of `swnvg__rasterizeXC` for one edge, `n` rows
left: in every row the clipped column range `[ixmin, ixmax]` is non-empty, or
it begins right of `xedge` so that the row stores nothing. -/
def xcRowsClipped (ixleft ixright xedge : Int) (invslope : Rat) : Nat → Rat → Rat → Bool
  | 0, _, _ => true
  | n + 1, xmin, xmax =>
    (decide (swnvg__maxi (truncf xmin) ixleft ≤ swnvg__mini (truncf xmax) ixright) ||
      decide (xedge < swnvg__maxi (truncf xmin) ixleft)) &&
    xcRowsClipped ixleft ixright xedge invslope n (xmin + invslope) (xmax + invslope)

/-- The edge has, in every row that the accumulation pass of `swnvg__rasterizeXC`
visits for it in tile `r`, a non-empty clipped column range or no store at all
(the variables are those of `xcEdge`).  It fails for an edge whose part in a row
lies left of the call region while `xedge` reaches into the region: such a row
stores the remaining coverage into the first cell of the region. -/
def XCEdgeCovered (r : SWNVGthreadCtx) (call : SWNVGcall) (edge : SWNVGedge) : Prop :=
  let xb0 := swnvg__maxi call.bounds0 r.x0
  let yb0 := swnvg__maxi call.bounds1 r.y0
  let xb1 := swnvg__mini call.bounds2 r.x1
  let yb1 := swnvg__mini call.bounds3 r.y1
  let xedge := swnvg__mini edge.dir xb1
  let ymin := swnvg__minf edge.y0 edge.y1
  let ymax := swnvg__maxf edge.y0 edge.y1
  let iymin := swnvg__maxi (truncf ymin) yb0
  let iymax := swnvg__mini (truncf ymax) yb1
  let invslope := (edge.x1 - edge.x0) / (edge.y1 - edge.y0)
  let xtop := if edge.y0 > edge.y1 then edge.x1 else edge.x0
  let xt := ((iymin : Rat) - ymin) * invslope + xtop
  let xb := xt + invslope
  let xmin := swnvg__minf xt xb
  let xmax := swnvg__maxf xt xb
  let ixleft := swnvg__maxi (truncf (swnvg__minf edge.x0 edge.x1)) xb0
  let ixright := swnvg__mini (truncf (swnvg__maxf edge.x0 edge.x1)) xb1
  xcRowsClipped ixleft ixright xedge invslope (iymax - iymin + 1).toNat xmin xmax = true

instance instDecidableXCEdgeCovered (r : SWNVGthreadCtx) (call : SWNVGcall) (edge : SWNVGedge) :
    Decidable (XCEdgeCovered r call edge) := by
  unfold XCEdgeCovered
  exact inferInstance

/-- Every accumulator cell that is non-zero in `st` was non-zero in `c0` or lies,
in a row `iy >= ylo` of the region, between the row's limits `lims[0]` and
`min(lims[1], xb1)`. -/
def CovInv (W y0 ylo yb1 xb1 : Int) (c0 : Int → Rat) (covtex : Int → Rat) (lims : Int → Int) :
    Prop :=
  ∀ k, covtex k ≠ 0 → c0 k ≠ 0 ∨
    ∃ iy ix : Int, k = iy * W + ix ∧ ylo ≤ iy ∧ iy ≤ yb1 ∧
      lims (2 * (iy - y0)) ≤ ix ∧ ix ≤ lims (2 * (iy - y0) + 1) ∧ ix ≤ xb1

/-- The `lineLimits` in the state in which `nvgswSetFramebuffer` and the fill
pass leave them on a framebuffer of width `w`: `lims[0] = w`, `lims[1] = 0`
in every row. -/
def resetLimits (w : Int) : Int → Int := fun k => if k % 2 = 0 then w else 0

/-- The full 10x10 tile. -/
def xcTile : SWNVGthreadCtx := { zeroThread 0 with x1 := 9, y1 := 9 }

/-- A 10x10 context whose edge array holds the two vertical sides of the square
with corners `(3,3)` and `(7,7)` as `swnvg__addEdgeXC` stores them (`dir` is
the right bound 7 of the path). -/
def xcSquareGl : SWNVGcontext :=
  { sampleGl with edges := [⟨7, 3, 7, 7, 7⟩, ⟨3, 7, 3, 3, 7⟩], nedges := 2, cedges := 2 }

/-- A solid red call over the whole framebuffer with the two edges of
`xcSquareGl`. -/
def xcSquareCall : SWNVGcall :=
  { zeroCall with type := SWNVGpaintType.COLOR, flags := ⟨false, false, true, false⟩,
                  bounds2 := 9, bounds3 := 9, edgeCount := 2, innerCol := 4278190335 }

/-- A 10x10 context whose edge array holds one edge at `x = 1` from `y = 0` to
`y = 2` of a path with right bound 9. -/
def xcLeftGl : SWNVGcontext :=
  { sampleGl with edges := [⟨1, 0, 1, 2, 9⟩], nedges := 1, cedges := 1 }

/-- A solid red call scissored to the columns 5..9 with the edge of `xcLeftGl`. -/
def xcLeftCall : SWNVGcall :=
  { zeroCall with type := SWNVGpaintType.COLOR, flags := ⟨false, false, true, false⟩,
                  bounds0 := 5, bounds2 := 9, bounds3 := 9, edgeCount := 1,
                  innerCol := 4278190335 }

/-- A scissor rotated by a quarter turn (`xform[1] = 1`, `xform[2] = -1`) with
extent `(2, 3)` around `(5, 5)`. -/
def rotatedScissor : NVGscissor := ⟨⟨0, 1, -1, 0, 5, 5⟩, 2, 3⟩

/-- A 1x1 texture flagged premultiplied with an allocated pixel buffer. -/
def premulTex : SWNVGtexture :=
  { zeroTexture with width := 1, height := 1, premultiplied := true, dataSet := true }

/-- A 2x2 texture with the texels 1, 2, 3, 4. -/
def tex2x2 : SWNVGtexture :=
  { zeroTexture with width := 2, height := 2, dataSet := true,
                     texels := fun k => if 0 ≤ k ∧ k < 4 then (k + 1).toNat else 99 }
/-- No two slots in use have the same id. -/
def UniqueIds (l : List SWNVGtexture) : Prop :=
  ∀ (i j : Nat) (a b : SWNVGtexture), l[i]? = some a → l[j]? = some b → a.id = b.id →
    a.id ≠ 0 → i = j

/-- The store after creating a 2x3 alpha texture (id 1) and then a 4x5 alpha
texture (id 2), both without data, in a new context. -/
def storeTwo : Option (SWNVGcontext × Int) :=
  storeOne.bind (fun o =>
    swnvg__renderCreateTexture sampleTypes o.1 true true 1 4 5 ⟨false, false, false⟩ none)
/-- The store after creating, on the 10x10 context with byte order R,G,B,A, a
1x2 RGBA texture from the pixels `0xFF000001` (row 0) and `0xFF000002`
(row 1). -/
def rgbaStore : Option (SWNVGcontext × Int) :=
  swnvg__renderCreateTexture sampleTypes sampleGl true true 2 1 2 ⟨false, false, false⟩
    (some ⟨fun k => if k = 0 then 4278190081 else 4278190082, fun _ => 0⟩)

/-- The store `rgbaStore` after an update of row 0 only (`y = 0`, `h = 1`) with
the data `0xFF000011` (row 0) and `0xFF000022` (row 1). -/
def rgbaUpdated : Option (SWNVGcontext × Int) :=
  rgbaStore.bind (fun o =>
    swnvg__renderUpdateTexture sampleTypes o.1 o.2 0 0 1 1
      (some ⟨fun k => if k = 0 then 4278190097 else 4278190114, fun _ => 0⟩))

/-- A context whose store holds one 2x3 alpha texture with id 1 and texels
`10 + k`. -/
def alphaGl : SWNVGcontext :=
  { sampleGl with
    textures := [{ zeroTexture with id := 1, width := 2, height := 3, type := 1, dataSet := true,
                                    texels := fun k => (10 + k).toNat }],
    ctextures := 4, textureId := 1 }

/-- An active list with the `x` values 5000, 3000, 4000 (not sorted). -/
def unsortedActive : List SWNVGactiveEdge :=
  [{ x := 5000, dx := 0, ey := 100, dir := 1 }, { x := 3000, dx := 0, ey := 100, dir := -1 },
   { x := 4000, dx := 0, ey := 100, dir := 1 }]

/-- Part of pixel column `c`, in 1/1024 units, that lies to the left of the
fixed-point abscissa `M`: `0` when `M` is left of the pixel, `1024` when it is
right of it. -/
def coveredLeft (c M : Int) : Int := max 0 (min 1024 (M - c * 1024))

/-- Invariant of the loop of `swnvg__fillActiveEdges` on a list sorted by `x`,
for the coverage byte `k`: the byte is the initial byte plus a total `T` modulo
256, and `T` is at most 51/1024 times the part of the pixel left of the last
span end (`lo` bounds the `x` of the nodes seen so far; while a span is open it
started at `st.x0`). -/
def PassInv (left : Int) (s0 : Int → Nat) (k : Int) (st : FillState) (lo T : Int) : Prop :=
  0 ≤ T ∧ T * 1024 ≤ 51 * coveredLeft (k + left) (if st.w = 0 then lo else st.x0) ∧
  (st.scanline k : Int) = ((s0 k : Int) + T) % 256 ∧ (st.w ≠ 0 → st.x0 ≤ lo)

/-- An active list with one span: a node at `x = 2*1024 + 256` with `dir = 1`
and a node at `x = 5*1024 + 512` with `dir = -1`. -/
def oneSpan : List SWNVGactiveEdge :=
  [{ x := 2304, dx := 0, ey := 100, dir := 1 }, { x := 5632, dx := 0, ey := 100, dir := -1 }]

/-- What an active node keeps of its edge for as long as it lives: the end `ey`,
the winding `dir` and the step `dx` (only `x` changes from one sub-scanline to
the next). -/
def nodeKey (z : SWNVGactiveEdge) : Rat × Int × Int := (z.ey, z.dir, z.dx)

/-- The same three values for the node that `swnvg__rasterizeSortedEdges`
creates for the edge `ed`: `swnvg__addActive` sets `ey = y1`, `dir` and `dx` (a
function of the edge alone), and with `NVG_PATH_NO_AA` the step is multiplied by
`SWNVG__SUBSAMPLES`. -/
def edgeKey (noAA : Bool) (ed : SWNVGedge) : Rat × Int × Int :=
  ((swnvg__addActive ed 0).ey, (swnvg__addActive ed 0).dir,
    if noAA then (swnvg__addActive ed 0).dx * SWNVG__SUBSAMPLES else (swnvg__addActive ed 0).dx)

/-- Invariant of the active list and the edge cursor `e` of
`swnvg__rasterizeSortedEdges`, for the edge slice `slice` that starts at index
`off`, after the sub-scanline centre `t`: the edges before the cursor start at
or before `t`, and the nodes of the list are those of the edges before the
cursor that end after `t`, each once. -/
def ActiveInv (slice : List SWNVGedge) (off : Nat) (noAA : Bool) (t : Rat)
    (active : List SWNVGactiveEdge) (e : Nat) : Prop :=
  off ≤ e ∧ (∀ ed ∈ slice.take (e - off), ed.y0 ≤ t) ∧
  (active.map nodeKey).Perm
    (((slice.take (e - off)).filter (fun ed => decide (t < ed.y1))).map (edgeKey noAA))

/-- Centre of sub-scanline `s` of row `y`:
`(float)(y*SWNVG__SUBSAMPLES + s) + 0.5f`. -/
def scanCentre (y : Int) (s : Nat) : Rat := ((y * SWNVG__SUBSAMPLES + s : Int) : Rat) + 1 / 2

/-- A scissor rectangle `[50, 60] x [0, 10]`, to the right of the 10x10
framebuffer. -/
def offScissor : NVGscissor := ⟨⟨1, 0, 0, 1, 55, 5⟩, 5, 5⟩

/-- Body of the loop of `swnvg__sortEdges` for the call index `i`: the edge
slice of a call without the exact-coverage flag is sorted. -/
def sortCallAt (calls : List SWNVGcall) (edges : List SWNVGedge) (i : Nat) :
    Option (List SWNVGedge) :=
  match calls[i]? with
  | none => some edges
  | some call =>
    if call.flags.xc then some edges
    else swnvg__sortCallEdges edges call.edgeOffset call.edgeCount

/-- Loop header `for (i = r->threadnum; i < gl->ncalls; i += nthreads)` of
`swnvg__sortEdges`: the call indices that the loop visits from `i` on, in
order. -/
def sortVisits (ncalls nthreads : Nat) : Nat → Nat → List Nat
  | 0, _ => []
  | fuel + 1, i =>
    if i < ncalls then i :: sortVisits ncalls nthreads fuel (i + nthreads) else []

/-- The loop body run for a list of call indices, one after the other. -/
def sortCalls (calls : List SWNVGcall) : List Nat → List SWNVGedge → Option (List SWNVGedge)
  | [], edges => some edges
  | i :: rest, edges =>
    match sortCallAt calls edges i with
    | none => none
    | some e1 => sortCalls calls rest e1

/-- The edge array has length `L`, and the slice of every call without the
exact-coverage flag whose index satisfies `D` is sorted by `y0`. -/
def SortedCalls (calls : List SWNVGcall) (L : Nat) (edges : List SWNVGedge) (D : Nat → Prop) :
    Prop :=
  edges.length = L ∧
  ∀ k c, D k → calls[k]? = some c → c.flags.xc = false →
    SortedByY0 (edgeSlice edges c.edgeOffset c.edgeCount)

/-- A context on a 2x1 thread grid with the 16 edges of `sampleEdges` and
three recorded calls: slice `[1, 8)`, an exact-coverage call with slice
`[8, 10)`, and slice `[10, 15)`. -/
def sortGl : SWNVGcontext :=
  { withGrid sampleGl 2 1 with
    edges := sampleEdges, nedges := 16, cedges := 16,
    calls := [{ sampleCall with edgeOffset := 1, edgeCount := 7 },
              { sampleCall with edgeOffset := 8, edgeCount := 2,
                                flags := ⟨false, false, true, false⟩ },
              { sampleCall with edgeOffset := 10, edgeCount := 5 }] }

/-- The array `q` extends the array `p`: it is at least as long and has the
same element wherever `p` has one. -/
def Extends (p q : List SWNVGedge) : Prop :=
  p.length ≤ q.length ∧ ∀ (x : Nat) (e : SWNVGedge), p[x]? = some e → q[x]? = some e

/-- A gradient paint from opaque black to opaque white with extent `(5, 100)`,
feather `10` and the identity transform. -/
def gradPaint : NVGpaint :=
  ⟨⟨1, 0, 0, 1, 0, 0⟩, 5, 100, 0, 10, ⟨0, 0, 0, 255⟩, ⟨255, 255, 255, 255⟩, 0⟩

/-- The rectangle `[1/2, 2] x [3, 7]` as fill segments. -/
def thinRectSegs : List NVGvertex :=
  [⟨1 / 2, 3, 2, 3⟩, ⟨2, 3, 2, 7⟩, ⟨2, 7, 1 / 2, 7⟩, ⟨1 / 2, 7, 1 / 2, 3⟩]

/-- The rectangle `[3, 7] x [3, 13/2]` as fill segments. -/
def halfRowSegs : List NVGvertex :=
  [⟨3, 3, 7, 3⟩, ⟨7, 3, 7, 13 / 2⟩, ⟨7, 13 / 2, 3, 13 / 2⟩, ⟨3, 13 / 2, 3, 3⟩]

/-- Scenario: on a 10x10 all-zero framebuffer of a context created with
`NVGSW_PATHS_XC`, record a fill of the rectangle `[3, 7] x [3, 13/2]` with
`paint` (it is rendered by `swnvg__rasterizeXC`), then an even-odd fill of the
rectangle `[1/2, 2] x [3, 7]` in opaque red (it is rendered by
`swnvg__rasterizeSortedEdges`), then flush. -/
def mixedScenario (paint : NVGpaint) : Option SWNVGcontext :=
  let gl1 := nvgswSetFramebuffer (nvgswCreate true false) (fun _ => 0) 10 10 0 8 16 24
  let gl2 := swnvg__renderFill sampleEnv gl1 true paint noScissor
    ⟨false, false, false, false⟩ 3 3 7 (13 / 2) [⟨halfRowSegs, 3, 3, 7, 13 / 2⟩]
  let gl3 := swnvg__renderFill sampleEnv gl2 true redPaint noScissor
    ⟨true, false, false, false⟩ (1 / 2) 3 2 7 [⟨thinRectSegs, 1 / 2, 3, 2, 7⟩]
  swnvg__renderFlush sampleEnv gl3

/-- A 10x10 context whose edge array holds the two vertical sides of the
rectangle `[3, 7] x [3, 13/2]` as `swnvg__addEdgeXC` stores them. -/
def xcHalfRowGl : SWNVGcontext :=
  { sampleGl with edges := [⟨7, 3, 7, 13 / 2, 7⟩, ⟨3, 13 / 2, 3, 3, 7⟩], nedges := 2,
                  cedges := 2 }

/-- A gradient exact-coverage call over the whole framebuffer with the two edges
of `xcHalfRowGl`. -/
def xcGradCall : SWNVGcall :=
  { xcSquareCall with type := SWNVGpaintType.GRAD, innerCol := 0xFF000000,
                      outerCol := 0xFFFFFFFF, paintMat := ⟨1, 0, 0, 1, 0, 0⟩,
                      extent0 := 5, extent1 := 100, feather := 10 }

/-- A 10x10 context whose edge array holds the two vertical sides of the
rectangle `[3, 7] x [3, 7]` as `swnvg__addEdge` stores them. -/
def gradRectGl : SWNVGcontext :=
  { sampleGl with edges := [vEdge 3 (3 * 5) (7 * 5) (-1), vEdge 7 (3 * 5) (7 * 5) 1],
                  nedges := 2, cedges := 2 }

/-- The gradient of `xcGradCall` as a call for `swnvg__rasterizeSortedEdges`. -/
def gradRectCall : SWNVGcall := { xcGradCall with flags := ⟨false, false, false, false⟩ }

/-- What the gradient branch of `swnvg__scanlineSolid` does to a destination
pixel `d` with coverage `cover` when the paint is evaluated at `(x, y)`: the
blend of the interpolated colour. -/
def gradBlend (env : Env) (call : SWNVGcall) (cover : Nat) (x y : Int) (d : Pixel) : Pixel :=
  swnvg__blend8888 env d cover
    (gradientChannel (COLOR0 call.innerCol) (COLOR0 call.outerCol) (gradientD env call x y))
    (gradientChannel (COLOR1 call.innerCol) (COLOR1 call.outerCol) (gradientD env call x y))
    (gradientChannel (COLOR2 call.innerCol) (COLOR2 call.outerCol) (gradientD env call x y))
    (gradientChannel (COLOR3 call.innerCol) (COLOR3 call.outerCol) (gradientD env call x y))
    call.flags.srgb

/-- Sum `f lo + f (lo + 1) + ... + f (lo + n - 1)`: the running left-to-right
sum of the values of `f` over `n` columns from column `lo`. -/
def runningSum (f : Int → Rat) (lo : Int) : Nat → Rat
  | 0 => 0
  | n + 1 => runningSum f lo n + f (lo + n)

/-- The value `areaEdge2(...)` that the column loop of `swnvg__rasterizeXC`
computes for the edge in pixel `(ix, iy)`. -/
def xcArea (edge : SWNVGedge) (invslope : Rat) (iy ix : Int) : Rat :=
  areaEdge2 (edge.y0 - iy - 1 / 2) (edge.x0 - ix - 1 / 2) (edge.y1 - iy - 1 / 2)
    (edge.x1 - ix - 1 / 2) invslope

/-- Column on which the column loop of `swnvg__rasterizeXC` ends: `ixmax + 1`
after a non-empty loop, `ixmin` when the clipped range `[ixmin, ixmax]` is
empty (`ix` keeps its initial value). -/
def xcAfter (ixmin ixmax : Int) : Int := if ixmin ≤ ixmax then ixmax + 1 else ixmin

/-- Running coverage that the deltas of one edge in one row add up to, as a
function of the column `c`: nothing left of `ixmin`, the area `A c` in the
columns of the loop, and from the column after the loop the row coverage `H`
when that column is not right of `xedge` (the last area otherwise). -/
def rowRunning (A : Int → Rat) (ixmin ixmax xedge : Int) (H : Rat) (c : Int) : Rat :=
  if c < ixmin then 0
  else if c ≤ ixmax then A c
  else if xcAfter ixmin ixmax ≤ xedge then H
  else if ixmin ≤ ixmax then A ixmax else 0

/-- Delta that one edge leaves in column `c` of one row of a zero accumulator:
the area difference written by the column loop plus the closing delta written
at the column after the loop. -/
def rowDelta (A : Int → Rat) (ixmin ixmax xedge : Int) (H : Rat) (c : Int) : Rat :=
  (if ixmin ≤ c ∧ c ≤ ixmax then A c - (if c = ixmin then 0 else A (c - 1)) else 0) +
    (if xcAfter ixmin ixmax ≤ xedge ∧ c = xcAfter ixmin ixmax then
      H - (if ixmin ≤ ixmax then A ixmax else 0) else 0)

/-- Accumulator cell `iy*W + ix` of a pixel `(ix, iy)` with `xb0 <= ix <= xb1`
and `yb0 <= iy <= yb1`. -/
def XCCell (W xb0 xb1 yb0 yb1 : Int) (k : Int) : Prop :=
  ∃ ix iy : Int, xb0 ≤ ix ∧ ix ≤ xb1 ∧ yb0 ≤ iy ∧ iy ≤ yb1 ∧ k = iy * W + ix

/-- Index of `lims[0]` or `lims[1]`, in the `lineLimits` of a tile whose first
row is `y0`, of a row `iy` with `yb0 <= iy <= yb1`. -/
def XCLim (y0 yb0 yb1 : Int) (j : Int) : Prop :=
  ∃ iy : Int, yb0 ≤ iy ∧ iy ≤ yb1 ∧ (j = 2 * (iy - y0) ∨ j = 2 * (iy - y0) + 1)

/-- Two states of a pixel loop of the fill pass that differ at most in the
accumulator cells outside `C`. -/
def XCFillAgree (C : Int → Prop) (s t : XCFill) : Prop :=
  t.cover = s.cover ∧ t.icover = s.icover ∧ t.bitmap = s.bitmap ∧ t.scanline = s.scanline ∧
    ∀ k, C k → t.covtex k = s.covtex k

/-- The tile of the columns 0..4 of the 10x10 framebuffer (its left half). -/
def xcHalfTile : SWNVGthreadCtx := { zeroThread 0 with x1 := 4, y1 := 9 }

/-- A 2x2 texture with the same texels 1, 2, 3, 4 as `tex2x2` and opaque red in
the memory around them. -/
def tex2x2Alt : SWNVGtexture :=
  { tex2x2 with texels := fun k => if 0 ≤ k ∧ k < 4 then (k + 1).toNat else 4278190335 }

/-- An image call with identity paint transform and paint extent
`(2^-32, 2)`. -/
def tinyExtentCall : SWNVGcall :=
  { zeroCall with type := SWNVGpaintType.IMAGE, paintMat := ⟨1, 0, 0, 1, 0, 0⟩,
                  extent0 := 1 / 4294967296, extent1 := 2 }

/-- A closed stepped polygon as fill segments: from `(1, -7/8)` right to
`(3/2, -7/8)`, down to `(3/2, -1/2)`, right to `(2, -1/2)`, down to `(2, 3)`,
right to `(9, 3)`, down to `(9, 4)`, left to `(1, 4)` and back up to
`(1, -7/8)`.  The side from `(3/2, -7/8)` to `(3/2, -1/2)` lies above the
framebuffer, within one pixel of its top row. -/
def stepSegs : List NVGvertex :=
  [⟨1, -7 / 8, 3 / 2, -7 / 8⟩, ⟨3 / 2, -7 / 8, 3 / 2, -1 / 2⟩, ⟨3 / 2, -1 / 2, 2, -1 / 2⟩,
   ⟨2, -1 / 2, 2, 3⟩, ⟨2, 3, 9, 3⟩, ⟨9, 3, 9, 4⟩, ⟨9, 4, 1, 4⟩, ⟨1, 4, 1, -7 / 8⟩]

/-- The axis-aligned scissor rectangle `[5, 10] x [0, 10]`. -/
def rightScissor : NVGscissor := ⟨⟨1, 0, 0, 1, 15 / 2, 5⟩, 5 / 2, 5⟩

/-- The 10x10 exact-coverage context (one tile) after recording one red fill of
`stepSegs` under `rightScissor`. -/
def stepRecorded : SWNVGcontext :=
  swnvg__renderFill sampleEnv
    (nvgswSetFramebuffer (nvgswCreate true false) (fun _ => 0) 10 10 0 8 16 24) true redPaint
    rightScissor ⟨false, false, false, false⟩ 1 (-7 / 8) 9 4 [⟨stepSegs, 1, -7 / 8, 9, 4⟩]

/-- The call recorded in `stepRecorded`. -/
def stepCall : SWNVGcall := stepRecorded.calls.headD zeroCall

/-! ## Part II. Theorems -/

/-! ### Edge sorter -/

theorem cons_set_perm {α : Type} (x : α) :
    ∀ (xs : List α) (b : Nat) (eb : α), xs[b]? = some eb → (eb :: xs.set b x).Perm (x :: xs)
  | [], b, eb, h => by simp at h
  | y :: ys, 0, eb, h => by
    simp only [List.getElem?_cons_zero, Option.some.injEq] at h
    subst h
    simpa using List.Perm.swap x y ys
  | y :: ys, b + 1, eb, h => by
    simp only [List.getElem?_cons_succ] at h
    have ih := cons_set_perm x ys b eb h
    simp only [List.set_cons_succ]
    exact (List.Perm.swap y eb (ys.set b x)).trans ((ih.cons y).trans (List.Perm.swap x y ys))

theorem set_set_perm_lt {α : Type} :
    ∀ (l : List α) (a b : Nat) (ea eb : α), a < b → l[a]? = some ea → l[b]? = some eb →
      ((l.set a eb).set b ea).Perm l
  | [], a, b, ea, eb, _, h, _ => by simp at h
  | x :: xs, 0, 0, ea, eb, hab, _, _ => by omega
  | x :: xs, 0, b + 1, ea, eb, _, ha, hb => by
    simp only [List.getElem?_cons_zero, Option.some.injEq] at ha
    simp only [List.getElem?_cons_succ] at hb
    subst ha
    simpa using cons_set_perm x xs b eb hb
  | x :: xs, a + 1, 0, ea, eb, hab, _, _ => by omega
  | x :: xs, a + 1, b + 1, ea, eb, hab, ha, hb => by
    simp only [List.getElem?_cons_succ] at ha hb
    have ih := set_set_perm_lt xs a b ea eb (by omega) ha hb
    simpa using ih.cons x

theorem set_set_perm {α : Type} (l : List α) (a b : Nat) (ea eb : α)
    (ha : l[a]? = some ea) (hb : l[b]? = some eb) : ((l.set a eb).set b ea).Perm l := by
  rcases Nat.lt_trichotomy a b with h | h | h
  · exact set_set_perm_lt l a b ea eb h ha hb
  · subst h
    rw [ha] at hb
    cases hb
    have h1 : a < l.length := by
      rcases List.getElem?_eq_some.mp ha with ⟨h, _⟩
      exact h
    rw [List.set_set]
    have : l.set a ea = l := by
      apply List.ext_getElem?
      intro k
      rw [List.getElem?_set]
      split_ifs with h2
      · subst h2; exact ha.symm
      · rfl
    rw [this]
  · have := set_set_perm_lt l b a eb ea h hb ha
    rwa [List.set_comm _ _ _ (by omega)] at this

theorem compare_true_iff (a b : SWNVGedge) : SWNVG__COMPARE a b = true ↔ a.y0 < b.y0 := by
  simp [SWNVG__COMPARE]

theorem compare_false_iff (a b : SWNVGedge) : SWNVG__COMPARE a b = false ↔ b.y0 ≤ a.y0 := by
  simp [SWNVG__COMPARE]

theorem SliceRel.refl (off n : Nat) (p : List SWNVGedge) : SliceRel off n p p :=
  ⟨rfl, fun _ _ => rfl, List.Perm.refl _⟩

theorem SliceRel.trans {off n : Nat} {p q r : List SWNVGedge}
    (h1 : SliceRel off n p q) (h2 : SliceRel off n q r) : SliceRel off n p r :=
  ⟨h2.1.trans h1.1, fun k hk => (h2.2.1 k hk).trans (h1.2.1 k hk), h2.2.2.trans h1.2.2⟩

theorem SliceRel.mono {off n off1 n1 : Nat} {p q : List SWNVGedge}
    (h : SliceRel off1 n1 p q) (h1 : off ≤ off1) (h2 : off1 + n1 ≤ off + n) :
    SliceRel off n p q :=
  ⟨h.1, fun k hk => h.2.1 k (by omega), h.2.2⟩

theorem swapEdges_spec (p : List SWNVGedge) (off n a b : Nat)
    (ha1 : off ≤ a) (ha2 : a < off + n) (hb1 : off ≤ b) (hb2 : b < off + n)
    (hlen : off + n ≤ p.length) :
    ∃ q, swapEdges p a b = some q ∧ SliceRel off n p q ∧ q[a]? = p[b]? ∧ q[b]? = p[a]? ∧
      ∀ k, k ≠ a → k ≠ b → q[k]? = p[k]? := by
  have hal : a < p.length := by omega
  have hbl : b < p.length := by omega
  have hea : p[a]? = some p[a] := List.getElem?_eq_getElem hal
  have heb : p[b]? = some p[b] := List.getElem?_eq_getElem hbl
  refine ⟨(p.set a p[b]).set b p[a], ?_, ⟨?_, ?_, ?_⟩, ?_, ?_, ?_⟩
  · simp [swapEdges, hea, heb]
  · simp
  · intro k hk
    rw [List.getElem?_set, List.getElem?_set]
    have h1 : ¬ b = k := by omega
    have h2 : ¬ a = k := by omega
    simp [h1, h2]
  · exact set_set_perm p a b _ _ hea heb
  · rw [List.getElem?_set, List.getElem?_set]
    by_cases hab : b = a
    · subst hab; simp [hbl]
    · simp [hab, hal]
  · rw [List.getElem?_set]
    simp [hbl]
  · intro k hka hkb
    rw [List.getElem?_set, List.getElem?_set]
    have h1 : ¬ b = k := fun h => hkb h.symm
    have h2 : ¬ a = k := fun h => hka h.symm
    simp [h1, h2]

theorem scanUp_spec (p : List SWNVGedge) (off : Nat) (pv : SWNVGedge) (hpv : p[off]? = some pv) :
    ∀ (k i s : Nat), i ≤ s → s < k + i → off + s < p.length →
      (∃ es, p[off + s]? = some es ∧ SWNVG__COMPARE es pv = false) →
      ∃ i1 e1, scanUp p off k i = some i1 ∧ i ≤ i1 ∧ i1 ≤ s ∧
        p[off + i1]? = some e1 ∧ SWNVG__COMPARE e1 pv = false
  | 0, i, s, h1, h2, _, _ => by omega
  | k + 1, i, s, h1, h2, h3, ⟨es, hes, hc⟩ => by
    have hil : off + i < p.length := by omega
    have hei : p[off + i]? = some p[off + i] := List.getElem?_eq_getElem hil
    by_cases hcmp : SWNVG__COMPARE p[off + i] pv = true
    · have hne : i ≠ s := by
        intro h
        subst h
        rw [hei] at hes
        cases hes
        rw [hc] at hcmp
        exact Bool.false_ne_true hcmp
      obtain ⟨i1, e1, h4, h5, h6, h7, h8⟩ :=
        scanUp_spec p off pv hpv k (i + 1) s (by omega) (by omega) h3 ⟨es, hes, hc⟩
      refine ⟨i1, e1, ?_, by omega, h6, h7, h8⟩
      simp [scanUp, hei, hpv, hcmp, h4]
    · refine ⟨i, p[off + i], ?_, le_refl _, h1, hei, by simpa using hcmp⟩
      simp [scanUp, hei, hpv, hcmp]

theorem scanDown_spec (p : List SWNVGedge) (off : Nat) (pv : SWNVGedge) (hpv : p[off]? = some pv) :
    ∀ (j : Nat), off + j < p.length →
      ∃ j1 e1, scanDown p off j = some j1 ∧ j1 ≤ j ∧
        p[off + j1]? = some e1 ∧ SWNVG__COMPARE pv e1 = false
  | 0, _ => by
    refine ⟨0, pv, ?_, le_refl _, by simpa using hpv, by simp [SWNVG__COMPARE]⟩
    simp [scanDown, hpv, SWNVG__COMPARE]
  | j + 1, h => by
    have hej : p[off + (j + 1)]? = some p[off + (j + 1)] := List.getElem?_eq_getElem h
    by_cases hcmp : SWNVG__COMPARE pv p[off + (j + 1)] = true
    · obtain ⟨j1, e1, h4, h5, h6, h7⟩ := scanDown_spec p off pv hpv j (by omega)
      refine ⟨j1, e1, ?_, by omega, h6, h7⟩
      simp [scanDown, hej, hpv, hcmp, h4]
    · refine ⟨j + 1, p[off + (j + 1)], ?_, le_refl _, hej, by simpa using hcmp⟩
      simp [scanDown, hej, hpv, hcmp]

theorem partitionLoop_spec (off n : Nat) :
    ∀ (k : Nat) (p : List SWNVGedge) (i j : Nat), off + n ≤ p.length → 1 ≤ i → j < n → j < k →
      (∃ s es pv, i ≤ s ∧ s < n ∧ p[off + s]? = some es ∧ p[off]? = some pv ∧
        SWNVG__COMPARE es pv = false) →
      ∃ q i1 j1, partitionLoop off k p i j = some (q, i1, j1) ∧ SliceRel off n p q ∧
        i ≤ i1 ∧ i1 < n ∧ j1 ≤ j
  | 0, p, i, j, _, _, _, hk, _ => by omega
  | k + 1, p, i, j, hlen, hi, hj, hk, ⟨s, es, pv, hs1, hs2, hes, hpv, hc⟩ => by
    obtain ⟨i1, e1, hu1, hu2, hu3, hu4, hu5⟩ :=
      scanUp_spec p off pv hpv p.length i s hs1 (by omega) (by omega) ⟨es, hes, hc⟩
    obtain ⟨j1, f1, hd1, hd2, hd3, hd4⟩ := scanDown_spec p off pv hpv j (by omega)
    by_cases hij : i1 ≥ j1
    · refine ⟨p, i1, j1, ?_, SliceRel.refl _ _ _, hu2, by omega, hd2⟩
      simp [partitionLoop, hu1, hd1, hij]
    · obtain ⟨q, hq1, hq2, hq3, hq4, hq5⟩ :=
        swapEdges_spec p off n (off + i1) (off + j1) (by omega) (by omega) (by omega)
          (by omega) hlen
      have hqpv : q[off]? = some pv := by
        rw [hq5 off (by omega) (by omega)]; exact hpv
      obtain ⟨r, i2, j2, hr1, hr2, hr3, hr4, hr5⟩ :=
        partitionLoop_spec off n k q (i1 + 1) (j1 - 1) (by rw [hq2.1]; exact hlen) (by omega)
          (by omega) (by omega)
          ⟨j1, e1, pv, by omega, by omega, by rw [hq4]; exact hu4, hqpv, hu5⟩
      refine ⟨r, i2, j2, ?_, hq2.trans hr2, by omega, hr4, by omega⟩
      simp [partitionLoop, hu1, hd1, hij, hq1, hr1]

theorem compare_asymm (a b : SWNVGedge) (h : SWNVG__COMPARE a b = true) :
    SWNVG__COMPARE b a = false := by
  rw [compare_true_iff] at h
  rw [compare_false_iff]
  exact le_of_lt h

theorem median_finish (p p1 : List SWNVGedge) (off n : Nat) (hn : 3 ≤ n)
    (hlen : off + n ≤ p.length) (hrel : SliceRel off n p p1) (a0 am an : SWNVGedge)
    (h0 : p1[off]? = some a0) (hm : p1[off + n / 2]? = some am)
    (hl : p1[off + (n - 1)]? = some an)
    (hs : SWNVG__COMPARE a0 am = false ∨ SWNVG__COMPARE an am = false) :
    ∃ q, swapEdges p1 off (off + n / 2) = some q ∧ SliceRel off n p q ∧
      ∃ s es pv, 1 ≤ s ∧ s < n ∧ q[off + s]? = some es ∧ q[off]? = some pv ∧
        SWNVG__COMPARE es pv = false := by
  obtain ⟨q, hq1, hq2, hq3, hq4, hq5⟩ :=
    swapEdges_spec p1 off n off (off + n / 2) (le_refl _) (by omega) (by omega) (by omega)
      (by rw [hrel.1]; exact hlen)
  refine ⟨q, hq1, hrel.trans hq2, ?_⟩
  have e0 : q[off]? = some am := by rw [hq3]; exact hm
  have em : q[off + n / 2]? = some a0 := by rw [hq4]; exact h0
  have el : q[off + (n - 1)]? = some an := by
    rw [hq5 _ (by omega) (by omega)]; exact hl
  rcases hs with hs | hs
  · exact ⟨n / 2, a0, am, by omega, by omega, em, e0, hs⟩
  · exact ⟨n - 1, an, am, by omega, by omega, el, e0, hs⟩

theorem median_swap_finish (p : List SWNVGedge) (off n z : Nat) (hn : 3 ≤ n)
    (hlen : off + n ≤ p.length) (hz : z = 0 ∨ z = n - 1) (e0 em en : SWNVGedge)
    (h0 : p[off]? = some e0) (hm : p[off + n / 2]? = some em)
    (hl : p[off + (n - 1)]? = some en)
    (hs0 : z = 0 → SWNVG__COMPARE em e0 = false ∨ SWNVG__COMPARE en e0 = false)
    (hs1 : z = n - 1 → SWNVG__COMPARE e0 en = false ∨ SWNVG__COMPARE em en = false) :
    ∃ q, (match swapEdges p (off + z) (off + n / 2) with
          | none => none
          | some p1 => swapEdges p1 off (off + n / 2)) = some q ∧ SliceRel off n p q ∧
      ∃ s es pv, 1 ≤ s ∧ s < n ∧ q[off + s]? = some es ∧ q[off]? = some pv ∧
        SWNVG__COMPARE es pv = false := by
  obtain ⟨p1, hq1, hq2, hq3, hq4, hq5⟩ :=
    swapEdges_spec p off n (off + z) (off + n / 2) (by omega) (by omega) (by omega)
      (by omega) hlen
  rw [hq1]
  rcases hz with hz | hz
  · subst hz
    have a0 : p1[off]? = some em := by
      have := hq3; simp only [Nat.add_zero] at this; rw [this]; exact hm
    have am : p1[off + n / 2]? = some e0 := by
      rw [hq4]; simpa using h0
    have an : p1[off + (n - 1)]? = some en := by
      rw [hq5 _ (by omega) (by omega)]; exact hl
    exact median_finish p p1 off n hn hlen hq2 em e0 en a0 am an (hs0 rfl)
  · subst hz
    have a0 : p1[off]? = some e0 := by
      rw [hq5 _ (by omega) (by omega)]; exact h0
    have am : p1[off + n / 2]? = some en := by
      rw [hq4]; exact hl
    have an : p1[off + (n - 1)]? = some em := by
      rw [hq3]; exact hm
    exact median_finish p p1 off n hn hlen hq2 e0 en em a0 am an (hs1 rfl)

theorem medianOfThree_spec (p : List SWNVGedge) (off n : Nat) (hn : 3 ≤ n)
    (hlen : off + n ≤ p.length) :
    ∃ q, medianOfThree p off n = some q ∧ SliceRel off n p q ∧
      ∃ s es pv, 1 ≤ s ∧ s < n ∧ q[off + s]? = some es ∧ q[off]? = some pv ∧
        SWNVG__COMPARE es pv = false := by
  obtain ⟨e0, h0⟩ : ∃ e, p[off]? = some e :=
    ⟨_, List.getElem?_eq_getElem (by omega)⟩
  obtain ⟨em, hm⟩ : ∃ e, p[off + n / 2]? = some e :=
    ⟨_, List.getElem?_eq_getElem (by omega)⟩
  obtain ⟨en, hl⟩ : ∃ e, p[off + (n - 1)]? = some e :=
    ⟨_, List.getElem?_eq_getElem (by omega)⟩
  unfold medianOfThree
  simp only [h0, hm, hl]
  cases h01 : SWNVG__COMPARE e0 em <;> cases h12 : SWNVG__COMPARE em en <;>
    cases hc : SWNVG__COMPARE e0 en
  · exact median_finish p p off n hn hlen (SliceRel.refl _ _ _) e0 em en h0 hm hl (Or.inl h01)
  · exact median_finish p p off n hn hlen (SliceRel.refl _ _ _) e0 em en h0 hm hl (Or.inl h01)
  · exact median_swap_finish p off n (n - 1) hn hlen (Or.inr rfl) e0 em en h0 hm hl
      (fun h => by omega) (fun _ => Or.inl hc)
  · exact median_swap_finish p off n 0 hn hlen (Or.inl rfl) e0 em en h0 hm hl
      (fun _ => Or.inr (compare_asymm _ _ hc)) (fun h => by omega)
  · exact median_swap_finish p off n 0 hn hlen (Or.inl rfl) e0 em en h0 hm hl
      (fun _ => Or.inl (compare_asymm _ _ h01)) (fun h => by omega)
  · exact median_swap_finish p off n (n - 1) hn hlen (Or.inr rfl) e0 em en h0 hm hl
      (fun h => by omega) (fun _ => Or.inr h12)
  · exact median_finish p p off n hn hlen (SliceRel.refl _ _ _) e0 em en h0 hm hl
      (Or.inr (compare_asymm _ _ h12))
  · exact median_finish p p off n hn hlen (SliceRel.refl _ _ _) e0 em en h0 hm hl
      (Or.inr (compare_asymm _ _ h12))

theorem partitionEdges_spec (p : List SWNVGedge) (off n : Nat) (hn : 3 ≤ n)
    (hlen : off + n ≤ p.length) :
    ∃ q i j, partitionEdges p off n = some (q, i, j) ∧ SliceRel off n p q ∧
      1 ≤ i ∧ i < n ∧ j < n := by
  obtain ⟨p1, h1, h2, h3⟩ := medianOfThree_spec p off n hn hlen
  obtain ⟨q, i, j, h4, h5, h6, h7, h8⟩ :=
    partitionLoop_spec off n n p1 1 (n - 1) (by rw [h2.1]; exact hlen) (le_refl _)
      (by omega) (by omega) h3
  refine ⟨q, i, j, ?_, h2.trans h5, h6, h7, by omega⟩
  simp [partitionEdges, h1, h4]

theorem quickSortEdges_spec :
    ∀ (fuel : Nat) (p : List SWNVGedge) (off n : Nat), n < fuel → off + n ≤ p.length →
      ∃ q, swnvg__quickSortEdges fuel p off n = some q ∧ SliceRel off n p q
  | 0, _, _, _, h, _ => by omega
  | fuel + 1, p, off, n, hf, hlen => by
    by_cases hn : n > 12
    · obtain ⟨p1, i, j, h1, h2, h3, h4, h5⟩ := partitionEdges_spec p off n (by omega) hlen
      have hl1 : off + n ≤ p1.length := by rw [h2.1]; exact hlen
      by_cases hji : j < n - i
      · obtain ⟨p2, h6, h7⟩ := quickSortEdges_spec fuel p1 off j (by omega) (by omega)
        obtain ⟨p3, h8, h9⟩ :=
          quickSortEdges_spec fuel p2 (off + i) (n - i) (by omega) (by rw [h7.1]; omega)
        refine ⟨p3, ?_, h2.trans ((h7.mono (le_refl _) (by omega)).trans
          (h9.mono (by omega) (by omega)))⟩
        simp [swnvg__quickSortEdges, hn, h1, hji, h6, h8]
      · obtain ⟨p2, h6, h7⟩ :=
          quickSortEdges_spec fuel p1 (off + i) (n - i) (by omega) (by omega)
        obtain ⟨p3, h8, h9⟩ :=
          quickSortEdges_spec fuel p2 off j (by omega) (by rw [h7.1]; omega)
        refine ⟨p3, ?_, h2.trans ((h7.mono (by omega) (by omega)).trans
          (h9.mono (le_refl _) (by omega)))⟩
        simp [swnvg__quickSortEdges, hn, h1, hji, h6, h8]
    · exact ⟨p, by simp [swnvg__quickSortEdges, hn], SliceRel.refl _ _ _⟩

/-! Insertion sort: the array is `pre ++ S ++ rest` with `S` the part of the
slice handled so far. -/

theorem insSortInner_spec (off : Nat) (t : SWNVGedge) (pre rest : List SWNVGedge)
    (hpre : pre.length = off) :
    ∀ (n : Nat) (S1 : List SWNVGedge) (d : SWNVGedge) (S2 : List SWNVGedge), S1.length = n →
      ∃ A B d1, S1 = A ++ B ∧ (∀ b ∈ B, t.y0 < b.y0) ∧
        (∀ a, A.getLast? = some a → a.y0 ≤ t.y0) ∧ (B = [] → d1 = d) ∧
        insSortInner off t n (pre ++ (S1 ++ d :: (S2 ++ rest))) =
          some (pre ++ (A ++ d1 :: (B ++ (S2 ++ rest))), A.length)
  | 0, S1, d, S2, h => by
    have : S1 = [] := List.length_eq_zero.mp h
    subst this
    exact ⟨[], [], d, rfl, by simp, by simp, fun _ => rfl, by simp [insSortInner]⟩
  | n + 1, S1, d, S2, h => by
    obtain ⟨S0, b, rfl⟩ : ∃ S0 b, S1 = S0 ++ [b] := by
      rcases List.eq_nil_or_concat S1 with h1 | ⟨S0, b, h1⟩
      · subst h1; simp at h
      · exact ⟨S0, b, by simpa using h1⟩
    have hS0 : S0.length = n := by simpa using h
    have hget : (pre ++ (S0 ++ [b] ++ d :: (S2 ++ rest)))[off + n]? = some b := by
      rw [List.getElem?_append_right (by omega)]
      have h1 : off + n - pre.length = S0.length := by omega
      rw [h1, List.append_assoc, List.getElem?_append_right (le_refl _)]
      simp
    by_cases hcmp : SWNVG__COMPARE t b = true
    · obtain ⟨A, B, d1, h1, h2, h3, h4, h5⟩ :=
        insSortInner_spec off t pre rest hpre n S0 b (b :: S2) hS0
      have hset : (pre ++ (S0 ++ [b] ++ d :: (S2 ++ rest))).set (off + (n + 1)) b =
          pre ++ (S0 ++ b :: (b :: S2 ++ rest)) := by
        rw [List.set_append]
        have : ¬ off + (n + 1) < pre.length := by omega
        simp only [this, if_false]
        congr 1
        rw [List.append_assoc, List.set_append]
        have : ¬ off + (n + 1) - pre.length < S0.length := by omega
        simp only [this, if_false]
        have : off + (n + 1) - pre.length - S0.length = 1 := by omega
        simp [this]
      have hlen : off + (n + 1) < (pre ++ (S0 ++ [b] ++ d :: (S2 ++ rest))).length := by
        simp; omega
      refine ⟨A, B ++ [b], d1, ?_, ?_, h3, ?_, ?_⟩
      · rw [h1]; simp
      · intro x hx
        rcases List.mem_append.mp hx with hx | hx
        · exact h2 x hx
        · simp only [List.mem_singleton] at hx
          subst hx
          exact (compare_true_iff _ _).mp hcmp
      · intro hB; simp at hB
      · rw [insSortInner, hget]
        simp only [hcmp, if_true, hlen, hset]
        rw [h5]
        simp
    · refine ⟨S0 ++ [b], [], d, by simp, by simp, ?_, fun _ => rfl, ?_⟩
      · intro a ha
        simp at ha
        subst ha
        exact (compare_false_iff _ _).mp (by simpa using hcmp)
      · rw [insSortInner, hget]
        simp [hcmp, hS0]

theorem pairwise_le_getLast (A : List SWNVGedge) (hA : SortedByY0 A) (l : SWNVGedge)
    (hl : A.getLast? = some l) : ∀ a ∈ A, a.y0 ≤ l.y0 := by
  rcases List.eq_nil_or_concat A with h1 | ⟨A0, b, h1⟩
  · subst h1; simp
  · have h2 : A = A0 ++ [b] := by simpa using h1
    subst h2
    simp at hl
    subst hl
    intro a ha
    rcases List.mem_append.mp ha with ha | ha
    · exact (List.pairwise_append.mp hA).2.2 a ha b (by simp)
    · simp only [List.mem_singleton] at ha
      subst ha
      exact le_refl _

theorem insSortStep_spec (off : Nat) (pre rest S : List SWNVGedge) (t : SWNVGedge)
    (hpre : pre.length = off) (hS : SortedByY0 S) :
    ∃ S1, insSortStep off S.length (pre ++ (S ++ t :: rest)) = some (pre ++ (S1 ++ rest)) ∧
      SortedByY0 S1 ∧ S1.Perm (S ++ [t]) := by
  obtain ⟨A, B, d1, h1, h2, h3, h4, h5⟩ :=
    insSortInner_spec off t pre rest hpre S.length S t [] rfl
  simp only [List.nil_append] at h5
  have hget : (pre ++ (S ++ t :: rest))[off + S.length]? = some t := by
    rw [List.getElem?_append_right (by omega)]
    have h6 : off + S.length - pre.length = S.length := by omega
    rw [h6, List.getElem?_append_right (le_refl _)]
    simp
  refine ⟨A ++ t :: B, ?_, ?_, ?_⟩
  · rw [insSortStep, hget]
    simp only [h5]
    by_cases hj : S.length = A.length
    · have hB : B = [] := by
        have : S.length = A.length + B.length := by rw [h1]; simp
        exact List.length_eq_zero.mp (by omega)
      have hd : d1 = t := h4 hB
      subst hB
      subst hd
      simp [hj]
    · simp only [ne_eq, hj, not_false_eq_true, if_true]
      congr 1
      rw [List.set_append]
      have h6 : ¬ off + A.length < pre.length := by omega
      simp only [h6, if_false]
      have h7 : off + A.length - pre.length = A.length := by omega
      rw [h7, List.set_append]
      simp
  · subst h1
    unfold SortedByY0 at hS ⊢
    obtain ⟨hA, hB, hAB⟩ := List.pairwise_append.mp hS
    refine List.pairwise_append.mpr ⟨hA, List.pairwise_cons.mpr ⟨fun b hb => le_of_lt (h2 b hb), hB⟩, ?_⟩
    intro a ha x hx
    rcases List.mem_cons.mp hx with hx | hx
    · subst hx
      cases hl : A.getLast? with
      | none => simp [List.getLast?_eq_none_iff] at hl; subst hl; simp at ha
      | some l => exact le_trans (pairwise_le_getLast A hA l hl a ha) (h3 l hl)
    · exact hAB a ha x hx
  · subst h1
    simp only [List.append_assoc]
    exact List.Perm.append_left A (List.perm_append_singleton t B).symm

theorem insSortFrom_spec (off : Nat) (pre rest : List SWNVGedge) (hpre : pre.length = off) :
    ∀ (T S : List SWNVGedge), SortedByY0 S →
      ∃ S1, insSortFrom off T.length S.length (pre ++ (S ++ (T ++ rest))) =
          some (pre ++ (S1 ++ rest)) ∧ SortedByY0 S1 ∧ S1.Perm (S ++ T)
  | [], S, hS => ⟨S, by simp [insSortFrom], hS, by simp⟩
  | t :: T, S, hS => by
    obtain ⟨S1, h1, h2, h3⟩ := insSortStep_spec off pre (T ++ rest) S t hpre hS
    obtain ⟨S2, h4, h5, h6⟩ := insSortFrom_spec off pre rest hpre T S1 h2
    have hl : S1.length = S.length + 1 := by simpa using h3.length_eq
    refine ⟨S2, ?_, h5, ?_⟩
    · simp only [List.length_cons, insSortFrom, List.cons_append, h1]
      rw [← hl]
      exact h4
    · refine h6.trans ?_
      have := h3.append_right T
      simpa using this

theorem list_split3 (l : List SWNVGedge) (off n : Nat) :
    l = l.take off ++ (edgeSlice l off n ++ l.drop (off + n)) := by
  unfold edgeSlice
  have h1 : (l.drop off).take n ++ l.drop (off + n) = l.drop off := by
    have := List.take_append_drop n (l.drop off)
    rw [List.drop_drop] at this
    rw [Nat.add_comm off n]
    first | exact this | (rw [Nat.add_comm] at this; exact this)
  rw [h1, List.take_append_drop]

theorem edgeSlice_length (l : List SWNVGedge) (off n : Nat) (hlen : off + n ≤ l.length) :
    (edgeSlice l off n).length = n := by
  simp [edgeSlice]; omega

theorem edgeSlice_append (pre S rest : List SWNVGedge) :
    edgeSlice (pre ++ (S ++ rest)) pre.length S.length = S := by
  simp [edgeSlice]

theorem insSortEdges_spec (edges : List SWNVGedge) (off n : Nat) (hlen : off + n ≤ edges.length) :
    ∃ q, swnvg__insSortEdges edges off n = some q ∧ SliceRel off n edges q ∧
      SortedByY0 (edgeSlice q off n) := by
  have hsplit := list_split3 edges off n
  have hpre : (edges.take off).length = off := by simp; omega
  have hsl := edgeSlice_length edges off n hlen
  generalize edges.take off = pre at hsplit hpre
  generalize edges.drop (off + n) = rest at hsplit
  generalize edgeSlice edges off n = S at hsplit hsl
  subst hsplit
  have key : ∃ S1, swnvg__insSortEdges (pre ++ (S ++ rest)) off n = some (pre ++ (S1 ++ rest)) ∧
      SortedByY0 S1 ∧ S1.Perm S := by
    cases S with
    | nil =>
      simp only [List.length_nil] at hsl
      subst hsl
      exact ⟨[], by simp [swnvg__insSortEdges, insSortFrom], List.Pairwise.nil, List.Perm.refl _⟩
    | cons s0 T =>
      obtain ⟨S1, h1, h2, h3⟩ :=
        insSortFrom_spec off pre rest hpre T [s0] (List.pairwise_singleton _ _)
      have hT : T.length = n - 1 := by simp at hsl; omega
      refine ⟨S1, ?_, h2, by simpa using h3⟩
      unfold swnvg__insSortEdges
      rw [← hT]
      simpa using h1
  obtain ⟨S1, h1, h2, h3⟩ := key
  have hl1 : S1.length = n := by rw [h3.length_eq]; exact hsl
  refine ⟨_, h1, ⟨?_, ?_, ?_⟩, ?_⟩
  · simp [hl1, hsl]
  · intro k hk
    rcases hk with hk | hk
    · rw [List.getElem?_append_left (by omega), List.getElem?_append_left (by omega)]
    · rw [List.getElem?_append_right (by omega), List.getElem?_append_right (by omega),
        List.getElem?_append_right (by omega), List.getElem?_append_right (by omega), hl1, hsl]
  · exact List.Perm.append_left pre (List.Perm.append_right rest h3)
  · have := edgeSlice_append pre S1 rest
    rw [hpre, hl1] at this
    rw [this]
    exact h2

theorem SliceRel.slice_perm {off n : Nat} {p q : List SWNVGedge} (h : SliceRel off n p q) :
    (edgeSlice q off n).Perm (edgeSlice p off n) := by
  have hp := list_split3 p off n
  have hq := list_split3 q off n
  have h1 : q.take off = p.take off := by
    apply List.ext_getElem?
    intro k
    rw [List.getElem?_take, List.getElem?_take]
    split_ifs with hk
    · exact h.2.1 k (Or.inl hk)
    · rfl
  have h2 : q.drop (off + n) = p.drop (off + n) := by
    apply List.ext_getElem?
    intro k
    rw [List.getElem?_drop, List.getElem?_drop]
    exact h.2.1 _ (Or.inr (by omega))
  have h3 := h.2.2
  rw [hp, hq, h1, h2] at h3
  exact (List.perm_append_right_iff _).mp ((List.perm_append_left_iff _).mp h3)

theorem sortCallEdges_spec (edges : List SWNVGedge) (off n : Nat)
    (hlen : off + n ≤ edges.length) :
    ∃ q, swnvg__sortCallEdges edges off n = some q ∧ SliceRel off n edges q ∧
      SortedByY0 (edgeSlice q off n) := by
  obtain ⟨p1, h1, h2⟩ := quickSortEdges_spec (n + 1) edges off n (by omega) hlen
  obtain ⟨q, h3, h4, h5⟩ := insSortEdges_spec p1 off n (by rw [h2.1]; exact hlen)
  exact ⟨q, by simp [swnvg__sortCallEdges, h1, h3], h2.trans h4, h5⟩

theorem edgeSlice_getElem? (l : List SWNVGedge) (off n k : Nat) (hk : k < n) :
    (edgeSlice l off n)[k]? = l[off + k]? := by
  simp [edgeSlice, List.getElem?_take, hk, List.getElem?_drop]

/-- C1: after `swnvg__sortCallEdges(p, n)` on a slice that lies inside the edge
array, the call returns and the slice is in ascending top-Y order:
`p[k].y0 <= p[k+1].y0` for every `0 <= k < n-1`. -/
theorem sortCallEdges_ascending (edges : List SWNVGedge) (off n : Nat)
    (hlen : off + n ≤ edges.length) :
    ∃ q, swnvg__sortCallEdges edges off n = some q ∧ q.length = edges.length ∧
      ∀ k, k + 1 < n →
        ∃ a b, q[off + k]? = some a ∧ q[off + (k + 1)]? = some b ∧ a.y0 ≤ b.y0 := by
  obtain ⟨q, h1, h2, h3⟩ := sortCallEdges_spec edges off n hlen
  refine ⟨q, h1, h2.1, ?_⟩
  intro k hk
  have hq : off + n ≤ q.length := by rw [h2.1]; exact hlen
  have hsl := edgeSlice_length q off n hq
  have ha : k < (edgeSlice q off n).length := by omega
  have hb : k + 1 < (edgeSlice q off n).length := by omega
  refine ⟨(edgeSlice q off n)[k], (edgeSlice q off n)[k + 1], ?_, ?_, ?_⟩
  · rw [← edgeSlice_getElem? q off n k (by omega)]
    exact List.getElem?_eq_getElem ha
  · rw [← edgeSlice_getElem? q off n (k + 1) (by omega)]
    exact List.getElem?_eq_getElem hb
  · exact List.pairwise_iff_getElem.mp h3 k (k + 1) ha hb (by omega)

/-- Witness for C1: the 14-edge slice `[1, 15)` of `sampleEdges`. -/
theorem sortCallEdges_ascending_witness :
    1 + 14 ≤ sampleEdges.length ∧
    ∃ q, swnvg__sortCallEdges sampleEdges 1 14 = some q ∧ q.length = sampleEdges.length ∧
      ∀ k, k + 1 < 14 →
        ∃ a b, q[1 + k]? = some a ∧ q[1 + (k + 1)]? = some b ∧ a.y0 ≤ b.y0 :=
  ⟨by decide, sortCallEdges_ascending sampleEdges 1 14 (by decide)⟩

/-- C2: `swnvg__sortCallEdges(p, n)` only permutes the slice: the multiset of
edge records in `p[0..n)` is the same before and after, the array keeps its
length, and every element outside `p[0..n)` is unchanged. -/
theorem sortCallEdges_permutes (edges : List SWNVGedge) (off n : Nat)
    (hlen : off + n ≤ edges.length) :
    ∃ q, swnvg__sortCallEdges edges off n = some q ∧
      (edgeSlice q off n).Perm (edgeSlice edges off n) ∧ q.length = edges.length ∧
      ∀ k, k < off ∨ off + n ≤ k → q[k]? = edges[k]? := by
  obtain ⟨q, h1, h2, _⟩ := sortCallEdges_spec edges off n hlen
  exact ⟨q, h1, h2.slice_perm, h2.1, h2.2.1⟩

/-- Witness for C2: the 14-edge slice `[1, 15)` of `sampleEdges`. -/
theorem sortCallEdges_permutes_witness :
    1 + 14 ≤ sampleEdges.length ∧
    ∃ q, swnvg__sortCallEdges sampleEdges 1 14 = some q ∧
      (edgeSlice q 1 14).Perm (edgeSlice sampleEdges 1 14) ∧ q.length = sampleEdges.length ∧
      ∀ k, k < 1 ∨ 1 + 14 ≤ k → q[k]? = sampleEdges[k]? :=
  ⟨by decide, sortCallEdges_permutes sampleEdges 1 14 (by decide)⟩

/-- C3: `swnvg__quickSortEdges` terminates on every slice, whatever the keys
(duplicates included): a partition pass on `n > 12` elements returns indices with
`j < n` and `n - i < n`, so both continuations work on a strictly shorter
sub-slice, and an iteration budget of `n + 1` (or more) always yields a result. -/
theorem quickSortEdges_terminates (edges : List SWNVGedge) (off n : Nat)
    (hlen : off + n ≤ edges.length) :
    (12 < n → ∃ q i j, partitionEdges edges off n = some (q, i, j) ∧ j < n ∧ n - i < n) ∧
    ∀ fuel, n < fuel → ∃ q, swnvg__quickSortEdges fuel edges off n = some q := by
  constructor
  · intro hn
    obtain ⟨q, i, j, h1, _, h3, h4, h5⟩ := partitionEdges_spec edges off n (by omega) hlen
    exact ⟨q, i, j, h1, h5, by omega⟩
  · intro fuel hf
    obtain ⟨q, h1, _⟩ := quickSortEdges_spec fuel edges off n hf hlen
    exact ⟨q, h1⟩

/-- Witness for C3: fourteen edges that all have the same `y0`. -/
theorem quickSortEdges_terminates_witness :
    0 + 14 ≤ (List.replicate 14 (vEdge 0 7 9 1)).length ∧
    ((12 < 14 → ∃ q i j, partitionEdges (List.replicate 14 (vEdge 0 7 9 1)) 0 14 = some (q, i, j) ∧
        j < 14 ∧ 14 - i < 14) ∧
      ∀ fuel, 14 < fuel →
        ∃ q, swnvg__quickSortEdges fuel (List.replicate 14 (vEdge 0 7 9 1)) 0 14 = some q) :=
  ⟨by decide, quickSortEdges_terminates (List.replicate 14 (vEdge 0 7 9 1)) 0 14 (by decide)⟩

/-! ### Tile grid -/

theorem tileRow_getElem? (f : Nat → Nat → SWNVGthreadCtx → SWNVGthreadCtx) (xt jj : Nat) :
    ∀ (n : Nat) (ths : List SWNVGthreadCtx) (k : Nat), n ≤ xt →
      ((List.range n).foldl (fun ths ii => ths.modify (f ii jj) (jj * xt + ii)) ths)[k]? =
        if jj * xt ≤ k ∧ k < jj * xt + n then (ths[k]?).map (f (k - jj * xt) jj) else ths[k]?
  | 0, ths, k, _ => by
    have : ¬ (jj * xt ≤ k ∧ k < jj * xt) := by omega
    simp [this]
  | n + 1, ths, k, hn => by
    rw [List.range_succ, List.foldl_append]
    simp only [List.foldl_cons, List.foldl_nil]
    rw [List.getElem?_modify, tileRow_getElem? f xt jj n ths k (by omega)]
    by_cases h1 : jj * xt + n = k
    · subst h1
      have h2 : ¬ (jj * xt ≤ jj * xt + n ∧ jj * xt + n < jj * xt + n) := by omega
      have h3 : (jj * xt ≤ jj * xt + n ∧ jj * xt + n < jj * xt + (n + 1)) := by omega
      simp only [h2, h3, if_false, if_true]
      cases ths[jj * xt + n]? <;> simp
    · by_cases h2 : jj * xt ≤ k ∧ k < jj * xt + n
      · have h3 : (jj * xt ≤ k ∧ k < jj * xt + (n + 1)) := by omega
        simp only [h1, h2, h3, if_false, if_true, and_self]
        cases ths[k]? <;> simp
      · have h3 : ¬ (jj * xt ≤ k ∧ k < jj * xt + (n + 1)) := by omega
        simp only [h1, h2, h3, if_false]
        cases ths[k]? <;> simp

theorem tileRows_getElem? (f : Nat → Nat → SWNVGthreadCtx → SWNVGthreadCtx) (xt : Nat)
    (hxt : 0 < xt) :
    ∀ (m : Nat) (ths : List SWNVGthreadCtx) (k : Nat),
      ((List.range m).foldl (fun ths jj =>
        (List.range xt).foldl (fun ths ii => ths.modify (f ii jj) (jj * xt + ii)) ths) ths)[k]? =
        if k < m * xt then (ths[k]?).map (f (k % xt) (k / xt)) else ths[k]?
  | 0, ths, k => by simp
  | m + 1, ths, k => by
    rw [List.range_succ, List.foldl_append]
    simp only [List.foldl_cons, List.foldl_nil]
    rw [tileRow_getElem? f xt m xt _ k (le_refl _), tileRows_getElem? f xt hxt m ths k]
    have hmul : (m + 1) * xt = m * xt + xt := by ring
    by_cases h1 : m * xt ≤ k ∧ k < m * xt + xt
    · have h2 : ¬ k < m * xt := by omega
      have h3 : k < (m + 1) * xt := by omega
      have h4 : k / xt = m := by
        apply Nat.div_eq_of_lt_le
        · exact h1.1
        · rw [Nat.succ_mul]; exact h1.2
      have h5 : k % xt = k - m * xt := by
        have := Nat.div_add_mod k xt
        rw [h4, Nat.mul_comm] at this
        omega
      simp only [h1, h2, h3, and_self, if_true, if_false, h4, h5]
    · by_cases h2 : k < m * xt
      · have h3 : k < (m + 1) * xt := by omega
        simp only [h1, h2, h3, if_true, if_false]
      · have h3 : ¬ k < (m + 1) * xt := by omega
        simp only [h1, h2, h3, if_false]

theorem inTile_setTile (w h tw th : Int) (c : Bool) (ii jj : Nat) (r : SWNVGthreadCtx)
    (x y : Int) :
    inTile (setTile w h tw th c ii jj r) x y ↔
      ((ii : Int) * tw ≤ x ∧ x < w ∧ x < ii * tw + tw) ∧
      ((jj : Int) * th ≤ y ∧ y < h ∧ y < jj * th + th) := by
  simp only [inTile, setTile, swnvg__mini]
  constructor
  · rintro ⟨h1, h2, h3, h4⟩
    split_ifs at h2 h4 <;> refine ⟨⟨h1, ?_, ?_⟩, ⟨h3, ?_, ?_⟩⟩ <;> omega
  · rintro ⟨⟨h1, h2, h3⟩, ⟨h4, h5, h6⟩⟩
    refine ⟨h1, ?_, h4, ?_⟩ <;> split_ifs <;> omega

theorem tile_index_unique (tw x : Int) (htw : 0 < tw) (a : Nat)
    (h1 : (a : Int) * tw ≤ x) (h2 : x < a * tw + tw) : (a : Int) = x / tw := by
  have h3 : (a : Int) ≤ x / tw := (Int.le_ediv_iff_mul_le htw).mpr h1
  have h4 : x / tw < (a : Int) + 1 := (Int.ediv_lt_iff_lt_mul htw).mpr (by linarith)
  omega

theorem setFramebuffer_threads_getElem? (gl : SWNVGcontext) (dest : Int → Nat) (w h : Int)
    (rs gs bs as : Nat) (hx : 1 ≤ gl.xthreads) (t : Nat) :
    (nvgswSetFramebuffer gl dest w h rs gs bs as).threads[t]? =
      if t < gl.ythreads * gl.xthreads then
        (gl.threads[t]?).map (setTile w h (w / gl.xthreads + 1) (h / gl.ythreads + 1)
          (if gl.covtex.isSome && (w != gl.width || h != gl.height) then none
            else gl.covtex).isNone (t % gl.xthreads) (t / gl.xthreads))
      else gl.threads[t]? := by
  simp only [nvgswSetFramebuffer]
  exact tileRows_getElem? (fun ii jj => setTile w h (w / gl.xthreads + 1) (h / gl.ythreads + 1)
    (if gl.covtex.isSome && (w != gl.width || h != gl.height) then none
      else gl.covtex).isNone ii jj) gl.xthreads (by omega) gl.ythreads gl.threads t

/-- C4: for a framebuffer of `w >= 1` by `h >= 1` pixels and a thread grid of
`xthreads >= 1` by `ythreads >= 1` tile contexts, the rectangles assigned by
`nvgswSetFramebuffer` partition the framebuffer: every pixel lies in exactly one
tile and no tile contains a pixel outside the framebuffer. -/
theorem setFramebuffer_tiles_partition (gl : SWNVGcontext) (dest : Int → Nat) (w h : Int)
    (rs gs bs as : Nat) (hw : 1 ≤ w) (hh : 1 ≤ h) (hx : 1 ≤ gl.xthreads)
    (hy : 1 ≤ gl.ythreads) (hth : gl.threads.length = gl.xthreads * gl.ythreads) :
    (∀ x y : Int, 0 ≤ x → x < w → 0 ≤ y → y < h →
      ∃! t : Nat, ∃ r, (nvgswSetFramebuffer gl dest w h rs gs bs as).threads[t]? = some r ∧
        inTile r x y) ∧
    (∀ r ∈ (nvgswSetFramebuffer gl dest w h rs gs bs as).threads, ∀ x y : Int,
      inTile r x y → 0 ≤ x ∧ x < w ∧ 0 ≤ y ∧ y < h) := by
  have hxt : (0 : Int) < gl.xthreads := by exact_mod_cast hx
  have hyt : (0 : Int) < gl.ythreads := by exact_mod_cast hy
  have hw0 : 0 ≤ w / (gl.xthreads : Int) := Int.ediv_nonneg (by omega) (by omega)
  have hh0 : 0 ≤ h / (gl.ythreads : Int) := Int.ediv_nonneg (by omega) (by omega)
  have htw : 0 < w / (gl.xthreads : Int) + 1 := by omega
  have hth0 : 0 < h / (gl.ythreads : Int) + 1 := by omega
  have hwlt : w < (w / (gl.xthreads : Int) + 1) * gl.xthreads :=
    Int.lt_ediv_add_one_mul_self w hxt
  have hhlt : h < (h / (gl.ythreads : Int) + 1) * gl.ythreads :=
    Int.lt_ediv_add_one_mul_self h hyt
  constructor
  · intro x y hx0 hx1 hy0 hy1
    have hi0 : 0 ≤ x / (w / (gl.xthreads : Int) + 1) := Int.ediv_nonneg hx0 (by omega)
    have hj0 : 0 ≤ y / (h / (gl.ythreads : Int) + 1) := Int.ediv_nonneg hy0 (by omega)
    have hi1 : x / (w / (gl.xthreads : Int) + 1) < gl.xthreads :=
      (Int.ediv_lt_iff_lt_mul htw).mpr (by rw [mul_comm]; omega)
    have hj1 : y / (h / (gl.ythreads : Int) + 1) < gl.ythreads :=
      (Int.ediv_lt_iff_lt_mul hth0).mpr (by rw [mul_comm]; omega)
    obtain ⟨ii, hii⟩ := Int.eq_ofNat_of_zero_le hi0
    obtain ⟨jj, hjj⟩ := Int.eq_ofNat_of_zero_le hj0
    have hii1 : ii < gl.xthreads := by rw [hii] at hi1; exact_mod_cast hi1
    have hjj1 : jj < gl.ythreads := by rw [hjj] at hj1; exact_mod_cast hj1
    have hmod : (jj * gl.xthreads + ii) % gl.xthreads = ii := by
      rw [Nat.mul_comm, Nat.mul_add_mod, Nat.mod_eq_of_lt hii1]
    have hdiv : (jj * gl.xthreads + ii) / gl.xthreads = jj := by
      rw [Nat.mul_comm, Nat.mul_add_div (by omega), Nat.div_eq_of_lt hii1, Nat.add_zero]
    have hlt : jj * gl.xthreads + ii < gl.ythreads * gl.xthreads := by
      calc jj * gl.xthreads + ii < jj * gl.xthreads + gl.xthreads := by omega
        _ = (jj + 1) * gl.xthreads := by ring
        _ ≤ gl.ythreads * gl.xthreads := Nat.mul_le_mul_right _ hjj1
    refine ⟨jj * gl.xthreads + ii, ?_, ?_⟩
    · have hb : jj * gl.xthreads + ii < gl.threads.length := by
        rw [hth, Nat.mul_comm gl.xthreads gl.ythreads]; exact hlt
      obtain ⟨r0, hsome⟩ : ∃ r0, gl.threads[jj * gl.xthreads + ii]? = some r0 :=
        ⟨_, List.getElem?_eq_getElem hb⟩
      have hget := setFramebuffer_threads_getElem? gl dest w h rs gs bs as hx
        (jj * gl.xthreads + ii)
      simp only [hlt, if_true, hsome, Option.map_some', hmod, hdiv] at hget
      refine ⟨_, hget, ?_⟩
      · rw [inTile_setTile]
        rw [← hii, ← hjj]
        refine ⟨⟨Int.ediv_mul_le x (by omega), hx1, ?_⟩, ⟨Int.ediv_mul_le y (by omega), hy1, ?_⟩⟩
        · have := Int.lt_ediv_add_one_mul_self x htw
          linarith
        · have := Int.lt_ediv_add_one_mul_self y hth0
          linarith
    · rintro t ⟨r, hr1, hr2⟩
      rw [setFramebuffer_threads_getElem? gl dest w h rs gs bs as hx] at hr1
      by_cases htlt : t < gl.ythreads * gl.xthreads
      · simp only [htlt, if_true] at hr1
        have hb : t < gl.threads.length := by
          rw [hth, Nat.mul_comm gl.xthreads gl.ythreads]; exact htlt
        obtain ⟨r0, hsome⟩ : ∃ r0, gl.threads[t]? = some r0 := ⟨_, List.getElem?_eq_getElem hb⟩
        rw [hsome] at hr1
        simp only [Option.map_some', Option.some.injEq] at hr1
        subst hr1
        rw [inTile_setTile] at hr2
        obtain ⟨⟨a1, _, a3⟩, ⟨b1, _, b3⟩⟩ := hr2
        have e1 := tile_index_unique _ x htw _ a1 a3
        have e2 := tile_index_unique _ y hth0 _ b1 b3
        have e3 : t % gl.xthreads = ii := by
          rw [hii] at e1; exact_mod_cast e1
        have e4 : t / gl.xthreads = jj := by
          rw [hjj] at e2; exact_mod_cast e2
        have := Nat.div_add_mod t gl.xthreads
        rw [e3, e4, Nat.mul_comm] at this
        exact this.symm
      · simp only [htlt, if_false] at hr1
        have : gl.threads[t]? = none :=
          List.getElem?_eq_none (by rw [hth, Nat.mul_comm gl.xthreads gl.ythreads]; omega)
        rw [this] at hr1
        cases hr1
  · intro r hr x y hxy
    obtain ⟨t, hr1⟩ := List.getElem?_of_mem hr
    rw [setFramebuffer_threads_getElem? gl dest w h rs gs bs as hx] at hr1
    by_cases htlt : t < gl.ythreads * gl.xthreads
    · simp only [htlt, if_true] at hr1
      have hb : t < gl.threads.length := by
        rw [hth, Nat.mul_comm gl.xthreads gl.ythreads]; exact htlt
      obtain ⟨r0, hsome⟩ : ∃ r0, gl.threads[t]? = some r0 := ⟨_, List.getElem?_eq_getElem hb⟩
      rw [hsome] at hr1
      simp only [Option.map_some', Option.some.injEq] at hr1
      subst hr1
      rw [inTile_setTile] at hxy
      obtain ⟨⟨a1, a2, _⟩, ⟨b1, b2, _⟩⟩ := hxy
      have c1 : (0 : Int) ≤ ((t % gl.xthreads : Nat) : Int) * (w / (gl.xthreads : Int) + 1) :=
        mul_nonneg (by positivity) (by omega)
      have c2 : (0 : Int) ≤ ((t / gl.xthreads : Nat) : Int) * (h / (gl.ythreads : Int) + 1) :=
        mul_nonneg (by positivity) (by omega)
      exact ⟨by linarith, a2, by linarith, b2⟩
    · simp only [htlt, if_false] at hr1
      have : gl.threads[t]? = none :=
        List.getElem?_eq_none (by rw [hth, Nat.mul_comm gl.xthreads gl.ythreads]; omega)
      rw [this] at hr1
      cases hr1

/-- Witness for C4: a 10x10 framebuffer on a 2x2 thread grid. -/
theorem setFramebuffer_tiles_partition_witness :
    (1 : Int) ≤ 10 ∧ 1 ≤ (nvgswSetThreading (nvgswCreate false false) 2 2).xthreads ∧
    ((∀ x y : Int, 0 ≤ x → x < 10 → 0 ≤ y → y < 10 →
      ∃! t : Nat, ∃ r, (nvgswSetFramebuffer (nvgswSetThreading (nvgswCreate false false) 2 2)
        (fun _ => 0) 10 10 0 8 16 24).threads[t]? = some r ∧ inTile r x y) ∧
    (∀ r ∈ (nvgswSetFramebuffer (nvgswSetThreading (nvgswCreate false false) 2 2)
        (fun _ => 0) 10 10 0 8 16 24).threads, ∀ x y : Int,
      inTile r x y → 0 ≤ x ∧ x < 10 ∧ 0 ≤ y ∧ y < 10)) :=
  ⟨by decide, by decide,
    setFramebuffer_tiles_partition (nvgswSetThreading (nvgswCreate false false) 2 2)
      (fun _ => 0) 10 10 0 8 16 24 (by decide) (by decide) (by decide) (by decide) (by decide)⟩

/-! ### Edge builder -/

theorem addEdge_horizontal (r : SWNVGcontext) (allocOk : Bool) (vtx : NVGvertex)
    (h : vtx.y0 = vtx.y1) : swnvg__addEdge r allocOk vtx = r := by
  simp [swnvg__addEdge, h]

theorem addEdgeXC_horizontal (r : SWNVGcontext) (allocOk : Bool) (vtx : NVGvertex) (xmax : Rat)
    (h : vtx.y0 = vtx.y1) : swnvg__addEdgeXC r allocOk vtx xmax = r := by
  simp [swnvg__addEdgeXC, h]

/-- C9: for a vertex segment with `y0 == y1`, `swnvg__addEdge` and
`swnvg__addEdgeXC` return the context unchanged (edge array, `nedges` and
`cedges` included), so adding the segments of a path that contains an extra
horizontal segment, at any position, leaves the same context as adding the
segments of the path without it. -/
theorem addEdge_horizontal_noop (r : SWNVGcontext) (allocOk : Bool) (vtx : NVGvertex)
    (xmax : Rat) (h : vtx.y0 = vtx.y1) :
    swnvg__addEdge r allocOk vtx = r ∧ swnvg__addEdgeXC r allocOk vtx xmax = r ∧
    (∀ pre post : List NVGvertex,
      (pre ++ vtx :: post).foldl (fun r v => swnvg__addEdge r allocOk v) r =
        (pre ++ post).foldl (fun r v => swnvg__addEdge r allocOk v) r) ∧
    (∀ pre post : List NVGvertex,
      (pre ++ vtx :: post).foldl (fun r v => swnvg__addEdgeXC r allocOk v xmax) r =
        (pre ++ post).foldl (fun r v => swnvg__addEdgeXC r allocOk v xmax) r) := by
  refine ⟨addEdge_horizontal r allocOk vtx h, addEdgeXC_horizontal r allocOk vtx xmax h, ?_, ?_⟩
  · intro pre post
    simp only [List.foldl_append, List.foldl_cons]
    rw [addEdge_horizontal _ allocOk vtx h]
  · intro pre post
    simp only [List.foldl_append, List.foldl_cons]
    rw [addEdgeXC_horizontal _ allocOk vtx xmax h]

/-- Witness for C9: the horizontal segment `(1,2)-(5,2)` between two sloped
segments, on a fresh context. -/
theorem addEdge_horizontal_noop_witness :
    (⟨1, 2, 5, 2⟩ : NVGvertex).y0 = (⟨1, 2, 5, 2⟩ : NVGvertex).y1 ∧
    (swnvg__addEdge (nvgswCreate false false) true ⟨1, 2, 5, 2⟩ = nvgswCreate false false ∧
     swnvg__addEdgeXC (nvgswCreate false false) true ⟨1, 2, 5, 2⟩ 9 = nvgswCreate false false ∧
    (∀ pre post : List NVGvertex,
      (pre ++ (⟨1, 2, 5, 2⟩ : NVGvertex) :: post).foldl (fun r v => swnvg__addEdge r true v)
          (nvgswCreate false false) =
        (pre ++ post).foldl (fun r v => swnvg__addEdge r true v) (nvgswCreate false false)) ∧
    (∀ pre post : List NVGvertex,
      (pre ++ (⟨1, 2, 5, 2⟩ : NVGvertex) :: post).foldl (fun r v => swnvg__addEdgeXC r true v 9)
          (nvgswCreate false false) =
        (pre ++ post).foldl (fun r v => swnvg__addEdgeXC r true v 9)
          (nvgswCreate false false))) :=
  ⟨rfl, addEdge_horizontal_noop (nvgswCreate false false) true ⟨1, 2, 5, 2⟩ 9 rfl⟩

/-! ### Winding rules -/

theorem fillActive_pair (left right : Int) (flags : CallFlags) (b1 b2 : Bool)
    (st : FillState) (a b : SWNVGactiveEdge) (hw : st.w = 0) (ha : a.dir ≠ 0)
    (hab : a.dir + b.dir = 0) :
    fillActiveStep left right { flags with evenodd := b1 }
        (fillActiveStep left right { flags with evenodd := b1 } st a) b =
      fillActiveStep left right { flags with evenodd := b2 }
        (fillActiveStep left right { flags with evenodd := b2 } st a) b ∧
    (fillActiveStep left right { flags with evenodd := b1 }
        (fillActiveStep left right { flags with evenodd := b1 } st a) b).w = 0 := by
  cases b1 <;> cases b2 <;> simp [fillActiveStep, hw, ha, hab] <;> (split_ifs <;> rfl)

theorem fillActive_fold (left right : Int) (flags : CallFlags) :
    ∀ (active : List SWNVGactiveEdge) (st : FillState), st.w = 0 → AlternatingDirs active →
      ((active.foldl (fillActiveStep left right { flags with evenodd := true }) st).scanline =
        (active.foldl (fillActiveStep left right { flags with evenodd := false }) st).scanline) ∧
      ((active.foldl (fillActiveStep left right { flags with evenodd := true }) st).xmin =
        (active.foldl (fillActiveStep left right { flags with evenodd := false }) st).xmin) ∧
      ((active.foldl (fillActiveStep left right { flags with evenodd := true }) st).xmax =
        (active.foldl (fillActiveStep left right { flags with evenodd := false }) st).xmax)
  | [], st, _, _ => ⟨rfl, rfl, rfl⟩
  | [a], st, hw, _ => by
    simp [fillActiveStep, hw]
  | a :: b :: rest, st, hw, h => by
    obtain ⟨h1, h2, h3⟩ := h
    have hp := fillActive_pair left right flags true false st a b hw h1 h2
    simp only [List.foldl_cons]
    rw [hp.1]
    have hw2 := (fillActive_pair left right flags false false st a b hw h1 h2).2
    exact fillActive_fold left right flags rest _ hw2 h3

/-- C10: when the edges of the active list pair up with opposite winding
directions (`+1, -1` or `-1, +1`, as for the crossings of a simple closed
polygon), `swnvg__fillActiveEdges` returns the same coverage scanline and the
same `xmin`/`xmax` with the even-odd flag set as with nonzero winding; the
x order of the list plays no part in the argument. -/
theorem fillActiveEdges_evenodd_eq_nonzero (r : SWNVGthreadCtx)
    (active : List SWNVGactiveEdge) (xmin xmax : Int) (flags : CallFlags)
    (h : AlternatingDirs active) :
    swnvg__fillActiveEdges r active xmin xmax { flags with evenodd := true } =
      swnvg__fillActiveEdges r active xmin xmax { flags with evenodd := false } := by
  obtain ⟨h1, h2, h3⟩ := fillActive_fold r.x0 r.x1 flags active
    { x0 := 0, w := 0, scanline := r.scanline, xmin := xmin, xmax := xmax } rfl h
  simp only [swnvg__fillActiveEdges, h1, h2, h3]

/-- Witness for C10: the two crossings of a rectangle, winding `-1` then `+1`. -/
theorem fillActiveEdges_evenodd_eq_nonzero_witness :
    AlternatingDirs [⟨3072, 0, 35, -1⟩, ⟨7168, 0, 35, 1⟩] ∧
    swnvg__fillActiveEdges (zeroThread 0) [⟨3072, 0, 35, -1⟩, ⟨7168, 0, 35, 1⟩] 10 0
        { (⟨false, false, false, false⟩ : CallFlags) with evenodd := true } =
      swnvg__fillActiveEdges (zeroThread 0) [⟨3072, 0, 35, -1⟩, ⟨7168, 0, 35, 1⟩] 10 0
        { (⟨false, false, false, false⟩ : CallFlags) with evenodd := false } :=
  ⟨⟨by decide, by decide, trivial⟩,
    fillActiveEdges_evenodd_eq_nonzero (zeroThread 0) [⟨3072, 0, 35, -1⟩, ⟨7168, 0, 35, 1⟩] 10 0
      ⟨false, false, false, false⟩ ⟨by decide, by decide, trivial⟩⟩

/-! ### Frame of the rasterizers -/

theorem blendAt_frame (m : Int → Nat) (a : Int) (f : Pixel → Pixel) (k : Int)
    (hk : k < a ∨ a + 4 ≤ k) : blendAt m a f k = m k := by
  have h0 : ¬ k = a := by omega
  have h1 : ¬ k = a + 1 := by omega
  have h2 : ¬ k = a + 2 := by omega
  have h3 : ¬ k = a + 3 := by omega
  simp [blendAt, writePixel, h0, h1, h2, h3]

theorem pixelLoop_frame (S : Int → Prop) (f : Nat → (Int → Nat) → (Int → Nat)) :
    ∀ (n : Nat), (∀ i, i < n → ∀ (m : Int → Nat) (k : Int), ¬ S k → f i m k = m k) →
      ∀ (m : Int → Nat) (k : Int), ¬ S k → pixelLoop n f m k = m k
  | 0, _, m, k, _ => by simp [pixelLoop]
  | n + 1, hf, m, k, hk => by
    have ih := pixelLoop_frame S f n (fun i hi => hf i (by omega)) m k hk
    unfold pixelLoop at ih ⊢
    rw [List.range_succ, List.foldl_append]
    simp only [List.foldl_cons, List.foldl_nil]
    rw [hf n (by omega) _ k hk, ih]

theorem scanlineColor_frame (env : Env) (bitmap : Int → Nat) (dst count : Int)
    (cover : Int → Nat) (coff : Int) (call : SWNVGcall) (k : Int)
    (hk : k < dst ∨ dst + 4 * count ≤ k) :
    scanlineColor env bitmap dst count cover coff call k = bitmap k := by
  unfold scanlineColor
  split_ifs
  all_goals
    apply pixelLoop_frame (fun a => dst ≤ a ∧ a < dst + 4 * count)
    · intro i hi m a ha
      apply blendAt_frame
      have : (i : Int) < count := by omega
      omega
    · omega

theorem scanlineGrad_frame (env : Env) (bitmap : Int → Nat) (dst count : Int)
    (cover : Int → Nat) (coff x y : Int) (call : SWNVGcall) (k : Int)
    (hk : k < dst ∨ dst + 4 * count ≤ k) :
    scanlineGrad env bitmap dst count cover coff x y call k = bitmap k := by
  unfold scanlineGrad
  apply pixelLoop_frame (fun a => dst ≤ a ∧ a < dst + 4 * count)
  · intro i hi m a ha
    apply blendAt_frame
    have : (i : Int) < count := by omega
    omega
  · omega

theorem imageLoop_frame (env : Env) (call : SWNVGcall) (tex : SWNVGtexture) (dst : Int)
    (cover : Int → Nat) (coff : Int) (dqx dqy : Rat) (k : Int) :
    ∀ (n i : Nat) (qx qy : Rat) (m : Int → Nat), (k < dst + 4 * i ∨ dst + 4 * (i + n) ≤ k) →
      imageLoop env call tex dst cover coff dqx dqy n i qx qy m k = m k
  | 0, _, _, _, _, _ => rfl
  | n + 1, i, qx, qy, m, hk => by
    unfold imageLoop
    simp only
    rw [imageLoop_frame env call tex dst cover coff dqx dqy k n (i + 1) _ _ _
      (by push_cast at hk ⊢; omega)]
    split_ifs <;> (apply blendAt_frame; push_cast at hk ⊢; omega)

theorem scanlineSolid_frame (env : Env) (bitmap : Int → Nat) (dst count : Int)
    (cover : Int → Nat) (coff x y : Int) (call : SWNVGcall) (tex : Option SWNVGtexture)
    (bm : Int → Nat)
    (h : swnvg__scanlineSolid env bitmap dst count cover coff x y call tex = some bm) (k : Int)
    (hk : k < dst ∨ dst + 4 * count ≤ k) : bm k = bitmap k := by
  unfold swnvg__scanlineSolid at h
  split at h
  · cases h
    exact scanlineColor_frame env bitmap dst count cover coff call k hk
  · split at h
    · cases h
    · cases h
      apply imageLoop_frame
      have : ((count.toNat : Nat) : Int) ≤ count ∨ count.toNat = 0 := by omega
      push_cast
      omega
  · cases h
    exact scanlineGrad_frame env bitmap dst count cover coff x y call k hk
  · cases h
    rfl
theorem maxi_ge_left (a b : Int) : a ≤ swnvg__maxi a b := by
  unfold swnvg__maxi; split_ifs <;> omega

theorem maxi_ge_right (a b : Int) : b ≤ swnvg__maxi a b := by
  unfold swnvg__maxi; split_ifs <;> omega

theorem mini_le_left (a b : Int) : swnvg__mini a b ≤ a := by
  unfold swnvg__mini; split_ifs <;> omega

theorem mini_le_right (a b : Int) : swnvg__mini a b ≤ b := by
  unfold swnvg__mini; split_ifs <;> omega

theorem rasterRow_frame (env : Env) (gl : SWNVGcontext) (r : SWNVGthreadCtx) (call : SWNVGcall)
    (tex : Option SWNVGtexture) (y : Int) (st st1 : RasterState)
    (h : rasterRow env gl r call tex y st = some st1) (k : Int)
    (hk : ¬ ∃ x : Int, r.x0 ≤ x ∧ x ≤ r.x1 ∧ call.bounds0 ≤ x ∧ x ≤ call.bounds2 ∧
      y * gl.stride + 4 * x ≤ k ∧ k < y * gl.stride + 4 * x + 4) :
    st1.bitmap k = st.bitmap k := by
  unfold rasterRow at h
  simp only at h
  generalize hc : rowCoverage gl r call y st.active st.e st.scanline = c at h
  generalize hx0 : swnvg__maxi (swnvg__maxi c.xmin r.x0) call.bounds0 = xmin1 at h
  generalize hx1 : swnvg__mini (swnvg__mini c.xmax r.x1) call.bounds2 = xmax1 at h
  have a1 : r.x0 ≤ xmin1 := by
    rw [← hx0]; exact le_trans (maxi_ge_right _ _) (maxi_ge_left _ _)
  have a2 : call.bounds0 ≤ xmin1 := by rw [← hx0]; exact maxi_ge_right _ _
  have a3 : xmax1 ≤ r.x1 := by
    rw [← hx1]; exact le_trans (mini_le_left _ _) (mini_le_right _ _)
  have a4 : xmax1 ≤ call.bounds2 := by rw [← hx1]; exact mini_le_right _ _
  split at h
  · cases h
  · rename_i bm hb
    cases h
    simp only
    split_ifs at hb with hle
    · refine scanlineSolid_frame _ _ _ _ _ _ _ _ _ _ _ hb k ?_
      by_contra hcon
      apply hk
      refine ⟨(k - y * gl.stride) / 4, ?_, ?_, ?_, ?_, ?_, ?_⟩ <;> omega
    · cases hb
      rfl

theorem rasterRows_frame (env : Env) (gl : SWNVGcontext) (r : SWNVGthreadCtx)
    (call : SWNVGcall) (tex : Option SWNVGtexture) (k : Int) :
    ∀ (cnt : Nat) (y : Int) (st st1 : RasterState),
      rasterRows env gl r call tex cnt y st = some st1 →
      (¬ ∃ x y1 : Int, y ≤ y1 ∧ y1 < y + cnt ∧ r.x0 ≤ x ∧ x ≤ r.x1 ∧ call.bounds0 ≤ x ∧
        x ≤ call.bounds2 ∧ y1 * gl.stride + 4 * x ≤ k ∧ k < y1 * gl.stride + 4 * x + 4) →
      st1.bitmap k = st.bitmap k
  | 0, y, st, st1, h, _ => by
    simp only [rasterRows, Option.some.injEq] at h
    rw [h]
  | cnt + 1, y, st, st1, h, hk => by
    unfold rasterRows at h
    split at h
    · cases h
    · rename_i st2 h2
      have e1 := rasterRows_frame env gl r call tex k cnt (y + 1) st2 st1 h (by
        rintro ⟨x, y1, b1, b2, b3⟩
        exact hk ⟨x, y1, by omega, by push_cast; omega, b3⟩)
      have e2 := rasterRow_frame env gl r call tex y st st2 h2 k (by
        rintro ⟨x, b3⟩
        exact hk ⟨x, y, le_refl _, by push_cast; omega, b3⟩)
      rw [e1, e2]

theorem rasterizeSortedEdges_frame (env : Env) (gl : SWNVGcontext) (r : SWNVGthreadCtx)
    (call : SWNVGcall) (tex : Option SWNVGtexture) (o : (Int → Nat) × (Int → Nat))
    (h : swnvg__rasterizeSortedEdges env gl r call tex = some o) (k : Int)
    (hk : ¬ InTileBounds gl r call k) : o.1 k = gl.bitmap k := by
  unfold swnvg__rasterizeSortedEdges at h
  simp only at h
  split at h
  · cases h
  · rename_i st hst
    cases h
    refine rasterRows_frame env gl r call tex k _ _ _ st hst ?_
    rintro ⟨x, y1, b1, b2, b3, b4, b5, b6, b7, b8⟩
    apply hk
    have c1 := maxi_ge_left r.y0 call.bounds1
    have c2 := maxi_ge_right r.y0 call.bounds1
    have c3 := mini_le_left r.y1 call.bounds3
    have c4 := mini_le_right r.y1 call.bounds3
    exact ⟨x, y1, b3, b4, by omega, by omega, b5, b6, by omega, by omega, b7, b8⟩
theorem rasterizeQuad_frame (env : Env) (gl : SWNVGcontext) (r : SWNVGthreadCtx)
    (call : SWNVGcall) (tex : SWNVGtexture) (v00 v11 : NVGvertex) (bm : Int → Nat) (k : Int)
    (hk : ¬ InTileBounds gl r call k) :
    swnvg__rasterizeQuad env gl r call tex v00 v11 bm k = bm k := by
  unfold swnvg__rasterizeQuad
  simp only
  have a1 := maxi_ge_left (swnvg__maxi call.bounds0 r.x0) (truncf v00.x0)
  have a2 := maxi_ge_left (swnvg__maxi call.bounds1 r.y0) (truncf v00.y0)
  have a3 := mini_le_left (swnvg__mini call.bounds2 r.x1) (Int.ceil v11.x0)
  have a4 := mini_le_left (swnvg__mini call.bounds3 r.y1) (Int.ceil v11.y0)
  have b1 := maxi_ge_left call.bounds0 r.x0
  have b2 := maxi_ge_right call.bounds0 r.x0
  have b3 := maxi_ge_left call.bounds1 r.y0
  have b4 := maxi_ge_right call.bounds1 r.y0
  have b5 := mini_le_left call.bounds2 r.x1
  have b6 := mini_le_right call.bounds2 r.x1
  have b7 := mini_le_left call.bounds3 r.y1
  have b8 := mini_le_right call.bounds3 r.y1
  generalize swnvg__maxi (swnvg__maxi call.bounds0 r.x0) (truncf v00.x0) = xmin at *
  generalize swnvg__maxi (swnvg__maxi call.bounds1 r.y0) (truncf v00.y0) = ymin at *
  generalize swnvg__mini (swnvg__mini call.bounds2 r.x1) (Int.ceil v11.x0) = xmax at *
  generalize swnvg__mini (swnvg__mini call.bounds3 r.y1) (Int.ceil v11.y0) = ymax at *
  split_ifs <;> first
    | rfl
    | (apply pixelLoop_frame (InTileBounds gl r call)
       · intro iy hiy m a ha
         apply pixelLoop_frame (InTileBounds gl r call)
         · intro ix hix m1 b hb
           apply blendAt_frame
           by_contra hcon
           apply hb
           refine ⟨xmin + ix, ymin + iy, ?_, ?_, ?_, ?_, ?_, ?_, ?_, ?_, ?_, ?_⟩ <;> omega
         · exact ha
       · exact hk)

theorem xcRows_lims (edge : SWNVGedge) (invslope : Rat) (width dir : Int) (ymin ymax : Rat)
    (ixleft ixright xedge xb0 : Int) (hxl : xb0 ≤ ixleft) :
    ∀ (n : Nat) (iy li : Int) (xmin xmax : Rat) (st : XCState),
      (∃ j : Int, li = 2 * j) → (∀ j : Int, xb0 ≤ st.lims (2 * j)) →
      ∀ j : Int, xb0 ≤
        (xcRows edge invslope width dir ymin ymax ixleft ixright xedge n iy li xmin xmax st).lims
          (2 * j)
  | 0, _, _, _, _, st, _, h => h
  | n + 1, iy, li, xmin, xmax, st, hli, h => by
    unfold xcRows
    simp only
    apply xcRows_lims edge invslope width dir ymin ymax ixleft ixright xedge xb0 hxl n
    · obtain ⟨j, hj⟩ := hli
      exact ⟨j + 1, by omega⟩
    · intro j
      obtain ⟨j0, hj0⟩ := hli
      have hge := maxi_ge_right (truncf xmin) ixleft
      have hj := h j
      simp only
      split_ifs <;> beta_reduce <;> (try split_ifs) <;>
        first | exact hj | omega

theorem xcEdge_lims (gl : SWNVGcontext) (r : SWNVGthreadCtx) (call : SWNVGcall) (st : XCState)
    (edge : SWNVGedge)
    (h : ∀ j : Int, swnvg__maxi call.bounds0 r.x0 ≤ st.lims (2 * j)) :
    ∀ j : Int, swnvg__maxi call.bounds0 r.x0 ≤ (xcEdge gl r call st edge).lims (2 * j) := by
  unfold xcEdge
  simp only
  apply xcRows_lims
  · exact maxi_ge_right _ _
  · exact ⟨_, rfl⟩
  · exact h

theorem xcEdges_lims (gl : SWNVGcontext) (r : SWNVGthreadCtx) (call : SWNVGcall) :
    ∀ (es : List SWNVGedge) (st : XCState),
      (∀ j : Int, swnvg__maxi call.bounds0 r.x0 ≤ st.lims (2 * j)) →
      ∀ j : Int, swnvg__maxi call.bounds0 r.x0 ≤ (es.foldl (xcEdge gl r call) st).lims (2 * j)
  | [], _, h => h
  | e :: es, st, h => by
    simp only [List.foldl_cons]
    exact xcEdges_lims gl r call es _ (xcEdge_lims gl r call st e h)
theorem xcPixels_bitmap (dcover : Int) (emit : Nat → Int → XCFill → XCFill) (k : Int) :
    ∀ (n : Nat), (∀ i, i < n → ∀ (ic : Int) (s : XCFill), (emit i ic s).bitmap k = s.bitmap k) →
      ∀ st : XCFill, (xcPixels dcover emit n st).bitmap k = st.bitmap k
  | 0, _, st => by simp [xcPixels]
  | n + 1, hf, st => by
    have ih := xcPixels_bitmap dcover emit k n (fun i hi => hf i (by omega)) st
    unfold xcPixels at ih ⊢
    rw [List.range_succ, List.foldl_append]
    simp only [List.foldl_cons, List.foldl_nil]
    unfold xcPixel
    simp only
    rw [hf n (by omega)]
    split_ifs <;> exact ih

theorem xcFillRow_frame (env : Env) (gl : SWNVGcontext) (call : SWNVGcall)
    (tex : Option SWNVGtexture) (xb0 xb1 iy li : Int) (st st1 : XCOut)
    (h : xcFillRow env gl call tex xb0 xb1 iy li st = some st1) (hl : xb0 ≤ st.lims li) :
    (∀ j, j ≠ li → j ≠ li + 1 → st1.lims j = st.lims j) ∧
    ∀ k : Int, (¬ ∃ x : Int, xb0 ≤ x ∧ x ≤ xb1 ∧ iy * gl.stride + 4 * x ≤ k ∧
      k < iy * gl.stride + 4 * x + 4) → st1.bitmap k = st.bitmap k := by
  unfold xcFillRow at h
  simp only at h
  have hm := mini_le_right (st.lims (li + 1)) xb1
  have key : ∀ (i : Nat) (k : Int),
      i < (swnvg__mini (st.lims (li + 1)) xb1 - st.lims li + 1).toNat →
      (¬ ∃ x : Int, xb0 ≤ x ∧ x ≤ xb1 ∧ iy * gl.stride + 4 * x ≤ k ∧
        k < iy * gl.stride + 4 * x + 4) →
      k < iy * gl.stride + st.lims li * 4 + 4 * i ∨
        iy * gl.stride + st.lims li * 4 + 4 * i + 4 ≤ k := by
    intro i k hi hk
    by_contra hcon
    apply hk
    exact ⟨st.lims li + i, by omega, by omega, by omega, by omega⟩
  split_ifs at h with hcol hop
  · cases h
    refine ⟨fun j h1 h2 => by simp [h1, h2], fun k hk => ?_⟩
    simp only
    rw [xcPixels_bitmap]
    intro i hi ic s
    split_ifs
    · simp only
      exact blendAt_frame _ _ _ _ (key i k hi hk)
    · rfl
  · cases h
    refine ⟨fun j h1 h2 => by simp [h1, h2], fun k hk => ?_⟩
    simp only
    rw [xcPixels_bitmap]
    intro i hi ic s
    split_ifs
    · simp only
      exact blendAt_frame _ _ _ _ (key i k hi hk)
    · rfl
  · split at h
    · cases h
    · rename_i bm hb
      cases h
      refine ⟨fun j h1 h2 => by simp [h1, h2], fun k hk => ?_⟩
      simp only
      rw [scanlineSolid_frame _ _ _ _ _ _ _ _ _ _ _ hb k (by
        by_contra hcon
        apply hk
        exact ⟨(k - iy * gl.stride) / 4, by omega, by omega, by omega, by omega⟩)]
      rw [xcPixels_bitmap]
      intro i hi ic s
      rfl

theorem xcFillRows_frame (env : Env) (gl : SWNVGcontext) (call : SWNVGcall)
    (tex : Option SWNVGtexture) (xb0 xb1 : Int) (k : Int) :
    ∀ (n : Nat) (iy li : Int) (st st1 : XCOut),
      xcFillRows env gl call tex xb0 xb1 n iy li st = some st1 →
      (∀ j : Int, 0 ≤ j → xb0 ≤ st.lims (li + 2 * j)) →
      (¬ ∃ x y : Int, iy ≤ y ∧ y < iy + n ∧ xb0 ≤ x ∧ x ≤ xb1 ∧ y * gl.stride + 4 * x ≤ k ∧
        k < y * gl.stride + 4 * x + 4) →
      st1.bitmap k = st.bitmap k
  | 0, _, _, st, st1, h, _, _ => by
    simp only [xcFillRows, Option.some.injEq] at h
    rw [h]
  | n + 1, iy, li, st, st1, h, hl, hk => by
    unfold xcFillRows at h
    split at h
    · cases h
    · rename_i st2 h2
      have hl0 : xb0 ≤ st.lims li := by simpa using hl 0 (le_refl _)
      obtain ⟨f1, f2⟩ := xcFillRow_frame env gl call tex xb0 xb1 iy li st st2 h2 hl0
      have e1 := xcFillRows_frame env gl call tex xb0 xb1 k n (iy + 1) (li + 2) st2 st1 h
        (by
          intro j hj
          rw [f1 _ (by omega) (by omega)]
          have := hl (j + 1) (by omega)
          have e : li + 2 * (j + 1) = li + 2 + 2 * j := by ring
          rwa [e] at this)
        (by
          rintro ⟨x, y, b1, b2, b3⟩
          exact hk ⟨x, y, by omega, by push_cast; omega, b3⟩)
      rw [e1]
      exact f2 k (by
        rintro ⟨x, b3⟩
        exact hk ⟨x, iy, le_refl _, by push_cast; omega, b3⟩)

theorem rasterizeXC_frame (env : Env) (gl : SWNVGcontext) (r : SWNVGthreadCtx)
    (call : SWNVGcall) (tex : Option SWNVGtexture) (covtex : Int → Rat) (lims : Int → Int)
    (o : XCOut) (h : swnvg__rasterizeXC env gl r call tex covtex lims = some o)
    (hl : ∀ j : Int, swnvg__maxi call.bounds0 r.x0 ≤ lims (2 * j)) (k : Int)
    (hk : ¬ InTileBounds gl r call k) : o.bitmap k = gl.bitmap k := by
  unfold swnvg__rasterizeXC at h
  simp only at h
  have hacc := xcEdges_lims gl r call ((gl.edges.drop call.edgeOffset).take call.edgeCount)
    { covtex := covtex, lims := lims } hl
  refine xcFillRows_frame env gl call tex _ _ k _ _ _ _ o h ?_ ?_
  · intro j _
    have := hacc (swnvg__maxi call.bounds1 r.y0 - r.y0 + j)
    have e : 2 * (swnvg__maxi call.bounds1 r.y0 - r.y0 + j) =
        2 * (swnvg__maxi call.bounds1 r.y0 - r.y0) + 2 * j := by ring
    rwa [e] at this
  · rintro ⟨x, y, b1, b2, b3, b4, b5, b6⟩
    apply hk
    have c1 := maxi_ge_left call.bounds0 r.x0
    have c2 := maxi_ge_right call.bounds0 r.x0
    have c3 := maxi_ge_left call.bounds1 r.y0
    have c4 := maxi_ge_right call.bounds1 r.y0
    have c5 := mini_le_left call.bounds2 r.x1
    have c6 := mini_le_right call.bounds2 r.x1
    have c7 := mini_le_left call.bounds3 r.y1
    have c8 := mini_le_right call.bounds3 r.y1
    exact ⟨x, y, by omega, by omega, by omega, by omega, by omega, by omega, by omega, by omega,
      b5, b6⟩

/-- C6: `swnvg__rasterizeSortedEdges`, `swnvg__rasterizeXC` and
`swnvg__rasterizeQuad` leave unchanged every bitmap byte that does not belong
to a pixel lying both inside the tile's rectangle and inside the call's bounds.
For `swnvg__rasterizeXC` the tile's `lineLimits` are in the state in which
`swnvg__rasterize` and every earlier `swnvg__rasterizeXC` leave them: each row's
`lims[0]` is not left of the region (the reset value is `gl->width`). -/
theorem rasterizers_write_inside_tile_and_bounds (env : Env) (gl : SWNVGcontext)
    (r : SWNVGthreadCtx) (call : SWNVGcall) (tex : Option SWNVGtexture) (k : Int)
    (hk : ¬ InTileBounds gl r call k) :
    (∀ o, swnvg__rasterizeSortedEdges env gl r call tex = some o → o.1 k = gl.bitmap k) ∧
    (∀ covtex lims o, (∀ j : Int, swnvg__maxi call.bounds0 r.x0 ≤ lims (2 * j)) →
      swnvg__rasterizeXC env gl r call tex covtex lims = some o → o.bitmap k = gl.bitmap k) ∧
    (∀ t v00 v11 bm, swnvg__rasterizeQuad env gl r call t v00 v11 bm k = bm k) :=
  ⟨fun o h => rasterizeSortedEdges_frame env gl r call tex o h k hk,
   fun covtex lims o hl h => rasterizeXC_frame env gl r call tex covtex lims o h hl k hk,
   fun t v00 v11 bm => rasterizeQuad_frame env gl r call t v00 v11 bm k hk⟩

theorem sample_not_inTileBounds : ¬ InTileBounds sampleGl sampleTile sampleCall 0 := by
  rintro ⟨x, y, h1, h2, h3, h4, h5, h6, h7, h8, h9, h10⟩
  have e1 : sampleCall.bounds0 = 3 := rfl
  have e2 : sampleCall.bounds1 = 3 := rfl
  have e3 : sampleGl.stride = 40 := by decide
  rw [e1] at h5
  rw [e2] at h7
  rw [e3] at h9
  omega

/-- Witness for C6: byte 0 of a 10x10 framebuffer, the tile `[0..9] x [0..9]`
and a call with bounds `[3..7] x [3..7]`. -/
theorem rasterizers_write_inside_tile_and_bounds_witness :
    ¬ InTileBounds sampleGl sampleTile sampleCall 0 ∧
    ((∀ o, swnvg__rasterizeSortedEdges sampleEnv sampleGl sampleTile sampleCall none = some o →
        o.1 0 = sampleGl.bitmap 0) ∧
    (∀ covtex lims o, (∀ j : Int, swnvg__maxi sampleCall.bounds0 sampleTile.x0 ≤ lims (2 * j)) →
      swnvg__rasterizeXC sampleEnv sampleGl sampleTile sampleCall none covtex lims = some o →
        o.bitmap 0 = sampleGl.bitmap 0) ∧
    (∀ t v00 v11 bm,
      swnvg__rasterizeQuad sampleEnv sampleGl sampleTile sampleCall t v00 v11 bm 0 = bm 0)) :=
  ⟨sample_not_inTileBounds,
    rasterizers_write_inside_tile_and_bounds sampleEnv sampleGl sampleTile sampleCall none 0
      sample_not_inTileBounds⟩

/-! ### Scenarios -/

/-- C7: on a 10x10 all-transparent framebuffer, recording a fill of the square
with corners `(3,3)` and `(7,7)` in opaque red and flushing leaves the pixels
with `3 <= x <= 6` and `3 <= y <= 6` solid opaque red and every other pixel
transparent, both with antialiasing and with the `NO_AA` flag. -/
theorem redSquare_scenario :
    FramebufferIs (fillScenario false 1 1 3 3 7 7 squareSegs) 10 10
      (fun x y => if 3 ≤ x ∧ x ≤ 6 ∧ 3 ≤ y ∧ y ≤ 6 then ⟨255, 0, 0, 255⟩ else ⟨0, 0, 0, 0⟩) ∧
    FramebufferIs (fillScenario true 1 1 3 3 7 7 squareSegs) 10 10
      (fun x y => if 3 ≤ x ∧ x ≤ 6 ∧ 3 ≤ y ∧ y ≤ 6 then ⟨255, 0, 0, 255⟩ else ⟨0, 0, 0, 0⟩) := by
  decide!

/-- Counterexample to C5: for the fill of `slopedQuad`, pixel `(3, 6)` is
`(255, 0, 0, 255)` after a flush on the 1x1 grid and `(250, 0, 0, 250)` after a
flush on the 2x2 grid, whose lower tiles start their active edges afresh at
row 6. -/
theorem tileGrid_output_differs :
    pixelOf (fillScenario false 1 1 3 0 7 10 slopedQuad) 3 6 = some ⟨255, 0, 0, 255⟩ ∧
    pixelOf (fillScenario false 2 2 3 0 7 10 slopedQuad) 3 6 = some ⟨250, 0, 0, 250⟩ := by
  decide!

/-! ### Budget of the re-sort loop -/

theorem bubblePass_cons (a b : SWNVGactiveEdge) (rest : List SWNVGactiveEdge) :
    bubblePass a (b :: rest) =
      if a.x > b.x then (b :: (bubblePass a rest).1, true)
      else (a :: (bubblePass b rest).1, (bubblePass b rest).2) := rfl

theorem resortActive_cons (fuel : Nat) (a : SWNVGactiveEdge) (rest : List SWNVGactiveEdge) :
    resortActive (fuel + 1) (a :: rest) =
      if (bubblePass a rest).2 then resortActive fuel (bubblePass a rest).1
      else (bubblePass a rest).1 := rfl

theorem bubblePass_sorted : ∀ (s : List SWNVGactiveEdge) (a : SWNVGactiveEdge),
    (a :: s).Pairwise (fun a b => a.x ≤ b.x) → bubblePass a s = (a :: s, false)
  | [], _, _ => rfl
  | b :: s, a, h => by
    have hab : a.x ≤ b.x := (List.pairwise_cons.mp h).1 b (List.mem_cons_self b s)
    have ih := bubblePass_sorted s b (List.pairwise_cons.mp h).2
    simp only [bubblePass, not_lt.mpr hab, if_false, gt_iff_lt, ih]

theorem bubblePass_length : ∀ (p : List SWNVGactiveEdge) (a : SWNVGactiveEdge),
    (bubblePass a p).1.length = p.length + 1
  | [], _ => rfl
  | b :: p, a => by
    simp only [bubblePass]
    split_ifs
    · simp [bubblePass_length p a]
    · simp [bubblePass_length p b]

theorem bubblePass_last : ∀ (p : List SWNVGactiveEdge) (a : SWNVGactiveEdge),
    ∃ q m, (bubblePass a p).1 = q ++ [m] ∧ a.x ≤ m.x ∧ (∀ b ∈ q, b.x ≤ m.x) ∧ m ∈ a :: p ∧
      (∀ b ∈ q, b ∈ a :: p)
  | [], a => ⟨[], a, rfl, le_refl _, fun _ h => absurd h (List.not_mem_nil _),
      List.mem_cons_self a [], fun _ h => absurd h (List.not_mem_nil _)⟩
  | b :: p, a => by
    simp only [bubblePass]
    split_ifs with h
    · obtain ⟨q, m, e, h1, h2, h3, h4⟩ := bubblePass_last p a
      refine ⟨b :: q, m, by simp [e], h1, ?_, ?_, ?_⟩
      · intro c hc
        rcases List.mem_cons.mp hc with rfl | hc
        · exact le_of_lt (lt_of_lt_of_le h h1)
        · exact h2 c hc
      · rcases List.mem_cons.mp h3 with rfl | h3
        · exact List.mem_cons_self _ _
        · exact List.mem_cons_of_mem _ (List.mem_cons_of_mem _ h3)
      · intro c hc
        rcases List.mem_cons.mp hc with rfl | hc
        · exact List.mem_cons_of_mem _ (List.mem_cons_self _ _)
        · rcases List.mem_cons.mp (h4 c hc) with rfl | h5
          · exact List.mem_cons_self _ _
          · exact List.mem_cons_of_mem _ (List.mem_cons_of_mem _ h5)
    · obtain ⟨q, m, e, h1, h2, h3, h4⟩ := bubblePass_last p b
      have hab : a.x ≤ b.x := not_lt.mp h
      refine ⟨a :: q, m, by simp [e], le_trans hab h1, ?_, List.mem_cons_of_mem _ h3, ?_⟩
      · intro c hc
        rcases List.mem_cons.mp hc with rfl | hc
        · exact le_trans hab h1
        · exact h2 c hc
      · intro c hc
        rcases List.mem_cons.mp hc with rfl | hc
        · exact List.mem_cons_self _ _
        · exact List.mem_cons_of_mem _ (h4 c hc)

theorem bubblePass_append : ∀ (p : List SWNVGactiveEdge) (a : SWNVGactiveEdge)
    (s : List SWNVGactiveEdge), (∀ b ∈ a :: p, ∀ c ∈ s, b.x ≤ c.x) →
    s.Pairwise (fun a b => a.x ≤ b.x) →
    bubblePass a (p ++ s) = ((bubblePass a p).1 ++ s, (bubblePass a p).2)
  | [], a, s, h1, h2 => by
    rw [List.nil_append, bubblePass_sorted s a
      (List.pairwise_cons.mpr ⟨fun c hc => h1 a (List.mem_cons_self a []) c hc, h2⟩)]
    rfl
  | b :: p, a, s, h1, h2 => by
    rw [List.cons_append, bubblePass_cons, bubblePass_cons]
    split_ifs with h
    · rw [bubblePass_append p a s (fun c hc d hd => h1 c (by
        rcases List.mem_cons.mp hc with rfl | hc
        · exact List.mem_cons_self _ _
        · exact List.mem_cons_of_mem _ (List.mem_cons_of_mem _ hc)) d hd) h2]
      rfl
    · rw [bubblePass_append p b s (fun c hc d hd => h1 c (List.mem_cons_of_mem _ hc) d hd) h2]
      rfl

theorem bubblePass_unchanged : ∀ (p : List SWNVGactiveEdge) (a : SWNVGactiveEdge),
    (bubblePass a p).2 = false →
    (bubblePass a p).1 = a :: p ∧ List.Chain (fun a b => a.x ≤ b.x) a p
  | [], _, _ => ⟨rfl, List.Chain.nil⟩
  | b :: p, a, h => by
    rw [bubblePass_cons] at h ⊢
    by_cases hab : a.x > b.x
    · rw [if_pos hab] at h
      cases h
    · rw [if_neg hab] at h ⊢
      obtain ⟨e, c⟩ := bubblePass_unchanged p b h
      exact ⟨by rw [e], List.Chain.cons (not_lt.mp hab) c⟩

/-- The iteration budget of `resortActive` is never the reason why the re-sort
loop stops: for a list whose last elements are already in place (`s` sorted and
not below any element of `p`), `p.length` passes suffice, a larger budget gives
the same list, and the list returned is sorted by `x`. -/
theorem resortActive_settled : ∀ (fuel : Nat) (p s : List SWNVGactiveEdge),
    s.Pairwise (fun a b => a.x ≤ b.x) → (∀ a ∈ p, ∀ b ∈ s, a.x ≤ b.x) → p.length ≤ fuel →
    (∀ e, resortActive (fuel + e) (p ++ s) = resortActive fuel (p ++ s)) ∧
    (resortActive fuel (p ++ s)).Pairwise (fun a b => a.x ≤ b.x)
  | 0, p, s, hs, _, hlen => by
    have hp : p = [] := List.length_eq_zero.mp (Nat.le_zero.mp hlen)
    subst hp
    refine ⟨?_, by simpa [resortActive] using hs⟩
    intro e
    cases e with
    | zero => rfl
    | succ e =>
      cases s with
      | nil => simp [resortActive]
      | cons a rest =>
        simp only [Nat.zero_add, List.nil_append, resortActive, bubblePass_sorted rest a hs]
        rfl
  | fuel + 1, [], s, hs, _, _ => by
    cases s with
    | nil =>
      refine ⟨fun e => ?_, by simp [resortActive]⟩
      rw [Nat.add_right_comm]
      simp [resortActive]
    | cons a rest =>
      refine ⟨fun e => ?_, ?_⟩
      · rw [Nat.add_right_comm]
        simp only [List.nil_append, resortActive, bubblePass_sorted rest a hs]
        rfl
      · simp only [List.nil_append, resortActive, bubblePass_sorted rest a hs]
        exact hs
  | fuel + 1, a :: p, s, hs, hps, hlen => by
    have happ := bubblePass_append p a s hps hs
    obtain ⟨q, m, e1, -, h2, h3, h4⟩ := bubblePass_last p a
    have hql : q.length = p.length := by
      have := bubblePass_length p a
      rw [e1] at this
      simpa using this
    have hms : (m :: s).Pairwise (fun a b => a.x ≤ b.x) :=
      List.pairwise_cons.mpr ⟨fun c hc => hps m h3 c hc, hs⟩
    have hq : ∀ b ∈ q, ∀ c ∈ m :: s, b.x ≤ c.x := by
      intro b hb c hc
      rcases List.mem_cons.mp hc with rfl | hc
      · exact h2 b hb
      · exact hps b (h4 b hb) c hc
    obtain ⟨ih1, ih2⟩ := resortActive_settled fuel q (m :: s) hms hq
      (by rw [hql]; exact Nat.le_of_succ_le_succ hlen)
    have elist : (bubblePass a p).1 ++ s = q ++ m :: s := by rw [e1]; simp
    cases hc : (bubblePass a p).2 with
    | true =>
      refine ⟨fun e => ?_, ?_⟩
      · rw [Nat.add_right_comm, List.cons_append, resortActive_cons, resortActive_cons, happ]
        simp only [hc, if_true, elist]
        exact ih1 e
      · rw [List.cons_append, resortActive_cons, happ]
        simp only [hc, if_true, elist]
        exact ih2
    | false =>
      obtain ⟨u1, u2⟩ := bubblePass_unchanged p a hc
      refine ⟨fun e => ?_, ?_⟩
      · rw [Nat.add_right_comm, List.cons_append, resortActive_cons, resortActive_cons, happ]
        simp only [hc, Bool.false_eq_true, if_false]
      · rw [List.cons_append, resortActive_cons, happ]
        simp only [hc, Bool.false_eq_true, if_false, u1]
        haveI : IsTrans SWNVGactiveEdge (fun a b => a.x ≤ b.x) := ⟨fun _ _ _ => le_trans⟩
        have hap : (a :: p).Pairwise (fun a b => a.x ≤ b.x) := List.chain_iff_pairwise.mp u2
        exact List.pairwise_append.mpr ⟨hap, hs, hps⟩

/-- The budget `active.length + 1` that `subScanline` passes to `resortActive`
is adequate: any larger budget returns the same list, and that list is sorted
by `x`. -/
theorem resortActive_fuel_adequate (l : List SWNVGactiveEdge) :
    (∀ e, resortActive (l.length + 1 + e) l = resortActive (l.length + 1) l) ∧
    (resortActive (l.length + 1) l).Pairwise (fun a b => a.x ≤ b.x) := by
  have h := resortActive_settled (l.length + 1) l [] List.Pairwise.nil
    (fun _ _ b hb => absurd hb (List.not_mem_nil b)) (Nat.le_succ _)
  simpa using h

/-! ### Coverage of axis-aligned rectangles -/

theorem spanWeightAA_bounds (X0 X1 x : Int) (h : X0 ≤ X1) :
    0 ≤ spanWeightAA X0 X1 x ∧ spanWeightAA X0 X1 x ≤ 51 := by
  unfold spanWeightAA
  split_ifs <;> omega

theorem fillScanlineAA_eq (s : Int → Nat) (len x0 x1 i j k : Int) (hij : i ≠ j)
    (hk0 : 0 ≤ k) (hk1 : k < len) :
    swnvg__fillScanlineAA s len x0 x1 i j k =
      if k = i then (((s k : Int) + (1024 - x0 % 1024) * 51 / 1024) % 256).toNat
      else if k = j then (((s k : Int) + x1 % 1024 * 51 / 1024) % 256).toNat
      else if i < k ∧ k < j then (((s k : Int) + 51) % 256).toNat
      else s k := by
  have e51 : (255 : Int) / 5 = 51 := by decide
  unfold swnvg__fillScanlineAA
  simp only [SWNVG__FIX, SWNVG__SUBSAMPLES, Nat.cast_ofNat, e51, if_neg hij]
  by_cases h3 : k = i
  · subst h3
    simp only [if_true]
    split_ifs <;> first | (exfalso; omega) | simp [addByte, hij]
  · by_cases h4 : k = j
    · subst h4
      have hji : ¬ i = k := fun h => h3 h.symm
      simp only [if_neg h3, if_true]
      split_ifs <;> first | (exfalso; omega) | simp [addByte, h3, hji]
    · simp only [if_neg h3, if_neg h4]
      split_ifs <;> first | (exfalso; omega) | simp [addByte, h3, h4]

theorem fillScanlineAA_same (s : Int → Nat) (len x0 x1 i k : Int) :
    swnvg__fillScanlineAA s len x0 x1 i i k =
      if k = i then (((s k : Int) + (x1 - x0) * 51 / 1024) % 256).toNat else s k := by
  have e51 : (255 : Int) / 5 = 51 := by decide
  unfold swnvg__fillScanlineAA
  simp only [SWNVG__FIX, SWNVG__SUBSAMPLES, Nat.cast_ofNat, e51, if_true, addByte]
  split_ifs with h
  · rw [h]
  · rfl

theorem fillScanlineAA_inside (s : Int → Nat) (left right X0 X1 : Int) (h01 : X0 ≤ X1)
    (k : Int) (hk0 : 0 ≤ k) (hk1 : k < right - left + 1)
    (hb : (s k : Int) + spanWeightAA X0 X1 (k + left) < 256) :
    (swnvg__fillScanlineAA s (right - left + 1) X0 X1 (X0 / 1024 - left) (X1 / 1024 - left) k : Int)
      = (s k : Int) + spanWeightAA X0 X1 (k + left) := by
  unfold spanWeightAA at hb ⊢
  by_cases hij : X0 / 1024 - left = X1 / 1024 - left
  · rw [← hij, fillScanlineAA_same]
    split_ifs at hb ⊢ <;> omega
  · rw [fillScanlineAA_eq s _ X0 X1 _ _ k hij hk0 hk1]
    split_ifs at hb ⊢ <;> omega

theorem fillScanlineAA_outside (s : Int → Nat) (left right X0 X1 : Int)
    (hg : X0 / 1024 ≤ right ∧ X1 / 1024 ≥ left) (k : Int)
    (hk : k < 0 ∨ right - left + 1 ≤ k) :
    swnvg__fillScanlineAA s (right - left + 1) X0 X1 (X0 / 1024 - left) (X1 / 1024 - left) k
      = s k := by
  have e51 : (255 : Int) / 5 = 51 := by decide
  by_cases hij : X0 / 1024 - left = X1 / 1024 - left
  · rw [← hij, fillScanlineAA_same]
    have : ¬ k = X0 / 1024 - left := by omega
    simp [this]
  · unfold swnvg__fillScanlineAA
    simp only [SWNVG__FIX, SWNVG__SUBSAMPLES, Nat.cast_ofNat, e51, if_neg hij]
    have c2 : ¬ ((if X0 / 1024 - left ≥ 0 then X0 / 1024 - left else -1) < k ∧
        k < (if X1 / 1024 - left < right - left + 1 then X1 / 1024 - left
          else right - left + 1)) := by
      intro ⟨h1, h2⟩
      split_ifs at h1 h2 <;> omega
    simp only [c2, if_false]
    split_ifs with h1 h2 h3
    · have a1 : k ≠ X1 / 1024 - left := by omega
      have a2 : k ≠ X0 / 1024 - left := by omega
      simp [addByte, a1, a2]
    · have a1 : k ≠ X1 / 1024 - left := by omega
      simp [addByte, a1]
    · have a2 : k ≠ X0 / 1024 - left := by omega
      simp [addByte, a2]
    · rfl

theorem addActive_vEdge (x y0 y1 : Rat) (d : Int) (sp : Rat) :
    swnvg__addActive (vEdge x y0 y1 d) sp = ⟨Int.floor (1024 * x), 0, y1, d⟩ := by
  simp [swnvg__addActive, vEdge, SWNVG__FIX]

theorem fillActive_rect (r : SWNVGthreadCtx) (active : List SWNVGactiveEdge) (xmin xmax : Int)
    (flags : CallFlags) (XL XR : Int) (ey : Rat) (h : RectActive XL XR ey active)
    (hAA : flags.noAA = false) :
    swnvg__fillActiveEdges r active xmin xmax flags =
      if XL / 1024 ≤ r.x1 ∧ XR / 1024 ≥ r.x0 then
        (swnvg__fillScanlineAA r.scanline (r.x1 - r.x0 + 1) XL XR (XL / 1024 - r.x0)
            (XR / 1024 - r.x0),
          (if XL / 1024 < xmin then XL / 1024 else xmin),
          (if XR / 1024 > xmax then XR / 1024 else xmax))
      else (r.scanline, xmin, xmax) := by
  obtain ⟨a, b, rfl, hax, hbx, -, -, -, -, hd, hab⟩ := h
  cases he : flags.evenodd <;>
    simp [swnvg__fillActiveEdges, fillActiveStep, he, hAA, hd, hab, hax, hbx, SWNVG__FIX] <;>
    split_ifs <;> simp

theorem insertStarted_rect_before (edges : List SWNVGedge) (call : SWNVGcall)
    (xl xr yt yb scany : Rat) (hcall : IsRectCall edges call xl xr yt yb)
    (h : scany < yt * 5) :
    insertStarted edges scany false 2 call.edgeOffset [] = (call.edgeOffset, []) := by
  obtain ⟨-, d, -, hc | hc⟩ := hcall <;>
    simp [insertStarted, hc.1, vEdge, not_le.mpr h]

theorem insertStarted_rect_after (edges : List SWNVGedge) (call : SWNVGcall)
    (xl xr yt yb scany : Rat) (hcall : IsRectCall edges call xl xr yt yb)
    (h0 : yt * 5 ≤ scany) (h1 : yb * 5 ≤ scany) :
    insertStarted edges scany false 2 call.edgeOffset [] = (call.edgeOffset + 2, []) := by
  obtain ⟨-, d, -, hc | hc⟩ := hcall <;>
    simp [insertStarted, hc.1, hc.2, vEdge, h0, not_lt.mpr h1]

theorem insertStarted_rect_in (edges : List SWNVGedge) (call : SWNVGcall)
    (xl xr yt yb scany : Rat) (hcall : IsRectCall edges call xl xr yt yb)
    (hX : Int.floor (1024 * xl) ≤ Int.floor (1024 * xr))
    (h0 : yt * 5 ≤ scany) (h1 : scany < yb * 5) :
    ∃ act, insertStarted edges scany false 2 call.edgeOffset [] = (call.edgeOffset + 2, act) ∧
      RectActive (Int.floor (1024 * xl)) (Int.floor (1024 * xr)) (yb * 5) act := by
  obtain ⟨-, d, hd, hc | hc⟩ := hcall
  · refine ⟨[⟨Int.floor (1024 * xl), 0, yb * 5, d⟩, ⟨Int.floor (1024 * xr), 0, yb * 5, -d⟩],
      ?_, ?_⟩
    · simp only [insertStarted, hc.1, hc.2, addActive_vEdge]
      simp [vEdge, h0, h1, insertActive, insertAfter, not_lt.mpr hX]
    · exact ⟨_, _, rfl, rfl, rfl, rfl, rfl, rfl, rfl, hd, by simp⟩
  · by_cases hlt : Int.floor (1024 * xl) < Int.floor (1024 * xr)
    · refine ⟨[⟨Int.floor (1024 * xl), 0, yb * 5, d⟩, ⟨Int.floor (1024 * xr), 0, yb * 5, -d⟩],
        ?_, ?_⟩
      · simp only [insertStarted, hc.1, hc.2, addActive_vEdge]
        simp [vEdge, h0, h1, insertActive, insertAfter, hlt]
      · exact ⟨_, _, rfl, rfl, rfl, rfl, rfl, rfl, rfl, hd, by simp⟩
    · have heq : Int.floor (1024 * xl) = Int.floor (1024 * xr) := by omega
      refine ⟨[⟨Int.floor (1024 * xr), 0, yb * 5, -d⟩, ⟨Int.floor (1024 * xl), 0, yb * 5, d⟩],
        ?_, ?_⟩
      · simp only [insertStarted, hc.1, hc.2, addActive_vEdge]
        simp [vEdge, h0, h1, insertActive, insertAfter, hlt]
      · exact ⟨_, _, rfl, heq.symm, heq, rfl, rfl, rfl, rfl, by simpa using hd, by simp⟩

theorem advance_resort_rect (XL XR : Int) (ey scany : Rat) (active : List SWNVGactiveEdge)
    (hX : XL ≤ XR) (h : RectActive XL XR ey active) :
    (ey ≤ scany → advanceActive scany active = []) ∧
    (scany < ey →
      RectActive XL XR ey (advanceActive scany active) ∧
      resortActive ((advanceActive scany active).length + 1) (advanceActive scany active) =
        advanceActive scany active) := by
  obtain ⟨a, b, rfl, hax, hbx, hadx, hbdx, haey, hbey, hd, hab⟩ := h
  constructor
  · intro hle
    simp [advanceActive, haey, hbey, hle]
  · intro hlt
    have h1 : ¬ ey ≤ scany := not_le.mpr hlt
    refine ⟨⟨{ a with x := a.x + a.dx }, { b with x := b.x + b.dx }, ?_, ?_, ?_, hadx, hbdx, haey,
      hbey, hd, hab⟩, ?_⟩
    · simp [advanceActive, haey, hbey, h1]
    · simp [hax, hadx]
    · simp [hbx, hbdx]
    · simp [advanceActive, haey, hbey, h1, resortActive, bubblePass, hax, hbx, hadx, hbdx,
        not_lt.mpr hX]

theorem sampleY_lt (n : Int) : sampleY (n - 1) < sampleY n := by
  unfold sampleY; push_cast; linarith

theorem subScanline_rect (r : SWNVGthreadCtx) (edges : List SWNVGedge) (call : SWNVGcall)
    (xl xr yt yb : Rat) (y : Int) (s : Nat) (st : RowState)
    (hcall : IsRectCall edges call xl xr yt yb)
    (hX : Int.floor (1024 * xl) ≤ Int.floor (1024 * xr))
    (hAA : call.flags.noAA = false)
    (hinv : RectInv call (Int.floor (1024 * xl)) (Int.floor (1024 * xr)) yt yb (y * 5 + s)
      st.active st.e) :
    RectInv call (Int.floor (1024 * xl)) (Int.floor (1024 * xr)) yt yb (y * 5 + s + 1)
      (subScanline r edges call y st s).active (subScanline r edges call y st s).e ∧
    ((subScanline r edges call y st s).scanline, (subScanline r edges call y st s).xmin,
      (subScanline r edges call y st s).xmax) =
      if yt * 5 ≤ sampleY (y * 5 + s) ∧ sampleY (y * 5 + s) < yb * 5 then
        swnvg__fillActiveEdges { r with scanline := st.scanline }
          [⟨Int.floor (1024 * xl), 0, 0, 1⟩, ⟨Int.floor (1024 * xr), 0, 0, -1⟩]
          st.xmin st.xmax call.flags
      else (st.scanline, st.xmin, st.xmax) := by
  have hsc : (((y * (SWNVG__SUBSAMPLES : Int) + (s : Int) : Int) : Rat) + 1 / 2) =
      sampleY (y * 5 + s) := by
    simp [sampleY, SWNVG__SUBSAMPLES]
  have hn1 : sampleY (y * 5 + s + 1 - 1) = sampleY (y * 5 + s) := by
    congr 1; ring
  have hlt := sampleY_lt (y * 5 + s)
  have hpair : RectActive (Int.floor (1024 * xl)) (Int.floor (1024 * xr)) 0
      [⟨Int.floor (1024 * xl), 0, 0, 1⟩, ⟨Int.floor (1024 * xr), 0, 0, -1⟩] :=
    ⟨_, _, rfl, rfl, rfl, rfl, rfl, rfl, rfl, by simp, by simp⟩
  have hfill : ∀ act, RectActive (Int.floor (1024 * xl)) (Int.floor (1024 * xr)) (yb * 5) act →
      swnvg__fillActiveEdges { r with scanline := st.scanline } act st.xmin st.xmax call.flags =
      swnvg__fillActiveEdges { r with scanline := st.scanline }
          [⟨Int.floor (1024 * xl), 0, 0, 1⟩, ⟨Int.floor (1024 * xr), 0, 0, -1⟩]
          st.xmin st.xmax call.flags := by
    intro act hact
    rw [fillActive_rect _ _ _ _ _ _ _ _ hact hAA, fillActive_rect _ _ _ _ _ _ _ _ hpair hAA]
  have invB : ∀ act, yt * 5 ≤ sampleY (y * 5 + s) → sampleY (y * 5 + s) < yb * 5 →
      RectActive (Int.floor (1024 * xl)) (Int.floor (1024 * xr)) (yb * 5) act →
      RectInv call (Int.floor (1024 * xl)) (Int.floor (1024 * xr)) yt yb (y * 5 + s + 1) act
        (call.edgeOffset + 2) := by
    intro act a b c
    unfold RectInv
    rw [hn1]
    exact Or.inr (Or.inl ⟨a, b, c, rfl⟩)
  have invC : yb * 5 ≤ sampleY (y * 5 + s) →
      RectInv call (Int.floor (1024 * xl)) (Int.floor (1024 * xr)) yt yb (y * 5 + s + 1) []
        (call.edgeOffset + 2) := by
    intro a
    unfold RectInv
    rw [hn1]
    exact Or.inr (Or.inr ⟨a, rfl, rfl⟩)
  unfold subScanline
  simp only [hAA, Bool.false_and, Bool.false_eq_true, if_false, hsc, hcall.1]
  rcases hinv with ⟨ha, he⟩ | ⟨h0, h1, hact, he⟩ | ⟨h1, ha, he⟩
  · -- nothing inserted yet
    simp only [ha, he, advanceActive, resortActive, Nat.add_sub_cancel_left]
    by_cases hb : sampleY (y * 5 + s) < yt * 5
    · rw [insertStarted_rect_before edges call xl xr yt yb _ hcall hb]
      dsimp only
      refine ⟨Or.inl ⟨rfl, rfl⟩, ?_⟩
      rw [if_neg (fun h => absurd h.1 (not_le.mpr hb))]
    · have h0 : yt * 5 ≤ sampleY (y * 5 + s) := not_lt.mp hb
      by_cases hc : sampleY (y * 5 + s) < yb * 5
      · obtain ⟨act, hins, hact⟩ := insertStarted_rect_in edges call xl xr yt yb _ hcall hX h0 hc
        rw [hins]
        obtain ⟨a, b, rfl, hrest⟩ := id hact
        dsimp only
        refine ⟨invB _ h0 hc hact, ?_⟩
        rw [if_pos ⟨h0, hc⟩, hfill _ hact]
      · have h1 : yb * 5 ≤ sampleY (y * 5 + s) := not_lt.mp hc
        rw [insertStarted_rect_after edges call xl xr yt yb _ hcall h0 h1]
        dsimp only
        refine ⟨invC h1, ?_⟩
        rw [if_neg (fun h => absurd h.2 hc)]
  · -- both sides active
    have hadv := advance_resort_rect _ _ (yb * 5) (sampleY (y * 5 + s)) st.active hX hact
    simp only [he, Nat.sub_self, insertStarted]
    by_cases hc : sampleY (y * 5 + s) < yb * 5
    · obtain ⟨hact1, hres⟩ := hadv.2 hc
      rw [hres]
      obtain ⟨a, b, hab, hrest⟩ := id hact1
      rw [hab]
      dsimp only
      have h0s : yt * 5 ≤ sampleY (y * 5 + s) := le_trans h0 (le_of_lt hlt)
      refine ⟨invB _ h0s hc (hab ▸ hact1), ?_⟩
      rw [if_pos ⟨h0s, hc⟩, hfill _ (hab ▸ hact1)]
    · have h1 : yb * 5 ≤ sampleY (y * 5 + s) := not_lt.mp hc
      rw [hadv.1 h1]
      simp only [resortActive]
      refine ⟨invC h1, ?_⟩
      rw [if_neg (fun h => absurd h.2 hc)]
  · -- both sides passed
    simp only [ha, he, advanceActive, resortActive, Nat.sub_self, insertStarted]
    have h1s : yb * 5 ≤ sampleY (y * 5 + s) := le_trans h1 (le_of_lt hlt)
    refine ⟨invC h1s, ?_⟩
    rw [if_neg (fun h => absurd h.2 (not_lt.mpr h1s))]

theorem rowSamples_le (yt yb : Rat) (y : Int) : ∀ m, rowSamples yt yb y m ≤ m
  | 0 => Nat.le_refl 0
  | m + 1 => by
    have := rowSamples_le yt yb y m
    unfold rowSamples
    split_ifs <;> omega

theorem spanWeightAA_outside (X0 X1 x : Int) (h01 : X0 ≤ X1) (h : ¬ (X0 / 1024 ≤ x ∧ x ≤ X1 / 1024)) :
    spanWeightAA X0 X1 x = 0 := by
  unfold spanWeightAA
  split_ifs <;> first | rfl | omega

theorem rowFold_rect (r : SWNVGthreadCtx) (edges : List SWNVGedge) (call : SWNVGcall)
    (xl xr yt yb : Rat) (y W : Int) (st0 : RowState)
    (hcall : IsRectCall edges call xl xr yt yb)
    (hX : Int.floor (1024 * xl) ≤ Int.floor (1024 * xr))
    (hAA : call.flags.noAA = false)
    (hinv : RectInv call (Int.floor (1024 * xl)) (Int.floor (1024 * xr)) yt yb (y * 5)
      st0.active st0.e)
    (hz : ∀ k, st0.scanline k = 0) (hmin : st0.xmin = W) (hmax : st0.xmax = 0) :
    ∀ m : Nat, m ≤ 5 →
      RectInv call (Int.floor (1024 * xl)) (Int.floor (1024 * xr)) yt yb (y * 5 + m)
        ((List.range m).foldl (subScanline r edges call y) st0).active
        ((List.range m).foldl (subScanline r edges call y) st0).e ∧
      (∀ k, 0 ≤ k → k < r.x1 - r.x0 + 1 →
        ((((List.range m).foldl (subScanline r edges call y) st0).scanline k : Nat) : Int) =
          (rowSamples yt yb y m : Int) *
            spanWeightAA (Int.floor (1024 * xl)) (Int.floor (1024 * xr)) (k + r.x0)) ∧
      (∀ k, k < 0 ∨ r.x1 - r.x0 + 1 ≤ k →
        ((List.range m).foldl (subScanline r edges call y) st0).scanline k = 0) ∧
      ((List.range m).foldl (subScanline r edges call y) st0).xmin =
        (if 0 < rowSamples yt yb y m ∧
            (Int.floor (1024 * xl) / 1024 ≤ r.x1 ∧ Int.floor (1024 * xr) / 1024 ≥ r.x0) then
          (if Int.floor (1024 * xl) / 1024 < W then Int.floor (1024 * xl) / 1024 else W)
        else W) ∧
      ((List.range m).foldl (subScanline r edges call y) st0).xmax =
        (if 0 < rowSamples yt yb y m ∧
            (Int.floor (1024 * xl) / 1024 ≤ r.x1 ∧ Int.floor (1024 * xr) / 1024 ≥ r.x0) then
          (if Int.floor (1024 * xr) / 1024 > 0 then Int.floor (1024 * xr) / 1024 else 0)
        else 0) := by
  intro m
  induction m with
  | zero =>
    intro _
    refine ⟨by simpa using hinv, ?_, ?_, ?_, ?_⟩
    · intro k _ _
      simp [rowSamples, hz]
    · intro k _
      simp [hz]
    · simp [rowSamples, hmin]
    · simp [rowSamples, hmax]
  | succ m ih =>
    intro hm
    obtain ⟨i1, i2, i3, i4, i5⟩ := ih (by omega)
    rw [List.range_succ, List.foldl_append]
    simp only [List.foldl_cons, List.foldl_nil]
    generalize (List.range m).foldl (subScanline r edges call y) st0 = c at i1 i2 i3 i4 i5 ⊢
    obtain ⟨j1, j2⟩ := subScanline_rect r edges call xl xr yt yb y m c hcall hX hAA i1
    have hpair : RectActive (Int.floor (1024 * xl)) (Int.floor (1024 * xr)) 0
        [⟨Int.floor (1024 * xl), 0, 0, 1⟩, ⟨Int.floor (1024 * xr), 0, 0, -1⟩] :=
      ⟨_, _, rfl, rfl, rfl, rfl, rfl, rfl, rfl, by simp, by simp⟩
    rw [fillActive_rect _ _ _ _ _ _ _ _ hpair hAA] at j2
    have hle := rowSamples_le yt yb y m
    refine ⟨by simpa [add_assoc] using j1, ?_⟩
    generalize Int.floor (1024 * xl) = XL at *
    generalize Int.floor (1024 * xr) = XR at *
    generalize subScanline r edges call y c m = c1 at *
    unfold rowSamples
    by_cases hP : yt * 5 ≤ sampleY (y * 5 + m) ∧ sampleY (y * 5 + m) < yb * 5
    · rw [if_pos hP] at j2
      rw [if_pos hP]
      by_cases hg : XL / 1024 ≤ r.x1 ∧ XR / 1024 ≥ r.x0
      · rw [if_pos hg] at j2
        simp only [Prod.mk.injEq] at j2
        obtain ⟨e1, e2, e3⟩ := j2
        refine ⟨?_, ?_, ?_, ?_⟩
        · intro k hk0 hk1
          have hb := spanWeightAA_bounds XL XR (k + r.x0) hX
          have hk := i2 k hk0 hk1
          have hmul : (rowSamples yt yb y m : Int) * spanWeightAA XL XR (k + r.x0) ≤ 4 * 51 :=
            mul_le_mul (by omega) hb.2 hb.1 (by omega)
          rw [e1, fillScanlineAA_inside c.scanline r.x0 r.x1 XL XR hX k hk0 hk1 (by omega), hk]
          push_cast
          ring
        · intro k hk
          rw [e1, fillScanlineAA_outside c.scanline r.x0 r.x1 XL XR hg k hk]
          exact i3 k hk
        · rw [e2, i4]
          simp only [hg, and_true, Nat.lt_add_left_iff_pos, Nat.lt_one_iff, pos_of_gt, or_true,
            if_true, Nat.add_pos_iff_pos_or_pos, Nat.zero_lt_one]
          split_ifs <;> omega
        · rw [e3, i5]
          simp only [hg, and_true, Nat.add_pos_iff_pos_or_pos, Nat.zero_lt_one, or_true, if_true]
          split_ifs <;> omega
      · rw [if_neg hg] at j2
        simp only [Prod.mk.injEq] at j2
        obtain ⟨e1, e2, e3⟩ := j2
        refine ⟨?_, ?_, ?_, ?_⟩
        · intro k hk0 hk1
          have hw : spanWeightAA XL XR (k + r.x0) = 0 :=
            spanWeightAA_outside XL XR (k + r.x0) hX (by omega)
          rw [e1, i2 k hk0 hk1, hw]
          simp
        · intro k hk
          rw [e1]
          exact i3 k hk
        · rw [e2, i4]
          simp [hg]
        · rw [e3, i5]
          simp [hg]
    · rw [if_neg hP] at j2
      rw [if_neg hP]
      simp only [Prod.mk.injEq] at j2
      obtain ⟨e1, e2, e3⟩ := j2
      refine ⟨?_, ?_, ?_, ?_⟩
      · intro k hk0 hk1
        rw [e1, i2 k hk0 hk1]
        simp
      · intro k hk
        rw [e1]
        exact i3 k hk
      · rw [e2, i4]
        simp
      · rw [e3, i5]
        simp

theorem scanlineSolid_isSome (env : Env) (bitmap : Int → Nat) (dst count : Int)
    (cover : Int → Nat) (coff x y : Int) (call : SWNVGcall) (tex : Option SWNVGtexture)
    (h : call.type = SWNVGpaintType.IMAGE → tex ≠ none) :
    ∃ bm, swnvg__scanlineSolid env bitmap dst count cover coff x y call tex = some bm := by
  unfold swnvg__scanlineSolid
  cases ht : call.type <;> simp only [exists_eq', Option.some.injEq]
  cases tex with
  | none => exact absurd rfl (h ht)
  | some t => exact ⟨_, rfl⟩

theorem rowCoverage_rect (gl : SWNVGcontext) (r : SWNVGthreadCtx) (call : SWNVGcall)
    (xl xr yt yb : Rat) (y : Int) (active : List SWNVGactiveEdge) (e : Nat)
    (scanline : Int → Nat)
    (hcall : IsRectCall gl.edges call xl xr yt yb)
    (hX : Int.floor (1024 * xl) ≤ Int.floor (1024 * xr))
    (hAA : call.flags.noAA = false)
    (hinv : RectInv call (Int.floor (1024 * xl)) (Int.floor (1024 * xr)) yt yb (y * 5) active e)
    (hz : ∀ k, scanline k = 0) :
    RectInv call (Int.floor (1024 * xl)) (Int.floor (1024 * xr)) yt yb ((y + 1) * 5)
        (rowCoverage gl r call y active e scanline).active
        (rowCoverage gl r call y active e scanline).e ∧
      (∀ k, 0 ≤ k → k < r.x1 - r.x0 + 1 →
        (((rowCoverage gl r call y active e scanline).scanline k : Nat) : Int) =
          (rowSamples yt yb y 5 : Int) *
            spanWeightAA (Int.floor (1024 * xl)) (Int.floor (1024 * xr)) (k + r.x0)) ∧
      (∀ k, k < 0 ∨ r.x1 - r.x0 + 1 ≤ k →
        (rowCoverage gl r call y active e scanline).scanline k = 0) ∧
      (rowCoverage gl r call y active e scanline).xmin =
        (if 0 < rowSamples yt yb y 5 ∧
            (Int.floor (1024 * xl) / 1024 ≤ r.x1 ∧ Int.floor (1024 * xr) / 1024 ≥ r.x0) then
          (if Int.floor (1024 * xl) / 1024 < gl.width then Int.floor (1024 * xl) / 1024
            else gl.width)
        else gl.width) ∧
      (rowCoverage gl r call y active e scanline).xmax =
        (if 0 < rowSamples yt yb y 5 ∧
            (Int.floor (1024 * xl) / 1024 ≤ r.x1 ∧ Int.floor (1024 * xr) / 1024 ≥ r.x0) then
          (if Int.floor (1024 * xr) / 1024 > 0 then Int.floor (1024 * xr) / 1024 else 0)
        else 0) := by
  have h := rowFold_rect r gl.edges call xl xr yt yb y gl.width
    { active := active, e := e, scanline := scanline, xmin := gl.width, xmax := 0 }
    hcall hX hAA hinv hz rfl rfl 5 (le_refl 5)
  have e5 : y * 5 + ((5 : Nat) : Int) = (y + 1) * 5 := by push_cast; ring
  rw [e5] at h
  exact h

theorem rasterRow_rect (env : Env) (gl : SWNVGcontext) (r : SWNVGthreadCtx) (call : SWNVGcall)
    (tex : Option SWNVGtexture) (xl xr yt yb : Rat) (y : Int) (st : RasterState)
    (hcall : IsRectCall gl.edges call xl xr yt yb)
    (hX : Int.floor (1024 * xl) ≤ Int.floor (1024 * xr))
    (hAA : call.flags.noAA = false)
    (hsome : call.type = SWNVGpaintType.IMAGE → tex ≠ none)
    (hinv : RectInv call (Int.floor (1024 * xl)) (Int.floor (1024 * xr)) yt yb (y * 5)
      st.active st.e)
    (hz : ∀ k, st.scanline k = 0) :
    ∃ st1, rasterRow env gl r call tex y st = some st1 ∧
      RectInv call (Int.floor (1024 * xl)) (Int.floor (1024 * xr)) yt yb ((y + 1) * 5)
        st1.active st1.e ∧
      (∀ k, st1.scanline k = 0) := by
  obtain ⟨c1, c2, c3, c4, c5⟩ :=
    rowCoverage_rect gl r call xl xr yt yb y st.active st.e st.scanline hcall hX hAA hinv hz
  unfold rasterRow
  generalize rowCoverage gl r call y st.active st.e st.scanline = c at c1 c2 c3 c4 c5 ⊢
  generalize Int.floor (1024 * xl) = XL at *
  generalize Int.floor (1024 * xr) = XR at *
  have hblend : ∃ bm,
      (if swnvg__maxi (swnvg__maxi c.xmin r.x0) call.bounds0 ≤
            swnvg__mini (swnvg__mini c.xmax r.x1) call.bounds2 then
          swnvg__scanlineSolid env st.bitmap
            (y * gl.stride + swnvg__maxi (swnvg__maxi c.xmin r.x0) call.bounds0 * 4)
            (swnvg__mini (swnvg__mini c.xmax r.x1) call.bounds2 -
              swnvg__maxi (swnvg__maxi c.xmin r.x0) call.bounds0 + 1)
            c.scanline (swnvg__maxi (swnvg__maxi c.xmin r.x0) call.bounds0 - r.x0)
            (swnvg__maxi (swnvg__maxi c.xmin r.x0) call.bounds0) y call tex
        else some st.bitmap) = some bm := by
    split_ifs
    · exact scanlineSolid_isSome _ _ _ _ _ _ _ _ _ _ hsome
    · exact ⟨_, rfl⟩
  obtain ⟨bm, hbm⟩ := hblend
  simp only [hbm]
  refine ⟨_, rfl, c1, ?_⟩
  intro k
  dsimp only
  by_cases hk : k < 0 ∨ r.x1 - r.x0 + 1 ≤ k
  · split_ifs <;> beta_reduce <;> (try split_ifs) <;> first | rfl | exact c3 k hk
  · have hk0 : 0 ≤ k := by omega
    have hk1 : k < r.x1 - r.x0 + 1 := by omega
    have hv := c2 k hk0 hk1
    by_cases hw : (rowSamples yt yb y 5 : Int) * spanWeightAA XL XR (k + r.x0) = 0
    · have hc0 : c.scanline k = 0 := by omega
      split_ifs <;> beta_reduce <;> (try split_ifs) <;> first | rfl | exact hc0
    · have hn : 0 < rowSamples yt yb y 5 := by
        rcases Nat.eq_zero_or_pos (rowSamples yt yb y 5) with h0 | h0
        · rw [h0] at hw; simp at hw
        · exact h0
      have hin : XL / 1024 ≤ k + r.x0 ∧ k + r.x0 ≤ XR / 1024 := by
        by_contra hcon
        rw [spanWeightAA_outside XL XR (k + r.x0) hX hcon] at hw
        simp at hw
      have hg : XL / 1024 ≤ r.x1 ∧ XR / 1024 ≥ r.x0 := by omega
      rw [if_pos ⟨hn, hg⟩] at c4 c5
      have a1 : swnvg__maxi c.xmin r.x0 ≤ k + r.x0 := by
        unfold swnvg__maxi; rw [c4]; split_ifs <;> omega
      have a2 : k + r.x0 ≤ swnvg__mini c.xmax r.x1 := by
        unfold swnvg__mini; rw [c5]; split_ifs <;> omega
      rw [if_pos (by omega), if_pos (by omega)]

theorem rasterRows_rect (env : Env) (gl : SWNVGcontext) (r : SWNVGthreadCtx) (call : SWNVGcall)
    (tex : Option SWNVGtexture) (xl xr yt yb : Rat)
    (hcall : IsRectCall gl.edges call xl xr yt yb)
    (hX : Int.floor (1024 * xl) ≤ Int.floor (1024 * xr))
    (hAA : call.flags.noAA = false)
    (hsome : call.type = SWNVGpaintType.IMAGE → tex ≠ none) :
    ∀ (cnt : Nat) (y : Int) (st : RasterState),
      RectInv call (Int.floor (1024 * xl)) (Int.floor (1024 * xr)) yt yb (y * 5) st.active st.e →
      (∀ k, st.scanline k = 0) →
      ∃ st1, rasterRows env gl r call tex cnt y st = some st1 ∧
        RectInv call (Int.floor (1024 * xl)) (Int.floor (1024 * xr)) yt yb ((y + cnt) * 5)
          st1.active st1.e ∧
        (∀ k, st1.scanline k = 0)
  | 0, y, st, hinv, hz => ⟨st, rfl, by simpa using hinv, hz⟩
  | cnt + 1, y, st, hinv, hz => by
    obtain ⟨st1, h1, h2, h3⟩ :=
      rasterRow_rect env gl r call tex xl xr yt yb y st hcall hX hAA hsome hinv hz
    obtain ⟨st2, g1, g2, g3⟩ :=
      rasterRows_rect env gl r call tex xl xr yt yb hcall hX hAA hsome cnt (y + 1) st1 h2 h3
    refine ⟨st2, ?_, ?_, g3⟩
    · simp only [rasterRows, h1, g1]
    · have e : y + ((cnt + 1 : Nat) : Int) = y + 1 + cnt := by push_cast; ring
      rw [e]
      exact g2

theorem rowSamples_full (yt yb : Rat) (y : Int) (h0 : yt ≤ y) (h1 : (y : Rat) + 1 ≤ yb) :
    ∀ m : Nat, m ≤ 5 → rowSamples yt yb y m = m
  | 0, _ => rfl
  | m + 1, hm => by
    have ih := rowSamples_full yt yb y h0 h1 m (by omega)
    have hm4 : (m : Rat) ≤ 4 := by exact_mod_cast (by omega : m ≤ 4)
    have hm0 : (0 : Rat) ≤ m := Nat.cast_nonneg m
    unfold rowSamples
    rw [ih, if_pos]
    unfold sampleY
    push_cast
    constructor <;> linarith

theorem rowSamples_none (yt yb : Rat) (y : Int) (h : (y : Rat) + 1 ≤ yt ∨ yb ≤ y) :
    ∀ m : Nat, m ≤ 5 → rowSamples yt yb y m = 0
  | 0, _ => rfl
  | m + 1, hm => by
    have ih := rowSamples_none yt yb y h m (by omega)
    have hm4 : (m : Rat) ≤ 4 := by exact_mod_cast (by omega : m ≤ 4)
    have hm0 : (0 : Rat) ≤ m := Nat.cast_nonneg m
    unfold rowSamples
    rw [ih, if_neg]
    unfold sampleY
    push_cast
    rintro ⟨a, b⟩
    rcases h with h | h <;> linarith

theorem floor_fix_le (a : Rat) (x : Int) (h : a ≤ x) : Int.floor (1024 * a) ≤ 1024 * x := by
  have h1 : ((Int.floor (1024 * a) : Int) : Rat) ≤ 1024 * a := Int.floor_le _
  have h2 : ((Int.floor (1024 * a) : Int) : Rat) ≤ ((1024 * x : Int) : Rat) := by
    push_cast; linarith
  exact_mod_cast h2

theorem le_floor_fix (a : Rat) (x : Int) (h : (x : Rat) ≤ a) : 1024 * x ≤ Int.floor (1024 * a) := by
  apply Int.le_floor.mpr
  push_cast
  linarith

theorem spanWeightAA_full (xl xr : Rat) (x : Int) (h0 : xl ≤ x) (h1 : (x : Rat) + 1 ≤ xr) :
    spanWeightAA (Int.floor (1024 * xl)) (Int.floor (1024 * xr)) x = 51 := by
  have a := floor_fix_le xl x h0
  have b := le_floor_fix xr (x + 1) (by push_cast; exact h1)
  unfold spanWeightAA
  split_ifs <;> omega

theorem spanWeightAA_none (xl xr : Rat) (x : Int) (hlr : xl ≤ xr)
    (h : (x : Rat) + 1 ≤ xl ∨ xr ≤ x) :
    spanWeightAA (Int.floor (1024 * xl)) (Int.floor (1024 * xr)) x = 0 := by
  have hX : Int.floor (1024 * xl) ≤ Int.floor (1024 * xr) :=
    Int.floor_mono (by linarith)
  rcases h with h | h
  · have b := le_floor_fix xl (x + 1) (by push_cast; exact h)
    unfold spanWeightAA
    split_ifs <;> omega
  · have a := floor_fix_le xr x h
    unfold spanWeightAA
    split_ifs <;> omega

/-- Coverage of two stored vertical edges with the ordinates `yt * 5` and
`yb * 5` (either winding rule) in the antialiased scanline rasterizer, on any
tile whose coverage scanline is zero: the coverage byte of a pixel `(x, y)` of
the tile is `n * w`, where `n` counts the five sub-scanline centres of row `y`
that lie in `[5 yt, 5 yb)` and `w` is the span weight of column `x` for the
fixed-point ends `floor (1024 xl)`, `floor (1024 xr)`.  It is at most `255`, it
is `255` when `[x, x+1] x [y, y+1]` lies inside `[xl, xr] x [yt, yb]`, and `0`
when it lies outside. -/
theorem rect_coverage (env : Env) (gl : SWNVGcontext) (r : SWNVGthreadCtx) (call : SWNVGcall)
    (tex : Option SWNVGtexture) (xl xr yt yb : Rat) (x y : Int)
    (hcall : IsRectCall gl.edges call xl xr yt yb) (hlr : xl ≤ xr)
    (hAA : call.flags.noAA = false)
    (hsome : call.type = SWNVGpaintType.IMAGE → tex ≠ none)
    (hz : ∀ k, r.scanline k = 0)
    (hy : swnvg__maxi r.y0 call.bounds1 ≤ y) (hx0 : r.x0 ≤ x) (hx1 : x ≤ r.x1) :
    ∃ c : Nat, coverageAt env gl r call tex x y = some c ∧
      (c : Int) = (rowSamples yt yb y 5 : Int) *
        spanWeightAA (Int.floor (1024 * xl)) (Int.floor (1024 * xr)) x ∧
      c ≤ 255 ∧
      (xl ≤ x ∧ (x : Rat) + 1 ≤ xr ∧ yt ≤ y ∧ (y : Rat) + 1 ≤ yb → c = 255) ∧
      ((x : Rat) + 1 ≤ xl ∨ xr ≤ x ∨ (y : Rat) + 1 ≤ yt ∨ yb ≤ y → c = 0) := by
  have hX : Int.floor (1024 * xl) ≤ Int.floor (1024 * xr) := Int.floor_mono (by linarith)
  obtain ⟨st, h1, h2, h3⟩ := rasterRows_rect env gl r call tex xl xr yt yb hcall hX hAA hsome
    (y - swnvg__maxi r.y0 call.bounds1).toNat (swnvg__maxi r.y0 call.bounds1)
    { bitmap := gl.bitmap, scanline := r.scanline, active := [], e := call.edgeOffset }
    (Or.inl ⟨rfl, rfl⟩) hz
  have ey : swnvg__maxi r.y0 call.bounds1 +
      (((y - swnvg__maxi r.y0 call.bounds1).toNat : Nat) : Int) = y := by
    rw [Int.toNat_of_nonneg (by omega)]; omega
  rw [ey] at h2
  obtain ⟨-, c2, -, -, -⟩ :=
    rowCoverage_rect gl r call xl xr yt yb y st.active st.e st.scanline hcall hX hAA h2 h3
  have hv := c2 (x - r.x0) (by omega) (by omega)
  rw [show x - r.x0 + r.x0 = x by omega] at hv
  have hb := spanWeightAA_bounds (Int.floor (1024 * xl)) (Int.floor (1024 * xr)) x hX
  have hn := rowSamples_le yt yb y 5
  refine ⟨_, ?_, hv, ?_, ?_, ?_⟩
  · simp only [coverageAt, h1]
  · have : (rowSamples yt yb y 5 : Int) *
        spanWeightAA (Int.floor (1024 * xl)) (Int.floor (1024 * xr)) x ≤ 5 * 51 :=
      mul_le_mul (by omega) hb.2 hb.1 (by omega)
    omega
  · rintro ⟨a1, a2, a3, a4⟩
    rw [rowSamples_full yt yb y a3 a4 5 (le_refl 5), spanWeightAA_full xl xr x a1 a2] at hv
    omega
  · intro h
    rcases h with h | h | h | h
    · rw [spanWeightAA_none xl xr x hlr (Or.inl h)] at hv
      simpa using hv
    · rw [spanWeightAA_none xl xr x hlr (Or.inr h)] at hv
      simpa using hv
    · rw [rowSamples_none yt yb y (Or.inl h) 5 (le_refl 5)] at hv
      simpa using hv
    · rw [rowSamples_none yt yb y (Or.inr h) 5 (le_refl 5)] at hv
      simpa using hv

theorem rectCall_isRect : IsRectCall rectGl.edges rectCall (13 / 4) 7 3 7 :=
  ⟨rfl, -1, by decide, Or.inl ⟨rfl, rfl⟩⟩

/-- Example: pixel `(3, 4)` for the stored sides of the rectangle
`[13/4, 7] x [3, 7]` on the tile `[0..9] x [0..9]`. -/
theorem rect_coverage_witness :
    ∃ c : Nat, coverageAt sampleEnv rectGl sampleTile rectCall none 3 4 = some c ∧
      (c : Int) = (rowSamples 3 7 4 5 : Int) *
        spanWeightAA (Int.floor (1024 * (13 / 4 : Rat))) (Int.floor (1024 * (7 : Rat))) 3 ∧
      c ≤ 255 ∧
      ((13 / 4 : Rat) ≤ (3 : Int) ∧ ((3 : Int) : Rat) + 1 ≤ 7 ∧ (3 : Rat) ≤ (4 : Int) ∧
        ((4 : Int) : Rat) + 1 ≤ 7 → c = 255) ∧
      (((3 : Int) : Rat) + 1 ≤ 13 / 4 ∨ (7 : Rat) ≤ (3 : Int) ∨ ((4 : Int) : Rat) + 1 ≤ 3 ∨
        (7 : Rat) ≤ (4 : Int) → c = 0) :=
  rect_coverage sampleEnv rectGl sampleTile rectCall none (13 / 4) 7 3 7 3 4
    rectCall_isRect (by norm_num) rfl (fun h => absurd h (by decide)) (fun _ => rfl)
    (by decide) (by decide) (by decide)

/-! ### Tile-grid independence for rectangle fills -/

theorem readPixel_blendAt_same (m : Int → Nat) (a : Int) (f : Pixel → Pixel) :
    readPixel (blendAt m a f) a = f (readPixel m a) := by
  simp [readPixel, blendAt, writePixel]

theorem readPixel_congr (m m1 : Int → Nat) (a : Int)
    (h : ∀ k, a ≤ k → k < a + 4 → m1 k = m k) : readPixel m1 a = readPixel m a := by
  simp only [readPixel]
  rw [h a (by omega) (by omega), h (a + 1) (by omega) (by omega),
    h (a + 2) (by omega) (by omega), h (a + 3) (by omega) (by omega)]

theorem readPixel_blendAt_other (m : Int → Nat) (a b : Int) (f : Pixel → Pixel)
    (h : b + 4 ≤ a ∨ a + 4 ≤ b) : readPixel (blendAt m a f) b = readPixel m b :=
  readPixel_congr m _ b (fun k h1 h2 => blendAt_frame m a f k (by omega))

theorem pixelLoop_succ (n : Nat) (f : Nat → (Int → Nat) → (Int → Nat)) (m : Int → Nat) :
    pixelLoop (n + 1) f m = f n (pixelLoop n f m) := by
  unfold pixelLoop
  rw [List.range_succ, List.foldl_append]
  rfl

theorem pixelLoop_read (g : Nat → Pixel → Pixel) (dst : Int) (m : Int → Nat) :
    ∀ (n i : Nat), i < n →
      readPixel (pixelLoop n (fun i m => blendAt m (dst + 4 * i) (g i)) m) (dst + 4 * i) =
        g i (readPixel m (dst + 4 * i))
  | 0, i, h => absurd h (Nat.not_lt_zero i)
  | n + 1, i, h => by
    rw [pixelLoop_succ]
    by_cases hi : i = n
    · subst hi
      rw [readPixel_blendAt_same]
      congr 1
      apply readPixel_congr
      intro k h1 h2
      apply pixelLoop_frame (fun a => dst ≤ a ∧ a < dst + 4 * (i : Int))
      · intro j hj m1 a ha
        apply blendAt_frame
        have : (j : Int) < i := by exact_mod_cast hj
        omega
      · omega
    · have hlt : i < n := by omega
      rw [readPixel_blendAt_other _ _ _ _ (by
        have : (i : Int) < n := by exact_mod_cast hlt
        omega)]
      exact pixelLoop_read g dst m n i hlt

theorem scanlineColor_eq (env : Env) (bitmap : Int → Nat) (dst count : Int)
    (cover : Int → Nat) (coff : Int) (call : SWNVGcall) :
    scanlineColor env bitmap dst count cover coff call =
      pixelLoop count.toNat
        (fun i m => blendAt m (dst + 4 * i) (colorBlend env call (cover (coff + i)))) bitmap := by
  unfold scanlineColor colorBlend
  split_ifs with h <;> simp [h]

theorem scanlineColor_read (env : Env) (bitmap : Int → Nat) (dst count : Int)
    (cover : Int → Nat) (coff : Int) (call : SWNVGcall) (i : Int) (h0 : 0 ≤ i)
    (h1 : i < count) :
    readPixel (scanlineColor env bitmap dst count cover coff call) (dst + 4 * i) =
      colorBlend env call (cover (coff + i)) (readPixel bitmap (dst + 4 * i)) := by
  rw [scanlineColor_eq]
  obtain ⟨n, rfl⟩ := Int.eq_ofNat_of_zero_le h0
  have hn : n < count.toNat := by omega
  exact pixelLoop_read (fun i => colorBlend env call (cover (coff + i))) dst bitmap _ n hn

theorem rasterRow_color_bitmap (env : Env) (gl : SWNVGcontext) (r : SWNVGthreadCtx)
    (call : SWNVGcall) (tex : Option SWNVGtexture) (y : Int) (st st1 : RasterState)
    (htype : call.type = SWNVGpaintType.COLOR)
    (h : rasterRow env gl r call tex y st = some st1) :
    st1.bitmap =
      if swnvg__maxi (swnvg__maxi (rowCoverage gl r call y st.active st.e st.scanline).xmin r.x0)
            call.bounds0 ≤
          swnvg__mini (swnvg__mini (rowCoverage gl r call y st.active st.e st.scanline).xmax r.x1)
            call.bounds2 then
        scanlineColor env st.bitmap
          (y * gl.stride +
            swnvg__maxi (swnvg__maxi (rowCoverage gl r call y st.active st.e st.scanline).xmin
              r.x0) call.bounds0 * 4)
          (swnvg__mini (swnvg__mini (rowCoverage gl r call y st.active st.e st.scanline).xmax
              r.x1) call.bounds2 -
            swnvg__maxi (swnvg__maxi (rowCoverage gl r call y st.active st.e st.scanline).xmin
              r.x0) call.bounds0 + 1)
          (rowCoverage gl r call y st.active st.e st.scanline).scanline
          (swnvg__maxi (swnvg__maxi (rowCoverage gl r call y st.active st.e st.scanline).xmin
              r.x0) call.bounds0 - r.x0)
          call
      else st.bitmap := by
  unfold rasterRow at h
  simp only [swnvg__scanlineSolid, htype] at h
  split_ifs at h ⊢ with hc
  all_goals
    simp only [Option.some.injEq] at h
    rw [← h]

theorem maxi_le (a b x : Int) (h1 : a ≤ x) (h2 : b ≤ x) : swnvg__maxi a b ≤ x := by
  unfold swnvg__maxi; split_ifs <;> omega

theorem le_mini (a b x : Int) (h1 : x ≤ a) (h2 : x ≤ b) : x ≤ swnvg__mini a b := by
  unfold swnvg__mini; split_ifs <;> omega

theorem rasterRow_rect_pixels (env : Env) (gl : SWNVGcontext) (r : SWNVGthreadCtx)
    (call : SWNVGcall) (tex : Option SWNVGtexture) (xl xr yt yb : Rat) (y : Int)
    (st : RasterState)
    (hcall : IsRectCall gl.edges call xl xr yt yb)
    (hX : Int.floor (1024 * xl) ≤ Int.floor (1024 * xr))
    (hAA : call.flags.noAA = false)
    (htype : call.type = SWNVGpaintType.COLOR)
    (hr0 : 0 ≤ r.x0) (hr1 : r.x1 < gl.width)
    (hinv : RectInv call (Int.floor (1024 * xl)) (Int.floor (1024 * xr)) yt yb (y * 5)
      st.active st.e)
    (hz : ∀ k, st.scanline k = 0) :
    ∃ st1, rasterRow env gl r call tex y st = some st1 ∧
      RectInv call (Int.floor (1024 * xl)) (Int.floor (1024 * xr)) yt yb ((y + 1) * 5)
        st1.active st1.e ∧
      (∀ k, st1.scanline k = 0) ∧
      (∀ x, r.x0 ≤ x → x ≤ r.x1 →
        readPixel st1.bitmap (y * gl.stride + 4 * x) =
          rectRowPixel env call (Int.floor (1024 * xl)) (Int.floor (1024 * xr))
            (rowSamples yt yb y 5) x (readPixel st.bitmap (y * gl.stride + 4 * x))) := by
  obtain ⟨st1, h1, h2, h3⟩ := rasterRow_rect env gl r call tex xl xr yt yb y st hcall hX hAA
    (fun h => by rw [htype] at h; cases h) hinv hz
  refine ⟨st1, h1, h2, h3, ?_⟩
  have hbm := rasterRow_color_bitmap env gl r call tex y st st1 htype h1
  obtain ⟨-, c2, -, c4, c5⟩ :=
    rowCoverage_rect gl r call xl xr yt yb y st.active st.e st.scanline hcall hX hAA hinv hz
  generalize rowCoverage gl r call y st.active st.e st.scanline = c at hbm c2 c4 c5
  generalize Int.floor (1024 * xl) = XL at *
  generalize Int.floor (1024 * xr) = XR at *
  generalize rowSamples yt yb y 5 = n at *
  intro x hx0 hx1
  rw [hbm]
  have hcov := c2 (x - r.x0) (by omega) (by omega)
  rw [show x - r.x0 + r.x0 = x by omega] at hcov
  unfold rectRowPixel
  by_cases hin : 0 < n ∧ call.bounds0 ≤ x ∧ x ≤ call.bounds2 ∧ XL / 1024 ≤ x ∧ x ≤ XR / 1024
  · rw [if_pos hin]
    obtain ⟨hn, hb0, hb2, hi, hj⟩ := hin
    have hg : XL / 1024 ≤ r.x1 ∧ XR / 1024 ≥ r.x0 := by omega
    rw [if_pos ⟨hn, hg⟩] at c4 c5
    have a1 : swnvg__maxi (swnvg__maxi c.xmin r.x0) call.bounds0 ≤ x :=
      maxi_le _ _ _ (maxi_le _ _ _ (by rw [c4]; split_ifs <;> omega) hx0) hb0
    have a2 : x ≤ swnvg__mini (swnvg__mini c.xmax r.x1) call.bounds2 :=
      le_mini _ _ _ (le_mini _ _ _ (by rw [c5]; split_ifs <;> omega) hx1) hb2
    generalize swnvg__maxi (swnvg__maxi c.xmin r.x0) call.bounds0 = xmin1 at a1 ⊢
    generalize swnvg__mini (swnvg__mini c.xmax r.x1) call.bounds2 = xmax1 at a2 ⊢
    rw [if_pos (by omega)]
    have e1 : y * gl.stride + 4 * x = y * gl.stride + xmin1 * 4 + 4 * (x - xmin1) := by ring
    rw [e1, scanlineColor_read env st.bitmap _ _ c.scanline _ call (x - xmin1) (by omega)
      (by omega)]
    rw [show xmin1 - r.x0 + (x - xmin1) = x - r.x0 by ring]
    congr 2
    omega
  · rw [if_neg hin]
    have hout : ¬ (swnvg__maxi (swnvg__maxi c.xmin r.x0) call.bounds0 ≤ x ∧
        x ≤ swnvg__mini (swnvg__mini c.xmax r.x1) call.bounds2) := by
      rintro ⟨a1, a2⟩
      apply hin
      have b1 : c.xmin ≤ x := le_trans (le_trans (maxi_ge_left _ _) (maxi_ge_left _ _)) a1
      have b2 : call.bounds0 ≤ x := le_trans (maxi_ge_right _ _) a1
      have b3 : x ≤ c.xmax := le_trans a2 (le_trans (mini_le_left _ _) (mini_le_left _ _))
      have b4 : x ≤ call.bounds2 := le_trans a2 (mini_le_right _ _)
      rw [c4] at b1
      rw [c5] at b3
      by_cases hng : 0 < n ∧ XL / 1024 ≤ r.x1 ∧ XR / 1024 ≥ r.x0
      · rw [if_pos hng] at b1 b3
        refine ⟨hng.1, b2, b4, ?_, ?_⟩ <;> split_ifs at b1 b3 <;> omega
      · rw [if_neg hng] at b1 b3
        omega
    generalize swnvg__maxi (swnvg__maxi c.xmin r.x0) call.bounds0 = xmin1 at hout ⊢
    generalize swnvg__mini (swnvg__mini c.xmax r.x1) call.bounds2 = xmax1 at hout ⊢
    split_ifs with hle
    · apply readPixel_congr
      intro k k1 k2
      apply scanlineColor_frame
      omega
    · rfl

theorem addr_disjoint (W stride x y x2 y2 : Int) (hs : stride = 4 * W)
    (hx0 : 0 ≤ x) (hx1 : x < W) (hx20 : 0 ≤ x2) (hx21 : x2 < W) (hne : y ≠ y2) :
    y2 * stride + 4 * x2 + 4 ≤ y * stride + 4 * x ∨
      y * stride + 4 * x + 4 ≤ y2 * stride + 4 * x2 := by
  subst hs
  rcases lt_or_gt_of_ne hne with h | h
  · right
    have : (y2 - y) * (4 * W) ≥ 1 * (4 * W) :=
      mul_le_mul_of_nonneg_right (by omega) (by omega)
    nlinarith
  · left
    have : (y - y2) * (4 * W) ≥ 1 * (4 * W) :=
      mul_le_mul_of_nonneg_right (by omega) (by omega)
    nlinarith

theorem rasterRow_other_row (env : Env) (gl : SWNVGcontext) (r : SWNVGthreadCtx)
    (call : SWNVGcall) (tex : Option SWNVGtexture) (y : Int) (st st1 : RasterState)
    (hs : gl.stride = 4 * gl.width) (hr0 : 0 ≤ r.x0) (hr1 : r.x1 < gl.width)
    (h : rasterRow env gl r call tex y st = some st1) (x y1 : Int)
    (hx0 : 0 ≤ x) (hx1 : x < gl.width) (hne : y1 ≠ y) :
    readPixel st1.bitmap (y1 * gl.stride + 4 * x) = readPixel st.bitmap (y1 * gl.stride + 4 * x) := by
  apply readPixel_congr
  intro k k1 k2
  apply rasterRow_frame env gl r call tex y st st1 h
  rintro ⟨x2, a1, a2, -, -, a5, a6⟩
  have := addr_disjoint gl.width gl.stride x y1 x2 y hs hx0 hx1 (by omega) (by omega) hne
  omega

theorem rasterRows_rect_pixels (env : Env) (gl : SWNVGcontext) (r : SWNVGthreadCtx)
    (call : SWNVGcall) (tex : Option SWNVGtexture) (xl xr yt yb : Rat)
    (hcall : IsRectCall gl.edges call xl xr yt yb)
    (hX : Int.floor (1024 * xl) ≤ Int.floor (1024 * xr))
    (hAA : call.flags.noAA = false)
    (htype : call.type = SWNVGpaintType.COLOR)
    (hs : gl.stride = 4 * gl.width) (hr0 : 0 ≤ r.x0) (hr1 : r.x1 < gl.width) :
    ∀ (cnt : Nat) (y : Int) (st : RasterState),
      RectInv call (Int.floor (1024 * xl)) (Int.floor (1024 * xr)) yt yb (y * 5) st.active st.e →
      (∀ k, st.scanline k = 0) →
      ∃ st1, rasterRows env gl r call tex cnt y st = some st1 ∧
        (∀ k, st1.scanline k = 0) ∧
        (∀ x y1, r.x0 ≤ x → x ≤ r.x1 →
          readPixel st1.bitmap (y1 * gl.stride + 4 * x) =
            if y ≤ y1 ∧ y1 < y + cnt then
              rectRowPixel env call (Int.floor (1024 * xl)) (Int.floor (1024 * xr))
                (rowSamples yt yb y1 5) x (readPixel st.bitmap (y1 * gl.stride + 4 * x))
            else readPixel st.bitmap (y1 * gl.stride + 4 * x))
  | 0, y, st, _, hz => by
    refine ⟨st, rfl, hz, ?_⟩
    intro x y1 _ _
    rw [if_neg (by simp)]
  | cnt + 1, y, st, hinv, hz => by
    obtain ⟨st1, h1, h2, h3, h4⟩ := rasterRow_rect_pixels env gl r call tex xl xr yt yb y st hcall
      hX hAA htype hr0 hr1 hinv hz
    obtain ⟨st2, g1, g3, g4⟩ := rasterRows_rect_pixels env gl r call tex xl xr yt yb hcall hX hAA
      htype hs hr0 hr1 cnt (y + 1) st1 h2 h3
    refine ⟨st2, ?_, g3, ?_⟩
    · simp only [rasterRows, h1, g1]
    · intro x y1 hx0 hx1
      rw [g4 x y1 hx0 hx1]
      by_cases hy : y1 = y
      · subst hy
        rw [if_neg (by omega), if_pos (by push_cast; omega), h4 x hx0 hx1]
      · rw [rasterRow_other_row env gl r call tex y st st1 hs hr0 hr1 h1 x y1 (by omega)
          (by omega) hy]
        by_cases hin : y + 1 ≤ y1 ∧ y1 < y + 1 + cnt
        · rw [if_pos hin, if_pos (by push_cast; omega)]
        · rw [if_neg hin, if_neg (by push_cast; omega)]

theorem rasterizeCall_rect (env : Env) (gl : SWNVGcontext) (r : SWNVGthreadCtx)
    (call : SWNVGcall) (xl xr yt yb : Rat)
    (hcall : IsRectCall gl.edges call xl xr yt yb) (hlr : xl ≤ xr)
    (hAA : call.flags.noAA = false) (htype : call.type = SWNVGpaintType.COLOR)
    (hxc : call.flags.xc = false)
    (hs : gl.stride = 4 * gl.width) (hr0 : 0 ≤ r.x0) (hr1 : r.x1 < gl.width)
    (hz : ∀ k, r.scanline k = 0) :
    ∃ bm sc, rasterizeCall env gl r call =
        some ({ gl with bitmap := bm }, { r with scanline := sc }) ∧
      (∀ k, sc k = 0) ∧
      TileApplied gl.stride r (rectPixel env call xl xr yt yb) gl.bitmap bm := by
  have hX : Int.floor (1024 * xl) ≤ Int.floor (1024 * xr) := Int.floor_mono (by linarith)
  unfold rasterizeCall
  by_cases hg : call.bounds0 ≤ r.x1 ∧ call.bounds1 ≤ r.y1 ∧ call.bounds2 ≥ r.x0 ∧
      call.bounds3 ≥ r.y0
  · rw [if_pos hg]
    simp only [htype, hxc, reduceCtorEq, if_false, Bool.false_eq_true]
    obtain ⟨st, h1, h2, h3⟩ := rasterRows_rect_pixels env gl r call
      (swnvg__findTexture gl call.image) xl xr yt yb hcall hX hAA htype hs hr0 hr1
      (swnvg__mini r.y1 call.bounds3 - swnvg__maxi r.y0 call.bounds1 + 1).toNat
      (swnvg__maxi r.y0 call.bounds1)
      { bitmap := gl.bitmap, scanline := r.scanline, active := [], e := call.edgeOffset }
      (Or.inl ⟨rfl, rfl⟩) hz
    have hrs : swnvg__rasterizeSortedEdges env gl r call (swnvg__findTexture gl call.image) =
        some (st.bitmap, st.scanline) := by
      simp only [swnvg__rasterizeSortedEdges, h1]
    rw [hrs]
    refine ⟨st.bitmap, st.scanline, rfl, h2, ?_, ?_⟩
    · intro x y hin
      obtain ⟨i1, i2, i3, i4⟩ := hin
      rw [h3 x y i1 i2]
      unfold rectPixel
      have c1 := maxi_ge_left r.y0 call.bounds1
      have c2 := maxi_ge_right r.y0 call.bounds1
      have c3 := mini_le_left r.y1 call.bounds3
      have c4 := mini_le_right r.y1 call.bounds3
      have c5 := maxi_le r.y0 call.bounds1
      have c6 := le_mini r.y1 call.bounds3
      by_cases hy : call.bounds1 ≤ y ∧ y ≤ call.bounds3
      · have d1 := c5 y i3 hy.1
        have d2 := c6 y i4 hy.2
        rw [if_pos hy, if_pos (by omega)]
      · rw [if_neg hy, if_neg (by omega)]
    · intro k hk
      apply rasterizeSortedEdges_frame env gl r call _ _ hrs
      rintro ⟨x, y, a1, a2, a3, a4, -, -, -, -, a9, a10⟩
      exact hk ⟨x, y, ⟨a1, a2, a3, a4⟩, a9, a10⟩
  · rw [if_neg hg]
    refine ⟨gl.bitmap, r.scanline, rfl, hz, ?_, fun k _ => rfl⟩
    intro x y hin
    obtain ⟨i1, i2, i3, i4⟩ := hin
    unfold rectPixel rectRowPixel
    split_ifs with h1 h2
    · exfalso
      apply hg
      omega
    · rfl
    · rfl

theorem TileApplied.comp (stride : Int) (r r1 : SWNVGthreadCtx) (F G : Int → Int → Pixel → Pixel)
    (bm bm1 bm2 : Int → Nat) (hr : ∀ x y, inTile r1 x y ↔ inTile r x y)
    (h1 : TileApplied stride r F bm bm1) (h2 : TileApplied stride r1 G bm1 bm2) :
    TileApplied stride r (fun x y p => G x y (F x y p)) bm bm2 := by
  constructor
  · intro x y hin
    rw [h2.1 x y ((hr x y).mpr hin), h1.1 x y hin]
  · intro k hk
    rw [h2.2 k (fun ⟨x, y, a, b⟩ => hk ⟨x, y, (hr x y).mp a, b⟩), h1.2 k hk]

theorem rasterizeCalls_rect (env : Env) (E : List SWNVGedge) :
    ∀ calls : List SWNVGcall, (∀ c ∈ calls, IsRectFill E c) →
      ∃ G : Int → Int → Pixel → Pixel, ∀ (gl : SWNVGcontext) (r : SWNVGthreadCtx),
        gl.edges = E → gl.stride = 4 * gl.width → 0 ≤ r.x0 → r.x1 < gl.width →
        (∀ k, r.scanline k = 0) →
        ∃ bm sc, rasterizeCalls env calls gl r =
            some ({ gl with bitmap := bm }, { r with scanline := sc }) ∧
          (∀ k, sc k = 0) ∧ TileApplied gl.stride r G gl.bitmap bm
  | [], _ => ⟨fun _ _ p => p, fun gl r _ _ _ _ hz =>
      ⟨gl.bitmap, r.scanline, rfl, hz, fun _ _ _ => rfl, fun _ _ => rfl⟩⟩
  | c :: cs, h => by
    obtain ⟨G, hG⟩ := rasterizeCalls_rect env E cs (fun c1 hc1 => h c1 (List.mem_cons_of_mem c hc1))
    obtain ⟨htype, hAA, hxc, xl, xr, yt, yb, hlr, hcall⟩ := h c (List.mem_cons_self c cs)
    refine ⟨fun x y p => G x y (rectPixel env c xl xr yt yb x y p), ?_⟩
    intro gl r hE hs hr0 hr1 hz
    obtain ⟨bm1, sc1, e1, z1, t1⟩ := rasterizeCall_rect env gl r c xl xr yt yb (hE ▸ hcall) hlr hAA
      htype hxc hs hr0 hr1 hz
    obtain ⟨bm2, sc2, e2, z2, t2⟩ := hG { gl with bitmap := bm1 } { r with scanline := sc1 } hE hs
      hr0 hr1 z1
    refine ⟨bm2, sc2, ?_, z2, ?_⟩
    · simp only [rasterizeCalls, e1, e2]
    · exact TileApplied.comp gl.stride r { r with scanline := sc1 } _ _ gl.bitmap bm1 bm2
        (fun x y => Iff.rfl) t1 t2

theorem sortCallEdges_rect (E : List SWNVGedge) (call : SWNVGcall) (xl xr yt yb : Rat)
    (h : IsRectCall E call xl xr yt yb) :
    swnvg__sortCallEdges E call.edgeOffset call.edgeCount = some E := by
  obtain ⟨hn, d, -, hc | hc⟩ := h <;>
    simp [swnvg__sortCallEdges, swnvg__quickSortEdges, swnvg__insSortEdges, insSortFrom,
      insSortStep, insSortInner, hn, hc.1, hc.2, SWNVG__COMPARE, vEdge]

theorem sortEdgesLoop_rect (gl : SWNVGcontext) (E : List SWNVGedge) (n : Nat) (hn : 1 ≤ n)
    (h : ∀ c ∈ gl.calls, IsRectFill E c) :
    ∀ (fuel i : Nat), gl.calls.length ≤ i + fuel → sortEdgesLoop gl n fuel i E = some E
  | 0, i, hi => by
    simp only [sortEdgesLoop]
    rw [if_neg (by omega)]
  | fuel + 1, i, hi => by
    simp only [sortEdgesLoop]
    cases hc : gl.calls[i]? with
    | none => rfl
    | some call =>
      obtain ⟨-, -, hxc, xl, xr, yt, yb, -, hcall⟩ := h call (List.getElem?_mem hc)
      simp only [hxc, Bool.false_eq_true, if_false, sortCallEdges_rect E call xl xr yt yb hcall]
      exact sortEdgesLoop_rect gl E n hn h fuel (i + n) (by omega)

theorem sortPhase_rect (gl : SWNVGcontext) (hn : 1 ≤ gl.xthreads * gl.ythreads)
    (h : ∀ c ∈ gl.calls, IsRectFill gl.edges c) :
    ∀ idxs : List Nat, (∀ i ∈ idxs, ∃ r, gl.threads[i]? = some r) → sortPhase idxs gl = some gl
  | [], _ => rfl
  | i :: rest, hth => by
    obtain ⟨r, hr⟩ := hth i (List.mem_cons_self i rest)
    have hs : swnvg__sortEdges gl r = some gl := by
      simp only [swnvg__sortEdges,
        sortEdgesLoop_rect gl gl.edges _ hn h gl.calls.length r.threadnum (by omega)]
    simp only [sortPhase, hr, hs]
    exact sortPhase_rect gl hn h rest (fun j hj => hth j (List.mem_cons_of_mem i hj))

theorem addr_overlap (W x y x2 y2 k : Int) (hx0 : 0 ≤ x) (hx1 : x < W) (hx20 : 0 ≤ x2)
    (hx21 : x2 < W) (h1 : y * (4 * W) + 4 * x ≤ k) (h2 : k < y * (4 * W) + 4 * x + 4)
    (h3 : y2 * (4 * W) + 4 * x2 ≤ k) (h4 : k < y2 * (4 * W) + 4 * x2 + 4) :
    x = x2 ∧ y = y2 := by
  by_cases hy : y = y2
  · subst hy
    exact ⟨by omega, rfl⟩
  · have := addr_disjoint W (4 * W) x y x2 y2 rfl hx0 hx1 hx20 hx21 hy
    omega

theorem rasterize_rect (env : Env) (E : List SWNVGedge) (C : List SWNVGcall)
    (G : Int → Int → Pixel → Pixel)
    (hG : ∀ (gl : SWNVGcontext) (r : SWNVGthreadCtx),
      gl.edges = E → gl.stride = 4 * gl.width → 0 ≤ r.x0 → r.x1 < gl.width →
      (∀ k, r.scanline k = 0) →
      ∃ bm sc, rasterizeCalls env C gl r =
          some ({ gl with bitmap := bm }, { r with scanline := sc }) ∧
        (∀ k, sc k = 0) ∧ TileApplied gl.stride r G gl.bitmap bm)
    (gl : SWNVGcontext) (r : SWNVGthreadCtx) (hE : gl.edges = E) (hC : gl.calls = C)
    (hs : gl.stride = 4 * gl.width) (hr0 : 0 ≤ r.x0) (hr1 : r.x1 < gl.width)
    (hz : ∀ k, r.scanline k = 0) :
    ∃ bm r1, swnvg__rasterize env gl r = some ({ gl with bitmap := bm }, r1) ∧
      TileApplied gl.stride r G gl.bitmap bm := by
  subst hC
  unfold swnvg__rasterize
  dsimp only
  split_ifs
  · obtain ⟨bm, sc, e, -, t⟩ := hG gl
      { r with lineLimits := some (fun k => if k % 2 = 0 then gl.width else 0) } hE hs hr0 hr1 hz
    exact ⟨bm, _, e, t⟩
  · obtain ⟨bm, sc, e, -, t⟩ := hG gl r hE hs hr0 hr1 hz
    exact ⟨bm, _, e, t⟩

theorem rasterPhase_rect (env : Env) (E : List SWNVGedge) (C : List SWNVGcall)
    (G : Int → Int → Pixel → Pixel) (W : Int) (T : List SWNVGthreadCtx)
    (hG : ∀ (gl : SWNVGcontext) (r : SWNVGthreadCtx),
      gl.edges = E → gl.stride = 4 * gl.width → 0 ≤ r.x0 → r.x1 < gl.width →
      (∀ k, r.scanline k = 0) →
      ∃ bm sc, rasterizeCalls env C gl r =
          some ({ gl with bitmap := bm }, { r with scanline := sc }) ∧
        (∀ k, sc k = 0) ∧ TileApplied gl.stride r G gl.bitmap bm)
    (hT : ∀ (i : Nat) (r : SWNVGthreadCtx), T[i]? = some r → 0 ≤ r.x0 ∧ r.x1 < W ∧ ∀ k, r.scanline k = 0)
    (hdisj : ∀ (i j : Nat) (r r1 : SWNVGthreadCtx), i ≠ j → T[i]? = some r → T[j]? = some r1 →
      ∀ x y, inTile r x y → ¬ inTile r1 x y) :
    ∀ idxs : List Nat, idxs.Nodup → (∀ i ∈ idxs, i < T.length) →
      ∀ gl : SWNVGcontext, gl.edges = E → gl.calls = C → gl.width = W → gl.stride = 4 * W →
      (∀ i ∈ idxs, gl.threads[i]? = T[i]?) →
      ∃ gl1, rasterPhase env idxs gl = some gl1 ∧
        (∀ i ∈ idxs, ∀ r, T[i]? = some r → ∀ x y, inTile r x y →
          readPixel gl1.bitmap (y * (4 * W) + 4 * x) =
            G x y (readPixel gl.bitmap (y * (4 * W) + 4 * x))) ∧
        (∀ k, (¬ ∃ i ∈ idxs, ∃ r, T[i]? = some r ∧ ∃ x y, inTile r x y ∧
            y * (4 * W) + 4 * x ≤ k ∧ k < y * (4 * W) + 4 * x + 4) → gl1.bitmap k = gl.bitmap k)
  | [], _, _, gl, _, _, _, _, _ =>
    ⟨gl, rfl, fun i hi => absurd hi (List.not_mem_nil i), fun _ _ => rfl⟩
  | i :: rest, hnd, hlen, gl, hE, hC, hW, hs, hth => by
    have hi : i < T.length := hlen i (List.mem_cons_self i rest)
    have hr : T[i]? = some T[i] := List.getElem?_eq_getElem hi
    obtain ⟨hr0, hr1, hz⟩ := hT i _ hr
    have hsw : gl.stride = 4 * gl.width := by rw [hs, hW]
    obtain ⟨bm, r1, e1, t1⟩ := rasterize_rect env E C G hG gl T[i] hE hC hsw hr0 (hW ▸ hr1) hz
    rw [hs] at t1
    have hnd1 : rest.Nodup := (List.nodup_cons.mp hnd).2
    have hni : i ∉ rest := (List.nodup_cons.mp hnd).1
    obtain ⟨gl1, g1, g2, g3⟩ := rasterPhase_rect env E C G W T hG hT hdisj rest hnd1
      (fun j hj => hlen j (List.mem_cons_of_mem i hj))
      { gl with bitmap := bm, threads := gl.threads.set i r1 } hE hC hW hs
      (fun j hj => by
        have hji : i ≠ j := fun h => hni (h ▸ hj)
        show (gl.threads.set i r1)[j]? = T[j]?
        rw [List.getElem?_set_ne hji]
        exact hth j (List.mem_cons_of_mem i hj))
    have hin : ∀ (j : Nat) (r : SWNVGthreadCtx), T[j]? = some r → ∀ x y, inTile r x y →
        0 ≤ x ∧ x < W := by
      intro j r hj x y hxy
      obtain ⟨a, b, -⟩ := hT j r hj
      obtain ⟨c, d, -, -⟩ := hxy
      exact ⟨by omega, by omega⟩
    refine ⟨gl1, ?_, ?_, ?_⟩
    · have hthi : gl.threads[i]? = some T[i] := by
        rw [hth i (List.mem_cons_self i rest)]; exact hr
      simp only [rasterPhase, hthi, e1]
      exact g1
    · intro j hj r hjr x y hxy
      obtain ⟨hx0, hx1⟩ := hin j r hjr x y hxy
      rcases List.mem_cons.mp hj with rfl | hj
      · have hri : r = T[j] := by rw [hr] at hjr; exact (Option.some.inj hjr).symm
        subst hri
        rw [← t1.1 x y hxy]
        apply readPixel_congr
        intro k k1 k2
        apply g3
        rintro ⟨j2, hj2, r2, hr2, x2, y2, hxy2, k3, k4⟩
        obtain ⟨a, b⟩ := hin j2 r2 hr2 x2 y2 hxy2
        obtain ⟨rfl, rfl⟩ := addr_overlap W x y x2 y2 k hx0 hx1 a b (by omega) (by omega) k3 k4
        exact hdisj j j2 _ r2 (fun h => hni (h ▸ hj2)) hr hr2 x y hxy hxy2
      · rw [g2 j hj r hjr x y hxy]
        congr 1
        apply readPixel_congr
        intro k k1 k2
        apply t1.2
        rintro ⟨x2, y2, hxy2, k3, k4⟩
        obtain ⟨a, b⟩ := hin i _ hr x2 y2 hxy2
        obtain ⟨rfl, rfl⟩ := addr_overlap W x y x2 y2 k hx0 hx1 a b (by omega) (by omega) k3 k4
        exact hdisj i j _ r (fun h => hni (h ▸ hj)) hr hjr x y hxy2 hxy
    · intro k hk
      rw [g3 k (fun ⟨j, hj, rest1⟩ => hk ⟨j, List.mem_cons_of_mem i hj, rest1⟩)]
      exact t1.2 k (fun ⟨x, y, hxy, k1, k2⟩ =>
        hk ⟨i, List.mem_cons_self i rest, _, hr, x, y, hxy, k1, k2⟩)

theorem withGrid_threads (gl : SWNVGcontext) (xt yt : Nat) (hxt : 1 ≤ xt) :
    ∃ c : Bool, ∀ t : Nat, (withGrid gl xt yt).threads[t]? =
      if t < yt * xt then
        some (setTile gl.width gl.height (gl.width / xt + 1) (gl.height / yt + 1) c (t % xt)
          (t / xt) (zeroThread t))
      else none := by
  refine ⟨(if gl.covtex.isSome && (gl.width != gl.width || gl.height != gl.height) then none
    else gl.covtex).isNone, fun t => ?_⟩
  unfold withGrid
  rw [setFramebuffer_threads_getElem? _ _ _ _ _ _ _ _ hxt t]
  simp only [List.getElem?_map, List.getElem?_range]
  by_cases h : t < yt * xt
  · have h1 : t < xt * yt := by rw [Nat.mul_comm xt yt]; exact h
    simp only [h, h1, if_true, List.getElem?_range h1, Option.map_some']
  · have h1 : ¬ t < xt * yt := by rw [Nat.mul_comm xt yt]; exact h
    simp only [h, if_false]
    rw [List.getElem?_eq_none (by simpa using h1)]
    rfl

theorem withGrid_tiles (gl : SWNVGcontext) (xt yt : Nat) (hxt : 1 ≤ xt) (hyt : 1 ≤ yt)
    (hw : 1 ≤ gl.width) (hh : 1 ≤ gl.height) :
    (∀ t, t < xt * yt → ∃ r, (withGrid gl xt yt).threads[t]? = some r) ∧
    (∀ (i : Nat) (r : SWNVGthreadCtx), (withGrid gl xt yt).threads[i]? = some r →
      0 ≤ r.x0 ∧ r.x1 < gl.width ∧ ∀ k, r.scanline k = 0) ∧
    (∀ (i j : Nat) (r r1 : SWNVGthreadCtx), i ≠ j → (withGrid gl xt yt).threads[i]? = some r →
      (withGrid gl xt yt).threads[j]? = some r1 → ∀ x y, inTile r x y → ¬ inTile r1 x y) ∧
    (∀ (i : Nat) (r : SWNVGthreadCtx), (withGrid gl xt yt).threads[i]? = some r →
      i < xt * yt ∧ ∀ x y, inTile r x y → 0 ≤ x ∧ x < gl.width ∧ 0 ≤ y ∧ y < gl.height) ∧
    (∀ x y : Int, 0 ≤ x → x < gl.width → 0 ≤ y → y < gl.height →
      ∃ t r, t < xt * yt ∧ (withGrid gl xt yt).threads[t]? = some r ∧ inTile r x y) := by
  obtain ⟨c, hT⟩ := withGrid_threads gl xt yt hxt
  have hxtI : (0 : Int) < xt := by exact_mod_cast hxt
  have hytI : (0 : Int) < yt := by exact_mod_cast hyt
  have hw0 : 0 ≤ gl.width / (xt : Int) := Int.ediv_nonneg (by omega) (by omega)
  have hh0 : 0 ≤ gl.height / (yt : Int) := Int.ediv_nonneg (by omega) (by omega)
  have htw : 0 < gl.width / (xt : Int) + 1 := by omega
  have hth0 : 0 < gl.height / (yt : Int) + 1 := by omega
  have hget : ∀ (i : Nat) (r : SWNVGthreadCtx), (withGrid gl xt yt).threads[i]? = some r →
      i < yt * xt ∧ r = setTile gl.width gl.height (gl.width / xt + 1) (gl.height / yt + 1) c
        (i % xt) (i / xt) (zeroThread i) := by
    intro i r hr
    rw [hT i] at hr
    by_cases h : i < yt * xt
    · rw [if_pos h] at hr
      exact ⟨h, (Option.some.inj hr).symm⟩
    · rw [if_neg h] at hr
      cases hr
  refine ⟨?_, ?_, ?_, ?_, ?_⟩
  · intro t ht
    rw [hT t, if_pos (by rw [Nat.mul_comm yt xt]; exact ht)]
    exact ⟨_, rfl⟩
  · intro i r hr
    obtain ⟨-, rfl⟩ := hget i r hr
    have c1 : (0 : Int) ≤ ((i % xt : Nat) : Int) * (gl.width / (xt : Int) + 1) :=
      mul_nonneg (by positivity) (by omega)
    refine ⟨c1, ?_, ?_⟩
    · simp only [setTile]
      have := mini_le_left gl.width (((i % xt : Nat) : Int) * (gl.width / (xt : Int) + 1) +
        (gl.width / (xt : Int) + 1))
      omega
    · intro k
      simp only [setTile, zeroThread]
      split_ifs <;> rfl
  · intro i j r r1 hij hr hr1 x y h1 h2
    obtain ⟨-, rfl⟩ := hget i r hr
    obtain ⟨-, rfl⟩ := hget j r1 hr1
    rw [inTile_setTile] at h1 h2
    obtain ⟨⟨a1, _, a3⟩, ⟨b1, _, b3⟩⟩ := h1
    obtain ⟨⟨a1', _, a3'⟩, ⟨b1', _, b3'⟩⟩ := h2
    have e1 := tile_index_unique _ x htw _ a1 a3
    have e2 := tile_index_unique _ y hth0 _ b1 b3
    have e1' := tile_index_unique _ x htw _ a1' a3'
    have e2' := tile_index_unique _ y hth0 _ b1' b3'
    have e3 : i % xt = j % xt := by
      have : ((i % xt : Nat) : Int) = ((j % xt : Nat) : Int) := by rw [e1, e1']
      exact_mod_cast this
    have e4 : i / xt = j / xt := by
      have : ((i / xt : Nat) : Int) = ((j / xt : Nat) : Int) := by rw [e2, e2']
      exact_mod_cast this
    apply hij
    rw [← Nat.div_add_mod i xt, ← Nat.div_add_mod j xt, e3, e4]
  · intro i r hr
    obtain ⟨hi, rfl⟩ := hget i r hr
    refine ⟨by rw [Nat.mul_comm xt yt]; exact hi, ?_⟩
    intro x y hxy
    rw [inTile_setTile] at hxy
    obtain ⟨⟨a1, a2, _⟩, ⟨b1, b2, _⟩⟩ := hxy
    have c1 : (0 : Int) ≤ ((i % xt : Nat) : Int) * (gl.width / (xt : Int) + 1) :=
      mul_nonneg (by positivity) (by omega)
    have c2 : (0 : Int) ≤ ((i / xt : Nat) : Int) * (gl.height / (yt : Int) + 1) :=
      mul_nonneg (by positivity) (by omega)
    exact ⟨by linarith, a2, by linarith, b2⟩
  · intro x y hx0 hx1 hy0 hy1
    have hwlt : gl.width < (gl.width / (xt : Int) + 1) * xt :=
      Int.lt_ediv_add_one_mul_self gl.width hxtI
    have hhlt : gl.height < (gl.height / (yt : Int) + 1) * yt :=
      Int.lt_ediv_add_one_mul_self gl.height hytI
    have hi0 : 0 ≤ x / (gl.width / (xt : Int) + 1) := Int.ediv_nonneg hx0 (by omega)
    have hj0 : 0 ≤ y / (gl.height / (yt : Int) + 1) := Int.ediv_nonneg hy0 (by omega)
    have hi1 : x / (gl.width / (xt : Int) + 1) < xt :=
      (Int.ediv_lt_iff_lt_mul htw).mpr (by rw [mul_comm]; omega)
    have hj1 : y / (gl.height / (yt : Int) + 1) < yt :=
      (Int.ediv_lt_iff_lt_mul hth0).mpr (by rw [mul_comm]; omega)
    obtain ⟨ii, hii⟩ := Int.eq_ofNat_of_zero_le hi0
    obtain ⟨jj, hjj⟩ := Int.eq_ofNat_of_zero_le hj0
    have hii1 : ii < xt := by rw [hii] at hi1; exact_mod_cast hi1
    have hjj1 : jj < yt := by rw [hjj] at hj1; exact_mod_cast hj1
    have hmod : (jj * xt + ii) % xt = ii := by
      rw [Nat.mul_comm, Nat.mul_add_mod, Nat.mod_eq_of_lt hii1]
    have hdiv : (jj * xt + ii) / xt = jj := by
      rw [Nat.mul_comm, Nat.mul_add_div (by omega), Nat.div_eq_of_lt hii1, Nat.add_zero]
    have hlt : jj * xt + ii < yt * xt := by
      calc jj * xt + ii < jj * xt + xt := by omega
        _ = (jj + 1) * xt := by ring
        _ ≤ yt * xt := Nat.mul_le_mul_right _ hjj1
    refine ⟨jj * xt + ii, setTile gl.width gl.height (gl.width / xt + 1) (gl.height / yt + 1) c
      ((jj * xt + ii) % xt) ((jj * xt + ii) / xt) (zeroThread (jj * xt + ii)),
      by rw [Nat.mul_comm xt yt]; exact hlt, ?_, ?_⟩
    · rw [hT, if_pos hlt]
    · rw [hmod, hdiv, inTile_setTile, ← hii, ← hjj]
      refine ⟨⟨Int.ediv_mul_le x (by omega), hx1, ?_⟩, ⟨Int.ediv_mul_le y (by omega), hy1, ?_⟩⟩
      · have := Int.lt_ediv_add_one_mul_self x htw
        linarith
      · have := Int.lt_ediv_add_one_mul_self y hth0
        linarith

theorem readPixel_byte (m m1 : Int → Nat) (a k : Int) (h : readPixel m a = readPixel m1 a)
    (h1 : a ≤ k) (h2 : k < a + 4) : m k = m1 k := by
  simp only [readPixel, Pixel.mk.injEq] at h
  obtain ⟨e0, e1, e2, e3⟩ := h
  have hk : k = a ∨ k = a + 1 ∨ k = a + 2 ∨ k = a + 3 := by omega
  rcases hk with rfl | rfl | rfl | rfl
  · exact e0
  · exact e1
  · exact e2
  · exact e3

theorem flush_rect_rendered (env : Env) (gl : SWNVGcontext) (hw : 1 ≤ gl.width)
    (hh : 1 ≤ gl.height) (hcalls : ∀ c ∈ gl.calls, IsRectFill gl.edges c)
    (hne : gl.calls ≠ []) :
    ∃ G : Int → Int → Pixel → Pixel, ∀ xt yt : Nat, 1 ≤ xt → 1 ≤ yt →
      ∃ a, swnvg__renderFlush env (withGrid gl xt yt) = some a ∧
        (∀ x y, 0 ≤ x → x < gl.width → 0 ≤ y → y < gl.height →
          readPixel a.bitmap (y * (4 * gl.width) + 4 * x) =
            G x y (readPixel gl.bitmap (y * (4 * gl.width) + 4 * x))) ∧
        (∀ k, (¬ ∃ x y, 0 ≤ x ∧ x < gl.width ∧ 0 ≤ y ∧ y < gl.height ∧
            y * (4 * gl.width) + 4 * x ≤ k ∧ k < y * (4 * gl.width) + 4 * x + 4) →
          a.bitmap k = gl.bitmap k) := by
  obtain ⟨G, hG⟩ := rasterizeCalls_rect env gl.edges gl.calls hcalls
  refine ⟨G, ?_⟩
  intro xt yt hxt hyt
  obtain ⟨t1, t2, t3, t4, t5⟩ := withGrid_tiles gl xt yt hxt hyt hw hh
  have hn : 1 ≤ xt * yt := Nat.mul_pos hxt hyt
  have hidx : (if xt * yt > 1 then List.range (xt * yt) else [0]) = List.range (xt * yt) := by
    split_ifs with h
    · rfl
    · have : xt * yt = 1 := by omega
      rw [this]
      rfl
  have hlen : gl.calls.length ≠ 0 := fun h => hne (List.length_eq_zero.mp h)
  have hsort : sortPhase (List.range (xt * yt)) (withGrid gl xt yt) = some (withGrid gl xt yt) :=
    sortPhase_rect (withGrid gl xt yt) hn hcalls _ (fun i hi => t1 i (List.mem_range.mp hi))
  obtain ⟨gl1, g1, g2, g3⟩ := rasterPhase_rect env gl.edges gl.calls G gl.width
    (withGrid gl xt yt).threads hG t2 t3 (List.range (xt * yt)) (List.nodup_range _)
    (fun i hi => by
      obtain ⟨r, hr⟩ := t1 i (List.mem_range.mp hi)
      by_contra hcon
      rw [List.getElem?_eq_none (by omega)] at hr
      cases hr)
    (withGrid gl xt yt) rfl rfl rfl rfl (fun _ _ => rfl)
  refine ⟨{ gl1 with verts := [], nedges := 0, calls := [] }, ?_, ?_, ?_⟩
  · unfold swnvg__renderFlush
    have hc : (withGrid gl xt yt).calls.length = gl.calls.length := rfl
    have hx : (withGrid gl xt yt).xthreads * (withGrid gl xt yt).ythreads = xt * yt := rfl
    simp only [hc, hlen, if_false, hx, hidx, hsort, g1]
  · intro x y hx0 hx1 hy0 hy1
    obtain ⟨t, r, ht, hr, hin⟩ := t5 x y hx0 hx1 hy0 hy1
    exact g2 t (List.mem_range.mpr ht) r hr x y hin
  · intro k hk
    apply g3 k
    rintro ⟨i, -, r, hr, x, y, hin, k1, k2⟩
    obtain ⟨a, b, c, d⟩ := (t4 i r hr).2 x y hin
    exact hk ⟨x, y, a, b, c, d, k1, k2⟩

/-- C5 (amended).  For a recorded call list that consists of antialiased
solid-colour fills of axis-aligned rectangles through the scanline rasterizer,
and any initial contents of a framebuffer of at least 1x1 pixels, the flush
with a 1x1 tile grid and the flush with an `xt` x `yt` tile grid (in particular
2x2) both return and produce byte-identical framebuffer output. -/
theorem flush_rectFills_grid_independent (env : Env) (gl : SWNVGcontext) (xt yt : Nat)
    (hxt : 1 ≤ xt) (hyt : 1 ≤ yt) (hw : 1 ≤ gl.width) (hh : 1 ≤ gl.height)
    (hcalls : ∀ c ∈ gl.calls, IsRectFill gl.edges c) :
    ∃ a b, swnvg__renderFlush env (withGrid gl 1 1) = some a ∧
      swnvg__renderFlush env (withGrid gl xt yt) = some b ∧ a.bitmap = b.bitmap := by
  by_cases hne : gl.calls = []
  · have h0 : ∀ xt yt : Nat, swnvg__renderFlush env (withGrid gl xt yt) =
        some (withGrid gl xt yt) := by
      intro xt yt
      have hc : (withGrid gl xt yt).calls.length = 0 := by
        show gl.calls.length = 0
        rw [hne]; rfl
      simp only [swnvg__renderFlush, hc, if_true]
    exact ⟨_, _, h0 1 1, h0 xt yt, rfl⟩
  · obtain ⟨G, hG⟩ := flush_rect_rendered env gl hw hh hcalls hne
    obtain ⟨a, a1, a2, a3⟩ := hG 1 1 (le_refl 1) (le_refl 1)
    obtain ⟨b, b1, b2, b3⟩ := hG xt yt hxt hyt
    refine ⟨a, b, a1, b1, ?_⟩
    funext k
    by_cases hk : ∃ x y, 0 ≤ x ∧ x < gl.width ∧ 0 ≤ y ∧ y < gl.height ∧
        y * (4 * gl.width) + 4 * x ≤ k ∧ k < y * (4 * gl.width) + 4 * x + 4
    · obtain ⟨x, y, c1, c2, c3, c4, c5, c6⟩ := hk
      exact readPixel_byte a.bitmap b.bitmap _ k
        ((a2 x y c1 c2 c3 c4).trans (b2 x y c1 c2 c3 c4).symm) c5 c6
    · rw [a3 k hk, b3 k hk]

theorem rectRecorded_isRectFill : ∀ c ∈ rectRecorded.calls, IsRectFill rectRecorded.edges c := by
  have h : rectRecorded.calls.all (fun c =>
      decide (c.type = SWNVGpaintType.COLOR) && !c.flags.noAA && !c.flags.xc &&
      decide (c.edgeCount = 2) &&
      decide (rectRecorded.edges[c.edgeOffset]? = some (vEdge 7 (3 * 5) (7 * 5) (- -1))) &&
      decide (rectRecorded.edges[c.edgeOffset + 1]? = some (vEdge (13 / 4) (3 * 5) (7 * 5) (-1))))
      = true := by decide!
  intro c hc
  have hc1 := List.all_eq_true.mp h c hc
  simp only [Bool.and_eq_true, decide_eq_true_eq, Bool.not_eq_true'] at hc1
  obtain ⟨⟨⟨⟨⟨a1, a2⟩, a3⟩, a4⟩, a5⟩, a6⟩ := hc1
  exact ⟨a1, a2, a3, 13 / 4, 7, 3, 7, by norm_num, a4, -1, by decide, Or.inr ⟨a5, a6⟩⟩

/-- Witness for C5 (amended): the recorded fill of the rectangle
`[13/4, 7] x [3, 7]` on the 1x1 and the 2x2 grid. -/
theorem flush_rectFills_grid_independent_witness :
    ∃ a b, swnvg__renderFlush sampleEnv (withGrid rectRecorded 1 1) = some a ∧
      swnvg__renderFlush sampleEnv (withGrid rectRecorded 2 2) = some b ∧ a.bitmap = b.bitmap :=
  flush_rectFills_grid_independent sampleEnv rectRecorded 2 2 (by decide) (by decide)
    (by decide!) (by decide!) rectRecorded_isRectFill

/-! ### Exact area of `areaEdge2` -/

theorem clampf01_le (a : Rat) (h : a ≤ 0) : swnvg__clampf a 0 1 = 0 := by
  unfold swnvg__clampf
  split_ifs <;> linarith

theorem clampf01_ge (a : Rat) (h : 1 ≤ a) : swnvg__clampf a 0 1 = 1 := by
  unfold swnvg__clampf
  split_ifs <;> linarith

theorem clampf01_mem (a : Rat) (h0 : 0 ≤ a) (h1 : a ≤ 1) : swnvg__clampf a 0 1 = a := by
  unfold swnvg__clampf
  split_ifs <;> linarith

theorem clampArea_le (u : Rat) (h : u ≤ 0) : clampArea u = 0 := by
  unfold clampArea
  rw [max_eq_left h, max_eq_left (by linarith)]
  norm_num

theorem clampArea_mem (u : Rat) (h0 : 0 ≤ u) (h1 : u ≤ 1) : clampArea u = u ^ 2 / 2 := by
  unfold clampArea
  rw [max_eq_right h0, max_eq_left (by linarith)]
  norm_num

theorem clampArea_ge (u : Rat) (h : 1 ≤ u) : clampArea u = u - 1 / 2 := by
  unfold clampArea
  rw [max_eq_right (by linarith), max_eq_right (by linarith)]
  ring

/-- The area formula of `areaEdge2` for a window over which the line rises by
`dy > 0` from `ulo` to `ulo + dy` (heights measured as `1/2 - y`). -/
theorem areaCore (ulo dy : Rat) (hdy : 0 < dy) :
    1 / 2 * (swnvg__clampf ((ulo + dy) / dy) 0 1 -
        swnvg__clampf ((ulo + dy) / dy) 0 1 * swnvg__clampf (1 - (ulo + dy)) 0 1 + 1 -
        swnvg__clampf (1 - ulo) 0 1 +
        swnvg__clampf (1 - ulo) 0 1 * swnvg__clampf ((ulo + dy - 1) / dy) 0 1) * dy =
      clampArea (ulo + dy) - clampArea ulo := by
  have hne : dy ≠ 0 := ne_of_gt hdy
  by_cases h1 : ulo + dy ≤ 0
  · rw [clampf01_le _ (div_nonpos_of_nonpos_of_nonneg h1 hdy.le),
      clampf01_ge (1 - ulo) (by linarith),
      clampf01_le ((ulo + dy - 1) / dy) (div_nonpos_of_nonpos_of_nonneg (by linarith) hdy.le),
      clampArea_le _ h1, clampArea_le ulo (by linarith)]
    ring
  · have h1' : 0 ≤ ulo + dy := le_of_lt (not_le.mp h1)
    by_cases h2 : ulo ≤ 0
    · rw [clampf01_ge (1 - ulo) (by linarith), clampArea_le ulo h2,
        clampf01_mem ((ulo + dy) / dy) (div_nonneg h1' hdy.le)
          ((div_le_one hdy).mpr (by linarith))]
      by_cases h3 : ulo + dy ≤ 1
      · rw [clampf01_mem (1 - (ulo + dy)) (by linarith) (by linarith),
          clampf01_le ((ulo + dy - 1) / dy)
            (div_nonpos_of_nonpos_of_nonneg (by linarith) hdy.le),
          clampArea_mem _ h1' h3]
        field_simp
        ring
      · have h3' : 1 ≤ ulo + dy := le_of_lt (not_le.mp h3)
        rw [clampf01_le (1 - (ulo + dy)) (by linarith),
          clampf01_mem ((ulo + dy - 1) / dy) (div_nonneg (by linarith) hdy.le)
            ((div_le_one hdy).mpr (by linarith)),
          clampArea_ge _ h3']
        field_simp
        ring
    · have h2' : 0 ≤ ulo := le_of_lt (not_le.mp h2)
      rw [clampf01_ge ((ulo + dy) / dy) ((one_le_div hdy).mpr (by linarith))]
      by_cases h4 : ulo ≤ 1
      · rw [clampf01_mem (1 - ulo) (by linarith) (by linarith), clampArea_mem ulo h2' h4]
        by_cases h3 : ulo + dy ≤ 1
        · rw [clampf01_mem (1 - (ulo + dy)) (by linarith) (by linarith),
            clampf01_le ((ulo + dy - 1) / dy)
              (div_nonpos_of_nonpos_of_nonneg (by linarith) hdy.le),
            clampArea_mem _ h1' h3]
          ring
        · have h3' : 1 ≤ ulo + dy := le_of_lt (not_le.mp h3)
          rw [clampf01_le (1 - (ulo + dy)) (by linarith),
            clampf01_mem ((ulo + dy - 1) / dy) (div_nonneg (by linarith) hdy.le)
              ((div_le_one hdy).mpr (by linarith)),
            clampArea_ge _ h3']
          field_simp
          ring
      · have h4' : 1 ≤ ulo := le_of_lt (not_le.mp h4)
        rw [clampf01_le (1 - ulo) (by linarith), clampf01_le (1 - (ulo + dy)) (by linarith),
          clampArea_ge ulo h4', clampArea_ge (ulo + dy) (by linarith)]
        ring

/-- Closed form of `areaEdge2` for a non-zero slope: the difference of the
antiderivative `clampArea` at the two window ends, divided by the slope. -/
theorem areaEdge2_eq_clampArea (v0x v0y v1x v1y slope : Rat) (hs : slope ≠ 0) :
    areaEdge2 v0x v0y v1x v1y slope =
      (clampArea (1 / 2 - (v0y + (swnvg__clampf v0x (-(1 / 2)) (1 / 2) - v0x) * slope)) -
        clampArea (1 / 2 - (v0y + (swnvg__clampf v1x (-(1 / 2)) (1 / 2) - v0x) * slope))) /
      slope := by
  unfold areaEdge2
  generalize swnvg__clampf v0x (-(1 / 2)) (1 / 2) = a
  generalize swnvg__clampf v1x (-(1 / 2)) (1 / 2) = b
  simp only []
  by_cases hw : b - a = 0
  · have hab : b = a := by linarith
    rw [if_pos hw, hab]
    simp
  · rw [if_neg hw, if_neg hs]
    have hD : slope * (b - a) ≠ 0 := mul_ne_zero hs hw
    have hdy : 0 < |slope * (b - a)| := abs_pos.mpr hD
    rcases lt_or_gt_of_ne hD with hneg | hpos
    · -- the line falls over the window: the low end is at `a`
      have habs : |slope * (b - a)| = -(slope * (b - a)) := abs_of_neg hneg
      have key := areaCore (1 / 2 - (v0y + (a - v0x) * slope)) (|slope * (b - a)|) hdy
      have e1 : 1 / 2 - (v0y + (a - v0x) * slope) + |slope * (b - a)| =
          1 / 2 - (v0y + (b - v0x) * slope) := by rw [habs]; ring
      rw [e1] at key
      have c1 : v0y + (1 / 2 * (a + b) - v0x) * slope + 1 / 2 * |slope * (b - a)| + 1 / 2 =
          1 - (1 / 2 - (v0y + (a - v0x) * slope)) := by rw [habs]; ring
      have c2 : v0y + (1 / 2 * (a + b) - v0x) * slope - 1 / 2 * |slope * (b - a)| + 1 / 2 =
          1 - (1 / 2 - (v0y + (b - v0x) * slope)) := by rw [habs]; ring
      have c3 : (1 / 2 - (v0y + (1 / 2 * (a + b) - v0x) * slope)) / |slope * (b - a)| + 1 / 2 =
          (1 / 2 - (v0y + (b - v0x) * slope)) / |slope * (b - a)| := by
        rw [habs]; field_simp; ring
      have c4 : (-(1 / 2) - (v0y + (1 / 2 * (a + b) - v0x) * slope)) / |slope * (b - a)| + 1 / 2 =
          (1 / 2 - (v0y + (b - v0x) * slope) - 1) / |slope * (b - a)| := by
        rw [habs]; field_simp; ring
      rw [c1, c2, c3, c4]
      rw [eq_div_iff hs]
      have key2 := key
      rw [habs] at key2 ⊢
      linear_combination (-1 : Rat) * key2
    · have habs : |slope * (b - a)| = slope * (b - a) := abs_of_pos hpos
      have key := areaCore (1 / 2 - (v0y + (b - v0x) * slope)) (|slope * (b - a)|) hdy
      have e1 : 1 / 2 - (v0y + (b - v0x) * slope) + |slope * (b - a)| =
          1 / 2 - (v0y + (a - v0x) * slope) := by rw [habs]; ring
      rw [e1] at key
      have c1 : v0y + (1 / 2 * (a + b) - v0x) * slope + 1 / 2 * |slope * (b - a)| + 1 / 2 =
          1 - (1 / 2 - (v0y + (b - v0x) * slope)) := by rw [habs]; ring
      have c2 : v0y + (1 / 2 * (a + b) - v0x) * slope - 1 / 2 * |slope * (b - a)| + 1 / 2 =
          1 - (1 / 2 - (v0y + (a - v0x) * slope)) := by rw [habs]; ring
      have c3 : (1 / 2 - (v0y + (1 / 2 * (a + b) - v0x) * slope)) / |slope * (b - a)| + 1 / 2 =
          (1 / 2 - (v0y + (a - v0x) * slope)) / |slope * (b - a)| := by
        rw [habs]; field_simp; ring
      have c4 : (-(1 / 2) - (v0y + (1 / 2 * (a + b) - v0x) * slope)) / |slope * (b - a)| + 1 / 2 =
          (1 / 2 - (v0y + (a - v0x) * slope) - 1) / |slope * (b - a)| := by
        rw [habs]; field_simp; ring
      rw [c1, c2, c3, c4]
      rw [eq_div_iff hs]
      have key2 := key
      rw [habs] at key2 ⊢
      linear_combination key2

theorem hasDerivAt_sq_max (u : ℝ) :
    HasDerivAt (fun v : ℝ => (max 0 v) ^ 2) (2 * max 0 u) u := by
  rcases lt_trichotomy u 0 with h | h | h
  · have e : (fun v : ℝ => (max 0 v) ^ 2) =ᶠ[nhds u] fun _ => (0 : ℝ) := by
      filter_upwards [Iio_mem_nhds h] with v hv
      rw [max_eq_left (le_of_lt hv)]; norm_num
    rw [max_eq_left (le_of_lt h)]
    simpa using (hasDerivAt_const u (0 : ℝ)).congr_of_eventuallyEq e
  · subst h
    rw [max_self, mul_zero]
    have h1 : HasDerivWithinAt (fun v : ℝ => (max 0 v) ^ 2) 0 (Set.Iic 0) 0 := by
      refine (hasDerivWithinAt_const (0 : ℝ) (Set.Iic 0) (0 : ℝ)).congr ?_ ?_
      · intro v hv
        rw [max_eq_left hv]; norm_num
      · simp
    have h2 : HasDerivWithinAt (fun v : ℝ => (max 0 v) ^ 2) 0 (Set.Ici 0) 0 := by
      have h3 : HasDerivWithinAt (fun v : ℝ => v ^ 2) 0 (Set.Ici 0) 0 := by
        simpa using (hasDerivAt_pow 2 (0 : ℝ)).hasDerivWithinAt
      refine h3.congr ?_ ?_
      · intro v hv
        rw [max_eq_right hv]
      · simp
    have h4 := h1.union h2
    rw [Set.Iic_union_Ici] at h4
    exact hasDerivWithinAt_univ.mp h4
  · have e : (fun v : ℝ => (max 0 v) ^ 2) =ᶠ[nhds u] fun v => v ^ 2 := by
      filter_upwards [Ioi_mem_nhds h] with v hv
      rw [max_eq_right (le_of_lt hv)]
    rw [max_eq_right (le_of_lt h)]
    simpa using (hasDerivAt_pow 2 u).congr_of_eventuallyEq e

theorem clamp_eq_sub_max (u : ℝ) : max 0 (min 1 u) = max 0 u - max 0 (u - 1) := by
  rcases le_total u 0 with h | h
  · rw [min_eq_right (show u ≤ 1 by linarith), max_eq_left h,
      max_eq_left (show u - 1 ≤ 0 by linarith)]
    ring
  · rcases le_total u 1 with h1 | h1
    · rw [min_eq_right h1, max_eq_right h, max_eq_left (show u - 1 ≤ 0 by linarith)]
      ring
    · rw [min_eq_left h1, max_eq_right h, max_eq_right (show (0 : ℝ) ≤ u - 1 by linarith),
        max_eq_right (show (0 : ℝ) ≤ 1 by norm_num)]
      ring

/-- The real function `u ↦ ((max 0 u)^2 - (max 0 (u - 1))^2) / 2` is an
antiderivative of `u ↦ clamp(u, 0, 1)`. -/
theorem hasDerivAt_clampArea (u : ℝ) :
    HasDerivAt (fun v : ℝ => ((max 0 v) ^ 2 - (max 0 (v - 1)) ^ 2) / 2) (max 0 (min 1 u)) u := by
  have h1 := hasDerivAt_sq_max u
  have h2 : HasDerivAt (fun v : ℝ => (max 0 (v - 1)) ^ 2) (2 * max 0 (u - 1)) u := by
    have := (hasDerivAt_sq_max (u - 1)).comp u ((hasDerivAt_id u).sub_const 1)
    simpa [Function.comp] using this
  have h3 := (h1.sub h2).div_const 2
  rw [clamp_eq_sub_max]
  convert h3 using 1
  ring

/-- Integral of the clamped height under a line of non-zero slope `s`. -/
theorem integral_clamp_line (a b c s : ℝ) (hs : s ≠ 0) :
    ∫ x in a..b, max 0 (min 1 (c - s * x)) =
      (((max 0 (c - s * a)) ^ 2 - (max 0 (c - s * a - 1)) ^ 2) / 2 -
        ((max 0 (c - s * b)) ^ 2 - (max 0 (c - s * b - 1)) ^ 2) / 2) / s := by
  have hderiv : ∀ x ∈ Set.uIcc a b,
      HasDerivAt (fun x : ℝ => -(((max 0 (c - s * x)) ^ 2 - (max 0 (c - s * x - 1)) ^ 2) / 2) / s)
        (max 0 (min 1 (c - s * x))) x := by
    intro x _
    have hg : HasDerivAt (fun x : ℝ => c - s * x) (-s) x := by
      simpa using ((hasDerivAt_id x).const_mul s).const_sub c
    have h1 := (hasDerivAt_clampArea (c - s * x)).comp x hg
    have h2 := (h1.neg).div_const s
    convert h2 using 1
    field_simp
  have hcont : Continuous fun x : ℝ => max 0 (min 1 (c - s * x)) :=
    continuous_const.max (continuous_const.min
      (continuous_const.sub (continuous_const.mul continuous_id)))
  rw [intervalIntegral.integral_eq_sub_of_hasDerivAt hderiv (hcont.intervalIntegrable a b)]
  field_simp
  ring

theorem cast_clampf01 (q : Rat) :
    ((swnvg__clampf q 0 1 : Rat) : ℝ) = max 0 (min 1 (q : ℝ)) := by
  unfold swnvg__clampf
  split_ifs with h1 h2
  · have : (q : ℝ) < 0 := by exact_mod_cast h1
    rw [min_eq_right (by linarith), max_eq_left (by linarith)]
    norm_num
  · have : (1 : ℝ) < q := by exact_mod_cast h2
    rw [min_eq_left (by linarith), max_eq_right (by norm_num)]
    norm_num
  · have a1 : (0 : ℝ) ≤ q := by exact_mod_cast not_lt.mp h1
    have a2 : (q : ℝ) ≤ 1 := by exact_mod_cast not_lt.mp h2
    rw [min_eq_right a2, max_eq_right a1]

theorem cast_clampArea (u : Rat) :
    ((clampArea u : Rat) : ℝ) = ((max 0 (u : ℝ)) ^ 2 - (max 0 ((u : ℝ) - 1)) ^ 2) / 2 := by
  unfold clampArea
  push_cast
  rfl

/-- C11: with exact arithmetic, `areaEdge2` returns the signed area of the part
of the unit cell `[-1/2, 1/2]^2` on the fill side of the edge line
`y(x) = v0y + (x - v0x) * slope` over the edge's extent clamped to the cell: the
integral from `clamp(v0x, -1/2, 1/2)` to `clamp(v1x, -1/2, 1/2)` of
`clamp(1/2 - y(x), 0, 1)`; and the diagonal from `(-1/2, -1/2)` to `(1/2, 1/2)`
with slope `1` gives exactly `1/2`. -/
theorem areaEdge2_exact_area (v0x v0y v1x v1y slope : Rat) :
    ((areaEdge2 v0x v0y v1x v1y slope : Rat) : ℝ) =
      (∫ x in ((swnvg__clampf v0x (-(1 / 2)) (1 / 2) : Rat) : ℝ)..
          ((swnvg__clampf v1x (-(1 / 2)) (1 / 2) : Rat) : ℝ),
        max 0 (min 1 (1 / 2 - ((v0y : ℝ) + (x - (v0x : ℝ)) * (slope : ℝ))))) ∧
    areaEdge2 (-(1 / 2)) (-(1 / 2)) (1 / 2) (1 / 2) 1 = 1 / 2 := by
  refine ⟨?_, by decide!⟩
  by_cases hs : slope = 0
  · subst hs
    simp only [Rat.cast_zero, mul_zero, add_zero]
    rw [intervalIntegral.integral_const]
    unfold areaEdge2
    simp only []
    split_ifs with hw
    · have : swnvg__clampf v1x (-(1 / 2)) (1 / 2) = swnvg__clampf v0x (-(1 / 2)) (1 / 2) := by
        linarith
      rw [this]
      simp
    · rw [Rat.cast_mul, cast_clampf01]
      push_cast
      simp [smul_eq_mul]
  · rw [areaEdge2_eq_clampArea v0x v0y v1x v1y slope hs]
    have hsR : (slope : ℝ) ≠ 0 := by exact_mod_cast hs
    have hfun : (fun x : ℝ => max 0 (min 1 (1 / 2 - ((v0y : ℝ) + (x - (v0x : ℝ)) * (slope : ℝ)))))
        = fun x : ℝ => max 0 (min 1 ((1 / 2 - (v0y : ℝ) + (v0x : ℝ) * (slope : ℝ)) -
            (slope : ℝ) * x)) := by
      funext x
      congr 2
      ring
    rw [hfun, integral_clamp_line _ _ _ _ hsR, Rat.cast_div, Rat.cast_sub, cast_clampArea,
      cast_clampArea]
    push_cast
    congr 1
    ring_nf

/-! ### Direct store and full blend -/

theorem truncf_unit (v : Rat) (h0 : 0 ≤ v) (h1 : v < 1) : truncf v = 0 := by
  unfold truncf
  rw [if_pos h0]
  exact Int.floor_eq_iff.mpr ⟨by simpa using h0, by simpa using h1⟩

theorem rpow_small : ((1 / 255 : Rat) : ℝ) ^ ((sRGBgamma : Rat) : ℝ) ≤ 1 / 65025 ∧
    0 ≤ ((1 / 255 : Rat) : ℝ) ^ ((sRGBgamma : Rat) : ℝ) := by
  have hb0 : (0 : ℝ) < ((1 / 255 : Rat) : ℝ) := by norm_num
  have hb1 : ((1 / 255 : Rat) : ℝ) ≤ 1 := by norm_num
  refine ⟨?_, Real.rpow_nonneg hb0.le _⟩
  have h2 : ((1 / 255 : Rat) : ℝ) ^ ((sRGBgamma : Rat) : ℝ) ≤ ((1 / 255 : Rat) : ℝ) ^ (2 : ℝ) :=
    Real.rpow_le_rpow_of_exponent_ge hb0 hb1 (by unfold sRGBgamma; norm_num)
  have h3 : ((1 / 255 : Rat) : ℝ) ^ (2 : ℝ) = 1 / 65025 := by
    rw [Real.rpow_two]; norm_num
  linarith

theorem lut_sRGBToLinear_one (powf : Rat → Rat → Rat) (h : PowfAccurate powf (1 / 10000)) :
    (swnvg__sRGBLUTCalc powf).1 1 = 0 := by
  have ha := h (1 / 255) sRGBgamma (by norm_num)
  obtain ⟨r1, r0⟩ := rpow_small
  rw [abs_le] at ha
  have e1 : ((powf (1 / 255) sRGBgamma : Rat) : ℝ) ≤ 1 / 65025 + 1 / 10000 := by
    have := ha.2
    push_cast at this
    linarith
  have e0 : -(1 / 10000 : ℝ) ≤ ((powf (1 / 255) sRGBgamma : Rat) : ℝ) := by
    have := ha.1
    push_cast at this
    linarith
  have c1 : ((powf (1 / 255) sRGBgamma : Rat) : ℝ) ≤ ((1 / 65025 + 1 / 10000 : Rat) : ℝ) := by
    push_cast; linarith
  have c0 : ((-(1 / 10000) : Rat) : ℝ) ≤ ((powf (1 / 255) sRGBgamma : Rat) : ℝ) := by
    push_cast; linarith
  have q1 : powf (1 / 255) sRGBgamma ≤ 1 / 65025 + 1 / 10000 := Rat.cast_le.mp c1
  have q0 : -(1 / 10000 : Rat) ≤ powf (1 / 255) sRGBgamma := Rat.cast_le.mp c0
  simp only [swnvg__sRGBLUTCalc, Nat.cast_one]
  rw [truncf_unit _ (by linarith) (by linarith)]
  rfl

theorem lut_linearToSRGB_zero (powf : Rat → Rat → Rat) (h : PowfAccurate powf (1 / 10000)) :
    (swnvg__sRGBLUTCalc powf).2 0 = 0 := by
  have ha := h 0 (1 / sRGBgamma) (le_refl 0)
  have hz : ((0 : Rat) : ℝ) ^ (((1 / sRGBgamma : Rat)) : ℝ) = 0 := by
    rw [Rat.cast_zero]
    apply Real.zero_rpow
    unfold sRGBgamma
    norm_num
  rw [hz, sub_zero, abs_le] at ha
  have e1 : ((powf 0 (1 / sRGBgamma) : Rat) : ℝ) ≤ 1 / 10000 := by
    have := ha.2
    push_cast at this
    linarith
  have e0 : -(1 / 10000 : ℝ) ≤ ((powf 0 (1 / sRGBgamma) : Rat) : ℝ) := by
    have := ha.1
    push_cast at this
    linarith
  have c1 : ((powf 0 (1 / sRGBgamma) : Rat) : ℝ) ≤ ((1 / 10000 : Rat) : ℝ) := by
    push_cast; linarith
  have c0 : ((-(1 / 10000) : Rat) : ℝ) ≤ ((powf 0 (1 / sRGBgamma) : Rat) : ℝ) := by
    push_cast; linarith
  have q1 : powf 0 (1 / sRGBgamma) ≤ 1 / 10000 := Rat.cast_le.mp c1
  have q0 : -(1 / 10000 : Rat) ≤ powf 0 (1 / sRGBgamma) := Rat.cast_le.mp c0
  simp only [swnvg__sRGBLUTCalc, Nat.cast_zero, zero_div]
  rw [truncf_unit _ (by linarith) (by linarith)]
  rfl

theorem powfAccurate_exists (eps : Rat) (heps : 0 < eps) : ∃ powf, PowfAccurate powf eps := by
  have h : ∀ x y : Rat, ∃ q : Rat, |((q : Rat) : ℝ) - (x : ℝ) ^ (y : ℝ)| ≤ (eps : ℝ) := by
    intro x y
    have hpos : (0 : ℝ) < (eps : ℝ) := by exact_mod_cast heps
    obtain ⟨q, h1, h2⟩ := exists_rat_btwn (show (x : ℝ) ^ (y : ℝ) - eps < (x : ℝ) ^ (y : ℝ) + eps
      by linarith)
    exact ⟨q, abs_le.mpr ⟨by linarith, by linarith⟩⟩
  choose f hf using h
  exact ⟨f, fun x y _ => hf x y⟩

/-- C12 (counterexample).  With the colour tables that `swnvg__sRGBLUTCalc`
computes from any `powf` that is within `1/10000` of the real power (such
functions exist), for `cover = 255`, `ca = 255` and the colour `(1, 0, 0)` the
direct store of `swnvg__blend8888` and `swnvg__blend` in linear mode write
different bytes: `sRGBToLinear[1] = 0` and `linearToSRGB[0] = 0`, so the full
blend stores red `0` where the direct store writes `1`. -/
theorem fastPath_differs_in_linear_mode :
    (∀ powf, PowfAccurate powf (1 / 10000) →
      swnvg__blend8888 (lutEnv powf) ⟨0, 0, 0, 0⟩ 255 1 0 0 255 true ≠
        swnvg__blend (lutEnv powf) ⟨0, 0, 0, 0⟩ 255 1 0 0 255 true) ∧
    (∃ powf, PowfAccurate powf (1 / 10000)) := by
  refine ⟨?_, powfAccurate_exists _ (by norm_num)⟩
  intro powf h heq
  have h1 := lut_sRGBToLinear_one powf h
  have h2 := lut_linearToSRGB_zero powf h
  have hb : (swnvg__blend (lutEnv powf) ⟨0, 0, 0, 0⟩ 255 1 0 0 255 true).b0 = 0 := by
    simp [swnvg__blend, swnvg__blendLinear, lutEnv, h1, h2]
  rw [← heq] at hb
  simp [swnvg__blend8888] at hb

/-- C12 (amended).  For `cover = 255`, `ca = 255` and channels below `256`: in
gamma-space mode the direct store of `swnvg__blend8888` writes the same four
bytes as `swnvg__blend`; in linear mode `swnvg__blend` writes
`linearToSRGB[sRGBToLinear[c]]` for each colour channel `c` and alpha `255`, so
it agrees with the direct store exactly when the colour tables map each of the
three channel values back to itself. -/
theorem blend8888_fastPath (env : Env) (dst : Pixel) (cr cg cb : Nat)
    (hr : cr < 256) (hg : cg < 256) (hb : cb < 256) :
    swnvg__blend8888 env dst 255 cr cg cb 255 false =
      swnvg__blend env dst 255 cr cg cb 255 false ∧
    swnvg__blend env dst 255 cr cg cb 255 true =
      ⟨env.linearToSRGB (env.sRGBToLinear cr) % 256, env.linearToSRGB (env.sRGBToLinear cg) % 256,
        env.linearToSRGB (env.sRGBToLinear cb) % 256, 255⟩ ∧
    (swnvg__blend8888 env dst 255 cr cg cb 255 true =
        swnvg__blend env dst 255 cr cg cb 255 true ↔
      env.linearToSRGB (env.sRGBToLinear cr) % 256 = cr ∧
      env.linearToSRGB (env.sRGBToLinear cg) % 256 = cg ∧
      env.linearToSRGB (env.sRGBToLinear cb) % 256 = cb) := by
  have hlin : swnvg__blend env dst 255 cr cg cb 255 true =
      ⟨env.linearToSRGB (env.sRGBToLinear cr) % 256,
        env.linearToSRGB (env.sRGBToLinear cg) % 256,
        env.linearToSRGB (env.sRGBToLinear cb) % 256, 255⟩ := by
    simp [swnvg__blend, swnvg__blendLinear]
  refine ⟨?_, hlin, ?_⟩
  · simp [swnvg__blend8888, swnvg__blend, swnvg__blendSRGB, Nat.mod_eq_of_lt, hr, hg, hb]
  · rw [hlin]
    simp only [swnvg__blend8888, and_self, if_true, Pixel.mk.injEq, and_true,
      Nat.mod_eq_of_lt hr, Nat.mod_eq_of_lt hg, Nat.mod_eq_of_lt hb]
    constructor
    · rintro ⟨a, b, c⟩
      exact ⟨a.symm, b.symm, c.symm⟩
    · rintro ⟨a, b, c⟩
      exact ⟨a.symm, b.symm, c.symm⟩

/-- Witness for C12 (amended): the colour `(200, 100, 0)` over a black pixel,
with identity tables. -/
theorem blend8888_fastPath_witness :
    (200 < 256 ∧ 100 < 256 ∧ 0 < 256) ∧
    (swnvg__blend8888 sampleEnv ⟨0, 0, 0, 255⟩ 255 200 100 0 255 false =
      swnvg__blend sampleEnv ⟨0, 0, 0, 255⟩ 255 200 100 0 255 false ∧
    swnvg__blend sampleEnv ⟨0, 0, 0, 255⟩ 255 200 100 0 255 true =
      ⟨sampleEnv.linearToSRGB (sampleEnv.sRGBToLinear 200) % 256,
        sampleEnv.linearToSRGB (sampleEnv.sRGBToLinear 100) % 256,
        sampleEnv.linearToSRGB (sampleEnv.sRGBToLinear 0) % 256, 255⟩ ∧
    (swnvg__blend8888 sampleEnv ⟨0, 0, 0, 255⟩ 255 200 100 0 255 true =
        swnvg__blend sampleEnv ⟨0, 0, 0, 255⟩ 255 200 100 0 255 true ↔
      sampleEnv.linearToSRGB (sampleEnv.sRGBToLinear 200) % 256 = 200 ∧
      sampleEnv.linearToSRGB (sampleEnv.sRGBToLinear 100) % 256 = 100 ∧
      sampleEnv.linearToSRGB (sampleEnv.sRGBToLinear 0) % 256 = 0)) :=
  ⟨by decide, blend8888_fastPath sampleEnv ⟨0, 0, 0, 255⟩ 200 100 0 (by decide) (by decide)
    (by decide)⟩

/-! ### Gradient interpolation -/

theorem scanlineGrad_read (env : Env) (bitmap : Int → Nat) (dst count : Int)
    (cover : Int → Nat) (coff x y : Int) (call : SWNVGcall) (i : Int) (h0 : 0 ≤ i)
    (h1 : i < count) :
    readPixel (scanlineGrad env bitmap dst count cover coff x y call) (dst + 4 * i) =
      swnvg__blend8888 env (readPixel bitmap (dst + 4 * i)) (cover (coff + i))
        (gradientChannel (COLOR0 call.innerCol) (COLOR0 call.outerCol)
          (gradientD env call (x + i) y))
        (gradientChannel (COLOR1 call.innerCol) (COLOR1 call.outerCol)
          (gradientD env call (x + i) y))
        (gradientChannel (COLOR2 call.innerCol) (COLOR2 call.outerCol)
          (gradientD env call (x + i) y))
        (gradientChannel (COLOR3 call.innerCol) (COLOR3 call.outerCol)
          (gradientD env call (x + i) y))
        call.flags.srgb := by
  obtain ⟨n, rfl⟩ := Int.eq_ofNat_of_zero_le h0
  have hn : n < count.toNat := by omega
  unfold scanlineGrad
  exact pixelLoop_read (fun i p => swnvg__blend8888 env p (cover (coff + i))
    (gradientChannel (COLOR0 call.innerCol) (COLOR0 call.outerCol) (gradientD env call (x + i) y))
    (gradientChannel (COLOR1 call.innerCol) (COLOR1 call.outerCol) (gradientD env call (x + i) y))
    (gradientChannel (COLOR2 call.innerCol) (COLOR2 call.outerCol) (gradientD env call (x + i) y))
    (gradientChannel (COLOR3 call.innerCol) (COLOR3 call.outerCol) (gradientD env call (x + i) y))
    call.flags.srgb) dst bitmap _ n hn

theorem gradientChannel_zero (c0 c1 : Nat) : gradientChannel c0 c1 0 = c0 := by
  unfold gradientChannel truncf
  have h : (0 : Rat) ≤ 1 / 2 + (c0 : Rat) * (1 - 0) + (c1 : Rat) * 0 := by positivity
  rw [if_pos h]
  have e : Int.floor (1 / 2 + (c0 : Rat) * (1 - 0) + (c1 : Rat) * 0) = (c0 : Int) := by
    rw [Int.floor_eq_iff]
    constructor <;> push_cast <;> linarith
  rw [e]
  simp

theorem gradientChannel_one (c0 c1 : Nat) : gradientChannel c0 c1 1 = c1 := by
  unfold gradientChannel truncf
  have h : (0 : Rat) ≤ 1 / 2 + (c0 : Rat) * (1 - 1) + (c1 : Rat) * 1 := by
    have : (0 : Rat) ≤ c1 := Nat.cast_nonneg c1
    linarith
  rw [if_pos h]
  have e : Int.floor (1 / 2 + (c0 : Rat) * (1 - 1) + (c1 : Rat) * 1) = (c1 : Int) := by
    rw [Int.floor_eq_iff]
    constructor <;> push_cast <;> linarith
  rw [e]
  simp

/-- C13: for a gradient call, the colour that `swnvg__scanlineSolid` blends into
pixel `i` of the run is the channel-wise interpolation of the inner and the
outer colour at the normalized gradient distance `d` of that pixel; the
interpolation gives exactly the inner channel at `d = 0` and exactly the outer
channel at `d = 1`, and from opaque black to opaque white at `d = 1/2` every
colour channel is `128` and alpha is `255`. -/
theorem gradient_stop_colours (env : Env) (bitmap : Int → Nat) (dst count : Int)
    (cover : Int → Nat) (coff x y : Int) (call : SWNVGcall) (tex : Option SWNVGtexture)
    (i : Int) (htype : call.type = SWNVGpaintType.GRAD) (h0 : 0 ≤ i) (h1 : i < count) :
    (∃ bm, swnvg__scanlineSolid env bitmap dst count cover coff x y call tex = some bm ∧
      readPixel bm (dst + 4 * i) =
        swnvg__blend8888 env (readPixel bitmap (dst + 4 * i)) (cover (coff + i))
          (gradientChannel (COLOR0 call.innerCol) (COLOR0 call.outerCol)
            (gradientD env call (x + i) y))
          (gradientChannel (COLOR1 call.innerCol) (COLOR1 call.outerCol)
            (gradientD env call (x + i) y))
          (gradientChannel (COLOR2 call.innerCol) (COLOR2 call.outerCol)
            (gradientD env call (x + i) y))
          (gradientChannel (COLOR3 call.innerCol) (COLOR3 call.outerCol)
            (gradientD env call (x + i) y))
          call.flags.srgb) ∧
    (∀ c0 c1 : Nat, gradientChannel c0 c1 0 = c0 ∧ gradientChannel c0 c1 1 = c1) ∧
    gradientChannel 0 255 (1 / 2) = 128 ∧ gradientChannel 255 255 (1 / 2) = 255 := by
  refine ⟨⟨_, ?_, scanlineGrad_read env bitmap dst count cover coff x y call i h0 h1⟩,
    fun c0 c1 => ⟨gradientChannel_zero c0 c1, gradientChannel_one c0 c1⟩, by decide!, by decide!⟩
  simp only [swnvg__scanlineSolid, htype]

/-- Witness for C13: the first pixel of a three-pixel run of `gradCall`. -/
theorem gradient_stop_colours_witness :
    (gradCall.type = SWNVGpaintType.GRAD ∧ (0 : Int) ≤ 0 ∧ (0 : Int) < 3) ∧
    ((∃ bm, swnvg__scanlineSolid sampleEnv (fun _ => 0) 0 3 (fun _ => 255) 0 0 0 gradCall none =
        some bm ∧
      readPixel bm (0 + 4 * 0) =
        swnvg__blend8888 sampleEnv (readPixel (fun _ => 0) (0 + 4 * 0)) 255
          (gradientChannel (COLOR0 gradCall.innerCol) (COLOR0 gradCall.outerCol)
            (gradientD sampleEnv gradCall (0 + 0) 0))
          (gradientChannel (COLOR1 gradCall.innerCol) (COLOR1 gradCall.outerCol)
            (gradientD sampleEnv gradCall (0 + 0) 0))
          (gradientChannel (COLOR2 gradCall.innerCol) (COLOR2 gradCall.outerCol)
            (gradientD sampleEnv gradCall (0 + 0) 0))
          (gradientChannel (COLOR3 gradCall.innerCol) (COLOR3 gradCall.outerCol)
            (gradientD sampleEnv gradCall (0 + 0) 0))
          gradCall.flags.srgb) ∧
    (∀ c0 c1 : Nat, gradientChannel c0 c1 0 = c0 ∧ gradientChannel c0 c1 1 = c1) ∧
    gradientChannel 0 255 (1 / 2) = 128 ∧ gradientChannel 255 255 (1 / 2) = 255) :=
  ⟨⟨rfl, by decide, by decide⟩,
    gradient_stop_colours sampleEnv (fun _ => 0) 0 3 (fun _ => 255) 0 0 0 gradCall none 0 rfl
      (by decide) (by decide)⟩

/-! ### Edge builder: stored edges -/

theorem growEdges_spec (r : SWNVGcontext) (allocOk : Bool) (hn : r.nedges ≤ r.cedges)
    (hlen : r.cedges ≤ r.edges.length) (halloc : allocOk = true ∨ r.nedges + 1 ≤ r.cedges) :
    (growEdges r allocOk).2 = true ∧ (growEdges r allocOk).1.nedges = r.nedges ∧
    r.nedges < (growEdges r allocOk).1.cedges ∧
    (growEdges r allocOk).1.cedges ≤ (growEdges r allocOk).1.edges.length ∧
    (∀ k, k < r.edges.length → (growEdges r allocOk).1.edges[k]? = r.edges[k]?) ∧
    (growEdges r allocOk).1.calls = r.calls ∧ (growEdges r allocOk).1.verts = r.verts ∧
    (growEdges r allocOk).1.width = r.width ∧ (growEdges r allocOk).1.height = r.height := by
  unfold growEdges
  by_cases hg : r.nedges + 1 > r.cedges
  · have hok : allocOk = true := by
      rcases halloc with h | h
      · exact h
      · omega
    rw [if_pos hg]
    dsimp only
    rw [if_pos hok]
    refine ⟨rfl, rfl, ?_, ?_, ?_, rfl, rfl, rfl, rfl⟩
    · show r.nedges < (if r.cedges > 0 then r.cedges * 2 else 64)
      split_ifs <;> omega
    · show (if r.cedges > 0 then r.cedges * 2 else 64) ≤
        (r.edges ++ List.replicate ((if r.cedges > 0 then r.cedges * 2 else 64) -
          r.edges.length) zeroEdge).length
      rw [List.length_append, List.length_replicate]
      omega
    · intro k hk
      exact List.getElem?_append_left hk
  · rw [if_neg hg]
    exact ⟨rfl, rfl, by show r.nedges < r.cedges; omega, hlen, fun _ _ => rfl, rfl, rfl, rfl,
      rfl⟩

/-! ### Call recorder: counters, bounds and edge slices -/

theorem addEdge_frame (r : SWNVGcontext) (allocOk : Bool) (vtx : NVGvertex) :
    (swnvg__addEdge r allocOk vtx).calls = r.calls ∧
    (swnvg__addEdge r allocOk vtx).verts = r.verts ∧
    (swnvg__addEdge r allocOk vtx).width = r.width ∧
    (swnvg__addEdge r allocOk vtx).height = r.height ∧
    r.nedges ≤ (swnvg__addEdge r allocOk vtx).nedges := by
  unfold swnvg__addEdge growEdges
  split_ifs <;> simp

theorem addEdgeXC_frame (r : SWNVGcontext) (allocOk : Bool) (vtx : NVGvertex) (xmax : Rat) :
    (swnvg__addEdgeXC r allocOk vtx xmax).calls = r.calls ∧
    (swnvg__addEdgeXC r allocOk vtx xmax).verts = r.verts ∧
    (swnvg__addEdgeXC r allocOk vtx xmax).width = r.width ∧
    (swnvg__addEdgeXC r allocOk vtx xmax).height = r.height ∧
    r.nedges ≤ (swnvg__addEdgeXC r allocOk vtx xmax).nedges := by
  unfold swnvg__addEdgeXC growEdges
  split_ifs <;> simp

/-- A step function that keeps the call and vertex arrays and the framebuffer
size and never lowers `nedges` does so over a whole list. -/
theorem foldl_frame {α : Type} (f : SWNVGcontext → α → SWNVGcontext)
    (hf : ∀ g a, (f g a).calls = g.calls ∧ (f g a).verts = g.verts ∧ (f g a).width = g.width ∧
      (f g a).height = g.height ∧ g.nedges ≤ (f g a).nedges) :
    ∀ (l : List α) (g : SWNVGcontext),
      (l.foldl f g).calls = g.calls ∧ (l.foldl f g).verts = g.verts ∧
      (l.foldl f g).width = g.width ∧ (l.foldl f g).height = g.height ∧
      g.nedges ≤ (l.foldl f g).nedges
  | [], g => ⟨rfl, rfl, rfl, rfl, le_refl _⟩
  | a :: l, g => by
    obtain ⟨h1, h2, h3, h4, h5⟩ := hf g a
    obtain ⟨i1, i2, i3, i4, i5⟩ := foldl_frame f hf l (f g a)
    exact ⟨i1.trans h1, i2.trans h2, i3.trans h3, i4.trans h4, le_trans h5 i5⟩

theorem convertPaint_spec (env : Env) (gl : SWNVGcontext) (call : SWNVGcall) (paint : NVGpaint)
    (scissor : NVGscissor) (flags : CallFlags) :
    BoundsInside gl (swnvg__convertPaint env gl call paint scissor flags) ∧
    (swnvg__convertPaint env gl call paint scissor flags).edgeOffset = call.edgeOffset ∧
    (swnvg__convertPaint env gl call paint scissor flags).edgeCount = call.edgeCount := by
  unfold swnvg__convertPaint BoundsInside
  have a1 := maxi_ge_left 0 (truncf ((nvgTransformPoint scissor.xform (-scissor.extent0)
    (-scissor.extent1)).1 + 1 / 2))
  have a2 := maxi_ge_left 0 (truncf ((nvgTransformPoint scissor.xform (-scissor.extent0)
    (-scissor.extent1)).2 + 1 / 2))
  have a3 := mini_le_left (gl.width - 1) (truncf ((nvgTransformPoint scissor.xform
    scissor.extent0 scissor.extent1).1 + 1 / 2))
  have a4 := mini_le_left (gl.height - 1) (truncf ((nvgTransformPoint scissor.xform
    scissor.extent0 scissor.extent1).2 + 1 / 2))
  split_ifs <;> exact ⟨⟨by first | exact a1 | exact le_refl _, by first | exact a3 | exact le_refl _,
    by first | exact a2 | exact le_refl _, by first | exact a4 | exact le_refl _⟩, rfl, rfl⟩

theorem convertPaint_triangle (env : Env) (gl : SWNVGcontext) (call : SWNVGcall) (paint : NVGpaint)
    (scissor : NVGscissor) (flags : CallFlags) :
    (swnvg__convertPaint env gl call paint scissor flags).triangleOffset = call.triangleOffset ∧
    (swnvg__convertPaint env gl call paint scissor flags).triangleCount = call.triangleCount := by
  unfold swnvg__convertPaint
  split_ifs <;> exact ⟨rfl, rfl⟩

/-- The edge loop of `swnvg__renderFill` with any step that keeps the call and
vertex arrays and the framebuffer size and never lowers `nedges`. -/
theorem fillFold_frame (f : SWNVGcontext → NVGpath → NVGvertex → SWNVGcontext)
    (hf : ∀ g q v, (f g q v).calls = g.calls ∧ (f g q v).verts = g.verts ∧
      (f g q v).width = g.width ∧ (f g q v).height = g.height ∧ g.nedges ≤ (f g q v).nedges)
    (paths : List NVGpath) (g : SWNVGcontext) :
    (paths.foldl (fun g q => q.fill.foldl (fun g v => f g q v) g) g).calls = g.calls ∧
    (paths.foldl (fun g q => q.fill.foldl (fun g v => f g q v) g) g).verts = g.verts ∧
    (paths.foldl (fun g q => q.fill.foldl (fun g v => f g q v) g) g).width = g.width ∧
    (paths.foldl (fun g q => q.fill.foldl (fun g v => f g q v) g) g).height = g.height ∧
    g.nedges ≤ (paths.foldl (fun g q => q.fill.foldl (fun g v => f g q v) g) g).nedges := by
  apply foldl_frame
  intro g q
  apply foldl_frame
  intro g v
  exact hf g q v

/-- What one `swnvg__renderFill` does to the recorder: the framebuffer size and
the vertex array are kept, and either nothing is recorded (calls and `nedges`
unchanged) or one call is appended whose edge slice is `[old nedges, new nedges)`
and whose bounds lie inside the framebuffer. -/
theorem renderFill_spec (env : Env) (gl : SWNVGcontext) (allocOk : Bool) (paint : NVGpaint)
    (scissor : NVGscissor) (flags : CallFlags) (b0 b1 b2 b3 : Rat) (paths : List NVGpath) :
    ((swnvg__renderFill env gl allocOk paint scissor flags b0 b1 b2 b3 paths).width = gl.width ∧
     (swnvg__renderFill env gl allocOk paint scissor flags b0 b1 b2 b3 paths).height = gl.height ∧
     (swnvg__renderFill env gl allocOk paint scissor flags b0 b1 b2 b3 paths).verts = gl.verts) ∧
    (((swnvg__renderFill env gl allocOk paint scissor flags b0 b1 b2 b3 paths).calls = gl.calls ∧
      (swnvg__renderFill env gl allocOk paint scissor flags b0 b1 b2 b3 paths).nedges =
        gl.nedges) ∨
     ∃ c, (swnvg__renderFill env gl allocOk paint scissor flags b0 b1 b2 b3 paths).calls =
          gl.calls ++ [c] ∧ c.edgeOffset = gl.nedges ∧
        c.edgeOffset + c.edgeCount =
          (swnvg__renderFill env gl allocOk paint scissor flags b0 b1 b2 b3 paths).nedges ∧
        BoundsInside gl c) := by
  obtain ⟨⟨hb0, hb2, hb1, hb3⟩, -, -⟩ := convertPaint_spec env gl zeroCall paint scissor flags
  unfold swnvg__renderFill
  dsimp only
  by_cases h1 : (paths.map (fun q => q.fill.length)).sum = 0
  · rw [if_pos h1]; exact ⟨⟨rfl, rfl, rfl⟩, Or.inl ⟨rfl, rfl⟩⟩
  rw [if_neg h1]
  by_cases h2 : gl.calls.length + 1 > gl.ccalls ∧ allocOk = false
  · rw [if_pos h2]; exact ⟨⟨rfl, rfl, rfl⟩, Or.inl ⟨rfl, rfl⟩⟩
  rw [if_neg h2]
  have hX := fillFold_frame (fun g q v => swnvg__addEdgeXC g allocOk v q.bounds2)
    (fun g q v => addEdgeXC_frame g allocOk v q.bounds2) paths
  have hE := fillFold_frame (fun g _ v => swnvg__addEdge g allocOk v)
    (fun g _ v => addEdge_frame g allocOk v) paths
  split_ifs
  all_goals first
    | exact ⟨⟨rfl, rfl, rfl⟩, Or.inl ⟨rfl, rfl⟩⟩
    | (refine ⟨⟨(hX _).2.2.1, (hX _).2.2.2.1, (hX _).2.1⟩,
          Or.inr ⟨_, congrArg (fun l => l ++ [_]) (hX _).1, rfl, ?_, ?_⟩⟩
       · exact Nat.add_sub_cancel' (hX { gl with ccalls := _, covtex := _ }).2.2.2.2
       · exact ⟨le_trans hb0 (maxi_ge_right _ _), le_trans (mini_le_right _ _) hb2,
           le_trans hb1 (maxi_ge_right _ _), le_trans (mini_le_right _ _) hb3⟩)
    | (refine ⟨⟨(hE _).2.2.1, (hE _).2.2.2.1, (hE _).2.1⟩,
          Or.inr ⟨_, congrArg (fun l => l ++ [_]) (hE _).1, rfl, ?_, ?_⟩⟩
       · exact Nat.add_sub_cancel' (hE { gl with ccalls := _, covtex := _ }).2.2.2.2
       · exact ⟨le_trans hb0 (maxi_ge_right _ _), le_trans (mini_le_right _ _) hb2,
           le_trans hb1 (maxi_ge_right _ _), le_trans (mini_le_right _ _) hb3⟩)

/-- What one returning `swnvg__renderTriangles` does to the recorder: the
framebuffer size and `nedges` are kept, and either nothing changes or one call
with an empty edge slice and bounds inside the framebuffer is appended. -/
theorem renderTriangles_spec (env : Env) (gl gl1 : SWNVGcontext) (callsOk vertsOk : Bool)
    (paint : NVGpaint) (scissor : NVGscissor) (verts : List NVGvertex)
    (hr : swnvg__renderTriangles env gl callsOk vertsOk paint scissor verts = some gl1) :
    (gl1.width = gl.width ∧ gl1.height = gl.height ∧ gl1.nedges = gl.nedges) ∧
    (gl1 = gl ∨
     ∃ c, gl1.calls = gl.calls ++ [c] ∧ c.edgeOffset = 0 ∧ c.edgeCount = 0 ∧
       c.triangleOffset = gl.verts.length ∧ c.triangleCount = verts.length / 3 ∧
       BoundsInside gl c) := by
  obtain ⟨hb, ho, hc⟩ := convertPaint_spec env gl
    { zeroCall with triangleCount := verts.length / 3, triangleOffset := gl.verts.length }
    paint scissor ⟨false, false, false, false⟩
  have htri := convertPaint_triangle env gl
    { zeroCall with triangleCount := verts.length / 3, triangleOffset := gl.verts.length }
    paint scissor ⟨false, false, false, false⟩
  unfold swnvg__renderTriangles at hr
  dsimp only at hr
  by_cases h1 : gl.calls.length + 1 > gl.ccalls ∧ callsOk = false
  · rw [if_pos h1] at hr
    cases hr
    exact ⟨⟨rfl, rfl, rfl⟩, Or.inl rfl⟩
  rw [if_neg h1] at hr
  by_cases h2 : gl.verts.length + verts.length / 3 > gl.cverts ∧ vertsOk = false
  · rw [if_pos h2] at hr; cases hr
  rw [if_neg h2] at hr
  cases hw : triangleCopy verts ((verts.length + 5) / 6) 0 with
  | none => rw [hw] at hr; cases hr
  | some w =>
    rw [hw] at hr
    dsimp only at hr
    split_ifs at hr
    all_goals first
      | (cases hr; done)
      | (cases hr
         exact ⟨⟨rfl, rfl, rfl⟩, Or.inr ⟨_, rfl, ho, hc, htri.1, htri.2, hb⟩⟩)

theorem recorderInv_fill (env : Env) (gl : SWNVGcontext) (allocOk : Bool) (paint : NVGpaint)
    (scissor : NVGscissor) (flags : CallFlags) (b0 b1 b2 b3 : Rat) (paths : List NVGpath)
    (h : RecorderInv gl) :
    RecorderInv (swnvg__renderFill env gl allocOk paint scissor flags b0 b1 b2 b3 paths) := by
  obtain ⟨h0, hB, hS, hP⟩ := h
  obtain ⟨⟨hw, hh, hv⟩, hcase⟩ :=
    renderFill_spec env gl allocOk paint scissor flags b0 b1 b2 b3 paths
  generalize swnvg__renderFill env gl allocOk paint scissor flags b0 b1 b2 b3 paths = g at *
  unfold RecorderInv BoundsInside at *
  rcases hcase with ⟨hc, hn⟩ | ⟨c, hc, hoff, hsum, hbc⟩
  · rw [hc, hn, hv, hw, hh]
    exact ⟨h0, hB, hS, hP⟩
  · rw [hc, hw, hh]
    refine ⟨fun hnil => absurd hnil (by simp), ?_, ?_, ?_⟩
    · intro d hd
      rcases List.mem_append.mp hd with hd | hd
      · exact hB d hd
      · rw [List.mem_singleton.mp hd]; exact hbc
    · intro d hd
      rcases List.mem_append.mp hd with hd | hd
      · have := hS d hd; omega
      · rw [List.mem_singleton.mp hd]; omega
    · rw [List.pairwise_append]
      refine ⟨hP, List.pairwise_singleton _ _, ?_⟩
      intro a ha b hb
      rw [List.mem_singleton.mp hb]
      have := hS a ha
      left; omega

theorem recorderInv_triangles (env : Env) (gl gl1 : SWNVGcontext) (callsOk vertsOk : Bool)
    (paint : NVGpaint) (scissor : NVGscissor) (verts : List NVGvertex)
    (hr : swnvg__renderTriangles env gl callsOk vertsOk paint scissor verts = some gl1)
    (h : RecorderInv gl) : RecorderInv gl1 := by
  obtain ⟨⟨hw, hh, hn⟩, hcase⟩ :=
    renderTriangles_spec env gl gl1 callsOk vertsOk paint scissor verts hr
  rcases hcase with rfl | ⟨c, hc, hoff, hcnt, -, -, hbc⟩
  · exact h
  obtain ⟨h0, hB, hS, hP⟩ := h
  unfold RecorderInv BoundsInside at *
  rw [hc, hw, hh, hn]
  refine ⟨fun hnil => absurd hnil (by simp), ?_, ?_, ?_⟩
  · intro d hd
    rcases List.mem_append.mp hd with hd | hd
    · exact hB d hd
    · rw [List.mem_singleton.mp hd]; exact hbc
  · intro d hd
    rcases List.mem_append.mp hd with hd | hd
    · exact hS d hd
    · rw [List.mem_singleton.mp hd]; omega
  · rw [List.pairwise_append]
    refine ⟨hP, List.pairwise_singleton _ _, ?_⟩
    intro a _ b hb
    rw [List.mem_singleton.mp hb]
    right; exact hcnt

theorem recorded_inv (env : Env) (gl : SWNVGcontext) (h : Recorded env gl) : RecorderInv gl := by
  induction h with
  | start gl hc he hv =>
    unfold RecorderInv
    rw [hc]
    exact ⟨fun _ => ⟨he, hv⟩, fun c hc => absurd hc (List.not_mem_nil c),
      fun c hc => absurd hc (List.not_mem_nil c), List.Pairwise.nil⟩
  | fill gl allocOk paint scissor flags b0 b1 b2 b3 paths _ ih =>
    exact recorderInv_fill env gl allocOk paint scissor flags b0 b1 b2 b3 paths ih
  | triangles gl gl1 callsOk vertsOk paint scissor verts _ hr ih =>
    exact recorderInv_triangles env gl gl1 callsOk vertsOk paint scissor verts hr ih

theorem renderFlush_spec (env : Env) (gl gl1 : SWNVGcontext)
    (hf : swnvg__renderFlush env gl = some gl1) :
    (gl.calls = [] ∧ gl1 = gl) ∨ (gl1.calls = [] ∧ gl1.nedges = 0 ∧ gl1.verts = []) := by
  unfold swnvg__renderFlush at hf
  dsimp only at hf
  by_cases h0 : gl.calls.length = 0
  · rw [if_pos h0] at hf
    cases hf
    exact Or.inl ⟨List.length_eq_zero.mp h0, rfl⟩
  rw [if_neg h0] at hf
  generalize (if gl.xthreads * gl.ythreads > 1 then List.range (gl.xthreads * gl.ythreads)
    else [0]) = idxs at hf
  cases h1 : sortPhase idxs gl with
  | none => rw [h1] at hf; cases hf
  | some g1 =>
    rw [h1] at hf
    dsimp only at hf
    cases h2 : rasterPhase env idxs g1 with
    | none => rw [h2] at hf; cases hf
    | some g2 =>
      rw [h2] at hf
      cases hf
      exact Or.inr ⟨rfl, rfl, rfl⟩

theorem recorded_rectRecorded : Recorded sampleEnv rectRecorded :=
  Recorded.fill sampleGl true redPaint noScissor ⟨false, false, false, false⟩ (13 / 4) 3 7 7
    [⟨rectSegs, 13 / 4, 3, 7, 7⟩] (Recorded.start sampleGl rfl rfl rfl)

theorem recorded_twoFills : Recorded sampleEnv twoFills :=
  Recorded.fill rectRecorded true redPaint noScissor ⟨false, false, false, false⟩ 1 1 2 2
    [⟨[⟨1, 1, 2, 1⟩, ⟨2, 1, 2, 2⟩, ⟨2, 2, 1, 2⟩, ⟨1, 2, 1, 1⟩], 1, 1, 2, 2⟩] recorded_rectRecorded

/-- Claim C16.  For every state reached from a state with no recorded call, edge
or vertex by any sequence of `swnvg__renderFill` and `swnvg__renderTriangles`
calls, when `swnvg__renderFlush` returns the per-frame counters are all zero:
`ncalls = 0`, `nedges = 0` and `nverts = 0`. -/
theorem flush_resets_counters (env : Env) (gl gl1 : SWNVGcontext) (h : Recorded env gl)
    (hf : swnvg__renderFlush env gl = some gl1) :
    gl1.calls.length = 0 ∧ gl1.nedges = 0 ∧ gl1.verts.length = 0 := by
  rcases renderFlush_spec env gl gl1 hf with ⟨hc, rfl⟩ | ⟨hc, hn, hv⟩
  · obtain ⟨hn, hv⟩ := (recorded_inv env gl1 h).1 hc
    rw [hc, hn, hv]
    exact ⟨rfl, rfl, rfl⟩
  · rw [hc, hn, hv]
    exact ⟨rfl, rfl, rfl⟩

/-- Witness for C16: the flush of the state with one recorded rectangle fill
(one call, two stored edges) returns, with all three counters zero. -/
theorem flush_resets_counters_witness :
    rectRecorded.calls.length = 1 ∧ rectRecorded.nedges = 2 ∧
    ∃ gl1, swnvg__renderFlush sampleEnv rectRecorded = some gl1 ∧
      gl1.calls.length = 0 ∧ gl1.nedges = 0 ∧ gl1.verts.length = 0 := by
  have hs : (swnvg__renderFlush sampleEnv rectRecorded).isSome = true := by decide!
  obtain ⟨gl1, hg⟩ := Option.isSome_iff_exists.mp hs
  exact ⟨by decide!, by decide!, gl1, hg,
    flush_resets_counters sampleEnv rectRecorded gl1 recorded_rectRecorded hg⟩

/-- Claim C17.  Every call recorded by `swnvg__renderFill` or
`swnvg__renderTriangles` on a `width` x `height` framebuffer has bounds inside
the framebuffer, `0 <= bounds[0]`, `bounds[2] <= width-1`, `0 <= bounds[1]` and
`bounds[3] <= height-1`, for every paint, scissor, flags, bounding box and
geometry; hence so has every call of a recorded state. -/
theorem recorded_call_bounds_inside (env : Env) :
    (∀ (gl : SWNVGcontext) (allocOk : Bool) (paint : NVGpaint) (scissor : NVGscissor)
        (flags : CallFlags) (b0 b1 b2 b3 : Rat) (paths : List NVGpath) (c : SWNVGcall),
      (swnvg__renderFill env gl allocOk paint scissor flags b0 b1 b2 b3 paths).calls =
          gl.calls ++ [c] →
        0 ≤ c.bounds0 ∧ c.bounds2 ≤ gl.width - 1 ∧ 0 ≤ c.bounds1 ∧ c.bounds3 ≤ gl.height - 1) ∧
    (∀ (gl gl1 : SWNVGcontext) (callsOk vertsOk : Bool) (paint : NVGpaint)
        (scissor : NVGscissor) (verts : List NVGvertex) (c : SWNVGcall),
      swnvg__renderTriangles env gl callsOk vertsOk paint scissor verts = some gl1 →
        gl1.calls = gl.calls ++ [c] →
        0 ≤ c.bounds0 ∧ c.bounds2 ≤ gl.width - 1 ∧ 0 ≤ c.bounds1 ∧ c.bounds3 ≤ gl.height - 1) ∧
    (∀ gl : SWNVGcontext, Recorded env gl → ∀ c ∈ gl.calls,
        0 ≤ c.bounds0 ∧ c.bounds2 ≤ gl.width - 1 ∧ 0 ≤ c.bounds1 ∧ c.bounds3 ≤ gl.height - 1) := by
  refine ⟨?_, ?_, ?_⟩
  · intro gl allocOk paint scissor flags b0 b1 b2 b3 paths c hc
    rcases (renderFill_spec env gl allocOk paint scissor flags b0 b1 b2 b3 paths).2 with
      ⟨h1, -⟩ | ⟨d, hd, -, -, hb⟩
    · rw [h1] at hc
      exact absurd (List.self_eq_append_right.mp hc) (by simp)
    · rw [hd] at hc
      have := List.append_cancel_left hc
      cases this
      exact hb
  · intro gl gl1 callsOk vertsOk paint scissor verts c hr hc
    rcases (renderTriangles_spec env gl gl1 callsOk vertsOk paint scissor verts hr).2 with
      rfl | ⟨d, hd, -, -, -, -, hb⟩
    · exact absurd (List.self_eq_append_right.mp hc) (by simp)
    · rw [hd] at hc
      have := List.append_cancel_left hc
      cases this
      exact hb
  · intro gl h c hc
    exact (recorded_inv env gl h).2.1 c hc

/-- Witness for C17: two fills and one triangle submission on the 10x10
framebuffer record three calls, each with bounds inside `[0, 9] x [0, 9]`. -/
theorem recorded_call_bounds_inside_witness :
    ∃ gl1, withTriangles = some gl1 ∧ gl1.calls.length = 3 ∧ gl1.width = 10 ∧ gl1.height = 10 ∧
      ∀ c ∈ gl1.calls,
        0 ≤ c.bounds0 ∧ c.bounds2 ≤ gl1.width - 1 ∧ 0 ≤ c.bounds1 ∧ c.bounds3 ≤ gl1.height - 1 := by
  have hs : withTriangles.isSome = true := by decide!
  obtain ⟨gl1, hg⟩ := Option.isSome_iff_exists.mp hs
  have h3 : (withTriangles.map (fun g => (g.calls.length, g.width, g.height))) =
      some (3, 10, 10) := by decide!
  rw [hg] at h3
  simp only [Option.map_some', Option.some.injEq, Prod.mk.injEq] at h3
  exact ⟨gl1, hg, h3.1, h3.2.1, h3.2.2,
    (recorded_call_bounds_inside sampleEnv).2.2 gl1
      (Recorded.triangles twoFills gl1 true true redPaint noScissor sampleQuad
        recorded_twoFills hg)⟩

/-- Claim C18.  In every state reached by any sequence of `swnvg__renderFill` and
`swnvg__renderTriangles` calls since the last flush, the edge slices
`[edgeOffset, edgeOffset + edgeCount)` of the recorded calls appear in
submission order (every index of an earlier call's slice is below every index
of a later call's slice), are pairwise disjoint, and lie inside `[0, nedges)`. -/
theorem edge_slices_ordered_disjoint (env : Env) (gl : SWNVGcontext) (h : Recorded env gl) :
    (∀ (i j : Nat) (ci cj : SWNVGcall), i < j → gl.calls[i]? = some ci →
      gl.calls[j]? = some cj → ∀ a b, InEdgeSlice ci a → InEdgeSlice cj b → a < b) ∧
    (∀ (i j : Nat) (ci cj : SWNVGcall), i ≠ j → gl.calls[i]? = some ci →
      gl.calls[j]? = some cj → ∀ a, ¬ (InEdgeSlice ci a ∧ InEdgeSlice cj a)) ∧
    (∀ c ∈ gl.calls, ∀ a, InEdgeSlice c a → 0 ≤ a ∧ a < gl.nedges) := by
  obtain ⟨-, -, hS, hP⟩ := recorded_inv env gl h
  have hord : ∀ (i j : Nat) (ci cj : SWNVGcall), i < j → gl.calls[i]? = some ci →
      gl.calls[j]? = some cj → ∀ a b, InEdgeSlice ci a → InEdgeSlice cj b → a < b := by
    intro i j ci cj hij hi hj a b ha hb
    obtain ⟨hi1, hi2⟩ := List.getElem?_eq_some.mp hi
    obtain ⟨hj1, hj2⟩ := List.getElem?_eq_some.mp hj
    have := List.pairwise_iff_getElem.mp hP i j hi1 hj1 hij
    rw [hi2, hj2] at this
    unfold InEdgeSlice at ha hb
    omega
  refine ⟨hord, ?_, ?_⟩
  · intro i j ci cj hij hi hj a ⟨ha, hb⟩
    rcases Nat.lt_or_gt_of_ne hij with hlt | hgt
    · exact absurd (hord i j ci cj hlt hi hj a a ha hb) (lt_irrefl a)
    · exact absurd (hord j i cj ci hgt hj hi a a hb ha) (lt_irrefl a)
  · intro c hc a ha
    have := hS c hc
    unfold InEdgeSlice at ha
    omega

/-- Witness for C18: after two fills the recorded slices are `[0, 2)` and
`[2, 4)` with `nedges = 4`, and they are ordered, disjoint and inside
`[0, nedges)`. -/
theorem edge_slices_ordered_disjoint_witness :
    twoFills.calls.map (fun c => (c.edgeOffset, c.edgeCount)) = [(0, 2), (2, 2)] ∧
    twoFills.nedges = 4 ∧
    (∀ (i j : Nat) (ci cj : SWNVGcall), i < j → twoFills.calls[i]? = some ci →
      twoFills.calls[j]? = some cj → ∀ a b, InEdgeSlice ci a → InEdgeSlice cj b → a < b) ∧
    (∀ (i j : Nat) (ci cj : SWNVGcall), i ≠ j → twoFills.calls[i]? = some ci →
      twoFills.calls[j]? = some cj → ∀ a, ¬ (InEdgeSlice ci a ∧ InEdgeSlice cj a)) ∧
    (∀ c ∈ twoFills.calls, ∀ a, InEdgeSlice c a → 0 ≤ a ∧ a < twoFills.nedges) :=
  ⟨by decide!, by decide!, edge_slices_ordered_disjoint sampleEnv twoFills recorded_twoFills⟩

/-! ### Texture store: handles and ids -/

theorem slotIndex_none (l : List SWNVGtexture) (id : Int) :
    slotIndex l id = none ↔ ∀ t ∈ l, t.id ≠ id := by
  induction l with
  | nil => simp [slotIndex]
  | cons t ts ih =>
    unfold slotIndex
    by_cases h : t.id = id
    · rw [if_pos h]; simp [h]
    · rw [if_neg h, Option.map_eq_none', ih]; simp [h]

theorem slotIndex_some (l : List SWNVGtexture) (id : Int) (i : Nat)
    (h : slotIndex l id = some i) : ∃ t, l[i]? = some t ∧ t.id = id := by
  induction l generalizing i with
  | nil => simp [slotIndex] at h
  | cons t ts ih =>
    unfold slotIndex at h
    by_cases ht : t.id = id
    · rw [if_pos ht] at h
      cases h
      exact ⟨t, by simp, ht⟩
    · rw [if_neg ht] at h
      obtain ⟨j, hj, rfl⟩ := Option.map_eq_some'.mp h
      obtain ⟨s, hs, hsid⟩ := ih j hj
      exact ⟨s, by simpa using hs, hsid⟩

theorem findTexture_none (gl : SWNVGcontext) (id : Int) :
    swnvg__findTexture gl id = none ↔ ∀ t ∈ gl.textures, t.id ≠ id := by
  unfold swnvg__findTexture
  rw [List.find?_eq_none]
  simp

/-- A slot with the id `id` written over slot `i` of a store in which no slot has
that id is the one that `swnvg__findTexture` returns. -/
theorem find_set_fresh (l : List SWNVGtexture) (id : Int) (t : SWNVGtexture) (i : Nat)
    (hi : i < l.length) (ht : t.id = id) (hl : ∀ s ∈ l, s.id ≠ id) :
    (l.set i t).find? (fun s => s.id == id) = some t := by
  induction l generalizing i with
  | nil => simp at hi
  | cons a as ih =>
    cases i with
    | zero => simp [List.find?, ht]
    | succ j =>
      have ha : a.id ≠ id := hl a (List.mem_cons_self a as)
      rw [List.set_cons_succ, List.find?_cons_of_neg _ (by simpa using ha)]
      exact ih j (by simpa using hi) (fun s hs => hl s (List.mem_cons_of_mem a hs))

theorem find_append_fresh (l : List SWNVGtexture) (id : Int) (t : SWNVGtexture)
    (ht : t.id = id) (hl : ∀ s ∈ l, s.id ≠ id) :
    (l ++ [t]).find? (fun s => s.id == id) = some t := by
  induction l with
  | nil => simp [List.find?, ht]
  | cons a as ih =>
    have ha : a.id ≠ id := hl a (List.mem_cons_self a as)
    rw [List.cons_append, List.find?_cons_of_neg _ (by simpa using ha)]
    exact ih (fun s hs => hl s (List.mem_cons_of_mem a hs))

theorem allocTexture_spec (gl gl1 : SWNVGcontext) (allocOk : Bool) (i : Nat)
    (h : swnvg__allocTexture gl allocOk = (gl1, some i)) :
    gl1.textureId = gl.textureId + 1 ∧
    ((∃ s, gl.textures[i]? = some s ∧ s.id = 0 ∧
        gl1.textures = gl.textures.set i { zeroTexture with id := gl.textureId + 1 }) ∨
     (i = gl.textures.length ∧
        gl1.textures = gl.textures ++ [{ zeroTexture with id := gl.textureId + 1 }])) := by
  unfold swnvg__allocTexture at h
  cases hs : slotIndex gl.textures 0 with
  | some j =>
    rw [hs] at h
    dsimp only at h
    cases h
    obtain ⟨s, hs1, hs2⟩ := slotIndex_some gl.textures 0 i hs
    exact ⟨rfl, Or.inl ⟨s, hs1, hs2, rfl⟩⟩
  | none =>
    rw [hs] at h
    dsimp only at h
    split_ifs at h <;> cases h <;> exact ⟨rfl, Or.inr ⟨rfl, rfl⟩⟩

/-- What a returning `swnvg__renderCreateTexture` does to the store: the id is
`textureId + 1`, which becomes the new `textureId`, and a slot with that id and
the size `(w, h)` replaces a free slot or is appended. -/
theorem renderCreateTexture_spec (tt : NVGtexture) (gl gl1 : SWNVGcontext)
    (slotsOk dataOk : Bool) (type w h : Int) (imageFlags : ImageFlags) (data : Option TexData)
    (id : Int)
    (hr : swnvg__renderCreateTexture tt gl slotsOk dataOk type w h imageFlags data =
      some (gl1, id)) :
    id = gl.textureId + 1 ∧ gl1.textureId = gl.textureId + 1 ∧
    ∃ t : SWNVGtexture, t.id = id ∧ t.width = w ∧ t.height = h ∧
      ((∃ i s, gl.textures[i]? = some s ∧ s.id = 0 ∧ gl1.textures = gl.textures.set i t) ∨
       gl1.textures = gl.textures ++ [t]) := by
  unfold swnvg__renderCreateTexture at hr
  cases ha : swnvg__allocTexture gl slotsOk with
  | mk g oi =>
    cases oi with
    | none => rw [ha] at hr; cases hr
    | some i =>
      rw [ha] at hr
      dsimp only at hr
      obtain ⟨hid, hcase⟩ := allocTexture_spec gl g slotsOk i ha
      obtain ⟨t, ht, hpair⟩ := Option.map_eq_some'.mp hr
      have key : t.id = g.textureId ∧ t.width = w ∧ t.height = h := by
        cases data with
        | none =>
          dsimp only at ht
          split_ifs at ht <;> cases ht <;> exact ⟨rfl, rfl, rfl⟩
        | some d =>
          dsimp only at ht
          split_ifs at ht
          all_goals first
            | (cases ht; exact ⟨rfl, rfl, rfl⟩)
            | (obtain ⟨v, -, rfl⟩ := Option.map_eq_some'.mp ht; exact ⟨rfl, rfl, rfl⟩)
      cases hpair
      refine ⟨by rw [key.1, hid], hid, t, rfl, key.2.1, key.2.2, ?_⟩
      rcases hcase with ⟨s, hs1, hs2, hs3⟩ | ⟨hi, hs3⟩
      · left
        refine ⟨i, s, hs1, hs2, ?_⟩
        show g.textures.set i t = _
        rw [hs3, List.set_set]
      · right
        show g.textures.set i t = _
        rw [hs3, hi]
        simp

theorem texInv_of_store (tt : NVGtexture) (gl : SWNVGcontext) (ids : List Int)
    (h : TexStore tt gl ids) : TexInv gl ids := by
  induction h with
  | start gl ht hid =>
    unfold TexInv
    rw [ht, hid]
    exact ⟨le_refl 0, fun t ht => absurd ht (List.not_mem_nil t),
      fun j hj => absurd hj (List.not_mem_nil j)⟩
  | create gl gl1 ids slotsOk dataOk type w h imageFlags data id _ hr ih =>
    obtain ⟨h0, hT, hI⟩ := ih
    obtain ⟨hid, hnext, t, htid, -, -, hcase⟩ :=
      renderCreateTexture_spec tt gl gl1 slotsOk dataOk type w h imageFlags data id hr
    refine ⟨by omega, ?_, ?_⟩
    · intro s hs
      have hmem : s = t ∨ s ∈ gl.textures := by
        rcases hcase with ⟨i, z, -, -, hset⟩ | happ
        · rw [hset] at hs
          rcases List.mem_or_eq_of_mem_set hs with h1 | h1
          · exact Or.inr h1
          · exact Or.inl h1
        · rw [happ] at hs
          rcases List.mem_append.mp hs with h1 | h1
          · exact Or.inr h1
          · exact Or.inl (List.mem_singleton.mp h1)
      rcases hmem with rfl | hmem
      · omega
      · have := hT s hmem; omega
    · intro j hj
      rcases List.mem_cons.mp hj with rfl | hj
      · omega
      · have := hI j hj; omega
  | delete gl ids image _ ih =>
    obtain ⟨h0, hT, hI⟩ := ih
    unfold swnvg__renderDeleteTexture
    cases hs : slotIndex gl.textures image with
    | none => exact ⟨h0, hT, hI⟩
    | some i =>
      refine ⟨h0, ?_, hI⟩
      intro s hs
      rcases List.mem_or_eq_of_mem_set hs with h1 | rfl
      · exact hT s h1
      · exact ⟨le_refl 0, h0⟩
  | update gl gl1 ids image x y w h data ret _ hr ih =>
    obtain ⟨h0, hT, hI⟩ := ih
    unfold swnvg__renderUpdateTexture at hr
    cases hs : slotIndex gl.textures image with
    | none => rw [hs] at hr; cases hr
    | some i =>
      cases hf : gl.textures.find? (fun t => t.id == image) with
      | none => rw [hs, hf] at hr; cases hr
      | some tex =>
        rw [hs, hf] at hr
        dsimp only at hr
        obtain ⟨t, ht, hpair⟩ := Option.map_eq_some'.mp hr
        cases hpair
        have hmem := List.mem_of_find?_eq_some hf
        have hid : t.id = tex.id := by
          cases data with
          | none =>
            dsimp only at ht
            split_ifs at ht
            all_goals (obtain ⟨v, -, rfl⟩ := Option.map_eq_some'.mp ht; rfl)
          | some d =>
            dsimp only at ht
            split_ifs at ht
            all_goals first
              | (cases ht; rfl)
              | (obtain ⟨v, -, rfl⟩ := Option.map_eq_some'.mp ht; rfl)
        refine ⟨h0, ?_, hI⟩
        intro s hs
        rcases List.mem_or_eq_of_mem_set hs with h1 | rfl
        · exact hT s h1
        · rw [hid]; exact hT tex hmem
  | other gl gl1 ids _ ht hid ih =>
    unfold TexInv at *
    rw [ht, hid]
    exact ih

theorem updateTexture_unknown (tt : NVGtexture) (gl : SWNVGcontext) (image x y w h : Int)
    (data : Option TexData) (hid : ∀ t ∈ gl.textures, t.id ≠ image) :
    swnvg__renderUpdateTexture tt gl image x y w h data = none := by
  unfold swnvg__renderUpdateTexture
  rw [(slotIndex_none gl.textures image).mpr hid]

/-- Claim C19, counterexample.  In the store left by one create and one delete
(one free slot), the handle 0 is not the id of a live texture, yet
`swnvg__renderDeleteTexture` and `swnvg__renderGetTextureSize` return 1 for it;
and for the handle 7, which no slot has, `swnvg__renderUpdateTexture` has no
defined result (it uses the `NULL` result of the lookup). -/
theorem unknown_handle_not_rejected :
    ∃ gl, storeFreed = some gl ∧
      (¬ LiveId gl 0 ∧ (swnvg__renderDeleteTexture gl 0).2 = 1 ∧
        (swnvg__renderGetTextureSize gl 0).1 = 1) ∧
      (¬ LiveId gl 7 ∧ swnvg__renderUpdateTexture sampleTypes gl 7 0 0 0 0 none = none) := by
  have hs : storeFreed.isSome = true := by decide!
  obtain ⟨gl, hg⟩ := Option.isSome_iff_exists.mp hs
  have h1 : storeFreed.map (fun gl => (gl.textures.map (fun t => t.id),
      (swnvg__renderDeleteTexture gl 0).2, (swnvg__renderGetTextureSize gl 0).1)) =
      some ([0], 1, 1) := by decide!
  rw [hg] at h1
  simp only [Option.map_some', Option.some.injEq, Prod.mk.injEq] at h1
  obtain ⟨hids, hd, hsz⟩ := h1
  have hall : ∀ t ∈ gl.textures, t.id = 0 := by
    intro t ht
    have : t.id ∈ gl.textures.map (fun t => t.id) := List.mem_map_of_mem _ ht
    rw [hids] at this
    exact List.mem_singleton.mp this
  refine ⟨gl, hg, ⟨?_, hd, hsz⟩, ?_, ?_⟩
  · rintro ⟨t, -, h0, h1⟩
    exact h0 h1
  · rintro ⟨t, ht, -, h1⟩
    rw [hall t ht] at h1
    exact absurd h1 (by decide)
  · apply updateTexture_unknown
    intro t ht
    rw [hall t ht]
    decide

/-- Claim C19, as the code has it.  For every texture store and every handle that
is not the id of a live texture, the handle 0 included when the store has no
free slot, `swnvg__renderDeleteTexture` and `swnvg__renderGetTextureSize` each
return the failure value 0 and leave the store unchanged. -/
theorem unknown_handle_rejected (gl : SWNVGcontext) (image : Int) (hlive : ¬ LiveId gl image)
    (hfree : image = 0 → ∀ t ∈ gl.textures, t.id ≠ 0) :
    swnvg__renderDeleteTexture gl image = (gl, 0) ∧
    swnvg__renderGetTextureSize gl image = (0, none) := by
  have hid : ∀ t ∈ gl.textures, t.id ≠ image := by
    intro t ht heq
    by_cases h0 : t.id = 0
    · exact hfree (by rw [← heq, h0]) t ht h0
    · exact hlive ⟨t, ht, h0, heq⟩
  constructor
  · unfold swnvg__renderDeleteTexture
    rw [(slotIndex_none gl.textures image).mpr hid]
  · unfold swnvg__renderGetTextureSize
    rw [(findTexture_none gl image).mpr hid]

/-- Witness for C19: in the store with one live texture (id 1) and no free slot,
the handles 7 and 0 are rejected by delete and by get-size. -/
theorem unknown_handle_rejected_witness :
    ∃ o, storeOne = some o ∧ o.1.textures.map (fun t => t.id) = [1] ∧
      (swnvg__renderDeleteTexture o.1 7 = (o.1, 0) ∧
        swnvg__renderGetTextureSize o.1 7 = (0, none)) ∧
      (swnvg__renderDeleteTexture o.1 0 = (o.1, 0) ∧
        swnvg__renderGetTextureSize o.1 0 = (0, none)) := by
  have hs : storeOne.isSome = true := by decide!
  obtain ⟨o, hg⟩ := Option.isSome_iff_exists.mp hs
  have h1 : storeOne.map (fun o => o.1.textures.map (fun t => t.id)) = some [1] := by decide!
  rw [hg] at h1
  simp only [Option.map_some', Option.some.injEq] at h1
  have hall : ∀ t ∈ o.1.textures, t.id = 1 := by
    intro t ht
    have : t.id ∈ o.1.textures.map (fun t => t.id) := List.mem_map_of_mem _ ht
    rw [h1] at this
    exact List.mem_singleton.mp this
  refine ⟨o, hg, h1, unknown_handle_rejected o.1 7 ?_ ?_, unknown_handle_rejected o.1 0 ?_ ?_⟩
  · rintro ⟨t, ht, -, h7⟩
    rw [hall t ht] at h7
    exact absurd h7 (by decide)
  · intro h
    exact absurd h (by decide)
  · rintro ⟨t, -, h0, h1⟩
    exact h0 h1
  · intro _ t ht
    rw [hall t ht]
    decide

/-- The id part of C20: in every state of the texture store, when
`swnvg__renderCreateTexture` returns, the returned id is non-zero, greater than
every id returned before and different from the id of every live texture, and
`swnvg__renderGetTextureSize` on that id then succeeds with exactly `(w, h)`. -/
theorem createTexture_fresh_id (tt : NVGtexture) (gl gl1 : SWNVGcontext) (ids : List Int)
    (slotsOk dataOk : Bool) (type w h : Int) (imageFlags : ImageFlags) (data : Option TexData)
    (id : Int) (hs : TexStore tt gl ids)
    (hr : swnvg__renderCreateTexture tt gl slotsOk dataOk type w h imageFlags data =
      some (gl1, id)) :
    id ≠ 0 ∧ (∀ j ∈ ids, j < id) ∧ ¬ LiveId gl id ∧
    swnvg__renderGetTextureSize gl1 id = (1, some (w, h)) := by
  obtain ⟨h0, hT, hI⟩ := texInv_of_store tt gl ids hs
  obtain ⟨hid, -, t, htid, htw, hth, hcase⟩ :=
    renderCreateTexture_spec tt gl gl1 slotsOk dataOk type w h imageFlags data id hr
  have hfresh : ∀ s ∈ gl.textures, s.id ≠ id := by
    intro s hs
    have := hT s hs
    omega
  refine ⟨by omega, ?_, ?_, ?_⟩
  · intro j hj
    have := hI j hj
    omega
  · rintro ⟨s, hs, -, heq⟩
    exact hfresh s hs heq
  · have hfind : swnvg__findTexture gl1 id = some t := by
      unfold swnvg__findTexture
      rcases hcase with ⟨i, z, hz, -, hset⟩ | happ
      · rw [hset]
        obtain ⟨hi, -⟩ := List.getElem?_eq_some.mp hz
        exact find_set_fresh gl.textures id t i hi htid hfresh
      · rw [happ]
        exact find_append_fresh gl.textures id t htid hfresh
    unfold swnvg__renderGetTextureSize
    rw [hfind]
    dsimp only
    rw [htw, hth]

theorem copyRGBAData_isSome (gl : SWNVGcontext) (tex : SWNVGtexture) (s : Int → Nat)
    (hset : tex.dataSet = true) (hsize : 0 ≤ tex.width * tex.height)
    (halpha : tex.premultiplied = true →
      ∀ k : Nat, k < (tex.width * tex.height).toNat → COLOR3 (s k) ≠ 0) :
    (swnvg__copyRGBAData gl tex (some s)).isSome = true := by
  unfold swnvg__copyRGBAData
  dsimp only
  by_cases hp : tex.premultiplied = true
  · rw [if_pos hp]
    have hany : (List.range (tex.width * tex.height).toNat).any
        (fun ii => COLOR3 (s ii) == 0) = false := by
      rw [List.any_eq_false]
      intro k hk
      have := halpha hp k (List.mem_range.mp hk)
      simpa using this
    rw [hany, hset]
    split_ifs <;> first | rfl | contradiction
  · rw [if_neg hp, hset]
    split_ifs with h1 h2 h3 h4
    all_goals first
      | rfl
      | contradiction
      | (exfalso; rcases h2 with h2 | h2 <;> first | exact h2 | omega)

theorem allocTexture_ok (gl : SWNVGcontext) :
    ∃ g i, swnvg__allocTexture gl true = (g, some i) := by
  unfold swnvg__allocTexture
  cases slotIndex gl.textures 0 with
  | some i => exact ⟨_, _, rfl⟩
  | none =>
    dsimp only
    rw [if_neg (by simp)]
    exact ⟨_, _, rfl⟩

/-- Allocation success is enough for `swnvg__renderCreateTexture` to return
when the pixel copy is defined: the size `w * h` is not negative and an RGBA
source flagged premultiplied has no pixel with alpha 0. -/
theorem createTexture_returns (tt : NVGtexture) (gl : SWNVGcontext) (type w h : Int)
    (imageFlags : ImageFlags) (data : Option TexData) (hsize : 0 ≤ w * h)
    (halpha : ∀ d, data = some d → type = tt.NVG_TEXTURE_RGBA →
      imageFlags.premultiplied = true → imageFlags.nocopy = false →
      ∀ k : Nat, k < (w * h).toNat → COLOR3 (d.texels k) ≠ 0) :
    (swnvg__renderCreateTexture tt gl true true type w h imageFlags data).isSome = true := by
  obtain ⟨g, i, hg⟩ := allocTexture_ok gl
  unfold swnvg__renderCreateTexture
  rw [hg]
  dsimp only
  rw [Option.isSome_map']
  cases data with
  | none => split_ifs <;> rfl
  | some d =>
    dsimp only
    by_cases hn : imageFlags.nocopy = true
    · rw [if_pos hn]; rfl
    rw [if_neg hn]
    by_cases ht : type = tt.NVG_TEXTURE_RGBA
    · rw [if_pos ht, Option.isSome_map']
      apply copyRGBAData_isSome
      · rfl
      · exact hsize
      · intro hp
        exact halpha d rfl ht hp (by simpa using hn)
    · rw [if_neg ht]
      have hno : ¬((true : Bool) = false ∨ w * h < 0) := by
        rintro (h1 | h1)
        · exact absurd h1 (by decide)
        · omega
      rw [if_neg hno]
      split_ifs <;> rfl

/-- Claim C20, failing input.  In a new context with successful allocations,
creating a 1x1 RGBA texture flagged premultiplied from the pixel `0x00000000`
(alpha 0) has no defined result: `swnvg__copyRGBAData` divides by the alpha. -/
theorem createTexture_zero_alpha_undefined :
    swnvg__renderCreateTexture sampleTypes (nvgswCreate false false) true true
      sampleTypes.NVG_TEXTURE_RGBA 1 1 ⟨false, false, true⟩
      (some ⟨fun _ => 0, fun _ => 0⟩) = none :=
  Option.not_isSome_iff_eq_none.mp (by decide!)

/-! ### Exact-coverage rasterizer: accumulator reset -/

theorem xcColumns_frame (edge : SWNVGedge) (invslope : Rat) (width iy : Int) :
    ∀ (n : Nat) (ix : Int) (cov : Rat) (covtex : Int → Rat) (k : Int),
      (∀ c : Int, ix ≤ c → c < ix + n → k ≠ iy * width + c) →
      (xcColumns edge invslope width iy n ix cov covtex).1 k = covtex k
  | 0, _, _, _, _, _ => rfl
  | n + 1, ix, cov, covtex, k, hk => by
    unfold xcColumns
    dsimp only
    rw [xcColumns_frame edge invslope width iy n (ix + 1) _ _ k
      (fun c h1 h2 => hk c (by omega) (by push_cast; omega))]
    have := hk ix (le_refl _) (by push_cast; omega)
    rw [if_neg this]

/-- One row of the accumulation pass keeps `CovInv` when the cells it changes
lie in `[ixmin, ixmax + 1]` and the row's limits are widened to that range. -/
theorem covInv_step (W y0 ylo yb1 xb1 : Int) (c0 : Int → Rat) (cv0 cv : Int → Rat)
    (l0 l2 : Int → Int) (iy ixmin ixmax : Int) (hrow : ylo ≤ iy ∧ iy ≤ yb1)
    (hcv : ∀ k, cv k ≠ cv0 k →
      ∃ c : Int, k = iy * W + c ∧ ixmin ≤ c ∧ c ≤ ixmax + 1 ∧ c ≤ xb1)
    (hl0 : l2 (2 * (iy - y0)) ≤ l0 (2 * (iy - y0)) ∧ l2 (2 * (iy - y0)) ≤ ixmin)
    (hl1 : l0 (2 * (iy - y0) + 1) ≤ l2 (2 * (iy - y0) + 1) ∧
      ixmax + 1 ≤ l2 (2 * (iy - y0) + 1))
    (hlo : ∀ j, j ≠ 2 * (iy - y0) → j ≠ 2 * (iy - y0) + 1 → l2 j = l0 j)
    (h : CovInv W y0 ylo yb1 xb1 c0 cv0 l0) : CovInv W y0 ylo yb1 xb1 c0 cv l2 := by
  intro k hk
  by_cases hmod : cv k = cv0 k
  · rw [hmod] at hk
    rcases h k hk with h1 | ⟨jy, jx, e, b1, b2, b3, b4, b5⟩
    · exact Or.inl h1
    · right
      refine ⟨jy, jx, e, b1, b2, ?_, ?_, b5⟩
      · by_cases hj : jy = iy
        · subst hj; omega
        · rw [hlo _ (by omega) (by omega)]; exact b3
      · by_cases hj : jy = iy
        · subst hj; omega
        · rw [hlo _ (by omega) (by omega)]; exact b4
  · obtain ⟨c, e, b1, b2, b3⟩ := hcv k hmod
    exact Or.inr ⟨iy, c, e, hrow.1, hrow.2, by omega, by omega, b3⟩

/-- The update of a row's limits in the accumulation pass: `lims[0]` is lowered
to at most `ixmin`, `lims[1]` is raised to at least `ixmax + 1`, and the other
entries are kept. -/
theorem xcLims_update (l l1 l2 : Int → Int) (li ixmin ixmax : Int)
    (h1 : l1 = if ixmin < l li then fun k => if k = li then ixmin else l k else l)
    (h2 : l2 = if ixmax ≥ l1 (li + 1) then fun k => if k = li + 1 then ixmax + 1 else l1 k
      else l1) :
    (l2 li ≤ l li ∧ l2 li ≤ ixmin) ∧ (l (li + 1) ≤ l2 (li + 1) ∧ ixmax + 1 ≤ l2 (li + 1)) ∧
    ∀ j, j ≠ li → j ≠ li + 1 → l2 j = l j := by
  have hne : li + 1 ≠ li := by omega
  have hne2 : li ≠ li + 1 := by omega
  have e1 : l1 (li + 1) = l (li + 1) := by
    rw [h1]; split_ifs
    · show (if li + 1 = li then ixmin else l (li + 1)) = _
      rw [if_neg hne]
    · rfl
  have e0 : l1 li ≤ l li ∧ l1 li ≤ ixmin := by
    rw [h1]; split_ifs with c
    · show (if li = li then ixmin else l li) ≤ _ ∧ (if li = li then ixmin else l li) ≤ _
      rw [if_pos rfl]; omega
    · omega
  have eo : ∀ j, j ≠ li → l1 j = l j := by
    intro j hj
    rw [h1]; split_ifs
    · show (if j = li then ixmin else l j) = _
      rw [if_neg hj]
    · rfl
  by_cases c2 : ixmax ≥ l1 (li + 1)
  · rw [if_pos c2] at h2
    have f0 : l2 li = l1 li := by rw [h2]; show (if li = li + 1 then _ else _) = _; rw [if_neg hne2]
    have f1 : l2 (li + 1) = ixmax + 1 := by
      rw [h2]; show (if li + 1 = li + 1 then _ else _) = _; rw [if_pos rfl]
    refine ⟨by rw [f0]; exact e0, by rw [f1]; omega, ?_⟩
    intro j hj1 hj2
    rw [h2]
    show (if j = li + 1 then _ else _) = _
    rw [if_neg hj2]
    exact eo j hj1
  · rw [if_neg c2] at h2
    subst h2
    refine ⟨e0, by omega, ?_⟩
    intro j hj1 _
    exact eo j hj1

theorem xcRows_covInv (edge : SWNVGedge) (invslope : Rat) (W dir : Int) (ymin ymax : Rat)
    (ixleft ixright xedge y0 ylo yb1 xb1 : Int) (c0 : Int → Rat) (hr : ixright ≤ xb1)
    (he : xedge ≤ xb1) :
    ∀ (n : Nat) (iy li : Int) (xmin xmax : Rat) (st : XCState),
      li = 2 * (iy - y0) → ylo ≤ iy → (0 < n → iy + n ≤ yb1 + 1) →
      xcRowsClipped ixleft ixright xedge invslope n xmin xmax = true →
      CovInv W y0 ylo yb1 xb1 c0 st.covtex st.lims →
      CovInv W y0 ylo yb1 xb1 c0
        (xcRows edge invslope W dir ymin ymax ixleft ixright xedge n iy li xmin xmax st).covtex
        (xcRows edge invslope W dir ymin ymax ixleft ixright xedge n iy li xmin xmax st).lims
  | 0, _, _, _, _, _, _, _, _, _, h => h
  | n + 1, iy, li, xmin, xmax, st, hli, hlo, hhi, hclip, h => by
    have hhi := hhi (Nat.succ_pos n)
    unfold xcRowsClipped at hclip
    rw [Bool.and_eq_true, Bool.or_eq_true, decide_eq_true_eq, decide_eq_true_eq] at hclip
    obtain ⟨hrange, hrest⟩ := hclip
    unfold xcRows
    dsimp only
    have hmx := mini_le_right (truncf xmax) ixright
    generalize swnvg__maxi (truncf xmin) ixleft = ixmin at hrange ⊢
    generalize swnvg__mini (truncf xmax) ixright = ixmax at hrange hmx ⊢
    apply xcRows_covInv edge invslope W dir ymin ymax ixleft ixright xedge y0 ylo yb1 xb1 c0 hr he
      n (iy + 1) (li + 2) _ _ _ (by omega) (by omega)
      (by intro _; push_cast at hhi; omega) hrest
    subst hli
    apply covInv_step W y0 ylo yb1 xb1 c0 st.covtex _ st.lims _ iy ixmin ixmax
      ⟨hlo, by push_cast at hhi; omega⟩ ?_ ?_ ?_ ?_ h
    · intro k hk
      by_contra hcon
      apply hk
      have hcol : (xcColumns edge invslope W iy (ixmax - ixmin + 1).toNat ixmin 0 st.covtex).1 k =
          st.covtex k := by
        apply xcColumns_frame
        intro c h1 h2 heq
        exact hcon ⟨c, heq, h1, by omega, by omega⟩
      by_cases hw : (if ixmin ≤ ixmax then ixmax + 1 else ixmin) ≤ xedge
      · rw [if_pos hw]
        dsimp only
        have hne : k ≠ iy * W + (if ixmin ≤ ixmax then ixmax + 1 else ixmin) := by
          intro heq
          apply hcon
          by_cases hle : ixmin ≤ ixmax
          · rw [if_pos hle] at heq hw
            exact ⟨ixmax + 1, heq, by omega, by omega, by omega⟩
          · rw [if_neg hle] at hw
            exfalso; omega
        rw [if_neg hne]
        exact hcol
      · rw [if_neg hw]
        exact hcol
    · exact (xcLims_update st.lims _ _ (2 * (iy - y0)) ixmin ixmax rfl rfl).1
    · exact (xcLims_update st.lims _ _ (2 * (iy - y0)) ixmin ixmax rfl rfl).2.1
    · exact (xcLims_update st.lims _ _ (2 * (iy - y0)) ixmin ixmax rfl rfl).2.2

theorem xcEdge_covInv (gl : SWNVGcontext) (r : SWNVGthreadCtx) (call : SWNVGcall)
    (c0 : Int → Rat) (st : XCState) (edge : SWNVGedge) (hc : XCEdgeCovered r call edge)
    (h : CovInv gl.width r.y0 (swnvg__maxi call.bounds1 r.y0) (swnvg__mini call.bounds3 r.y1)
      (swnvg__mini call.bounds2 r.x1) c0 st.covtex st.lims) :
    CovInv gl.width r.y0 (swnvg__maxi call.bounds1 r.y0) (swnvg__mini call.bounds3 r.y1)
      (swnvg__mini call.bounds2 r.x1) c0 (xcEdge gl r call st edge).covtex
      (xcEdge gl r call st edge).lims := by
  unfold XCEdgeCovered at hc
  unfold xcEdge
  dsimp only at hc ⊢
  have h1 := maxi_ge_right (truncf (swnvg__minf edge.y0 edge.y1)) (swnvg__maxi call.bounds1 r.y0)
  have h2 := mini_le_right (truncf (swnvg__maxf edge.y0 edge.y1)) (swnvg__mini call.bounds3 r.y1)
  apply xcRows_covInv edge _ gl.width _ _ _ _ _ _ r.y0 _ _ _ c0
    (mini_le_right _ _) (mini_le_right _ _) _ _ _ _ _ st rfl h1 ?_ hc h
  generalize swnvg__maxi (truncf (swnvg__minf edge.y0 edge.y1)) (swnvg__maxi call.bounds1 r.y0) =
    iymin at h1 ⊢
  generalize swnvg__mini (truncf (swnvg__maxf edge.y0 edge.y1)) (swnvg__mini call.bounds3 r.y1) =
    iymax at h2 ⊢
  intro hpos
  omega

theorem xcEdges_covInv (gl : SWNVGcontext) (r : SWNVGthreadCtx) (call : SWNVGcall)
    (c0 : Int → Rat) :
    ∀ (es : List SWNVGedge) (st : XCState), (∀ e ∈ es, XCEdgeCovered r call e) →
      CovInv gl.width r.y0 (swnvg__maxi call.bounds1 r.y0) (swnvg__mini call.bounds3 r.y1)
        (swnvg__mini call.bounds2 r.x1) c0 st.covtex st.lims →
      CovInv gl.width r.y0 (swnvg__maxi call.bounds1 r.y0) (swnvg__mini call.bounds3 r.y1)
        (swnvg__mini call.bounds2 r.x1) c0 (es.foldl (xcEdge gl r call) st).covtex
        (es.foldl (xcEdge gl r call) st).lims
  | [], _, _, h => h
  | e :: es, st, hc, h => by
    rw [List.foldl_cons]
    exact xcEdges_covInv gl r call c0 es _ (fun e1 h1 => hc e1 (List.mem_cons_of_mem e h1))
      (xcEdge_covInv gl r call c0 st e (hc e (List.mem_cons_self e es)) h)

/-- The pixel loop of the fill pass leaves the cells `dcover .. dcover + n - 1`
zero and keeps the others, when `emit` does not touch the accumulator. -/
theorem xcPixels_covtex (dcover : Int) (emit : Nat → Int → XCFill → XCFill)
    (hemit : ∀ (i : Nat) (ic : Int) (s : XCFill), (emit i ic s).covtex = s.covtex) (k : Int) :
    ∀ (n : Nat) (st : XCFill),
      (xcPixels dcover emit n st).covtex k =
        if dcover ≤ k ∧ k < dcover + n then 0 else st.covtex k
  | 0, st => by
    rw [if_neg (by push_cast; omega)]
    rfl
  | n + 1, st => by
    have ih := xcPixels_covtex dcover emit hemit k n st
    unfold xcPixels at ih ⊢
    rw [List.range_succ, List.foldl_append]
    simp only [List.foldl_cons, List.foldl_nil]
    generalize List.foldl (fun st (i : Nat) => xcPixel (dcover + (i : Int)) (emit i) st) st
      (List.range n) = f at ih ⊢
    unfold xcPixel
    dsimp only
    rw [hemit]
    by_cases hk : k = dcover + n
    · subst hk
      rw [if_pos (show dcover ≤ dcover + (n : Int) ∧ dcover + (n : Int) < dcover + ((n + 1 : Nat) : Int)
        from ⟨by omega, by push_cast; omega⟩)]
      by_cases hz : f.covtex (dcover + n) ≠ 0
      · rw [if_pos hz]
        dsimp only
        rw [if_pos rfl]
      · rw [if_neg hz]
        exact not_not.mp hz
    · have e : (if f.covtex (dcover + ↑n) ≠ 0 then
          ({ f with cover := f.cover + f.covtex (dcover + ↑n),
                    icover := xcCoverByte (f.cover + f.covtex (dcover + ↑n)),
                    covtex := fun k => if k = dcover + ↑n then 0 else f.covtex k } : XCFill)
          else f).covtex k = f.covtex k := by
        split_ifs
        · dsimp only
          rw [if_neg hk]
        · rfl
      rw [e, ih]
      by_cases hin : dcover ≤ k ∧ k < dcover + n
      · rw [if_pos hin, if_pos ⟨hin.1, by push_cast; omega⟩]
      · rw [if_neg hin, if_neg (by push_cast; omega)]

theorem xcFillRow_covtex (env : Env) (gl : SWNVGcontext) (call : SWNVGcall)
    (tex : Option SWNVGtexture) (xb0 xb1 iy li : Int) (st st1 : XCOut)
    (h : xcFillRow env gl call tex xb0 xb1 iy li st = some st1) :
    (∀ j, j ≠ li → j ≠ li + 1 → st1.lims j = st.lims j) ∧
    ∀ k : Int, st1.covtex k =
      if iy * gl.width + st.lims li ≤ k ∧
          k < iy * gl.width + st.lims li +
            ((swnvg__mini (st.lims (li + 1)) xb1 - st.lims li + 1).toNat : Int)
      then 0 else st.covtex k := by
  unfold xcFillRow at h
  dsimp only at h
  split_ifs at h with hcol hop
  · cases h
    refine ⟨fun j h1 h2 => by dsimp only; rw [if_neg h1, if_neg h2], fun k => ?_⟩
    dsimp only
    rw [xcPixels_covtex]
    intro i ic s
    split_ifs <;> rfl
  · cases h
    refine ⟨fun j h1 h2 => by dsimp only; rw [if_neg h1, if_neg h2], fun k => ?_⟩
    dsimp only
    rw [xcPixels_covtex]
    intro i ic s
    split_ifs <;> rfl
  · split at h
    · cases h
    · cases h
      refine ⟨fun j h1 h2 => by dsimp only; rw [if_neg h1, if_neg h2], fun k => ?_⟩
      dsimp only
      rw [xcPixels_covtex]
      intro i ic s
      rfl

theorem xcFillRows_covInv (env : Env) (gl : SWNVGcontext) (call : SWNVGcall)
    (tex : Option SWNVGtexture) (xb0 xb1 y0 yb1 : Int) (c0 : Int → Rat) :
    ∀ (n : Nat) (iy li : Int) (st st1 : XCOut),
      xcFillRows env gl call tex xb0 xb1 n iy li st = some st1 →
      li = 2 * (iy - y0) → yb1 < iy + n →
      CovInv gl.width y0 iy yb1 xb1 c0 st.covtex st.lims →
      ∀ k, st1.covtex k ≠ 0 → c0 k ≠ 0
  | 0, iy, _, st, st1, h, _, hy, hinv => by
    simp only [xcFillRows, Option.some.injEq] at h
    subst h
    intro k hk
    rcases hinv k hk with h1 | ⟨jy, jx, -, b1, b2, -⟩
    · exact h1
    · exfalso; push_cast at hy; omega
  | n + 1, iy, li, st, st1, h, hli, hy, hinv => by
    unfold xcFillRows at h
    split at h
    · cases h
    · rename_i st2 h2
      obtain ⟨f1, f2⟩ := xcFillRow_covtex env gl call tex xb0 xb1 iy li st st2 h2
      apply xcFillRows_covInv env gl call tex xb0 xb1 y0 yb1 c0 n (iy + 1) (li + 2) st2 st1 h
        (by omega) (by push_cast at hy; omega)
      intro k hk
      rw [f2 k] at hk
      by_cases hin : iy * gl.width + st.lims li ≤ k ∧
          k < iy * gl.width + st.lims li +
            ((swnvg__mini (st.lims (li + 1)) xb1 - st.lims li + 1).toNat : Int)
      · rw [if_pos hin] at hk
        exact absurd rfl hk
      · rw [if_neg hin] at hk
        rcases hinv k hk with h1 | ⟨jy, jx, e, b1, b2, b3, b4, b5⟩
        · exact Or.inl h1
        · right
          by_cases hj : jy = iy
          · exfalso
            apply hin
            subst hj
            have hm : jx ≤ swnvg__mini (st.lims (2 * (jy - y0) + 1)) xb1 := le_mini _ _ _ b4 b5
            rw [hli, e]
            generalize swnvg__mini (st.lims (2 * (jy - y0) + 1)) xb1 = m at hm ⊢
            omega
          · refine ⟨jy, jx, e, by omega, b2, ?_, ?_, b5⟩
            · rw [f1 _ (by omega) (by omega)]; exact b3
            · rw [f1 _ (by omega) (by omega)]; exact b4

theorem xcFillRows_color (env : Env) (gl : SWNVGcontext) (call : SWNVGcall)
    (tex : Option SWNVGtexture) (xb0 xb1 : Int) (hc : call.type = SWNVGpaintType.COLOR) :
    ∀ (n : Nat) (iy li : Int) (st : XCOut),
      (xcFillRows env gl call tex xb0 xb1 n iy li st).isSome = true
  | 0, _, _, _ => rfl
  | n + 1, iy, li, st => by
    unfold xcFillRows
    have hrow : ∃ st1, xcFillRow env gl call tex xb0 xb1 iy li st = some st1 := by
      unfold xcFillRow
      dsimp only
      rw [if_pos hc]
      exact ⟨_, rfl⟩
    obtain ⟨st1, h1⟩ := hrow
    rw [h1]
    exact xcFillRows_color env gl call tex xb0 xb1 hc n (iy + 1) (li + 2) st1

/-- An edge list that is not a closed path.  On an all-zero accumulator,
`swnvg__rasterizeXC` with the single edge at `x = 1` (rows 0..1, path right bound 9) and a call
scissored to the columns 5..9 returns with the cell of pixel `(5, 0)`, which
lies in the tile, equal to 1: the edge lies left of the region, its clipped
column range is empty, the remaining coverage is stored into the cell `ixmin = 5`
and the row's limits `[5, 2]` give the fill pass nothing to consume. -/
theorem accumulator_left_dirty :
    inTile xcTile 5 0 ∧
    (swnvg__rasterizeXC sampleEnv xcLeftGl xcTile xcLeftCall none (fun _ => 0)
      (resetLimits 10)).map (fun o => o.covtex (0 * xcLeftGl.width + 5)) = some 1 := by
  constructor
  · unfold inTile; decide
  · decide!

/-- Accumulator invariant for covered edges.  For every tile, call, paint and
edge list in which every edge has, in each row the accumulation pass visits, a non-empty
clipped column range `[ixmin, ixmax]` or stores nothing (`ixmin > xedge`):
`swnvg__rasterizeXC` returns for a solid-colour call, and whenever it returns,
every accumulator cell that was zero before is zero again; so if every cell of
the tile was zero before, every cell of the tile is zero afterwards. -/
theorem rasterizeXC_accumulator_clean (env : Env) (gl : SWNVGcontext) (r : SWNVGthreadCtx)
    (call : SWNVGcall) (tex : Option SWNVGtexture) (covtex : Int → Rat) (lims : Int → Int)
    (hc : ∀ e ∈ (gl.edges.drop call.edgeOffset).take call.edgeCount, XCEdgeCovered r call e) :
    (call.type = SWNVGpaintType.COLOR →
      (swnvg__rasterizeXC env gl r call tex covtex lims).isSome = true) ∧
    ∀ o, swnvg__rasterizeXC env gl r call tex covtex lims = some o →
      (∀ k, covtex k = 0 → o.covtex k = 0) ∧
      ((∀ x y, inTile r x y → covtex (y * gl.width + x) = 0) →
        ∀ x y, inTile r x y → o.covtex (y * gl.width + x) = 0) := by
  constructor
  · intro hcol
    unfold swnvg__rasterizeXC
    exact xcFillRows_color env gl call tex _ _ hcol _ _ _ _
  · intro o ho
    have key : ∀ k, o.covtex k ≠ 0 → covtex k ≠ 0 := by
      unfold swnvg__rasterizeXC at ho
      dsimp only at ho
      have hacc := xcEdges_covInv gl r call covtex
        ((gl.edges.drop call.edgeOffset).take call.edgeCount)
        { covtex := covtex, lims := lims } hc (fun k hk => Or.inl hk)
      refine xcFillRows_covInv env gl call tex _ _ r.y0 _ covtex _ _ _ _ o ho rfl ?_ hacc
      generalize swnvg__mini call.bounds3 r.y1 = yb1
      generalize swnvg__maxi call.bounds1 r.y0 = yb0
      omega
    have hzero : ∀ k, covtex k = 0 → o.covtex k = 0 := by
      intro k hk
      by_contra hne
      exact key k hne hk
    exact ⟨hzero, fun hall x y hxy => hzero _ (hall x y hxy)⟩

/-- Example: the two vertical sides of the square with corners `(3,3)` and
`(7,7)` on the all-zero accumulator of the 10x10 tile; the run returns, it
paints pixel `(5, 5)` opaque red, and every accumulator cell is zero again. -/
theorem rasterizeXC_accumulator_clean_witness :
    (∀ e ∈ (xcSquareGl.edges.drop xcSquareCall.edgeOffset).take xcSquareCall.edgeCount,
      XCEdgeCovered xcTile xcSquareCall e) ∧
    (swnvg__rasterizeXC sampleEnv xcSquareGl xcTile xcSquareCall none (fun _ => 0)
      (resetLimits 10)).map (fun o => readPixel o.bitmap (5 * 40 + 4 * 5)) =
        some ⟨255, 0, 0, 255⟩ ∧
    ∃ o, swnvg__rasterizeXC sampleEnv xcSquareGl xcTile xcSquareCall none (fun _ => 0)
        (resetLimits 10) = some o ∧ ∀ k, o.covtex k = 0 := by
  have hc : ∀ e ∈ (xcSquareGl.edges.drop xcSquareCall.edgeOffset).take xcSquareCall.edgeCount,
      XCEdgeCovered xcTile xcSquareCall e := by decide!
  have T := rasterizeXC_accumulator_clean sampleEnv xcSquareGl xcTile xcSquareCall none
    (fun _ => 0) (resetLimits 10) hc
  obtain ⟨o, ho⟩ := Option.isSome_iff_exists.mp (T.1 rfl)
  exact ⟨hc, by decide!, o, ho, fun k => (T.2 o ho).1 k rfl⟩

/-! ### Paint conversion: scissor that is not axis-aligned -/

/-- Claim C24.  For every scissor whose transform is not axis-aligned
(`xform[1] != 0` or `xform[2] != 0`), `swnvg__convertPaint` ignores the
scissor: the bounds of the call are exactly the full framebuffer rectangle
`(0, 0, width-1, height-1)`. -/
theorem convertPaint_ignores_rotated_scissor (env : Env) (gl : SWNVGcontext) (call : SWNVGcall)
    (paint : NVGpaint) (scissor : NVGscissor) (flags : CallFlags)
    (h : scissor.xform.t1 ≠ 0 ∨ scissor.xform.t2 ≠ 0) :
    (swnvg__convertPaint env gl call paint scissor flags).bounds0 = 0 ∧
    (swnvg__convertPaint env gl call paint scissor flags).bounds1 = 0 ∧
    (swnvg__convertPaint env gl call paint scissor flags).bounds2 = gl.width - 1 ∧
    (swnvg__convertPaint env gl call paint scissor flags).bounds3 = gl.height - 1 := by
  have hn : ¬(scissor.xform.t1 = 0 ∧ scissor.xform.t2 = 0) := by
    rintro ⟨h1, h2⟩
    rcases h with h | h
    · exact h h1
    · exact h h2
  unfold swnvg__convertPaint
  dsimp only
  rw [if_neg hn]
  split_ifs <;> exact ⟨rfl, rfl, rfl, rfl⟩

/-- Witness for C24: a scissor rotated by a quarter turn on the 10x10
framebuffer leaves the bounds `(0, 0, 9, 9)`. -/
theorem convertPaint_ignores_rotated_scissor_witness :
    (rotatedScissor.xform.t1 ≠ 0 ∨ rotatedScissor.xform.t2 ≠ 0) ∧
    (swnvg__convertPaint sampleEnv sampleGl zeroCall redPaint rotatedScissor
      ⟨false, false, false, false⟩).bounds0 = 0 ∧
    (swnvg__convertPaint sampleEnv sampleGl zeroCall redPaint rotatedScissor
      ⟨false, false, false, false⟩).bounds1 = 0 ∧
    (swnvg__convertPaint sampleEnv sampleGl zeroCall redPaint rotatedScissor
      ⟨false, false, false, false⟩).bounds2 = sampleGl.width - 1 ∧
    (swnvg__convertPaint sampleEnv sampleGl zeroCall redPaint rotatedScissor
      ⟨false, false, false, false⟩).bounds3 = sampleGl.height - 1 :=
  ⟨Or.inl (by decide!), convertPaint_ignores_rotated_scissor sampleEnv sampleGl zeroCall redPaint
    rotatedScissor ⟨false, false, false, false⟩ (Or.inl (by decide!))⟩

/-! ### Texture store: pixel copy, deletion and update -/

/-- The un-premultiply loop of `swnvg__copyRGBAData` has no defined result when a
source pixel of the texture has alpha 0. -/
theorem copyRGBAData_alpha_zero (gl : SWNVGcontext) (tex : SWNVGtexture) (s : Int → Nat)
    (hp : tex.premultiplied = true) (k : Nat) (hk : (k : Int) < tex.width * tex.height)
    (ha : COLOR3 (s k) = 0) : swnvg__copyRGBAData gl tex (some s) = none := by
  unfold swnvg__copyRGBAData
  dsimp only
  rw [if_pos hp, if_neg (by omega)]
  by_cases hd : tex.dataSet = false
  · rw [if_pos hd]
  · rw [if_neg hd]
    have hany : (List.range (tex.width * tex.height).toNat).any
        (fun ii => COLOR3 (s ii) == 0) = true := by
      rw [List.any_eq_true]
      exact ⟨k, List.mem_range.mpr (by omega), by simpa using ha⟩
    rw [if_pos hany]

/-- With every source alpha non-zero, the un-premultiply loop of
`swnvg__copyRGBAData` stores, for each pixel `(r, g, b, a)` of the texture, the
word with `255*r/a`, `255*g/a`, `255*b/a` and `a` at the configured shifts;
each colour channel is at most 255 when the colour does not exceed the alpha. -/
theorem copyRGBAData_premultiplied (gl : SWNVGcontext) (tex : SWNVGtexture) (s : Int → Nat)
    (hp : tex.premultiplied = true) (hd : tex.dataSet = true)
    (ha : ∀ k : Nat, (k : Int) < tex.width * tex.height → COLOR3 (s k) ≠ 0) :
    (∃ v, swnvg__copyRGBAData gl tex (some s) = some v ∧
      ∀ k : Int, 0 ≤ k → k < tex.width * tex.height →
        v k = ((255 * COLOR0 (s k) / COLOR3 (s k)) <<< gl.rshift |||
              (255 * COLOR1 (s k) / COLOR3 (s k)) <<< gl.gshift |||
              (255 * COLOR2 (s k) / COLOR3 (s k)) <<< gl.bshift |||
              COLOR3 (s k) <<< gl.ashift) % 4294967296) ∧
    ∀ c a : Nat, c ≤ a → a ≠ 0 → 255 * c / a ≤ 255 := by
  constructor
  · unfold swnvg__copyRGBAData
    dsimp only
    rw [if_pos hp]
    by_cases hn : tex.width * tex.height ≤ 0
    · rw [if_pos hn]
      exact ⟨_, rfl, fun k h0 h1 => absurd h1 (by omega)⟩
    · rw [if_neg hn]
      have hany : (List.range (tex.width * tex.height).toNat).any
          (fun ii => COLOR3 (s ii) == 0) = false := by
        rw [List.any_eq_false]
        intro k hk
        have := ha k (by have := List.mem_range.mp hk; omega)
        simpa using this
      rw [hany, hd]
      refine ⟨_, rfl, fun k h0 h1 => ?_⟩
      dsimp only
      rw [if_pos ⟨h0, h1⟩]
  · intro c a hca ha0
    apply Nat.div_le_of_le_mul
    calc 255 * c ≤ 255 * a := Nat.mul_le_mul_left _ hca
      _ = a * 255 := Nat.mul_comm _ _

/-- Claim C23, failing input.  For the premultiplied 1x1 texture and the source
pixel `0x00000000` (`r = g = b = a = 0`), `swnvg__copyRGBAData` has no defined
result: `(255*r)/a` divides by the alpha 0. -/
theorem copyRGBAData_zero_alpha_undefined :
    premulTex.premultiplied = true ∧ premulTex.width * premulTex.height = 1 ∧
    COLOR0 0 = 0 ∧ COLOR3 0 = 0 ∧
    swnvg__copyRGBAData sampleGl premulTex (some (fun _ => 0)) = none :=
  ⟨rfl, by decide, by decide, by decide,
    Option.not_isSome_iff_eq_none.mp (by decide!)⟩

theorem uniqueIds_of_embed (old new : List SWNVGtexture)
    (h : ∀ (k : Nat) (a : SWNVGtexture), new[k]? = some a → a.id ≠ 0 →
      ∃ a1, old[k]? = some a1 ∧ a1.id = a.id)
    (hu : UniqueIds old) : UniqueIds new := by
  intro i j a b hi hj hab ha
  obtain ⟨a1, e1, f1⟩ := h i a hi ha
  obtain ⟨b1, e2, f2⟩ := h j b hj (by rw [← hab]; exact ha)
  exact hu i j a1 b1 e1 e2 (by rw [f1, f2, hab]) (by rw [f1]; exact ha)

theorem uniqueIds_of_store (tt : NVGtexture) (gl : SWNVGcontext) (ids : List Int)
    (h : TexStore tt gl ids) : UniqueIds gl.textures := by
  induction h with
  | start gl ht hid =>
    rw [ht]
    intro i j a b hi
    simp at hi
  | create gl gl1 ids slotsOk dataOk type w h imageFlags data id hs hr ih =>
    obtain ⟨-, hT, -⟩ := texInv_of_store tt gl ids hs
    obtain ⟨hid, -, t, htid, -, -, hcase⟩ :=
      renderCreateTexture_spec tt gl gl1 slotsOk dataOk type w h imageFlags data id hr
    have hold : ∀ (k : Nat) (a : SWNVGtexture), gl.textures[k]? = some a → a.id ≠ id := by
      intro k a hk
      have := hT a (List.getElem?_mem hk)
      omega
    have hnew : ∃ p : Nat, gl1.textures[p]? = some t ∧
        ∀ (k : Nat) (a : SWNVGtexture), gl1.textures[k]? = some a → k ≠ p →
          gl.textures[k]? = some a := by
      rcases hcase with ⟨p, z, hz, -, hset⟩ | happ
      · obtain ⟨hp, -⟩ := List.getElem?_eq_some.mp hz
        refine ⟨p, by rw [hset, List.getElem?_set_self hp], ?_⟩
        intro k a hk hne
        rw [hset, List.getElem?_set_ne (Ne.symm hne)] at hk
        exact hk
      · refine ⟨gl.textures.length, by rw [happ]; simp, ?_⟩
        intro k a hk hne
        rw [happ, List.getElem?_append] at hk
        split_ifs at hk with hlt
        · exact hk
        · exfalso
          have : k - gl.textures.length ≠ 0 := by omega
          obtain ⟨m, hm⟩ := Nat.exists_eq_succ_of_ne_zero this
          rw [hm] at hk
          simp at hk
    obtain ⟨p, hp, hrest⟩ := hnew
    intro i j a b hi hj hab ha
    by_cases h1 : i = p
    · by_cases h2 : j = p
      · rw [h1, h2]
      · exfalso
        subst h1
        rw [hp] at hi
        cases hi
        exact hold j b (hrest j b hj h2) (by rw [← hab, htid])
    · by_cases h2 : j = p
      · exfalso
        subst h2
        rw [hp] at hj
        cases hj
        exact hold i a (hrest i a hi h1) (by rw [hab, htid])
      · exact ih i j a b (hrest i a hi h1) (hrest j b hj h2) hab ha
  | delete gl ids image _ ih =>
    unfold swnvg__renderDeleteTexture
    cases hs : slotIndex gl.textures image with
    | none => exact ih
    | some p =>
      refine uniqueIds_of_embed gl.textures _ ?_ ih
      intro k a hk ha
      dsimp only at hk
      rw [List.getElem?_set] at hk
      split_ifs at hk with h1 h2
      · cases hk
        exact absurd rfl ha
      · exact ⟨a, hk, rfl⟩
  | update gl gl1 ids image x y w h data ret _ hr ih =>
    unfold swnvg__renderUpdateTexture at hr
    cases hs : slotIndex gl.textures image with
    | none => rw [hs] at hr; cases hr
    | some p =>
      cases hf : gl.textures.find? (fun t => t.id == image) with
      | none => rw [hs, hf] at hr; cases hr
      | some tex =>
        rw [hs, hf] at hr
        dsimp only at hr
        obtain ⟨t, ht, hpair⟩ := Option.map_eq_some'.mp hr
        cases hpair
        have hid : t.id = tex.id := by
          cases data with
          | none =>
            dsimp only at ht
            split_ifs at ht
            all_goals (obtain ⟨v, -, rfl⟩ := Option.map_eq_some'.mp ht; rfl)
          | some d =>
            dsimp only at ht
            split_ifs at ht
            all_goals first
              | (cases ht; rfl)
              | (obtain ⟨v, -, rfl⟩ := Option.map_eq_some'.mp ht; rfl)
        have htex : tex.id = image := by
          have := List.find?_some hf
          simpa using this
        obtain ⟨s, hs1, hs2⟩ := slotIndex_some gl.textures image p hs
        refine uniqueIds_of_embed gl.textures _ ?_ ih
        intro k a hk ha
        dsimp only at hk
        rw [List.getElem?_set] at hk
        split_ifs at hk with h1 h2
        · cases hk
          subst h1
          exact ⟨s, hs1, by rw [hs2, hid, htex]⟩
        · exact ⟨a, hk, rfl⟩
  | other gl gl1 ids _ ht hid ih =>
    rw [ht]
    exact ih

/-- The first slot with a given property is the one that `List.find?` returns. -/
theorem find_of_first (q : SWNVGtexture → Bool) :
    ∀ (l : List SWNVGtexture) (k : Nat) (a : SWNVGtexture), l[k]? = some a → q a = true →
      (∀ (j : Nat) (b : SWNVGtexture), j < k → l[j]? = some b → q b = false) →
      l.find? q = some a
  | [], k, a, hk, _, _ => by simp at hk
  | c :: l, 0, a, hk, hq, _ => by
    simp only [List.getElem?_cons_zero, Option.some.injEq] at hk
    subst hk
    simp [List.find?, hq]
  | c :: l, k + 1, a, hk, hq, hb => by
    have hc : q c = false := hb 0 c (Nat.succ_pos k) (by simp)
    rw [List.find?_cons_of_neg _ (by simp [hc])]
    exact find_of_first q l k a (by simpa using hk) hq
      (fun j b hj hjb => hb (j + 1) b (by omega) (by simpa using hjb))

/-- Claim C21.  In every state of the texture store and for every id of a live
texture, `swnvg__renderDeleteTexture` returns 1; afterwards
`swnvg__renderGetTextureSize` on that id fails; and every other live texture
keeps its slot with the whole record (id, width, height, type, flags and
data) and is found by its id as before. -/
theorem deleteTexture_frees_only_its_slot (tt : NVGtexture) (gl : SWNVGcontext)
    (ids : List Int) (id : Int) (hs : TexStore tt gl ids) (hlive : LiveId gl id) :
    (swnvg__renderDeleteTexture gl id).2 = 1 ∧
    swnvg__renderGetTextureSize (swnvg__renderDeleteTexture gl id).1 id = (0, none) ∧
    (∀ (k : Nat) (t : SWNVGtexture), gl.textures[k]? = some t → t.id ≠ 0 → t.id ≠ id →
      (swnvg__renderDeleteTexture gl id).1.textures[k]? = some t ∧
      swnvg__findTexture (swnvg__renderDeleteTexture gl id).1 t.id = some t) := by
  have hu := uniqueIds_of_store tt gl ids hs
  obtain ⟨t0, ht0, hne0, hid0⟩ := hlive
  have hsome : ∃ p, slotIndex gl.textures id = some p := by
    cases hsi : slotIndex gl.textures id with
    | none => exact absurd hid0 ((slotIndex_none gl.textures id).mp hsi t0 ht0)
    | some p => exact ⟨p, rfl⟩
  obtain ⟨p, hp⟩ := hsome
  obtain ⟨s, hs1, hs2⟩ := slotIndex_some gl.textures id p hp
  have hid : id ≠ 0 := by rw [← hid0]; exact hne0
  unfold swnvg__renderDeleteTexture
  rw [hp]
  dsimp only
  refine ⟨rfl, ?_, ?_⟩
  · unfold swnvg__renderGetTextureSize
    have hnone : swnvg__findTexture { gl with textures := gl.textures.set p zeroTexture } id =
        none := by
      rw [findTexture_none]
      intro t ht heq
      obtain ⟨k, hk⟩ := List.mem_iff_getElem?.mp ht
      dsimp only at hk
      rw [List.getElem?_set] at hk
      split_ifs at hk with h1 h2
      · cases hk
        exact hid heq.symm
      · exact h1 (hu p k s t hs1 hk (by rw [hs2, heq]) (by rw [hs2]; exact hid))
    rw [hnone]
  · intro k t hk hne hneid
    have hkp : p ≠ k := by
      intro e
      subst e
      rw [hs1] at hk
      cases hk
      exact hneid hs2
    have hslot : (gl.textures.set p zeroTexture)[k]? = some t := by
      rw [List.getElem?_set_ne hkp]
      exact hk
    refine ⟨hslot, ?_⟩
    unfold swnvg__findTexture
    dsimp only
    apply find_of_first _ _ k t hslot (by simp)
    intro j b _ hjb
    rw [List.getElem?_set] at hjb
    split_ifs at hjb with h1 h2
    · cases hjb
      simpa using Ne.symm hne
    · have hjk : j ≠ k := by omega
      have : b.id ≠ t.id := fun e => hjk (hu j k b t hjb hk e (by rw [e]; exact hne))
      simpa using this

/-- Witness for C21: with the live textures 1 (2x3) and 2 (4x5), deleting 1
returns 1, the size of 1 is no longer found, and texture 2 keeps its size. -/
theorem deleteTexture_frees_only_its_slot_witness :
    ∃ o, storeTwo = some o ∧ o.1.textures.map (fun t => t.id) = [1, 2] ∧
      (swnvg__renderDeleteTexture o.1 1).2 = 1 ∧
      swnvg__renderGetTextureSize (swnvg__renderDeleteTexture o.1 1).1 1 = (0, none) ∧
      swnvg__renderGetTextureSize (swnvg__renderDeleteTexture o.1 1).1 2 = (1, some (4, 5)) := by
  have hs1 : storeOne.isSome = true := by decide!
  obtain ⟨o1, ho1⟩ := Option.isSome_iff_exists.mp hs1
  have hs2 : storeTwo.isSome = true := by decide!
  obtain ⟨o, ho⟩ := Option.isSome_iff_exists.mp hs2
  have hcr : swnvg__renderCreateTexture sampleTypes o1.1 true true 1 4 5
      ⟨false, false, false⟩ none = some o := by
    have := ho
    unfold storeTwo at this
    rw [ho1] at this
    exact this
  have hfacts : storeTwo.map (fun o => (o.1.textures.map (fun t => t.id),
      swnvg__renderGetTextureSize (swnvg__renderDeleteTexture o.1 1).1 2)) =
      some ([1, 2], (1, some (4, 5))) := by decide!
  rw [ho] at hfacts
  simp only [Option.map_some', Option.some.injEq] at hfacts
  obtain ⟨hidl, hsz⟩ := Prod.mk.inj hfacts
  have hst1 : TexStore sampleTypes o1.1 [o1.2] :=
    TexStore.create (nvgswCreate false false) o1.1 [] true true 1 2 3 ⟨false, false, false⟩ none
      o1.2 (TexStore.start _ rfl rfl) ho1
  have hst : TexStore sampleTypes o.1 [o.2, o1.2] :=
    TexStore.create o1.1 o.1 [o1.2] true true 1 4 5 ⟨false, false, false⟩ none o.2 hst1 hcr
  have hlive : LiveId o.1 1 := by
    have hm : (1 : Int) ∈ o.1.textures.map (fun t => t.id) := by rw [hidl]; simp
    obtain ⟨t, ht, hid⟩ := List.mem_map.mp hm
    exact ⟨t, ht, by rw [hid]; decide, hid⟩
  have T := deleteTexture_frees_only_its_slot sampleTypes o.1 [o.2, o1.2] 1 hst hlive
  exact ⟨o, ho, hidl, T.1, T.2.1, hsz⟩

theorem slotIndex_find (id : Int) : ∀ (l : List SWNVGtexture) (p : Nat),
    slotIndex l id = some p → l.find? (fun t => t.id == id) = l[p]?
  | [], p, h => by simp [slotIndex] at h
  | t :: ts, p, h => by
    unfold slotIndex at h
    by_cases ht : t.id = id
    · rw [if_pos ht] at h
      cases h
      simp [List.find?, ht]
    · rw [if_neg ht] at h
      obtain ⟨j, hj, rfl⟩ := Option.map_eq_some'.mp h
      rw [List.find?_cons_of_neg _ (by simpa using ht)]
      simpa using slotIndex_find id ts j hj

/-- The texels of the rows `y .. y+h-1` of a texture of width `W` are those with
linear index in `[y*W, y*W + W*h)`. -/
theorem row_index_iff (W y h col row : Int) (h0 : 0 ≤ col) (h1 : col < W) :
    (y * W ≤ row * W + col ∧ row * W + col < y * W + W * h) ↔ (y ≤ row ∧ row < y + h) := by
  have hW : 0 < W := by omega
  constructor
  · rintro ⟨a, b⟩
    constructor
    · by_contra hc
      have : (row + 1) * W ≤ y * W := Int.mul_le_mul_of_nonneg_right (by omega) (le_of_lt hW)
      have e : (row + 1) * W = row * W + W := by ring
      omega
    · by_contra hc
      have : (y + h) * W ≤ row * W := Int.mul_le_mul_of_nonneg_right (by omega) (le_of_lt hW)
      have e : (y + h) * W = y * W + W * h := by ring
      omega
  · rintro ⟨a, b⟩
    constructor
    · have : y * W ≤ row * W := Int.mul_le_mul_of_nonneg_right a (le_of_lt hW)
      omega
    · have : (row + 1) * W ≤ (y + h) * W := Int.mul_le_mul_of_nonneg_right (by omega) (le_of_lt hW)
      have e : (y + h) * W = y * W + W * h := by ring
      have e2 : (row + 1) * W = row * W + W := by ring
      omega

/-- Claim C22, counterexample.  A 1x2 RGBA texture holds `0xFF000002` in row 1;
an update of row 0 only (`x = 0`, `w = 1`, `y = 0`, `h = 1`) returns 1 and
leaves `0xFF000022`, the row 1 of the supplied data, in row 1 of the texture. -/
theorem update_rgba_rewrites_other_rows :
    rgbaStore.bind (fun o => (swnvg__findTexture o.1 o.2).map
      (fun t => (t.type, t.width, t.height, t.texels (1 * t.width + 0)))) =
        some (sampleTypes.NVG_TEXTURE_RGBA, 1, 2, 4278190082) ∧
    rgbaUpdated.map (fun o => o.2) = some 1 ∧
    rgbaUpdated.bind (fun o => (swnvg__findTexture o.1 1).map
      (fun t => t.texels (1 * t.width + 0))) = some 4278190114 := by
  refine ⟨by decide!, by decide!, by decide!⟩

/-- Claim C22, as the code has it.  For a live alpha or float texture (not of
the RGBA type) with an allocated buffer and every row range `y .. y+h-1` inside
the texture, `swnvg__renderUpdateTexture` returns 1, sets exactly the texels of
the rows `y .. y+h-1` to the corresponding rows of the supplied data, and leaves
the texels of the other rows, the other fields of the texture and the other
slots unchanged, whatever `x` and `w` are; an RGBA texture is instead rewritten
as a whole by `swnvg__copyRGBAData`, whatever `y` and `h` are. -/
theorem updateTexture_rows (tt : NVGtexture) (gl : SWNVGcontext) (image x y w h : Int)
    (d : TexData) (p : Nat) (tex : SWNVGtexture)
    (hp : slotIndex gl.textures image = some p) (htex : gl.textures[p]? = some tex) :
    (tex.type ≠ tt.NVG_TEXTURE_RGBA →
      (tex.type = tt.NVG_TEXTURE_ALPHA ∨ tex.type = tt.NVG_TEXTURE_FLOAT) →
      tex.dataSet = true → 0 ≤ tex.width → 0 ≤ y → 0 ≤ h → y + h ≤ tex.height →
      ∃ t1 : SWNVGtexture,
        swnvg__renderUpdateTexture tt gl image x y w h (some d) =
          some ({ gl with textures := gl.textures.set p t1 }, 1) ∧
        (t1.id = tex.id ∧ t1.width = tex.width ∧ t1.height = tex.height ∧
          t1.type = tex.type ∧ t1.nearest = tex.nearest ∧ t1.nocopy = tex.nocopy ∧
          t1.premultiplied = tex.premultiplied ∧ t1.dataSet = tex.dataSet) ∧
        (tex.type = tt.NVG_TEXTURE_FLOAT →
          t1.texels = tex.texels ∧
          ∀ col row : Int, 0 ≤ col → col < tex.width →
            t1.texelsF (row * tex.width + col) =
              if y ≤ row ∧ row < y + h then d.texelsF (row * tex.width + col)
              else tex.texelsF (row * tex.width + col)) ∧
        (tex.type ≠ tt.NVG_TEXTURE_FLOAT →
          t1.texelsF = tex.texelsF ∧
          ∀ col row : Int, 0 ≤ col → col < tex.width →
            t1.texels (row * tex.width + col) =
              if y ≤ row ∧ row < y + h then d.texels (row * tex.width + col)
              else tex.texels (row * tex.width + col))) ∧
    (tex.type = tt.NVG_TEXTURE_RGBA →
      swnvg__renderUpdateTexture tt gl image x y w h (some d) =
        (swnvg__copyRGBAData gl tex (some d.texels)).map
          (fun v => ({ gl with textures := gl.textures.set p { tex with texels := v } }, 1))) := by
  have hfind : gl.textures.find? (fun t => t.id == image) = some tex := by
    rw [slotIndex_find image gl.textures p hp, htex]
  constructor
  · intro hrgba hkind hdata hw hy hh hyh
    have hcap : ¬(tex.dataSet = false ∨ tex.width * h < 0 ∨ y * tex.width < 0 ∨
        y * tex.width + tex.width * h >
          (if tex.type = tt.NVG_TEXTURE_ALPHA ∨ tex.type = tt.NVG_TEXTURE_FLOAT then
            tex.width * tex.height else tex.width * tex.height * 4)) := by
      rw [if_pos hkind, hdata]
      have a1 : 0 ≤ tex.width * h := Int.mul_nonneg hw hh
      have a2 : 0 ≤ y * tex.width := Int.mul_nonneg hy hw
      have a3 : tex.width * (y + h) ≤ tex.width * tex.height :=
        Int.mul_le_mul_of_nonneg_left hyh hw
      have e : tex.width * (y + h) = y * tex.width + tex.width * h := by ring
      rintro (h1 | h1 | h1 | h1)
      · exact absurd h1 (by decide)
      · omega
      · omega
      · omega
    unfold swnvg__renderUpdateTexture
    rw [hp, hfind]
    dsimp only
    rw [if_neg hrgba, if_neg hcap]
    by_cases hf : tex.type = tt.NVG_TEXTURE_FLOAT
    · rw [if_pos hf]
      refine ⟨_, rfl, ⟨rfl, rfl, rfl, rfl, rfl, rfl, rfl, rfl⟩, fun _ => ⟨rfl, ?_⟩,
        fun hn => absurd hf hn⟩
      intro col row h0 h1
      dsimp only
      by_cases hr : y ≤ row ∧ row < y + h
      · rw [if_pos hr, if_pos ((row_index_iff tex.width y h col row h0 h1).mpr hr)]
      · rw [if_neg hr, if_neg (fun hc => hr ((row_index_iff tex.width y h col row h0 h1).mp hc))]
    · rw [if_neg hf]
      refine ⟨_, rfl, ⟨rfl, rfl, rfl, rfl, rfl, rfl, rfl, rfl⟩, fun hn => absurd hn hf,
        fun _ => ⟨rfl, ?_⟩⟩
      intro col row h0 h1
      dsimp only
      by_cases hr : y ≤ row ∧ row < y + h
      · rw [if_pos hr, if_pos ((row_index_iff tex.width y h col row h0 h1).mpr hr)]
      · rw [if_neg hr, if_neg (fun hc => hr ((row_index_iff tex.width y h col row h0 h1).mp hc))]
  · intro hrgba
    unfold swnvg__renderUpdateTexture
    rw [hp, hfind]
    dsimp only
    rw [if_pos hrgba, Option.map_map]
    rfl

/-- Witness for C22: on the 2x3 alpha texture with texels `10 + k`, the update of
row 1 (`y = 1`, `h = 1`) with data `100 + k` returns 1 and gives the texels
10, 11, 102, 103, 14, 15. -/
theorem updateTexture_rows_witness :
    slotIndex alphaGl.textures 1 = some 0 ∧
    (swnvg__renderUpdateTexture sampleTypes alphaGl 1 0 1 2 1
      (some ⟨fun k => (100 + k).toNat, fun _ => 0⟩)).bind
        (fun o => (swnvg__findTexture o.1 1).map
          (fun t => (o.2, (List.range 6).map (fun k => t.texels k)))) =
      some (1, [10, 11, 102, 103, 14, 15]) ∧
    ∃ t1 : SWNVGtexture,
      swnvg__renderUpdateTexture sampleTypes alphaGl 1 0 1 2 1
          (some ⟨fun k => (100 + k).toNat, fun _ => 0⟩) =
        some ({ alphaGl with textures := alphaGl.textures.set 0 t1 }, 1) ∧
      t1.texels (1 * 2 + 0) = 102 ∧ t1.texels (2 * 2 + 1) = 15 := by
  have hp : slotIndex alphaGl.textures 1 = some 0 := by decide!
  obtain ⟨t1, h1, -, -, h3⟩ :=
    (updateTexture_rows sampleTypes alphaGl 1 0 1 2 1 ⟨fun k => (100 + k).toNat, fun _ => 0⟩ 0
      { zeroTexture with id := 1, width := 2, height := 3, type := 1, dataSet := true,
                         texels := fun k => (10 + k).toNat } hp rfl).1
      (by decide!) (Or.inl (by decide!)) rfl (by decide!) (by decide!) (by decide!) (by decide!)
  have h4 := (h3 (by decide!)).2
  refine ⟨hp, by decide!, t1, h1, ?_, ?_⟩
  · have := h4 0 1 (by decide) (by decide!)
    rw [this]
    decide!
  · have := h4 1 2 (by decide) (by decide!)
    rw [this]
    decide!

/-! ### Image sampling: texel coordinates -/

theorem truncf_nonneg (q : Rat) (h : 0 ≤ q) : 0 ≤ truncf q := by
  unfold truncf
  rw [if_pos h]
  exact Int.floor_nonneg.mpr h

theorem maxf_zero_nonneg (q : Rat) : 0 ≤ swnvg__maxf 0 q := by
  unfold swnvg__maxf
  split_ifs with h
  · exact le_of_lt h
  · exact le_refl 0

theorem clampi_mem (a mx : Int) (h : 0 ≤ mx) :
    0 ≤ swnvg__clampi a 0 mx ∧ swnvg__clampi a 0 mx ≤ mx := by
  unfold swnvg__clampi
  split_ifs <;> omega

/-! ### Coverage spans: amounts added by one span -/

theorem addByte_apply (s : Int → Nat) (i v k : Int) :
    addByte s i v k = if k = i then (((s i : Int) + v) % 256).toNat else s k := rfl

/-- Claim C29.  For every span with fixed-point ends `x0 <= x1` and pixel indices
`i = x0>>10`, `j = x1>>10` (taken relative to the tile's left column `left`),
`swnvg__fillScanlineAA` stores byte sums as follows.  When `i = j` it adds
`((x1-x0)*51)>>10` to pixel `i` and changes no other pixel.  When `i < j` it
adds `((1024 - frac(x0))*51)>>10` to pixel `i` (if `i >= 0`), adds
`(frac(x1)*51)>>10` to pixel `j` (if `j < len`), adds exactly 51 to every
in-range pixel strictly between `i` and `j`, and changes no other pixel.  Every
amount added is between 0 and 51. -/
theorem fillScanlineAA_amounts (s : Int → Nat) (len left x0 x1 : Int) (h : x0 ≤ x1) :
    (x0 / 1024 = x1 / 1024 →
      (swnvg__fillScanlineAA s len x0 x1 (x0 / 1024 - left) (x1 / 1024 - left)
          (x0 / 1024 - left) : Int) =
        ((s (x0 / 1024 - left) : Int) + (x1 - x0) * 51 / 1024) % 256 ∧
      (∀ k, k ≠ x0 / 1024 - left →
        swnvg__fillScanlineAA s len x0 x1 (x0 / 1024 - left) (x1 / 1024 - left) k = s k) ∧
      0 ≤ (x1 - x0) * 51 / 1024 ∧ (x1 - x0) * 51 / 1024 ≤ 51) ∧
    (x0 / 1024 < x1 / 1024 →
      (0 ≤ x0 / 1024 - left →
        (swnvg__fillScanlineAA s len x0 x1 (x0 / 1024 - left) (x1 / 1024 - left)
            (x0 / 1024 - left) : Int) =
          ((s (x0 / 1024 - left) : Int) + (1024 - x0 % 1024) * 51 / 1024) % 256) ∧
      (x1 / 1024 - left < len →
        (swnvg__fillScanlineAA s len x0 x1 (x0 / 1024 - left) (x1 / 1024 - left)
            (x1 / 1024 - left) : Int) =
          ((s (x1 / 1024 - left) : Int) + x1 % 1024 * 51 / 1024) % 256) ∧
      (∀ k, x0 / 1024 - left < k → k < x1 / 1024 - left → 0 ≤ k → k < len →
        (swnvg__fillScanlineAA s len x0 x1 (x0 / 1024 - left) (x1 / 1024 - left) k : Int) =
          ((s k : Int) + 51) % 256) ∧
      (∀ k, (k < x0 / 1024 - left ∨ x1 / 1024 - left < k ∨ k < 0 ∨ len ≤ k) →
        (k = x0 / 1024 - left → k < 0) → (k = x1 / 1024 - left → len ≤ k) →
        swnvg__fillScanlineAA s len x0 x1 (x0 / 1024 - left) (x1 / 1024 - left) k = s k) ∧
      (0 ≤ (1024 - x0 % 1024) * 51 / 1024 ∧ (1024 - x0 % 1024) * 51 / 1024 ≤ 51) ∧
      (0 ≤ x1 % 1024 * 51 / 1024 ∧ x1 % 1024 * 51 / 1024 ≤ 51)) := by
  have e51 : (255 : Int) / 5 = 51 := by decide
  constructor
  · intro hij
    have hij2 : x0 / 1024 - left = x1 / 1024 - left := by omega
    rw [← hij2]
    refine ⟨?_, ?_, by omega, by omega⟩
    · rw [fillScanlineAA_same, if_pos rfl]
      have : 0 ≤ ((s (x0 / 1024 - left) : Int) + (x1 - x0) * 51 / 1024) % 256 :=
        Int.emod_nonneg _ (by decide)
      exact Int.toNat_of_nonneg this
    · intro k hk
      rw [fillScanlineAA_same, if_neg hk]
  · intro hij
    have hne : x0 / 1024 - left ≠ x1 / 1024 - left := by omega
    generalize hi : x0 / 1024 - left = i at hne ⊢
    generalize hj : x1 / 1024 - left = j at hne ⊢
    have hlt : i < j := by omega
    have key : ∀ k, swnvg__fillScanlineAA s len x0 x1 i j k =
        if k = i ∧ 0 ≤ i then (((s k : Int) + (1024 - x0 % 1024) * 51 / 1024) % 256).toNat
        else if k = j ∧ j < len then (((s k : Int) + x1 % 1024 * 51 / 1024) % 256).toNat
        else if i < k ∧ k < j ∧ 0 ≤ k ∧ k < len then (((s k : Int) + 51) % 256).toNat
        else s k := by
      intro k
      unfold swnvg__fillScanlineAA
      simp only [SWNVG__FIX, SWNVG__SUBSAMPLES, Nat.cast_ofNat, e51, if_neg hne]
      split_ifs <;> (try simp only [addByte_apply]) <;> (try split_ifs) <;>
        first | rfl | (exfalso; omega) | (subst_vars; rfl)
    refine ⟨?_, ?_, ?_, ?_, ⟨by omega, by omega⟩, ⟨by omega, by omega⟩⟩
    · intro h0
      rw [key, if_pos ⟨rfl, h0⟩]
      exact Int.toNat_of_nonneg (Int.emod_nonneg _ (by decide))
    · intro h1
      rw [key, if_neg (by omega), if_pos ⟨rfl, h1⟩]
      exact Int.toNat_of_nonneg (Int.emod_nonneg _ (by decide))
    · intro k a b c d
      rw [key, if_neg (by omega), if_neg (by omega), if_pos ⟨a, b, c, d⟩]
      exact Int.toNat_of_nonneg (Int.emod_nonneg _ (by decide))
    · intro k a b c
      rw [key, if_neg (fun hh => by have := b hh.1; omega),
        if_neg (fun hh => by have := c hh.1; omega), if_neg (by omega)]

/-- Witness for C29: the span from `x0 = 2*1024 + 256` to `x1 = 5*1024 + 512` on
an all-zero scanline of 8 pixels adds 38 to pixel 2, 51 to pixels 3 and 4 and
25 to pixel 5. -/
theorem fillScanlineAA_amounts_witness :
    ((2304 : Int) ≤ 5632) ∧
    (List.range 8).map (fun k : Nat =>
      swnvg__fillScanlineAA (fun _ => 0) 8 2304 5632 (2304 / 1024 - 0) (5632 / 1024 - 0) k) =
      [0, 0, 38, 51, 51, 25, 0, 0] ∧
    (swnvg__fillScanlineAA (fun _ => 0) 8 2304 5632 (2304 / 1024 - 0) (5632 / 1024 - 0)
        (2304 / 1024 - 0) : Int) =
      (((fun _ => 0 : Int → Nat) (2304 / 1024 - 0) : Nat) + (1024 - 2304 % 1024) * 51 / 1024) %
        256 :=
  ⟨by decide, by decide!,
    ((fillScanlineAA_amounts (fun _ => 0) 8 0 2304 5632 (by decide)).2 (by decide)).1
      (by decide)⟩

/-! ### Active list: order by x -/

theorem bubblePass_perm : ∀ (p : List SWNVGactiveEdge) (a : SWNVGactiveEdge),
    (bubblePass a p).1.Perm (a :: p)
  | [], _ => List.Perm.refl _
  | b :: p, a => by
    rw [bubblePass_cons]
    split_ifs
    · exact ((bubblePass_perm p a).cons b).trans (List.Perm.swap a b p)
    · exact (bubblePass_perm p b).cons a

theorem resortActive_perm : ∀ (fuel : Nat) (l : List SWNVGactiveEdge),
    (resortActive fuel l).Perm l
  | 0, l => by
    cases l <;> exact List.Perm.refl _
  | fuel + 1, [] => List.Perm.refl _
  | fuel + 1, a :: rest => by
    rw [resortActive_cons]
    split_ifs
    · exact (resortActive_perm fuel _).trans (bubblePass_perm rest a)
    · exact bubblePass_perm rest a

theorem insertAfter_perm (z : SWNVGactiveEdge) : ∀ l : List SWNVGactiveEdge,
    (insertAfter z l).Perm (z :: l)
  | [] => List.Perm.refl _
  | b :: rest => by
    unfold insertAfter
    split_ifs
    · exact ((insertAfter_perm z rest).cons b).trans (List.Perm.swap z b rest)
    · exact List.Perm.refl _

theorem insertActive_perm (z : SWNVGactiveEdge) (l : List SWNVGactiveEdge) :
    (insertActive z l).Perm (z :: l) := by
  cases l with
  | nil => exact List.Perm.refl _
  | cons a rest =>
    unfold insertActive
    dsimp only
    split_ifs
    · exact List.Perm.refl _
    · exact ((insertAfter_perm z rest).cons a).trans (List.Perm.swap z a rest)

theorem insertAfter_sorted (z : SWNVGactiveEdge) : ∀ (l : List SWNVGactiveEdge)
    (a : SWNVGactiveEdge), a.x ≤ z.x → (a :: l).Pairwise (fun a b => a.x ≤ b.x) →
    (a :: insertAfter z l).Pairwise (fun a b => a.x ≤ b.x)
  | [], a, haz, _ => by
    unfold insertAfter
    exact List.pairwise_cons.mpr ⟨fun b hb => by rw [List.mem_singleton.mp hb]; exact haz,
      List.pairwise_singleton _ _⟩
  | b :: rest, a, haz, h => by
    obtain ⟨h1, h2⟩ := List.pairwise_cons.mp h
    unfold insertAfter
    split_ifs with hb
    · have ih := insertAfter_sorted z rest b (le_of_lt hb) h2
      refine List.pairwise_cons.mpr ⟨?_, ih⟩
      intro c hc
      rcases List.mem_cons.mp hc with rfl | hc
      · exact h1 _ (List.mem_cons_self _ _)
      · rcases List.mem_cons.mp ((insertAfter_perm z rest).subset hc) with rfl | hc
        · exact haz
        · exact h1 c (List.mem_cons_of_mem _ hc)
    · have hzb : z.x ≤ b.x := not_lt.mp hb
      obtain ⟨h3, -⟩ := List.pairwise_cons.mp h2
      refine List.pairwise_cons.mpr ⟨?_, List.pairwise_cons.mpr ⟨?_, h2⟩⟩
      · intro c hc
        rcases List.mem_cons.mp hc with rfl | hc
        · exact haz
        · exact h1 c hc
      · intro c hc
        rcases List.mem_cons.mp hc with rfl | hc
        · exact hzb
        · exact le_trans hzb (h3 c hc)

theorem insertActive_sorted (z : SWNVGactiveEdge) (l : List SWNVGactiveEdge)
    (h : l.Pairwise (fun a b => a.x ≤ b.x)) :
    (insertActive z l).Pairwise (fun a b => a.x ≤ b.x) := by
  cases l with
  | nil => exact List.pairwise_singleton _ _
  | cons a rest =>
    unfold insertActive
    dsimp only
    split_ifs with hz
    · refine List.pairwise_cons.mpr ⟨?_, h⟩
      intro c hc
      rcases List.mem_cons.mp hc with rfl | hc
      · exact le_of_lt hz
      · exact le_trans (le_of_lt hz) ((List.pairwise_cons.mp h).1 c hc)
    · exact insertAfter_sorted z rest a (not_lt.mp hz) h

theorem insertStarted_sorted (edges : List SWNVGedge) (scany : Rat) (noAA : Bool) :
    ∀ (cnt e : Nat) (active : List SWNVGactiveEdge),
      active.Pairwise (fun a b => a.x ≤ b.x) →
      (insertStarted edges scany noAA cnt e active).2.Pairwise (fun a b => a.x ≤ b.x)
  | 0, _, _, h => h
  | cnt + 1, e, active, h => by
    unfold insertStarted
    split
    · exact h
    · dsimp only
      split_ifs
      · exact insertStarted_sorted edges scany noAA cnt (e + 1) _ (insertActive_sorted _ _ h)
      · exact insertStarted_sorted edges scany noAA cnt (e + 1) _ (insertActive_sorted _ _ h)
      · exact insertStarted_sorted edges scany noAA cnt (e + 1) _ h
      · exact h

/-- The active list that a processed sub-scanline passes to
`swnvg__fillActiveEdges`, and keeps, is sorted by `x`. -/
theorem subScanline_sorted (r : SWNVGthreadCtx) (edges : List SWNVGedge) (call : SWNVGcall)
    (y : Int) (st : RowState) (s : Nat)
    (hproc : ¬(call.flags.noAA = true ∧ s ≠ SWNVG__SUBSAMPLES / 2)) :
    (subScanline r edges call y st s).active.Pairwise (fun a b => a.x ≤ b.x) := by
  have hs := insertStarted_sorted edges
    (((y * SWNVG__SUBSAMPLES + s : Int) : Rat) + 1 / 2) call.flags.noAA
    (call.edgeOffset + call.edgeCount - st.e) st.e _
    (resortActive_fuel_adequate
      (advanceActive (((y * SWNVG__SUBSAMPLES + s : Int) : Rat) + 1 / 2) st.active)).2
  unfold subScanline
  have hc : (call.flags.noAA && s != SWNVG__SUBSAMPLES / 2) = false := by
    cases hn : call.flags.noAA
    · rfl
    · have : s = SWNVG__SUBSAMPLES / 2 := by
        by_contra hne
        exact hproc ⟨hn, hne⟩
      simp [this]
  rw [hc, if_neg Bool.false_ne_true]
  dsimp only
  split
  · exact List.Pairwise.nil
  · rename_i a rest heq
    dsimp only
    rw [← heq]
    exact hs

/-- Claim C28.  For every active list, the adjacent-swap re-sort loop of
`swnvg__rasterizeSortedEdges` terminates (its budget is never exhausted: every
larger budget gives the same list) with the same nodes ordered by
non-decreasing `x`; inserting a newly started edge into a list ordered by
non-decreasing `x` keeps all nodes and the order; so the list given to
`swnvg__fillActiveEdges` at every processed sub-scanline is sorted by `x`. -/
theorem active_list_sorted_by_x :
    (∀ l : List SWNVGactiveEdge,
      (∀ e, resortActive (l.length + 1 + e) l = resortActive (l.length + 1) l) ∧
      (resortActive (l.length + 1) l).Perm l ∧
      (resortActive (l.length + 1) l).Pairwise (fun a b => a.x ≤ b.x)) ∧
    (∀ (z : SWNVGactiveEdge) (l : List SWNVGactiveEdge), l.Pairwise (fun a b => a.x ≤ b.x) →
      (insertActive z l).Perm (z :: l) ∧ (insertActive z l).Pairwise (fun a b => a.x ≤ b.x)) ∧
    (∀ (r : SWNVGthreadCtx) (edges : List SWNVGedge) (call : SWNVGcall) (y : Int) (st : RowState)
        (s : Nat), ¬(call.flags.noAA = true ∧ s ≠ SWNVG__SUBSAMPLES / 2) →
      (subScanline r edges call y st s).active.Pairwise (fun a b => a.x ≤ b.x)) :=
  ⟨fun l => ⟨(resortActive_fuel_adequate l).1, resortActive_perm _ l,
      (resortActive_fuel_adequate l).2⟩,
    fun z l h => ⟨insertActive_perm z l, insertActive_sorted z l h⟩,
    fun r edges call y st s h => subScanline_sorted r edges call y st s h⟩

/-- Witness for C28: the list with `x` = 5000, 3000, 4000 is re-sorted to 3000,
4000, 5000, and inserting a node with `x = 3500` gives 3000, 3500, 4000, 5000. -/
theorem active_list_sorted_by_x_witness :
    (resortActive (unsortedActive.length + 1) unsortedActive).map (fun z => z.x) =
      [3000, 4000, 5000] ∧
    (insertActive { x := 3500, dx := 0, ey := 100, dir := 1 }
      (resortActive (unsortedActive.length + 1) unsortedActive)).map (fun z => z.x) =
      [3000, 3500, 4000, 5000] ∧
    (insertActive { x := 3500, dx := 0, ey := 100, dir := 1 }
      (resortActive (unsortedActive.length + 1) unsortedActive)).Pairwise
        (fun a b => a.x ≤ b.x) :=
  ⟨by decide!, by decide!,
    (active_list_sorted_by_x.2.1 { x := 3500, dx := 0, ey := 100, dir := 1 }
      (resortActive (unsortedActive.length + 1) unsortedActive)
      (active_list_sorted_by_x.1 unsortedActive).2.2).2⟩

/-! ### Coverage scanline: cleared after every row -/

/-- Under the guard of `swnvg__fillActiveEdges`, `swnvg__fillScanlineAA` changes
only indices of pixels in the columns `max(i, left) .. min(j, right)`. -/
theorem fillScanlineAA_frame (s : Int → Nat) (left right X0 X1 : Int) (h01 : X0 ≤ X1)
    (hg : X0 / 1024 ≤ right ∧ X1 / 1024 ≥ left) (k : Int)
    (hk : k + left < X0 / 1024 ∨ k + left < left ∨ X1 / 1024 < k + left ∨ right < k + left) :
    swnvg__fillScanlineAA s (right - left + 1) X0 X1 (X0 / 1024 - left) (X1 / 1024 - left) k =
      s k := by
  by_cases hout : k < 0 ∨ right - left + 1 ≤ k
  · exact fillScanlineAA_outside s left right X0 X1 hg k hout
  · by_cases hij : X0 / 1024 - left = X1 / 1024 - left
    · rw [← hij, fillScanlineAA_same, if_neg (by omega)]
    · rw [fillScanlineAA_eq s _ X0 X1 _ _ k hij (by omega) (by omega),
        if_neg (by omega), if_neg (by omega), if_neg (by omega)]

theorem setByte_apply (s : Int → Nat) (i : Int) (v : Nat) (k : Int) :
    setByte s i v k = if k = i then v else s k := rfl

/-- The same for the non-antialiased `swnvg__fillScanline`. -/
theorem fillScanline_frame (s : Int → Nat) (left right X0 X1 : Int) (h01 : X0 ≤ X1)
    (hg : X0 / 1024 ≤ right ∧ X1 / 1024 ≥ left) (k : Int)
    (hk : k + left < X0 / 1024 ∨ k + left < left ∨ X1 / 1024 < k + left ∨ right < k + left) :
    swnvg__fillScanline s (right - left + 1) X0 X1 (X0 / 1024 - left) (X1 / 1024 - left) k =
      s k := by
  unfold swnvg__fillScanline
  by_cases hij : X0 / 1024 - left = X1 / 1024 - left
  · rw [if_pos hij, setByte_apply, if_neg (by omega)]
  · rw [if_neg hij]
    by_cases hj : X1 / 1024 - left < right - left + 1 <;>
      by_cases hi : X0 / 1024 - left ≥ 0 <;>
      simp only [hi, hj, if_true, if_false, setByte_apply] <;>
      split_ifs <;> first | rfl | (exfalso; omega)

/-- One step of `swnvg__fillActiveEdges` on a list sorted by `x` (`lo` bounds the
`x` of the edges seen so far from above and that of `e` from below): `xmin`
only falls, `xmax` only rises, and every scanline index that differs from the
initial scanline `s0` lies in the columns `xmin .. xmax` clipped to the tile. -/
theorem fillActiveStep_frame (left right : Int) (flags : CallFlags) (s0 : Int → Nat)
    (st : FillState) (e : SWNVGactiveEdge) (lo : Int) (hlo : lo ≤ e.x)
    (hx : st.w ≠ 0 → st.x0 ≤ lo)
    (hinv : ∀ k, st.scanline k ≠ s0 k →
      st.xmin ≤ k + left ∧ 0 ≤ k ∧ k + left ≤ st.xmax ∧ k + left ≤ right) :
    (fillActiveStep left right flags st e).xmin ≤ st.xmin ∧
    st.xmax ≤ (fillActiveStep left right flags st e).xmax ∧
    ((fillActiveStep left right flags st e).w ≠ 0 →
      (fillActiveStep left right flags st e).x0 ≤ e.x) ∧
    ∀ k, (fillActiveStep left right flags st e).scanline k ≠ s0 k →
      (fillActiveStep left right flags st e).xmin ≤ k + left ∧ 0 ≤ k ∧
      k + left ≤ (fillActiveStep left right flags st e).xmax ∧ k + left ≤ right := by
  unfold fillActiveStep
  by_cases hw : st.w = 0
  · rw [if_pos hw]
    exact ⟨le_refl _, le_refl _, fun _ => le_refl _, hinv⟩
  · rw [if_neg hw]
    dsimp only
    have hx0 : st.x0 ≤ e.x := le_trans (hx hw) hlo
    by_cases hw1 : (if flags.evenodd = true then (0 : Int) else st.w + e.dir) = 0
    · rw [if_pos hw1]
      by_cases hg : st.x0 / SWNVG__FIX ≤ right ∧ e.x / SWNVG__FIX ≥ left
      · rw [if_pos hg]
        dsimp only
        have hi : (if st.x0 / SWNVG__FIX < st.xmin then st.x0 / SWNVG__FIX else st.xmin) ≤
            st.xmin ∧ (if st.x0 / SWNVG__FIX < st.xmin then st.x0 / SWNVG__FIX else st.xmin) ≤
            st.x0 / SWNVG__FIX := by split_ifs <;> omega
        have hj : st.xmax ≤ (if e.x / SWNVG__FIX > st.xmax then e.x / SWNVG__FIX else st.xmax) ∧
            e.x / SWNVG__FIX ≤ (if e.x / SWNVG__FIX > st.xmax then e.x / SWNVG__FIX
              else st.xmax) := by split_ifs <;> omega
        refine ⟨hi.1, hj.1, fun h => absurd hw1 h, ?_⟩
        intro k hk
        by_cases hch : (if flags.noAA = true then
            swnvg__fillScanline st.scanline (right - left + 1) st.x0 e.x
              (st.x0 / SWNVG__FIX - left) (e.x / SWNVG__FIX - left)
            else swnvg__fillScanlineAA st.scanline (right - left + 1) st.x0 e.x
              (st.x0 / SWNVG__FIX - left) (e.x / SWNVG__FIX - left)) k = st.scanline k
        · rw [hch] at hk
          obtain ⟨a, b, c, d⟩ := hinv k hk
          exact ⟨le_trans hi.1 a, b, le_trans c hj.1, d⟩
        · have hin : ¬(k + left < st.x0 / SWNVG__FIX ∨ k + left < left ∨
              e.x / SWNVG__FIX < k + left ∨ right < k + left) := by
            intro hout
            apply hch
            split_ifs
            · exact fillScanline_frame st.scanline left right st.x0 e.x hx0 hg k hout
            · exact fillScanlineAA_frame st.scanline left right st.x0 e.x hx0 hg k hout
          refine ⟨?_, ?_, ?_, ?_⟩ <;> omega
      · rw [if_neg hg]
        exact ⟨le_refl _, le_refl _, fun h => absurd hw1 h, hinv⟩
    · rw [if_neg hw1]
      exact ⟨le_refl _, le_refl _, fun _ => hx0, hinv⟩

theorem fillActiveFold_frame (left right : Int) (flags : CallFlags) (s0 : Int → Nat) :
    ∀ (l : List SWNVGactiveEdge) (st : FillState) (lo : Int),
      l.Pairwise (fun a b => a.x ≤ b.x) → (∀ e ∈ l, lo ≤ e.x) → (st.w ≠ 0 → st.x0 ≤ lo) →
      (∀ k, st.scanline k ≠ s0 k →
        st.xmin ≤ k + left ∧ 0 ≤ k ∧ k + left ≤ st.xmax ∧ k + left ≤ right) →
      (l.foldl (fillActiveStep left right flags) st).xmin ≤ st.xmin ∧
      st.xmax ≤ (l.foldl (fillActiveStep left right flags) st).xmax ∧
      ∀ k, (l.foldl (fillActiveStep left right flags) st).scanline k ≠ s0 k →
        (l.foldl (fillActiveStep left right flags) st).xmin ≤ k + left ∧ 0 ≤ k ∧
        k + left ≤ (l.foldl (fillActiveStep left right flags) st).xmax ∧ k + left ≤ right
  | [], st, _, _, _, _, hinv => ⟨le_refl _, le_refl _, hinv⟩
  | e :: l, st, lo, hs, hlo, hx, hinv => by
    obtain ⟨h1, h2⟩ := List.pairwise_cons.mp hs
    obtain ⟨a, b, c, d⟩ := fillActiveStep_frame left right flags s0 st e lo
      (hlo e (List.mem_cons_self e l)) hx hinv
    obtain ⟨a1, b1, d1⟩ := fillActiveFold_frame left right flags s0 l _ e.x h2 h1 c d
    rw [List.foldl_cons]
    exact ⟨le_trans a1 a, le_trans b b1, d1⟩

/-- Every index that `swnvg__fillActiveEdges` writes on a list sorted by `x`
lies in the columns `*xmin .. *xmax` (as updated) clipped to the tile. -/
theorem fillActiveEdges_frame (r : SWNVGthreadCtx) (active : List SWNVGactiveEdge)
    (xmin xmax : Int) (flags : CallFlags) (hs : active.Pairwise (fun a b => a.x ≤ b.x)) :
    (swnvg__fillActiveEdges r active xmin xmax flags).2.1 ≤ xmin ∧
    xmax ≤ (swnvg__fillActiveEdges r active xmin xmax flags).2.2 ∧
    ∀ k, (swnvg__fillActiveEdges r active xmin xmax flags).1 k ≠ r.scanline k →
      (swnvg__fillActiveEdges r active xmin xmax flags).2.1 ≤ k + r.x0 ∧ 0 ≤ k ∧
      k + r.x0 ≤ (swnvg__fillActiveEdges r active xmin xmax flags).2.2 ∧ k + r.x0 ≤ r.x1 := by
  cases active with
  | nil =>
    exact ⟨le_refl _, le_refl _, fun k hk => absurd rfl hk⟩
  | cons a rest =>
    unfold swnvg__fillActiveEdges
    dsimp only
    exact fillActiveFold_frame r.x0 r.x1 flags r.scanline (a :: rest)
      { x0 := 0, w := 0, scanline := r.scanline, xmin := xmin, xmax := xmax } a.x hs
      (fun e he => by
        rcases List.mem_cons.mp he with rfl | he
        · exact le_refl _
        · exact (List.pairwise_cons.mp hs).1 e he)
      (fun h => absurd rfl h) (fun k hk => absurd rfl hk)

/-- A sub-scanline keeps the row invariant: `xmin` only falls, `xmax` only rises,
and every scanline index that differs from `s0` lies in the columns
`xmin .. xmax` clipped to the tile. -/
theorem subScanline_frame (r : SWNVGthreadCtx) (edges : List SWNVGedge) (call : SWNVGcall)
    (y : Int) (s0 : Int → Nat) (st : RowState) (s : Nat)
    (hinv : ∀ k, st.scanline k ≠ s0 k →
      st.xmin ≤ k + r.x0 ∧ 0 ≤ k ∧ k + r.x0 ≤ st.xmax ∧ k + r.x0 ≤ r.x1) :
    (subScanline r edges call y st s).xmin ≤ st.xmin ∧
    st.xmax ≤ (subScanline r edges call y st s).xmax ∧
    ∀ k, (subScanline r edges call y st s).scanline k ≠ s0 k →
      (subScanline r edges call y st s).xmin ≤ k + r.x0 ∧ 0 ≤ k ∧
      k + r.x0 ≤ (subScanline r edges call y st s).xmax ∧ k + r.x0 ≤ r.x1 := by
  have hs := insertStarted_sorted edges
    (((y * SWNVG__SUBSAMPLES + s : Int) : Rat) + 1 / 2) call.flags.noAA
    (call.edgeOffset + call.edgeCount - st.e) st.e _
    (resortActive_fuel_adequate
      (advanceActive (((y * SWNVG__SUBSAMPLES + s : Int) : Rat) + 1 / 2) st.active)).2
  unfold subScanline
  split_ifs
  · exact ⟨le_refl _, le_refl _, hinv⟩
  · dsimp only
    split
    · exact ⟨le_refl _, le_refl _, hinv⟩
    · rename_i a rest heq
      dsimp only
      rw [← heq]
      obtain ⟨f1, f2, f3⟩ := fillActiveEdges_frame { r with scanline := st.scanline } _
        st.xmin st.xmax call.flags hs
      refine ⟨f1, f2, ?_⟩
      intro k hk
      by_cases hch : (swnvg__fillActiveEdges { r with scanline := st.scanline }
          (insertStarted edges (((y * SWNVG__SUBSAMPLES + s : Int) : Rat) + 1 / 2)
            call.flags.noAA (call.edgeOffset + call.edgeCount - st.e) st.e
            (resortActive
              ((advanceActive (((y * SWNVG__SUBSAMPLES + s : Int) : Rat) + 1 / 2)
                st.active).length + 1)
              (advanceActive (((y * SWNVG__SUBSAMPLES + s : Int) : Rat) + 1 / 2)
                st.active))).2 st.xmin st.xmax call.flags).1 k = st.scanline k
      · rw [hch] at hk
        obtain ⟨a1, b1, c1, d1⟩ := hinv k hk
        exact ⟨le_trans f1 a1, b1, le_trans c1 f2, d1⟩
      · exact f3 k hch

theorem subScanlines_frame (r : SWNVGthreadCtx) (edges : List SWNVGedge) (call : SWNVGcall)
    (y : Int) (s0 : Int → Nat) :
    ∀ (l : List Nat) (st : RowState),
      (∀ k, st.scanline k ≠ s0 k →
        st.xmin ≤ k + r.x0 ∧ 0 ≤ k ∧ k + r.x0 ≤ st.xmax ∧ k + r.x0 ≤ r.x1) →
      ∀ k, (l.foldl (subScanline r edges call y) st).scanline k ≠ s0 k →
        (l.foldl (subScanline r edges call y) st).xmin ≤ k + r.x0 ∧ 0 ≤ k ∧
        k + r.x0 ≤ (l.foldl (subScanline r edges call y) st).xmax ∧ k + r.x0 ≤ r.x1
  | [], _, hinv => hinv
  | s :: l, st, hinv => by
    rw [List.foldl_cons]
    exact subScanlines_frame r edges call y s0 l _
      (subScanline_frame r edges call y s0 st s hinv).2.2

/-- Every index of the coverage scanline that the coverage pass of a row changes
lies in the range `[xmin, xmax]`, clipped to the tile, that the row clears. -/
theorem rowCoverage_frame (gl : SWNVGcontext) (r : SWNVGthreadCtx) (call : SWNVGcall) (y : Int)
    (active : List SWNVGactiveEdge) (e : Nat) (scanline : Int → Nat) (k : Int)
    (hk : (rowCoverage gl r call y active e scanline).scanline k ≠ scanline k) :
    swnvg__maxi (rowCoverage gl r call y active e scanline).xmin r.x0 ≤ k + r.x0 ∧
    k + r.x0 ≤ swnvg__mini (rowCoverage gl r call y active e scanline).xmax r.x1 := by
  obtain ⟨a, b, c, d⟩ := subScanlines_frame r gl.edges call y scanline
    (List.range SWNVG__SUBSAMPLES)
    { active := active, e := e, scanline := scanline, xmin := gl.width, xmax := 0 }
    (fun k hk => absurd rfl hk) k hk
  exact ⟨maxi_le _ _ _ a (by omega), le_mini _ _ _ c d⟩

theorem rasterRow_scanline_clean (env : Env) (gl : SWNVGcontext) (r : SWNVGthreadCtx)
    (call : SWNVGcall) (tex : Option SWNVGtexture) (y : Int) (st st1 : RasterState)
    (h : rasterRow env gl r call tex y st = some st1) (k : Int) (hk : st.scanline k = 0) :
    st1.scanline k = 0 := by
  unfold rasterRow at h
  dsimp only at h
  split at h
  · cases h
  · cases h
    dsimp only
    by_cases hch : (rowCoverage gl r call y st.active st.e st.scanline).scanline k =
        st.scanline k
    · split_ifs
      · beta_reduce
        split_ifs
        · rfl
        · rw [hch, hk]
      · rw [hch, hk]
    · obtain ⟨a, b⟩ := rowCoverage_frame gl r call y st.active st.e st.scanline k hch
      rw [if_pos (le_trans a b)]
      rw [if_pos ⟨by omega, by omega⟩]

theorem rasterRows_scanline_clean (env : Env) (gl : SWNVGcontext) (r : SWNVGthreadCtx)
    (call : SWNVGcall) (tex : Option SWNVGtexture) (k : Int) :
    ∀ (cnt : Nat) (y : Int) (st st1 : RasterState),
      rasterRows env gl r call tex cnt y st = some st1 → st.scanline k = 0 →
      st1.scanline k = 0
  | 0, _, st, st1, h, hk => by
    simp only [rasterRows, Option.some.injEq] at h
    rw [← h]
    exact hk
  | cnt + 1, y, st, st1, h, hk => by
    unfold rasterRows at h
    split at h
    · cases h
    · rename_i st2 h2
      exact rasterRows_scanline_clean env gl r call tex k cnt (y + 1) st2 st1 h
        (rasterRow_scanline_clean env gl r call tex y st st2 h2 k hk)

/-- Claim C26.  For every tile, call and edge slice: every index written by the
coverage pass of a row (`swnvg__fillActiveEdges` over its sub-scanlines) lies
in the cleared range `[xmin, xmax]` clipped to the tile; so if the tile's
coverage scanline buffer is all zero before `swnvg__rasterizeSortedEdges`
starts a row, it is all zero again after that row is finished, and it is all
zero when the function returns. -/
theorem coverage_scanline_cleared (env : Env) (gl : SWNVGcontext) (r : SWNVGthreadCtx)
    (call : SWNVGcall) (tex : Option SWNVGtexture) :
    (∀ (y : Int) (active : List SWNVGactiveEdge) (e : Nat) (scanline : Int → Nat) (k : Int),
      (rowCoverage gl r call y active e scanline).scanline k ≠ scanline k →
      swnvg__maxi (rowCoverage gl r call y active e scanline).xmin r.x0 ≤ k + r.x0 ∧
      k + r.x0 ≤ swnvg__mini (rowCoverage gl r call y active e scanline).xmax r.x1) ∧
    (∀ (y : Int) (st st1 : RasterState), rasterRow env gl r call tex y st = some st1 →
      (∀ k, st.scanline k = 0) → ∀ k, st1.scanline k = 0) ∧
    (∀ o, swnvg__rasterizeSortedEdges env gl r call tex = some o →
      (∀ k, r.scanline k = 0) → ∀ k, o.2 k = 0) := by
  refine ⟨fun y active e scanline k hk => rowCoverage_frame gl r call y active e scanline k hk,
    fun y st st1 h hz k => rasterRow_scanline_clean env gl r call tex y st st1 h k (hz k), ?_⟩
  intro o ho hz k
  unfold swnvg__rasterizeSortedEdges at ho
  dsimp only at ho
  split at ho
  · cases ho
  · rename_i st hst
    cases ho
    exact rasterRows_scanline_clean env gl r call tex k _ _ _ st hst (hz k)

/-- Witness for C26: on the 10x10 tile with an all-zero coverage scanline, the
coverage pass of row 4 of the rectangle call writes 255 at index 4, and the
whole call returns with the coverage scanline all zero. -/
theorem coverage_scanline_cleared_witness :
    (∀ k, sampleTile.scanline k = 0) ∧
    (rowCoverage rectGl sampleTile rectCall 4 [] 0 (fun _ => 0)).scanline 4 = 255 ∧
    ∃ o, swnvg__rasterizeSortedEdges sampleEnv rectGl sampleTile rectCall none = some o ∧
      ∀ k, o.2 k = 0 := by
  have hs : (swnvg__rasterizeSortedEdges sampleEnv rectGl sampleTile rectCall none).isSome =
      true := by decide!
  obtain ⟨o, ho⟩ := Option.isSome_iff_exists.mp hs
  exact ⟨fun _ => rfl, by decide!, o, ho,
    (coverage_scanline_cleared sampleEnv rectGl sampleTile rectCall none).2.2 o ho
      (fun _ => rfl)⟩

/-! ### Coverage pass: at most 51 per byte -/

theorem coveredLeft_mono (c M M1 : Int) (h : M ≤ M1) : coveredLeft c M ≤ coveredLeft c M1 := by
  unfold coveredLeft
  omega

theorem coveredLeft_bounds (c M : Int) : 0 ≤ coveredLeft c M ∧ coveredLeft c M ≤ 1024 := by
  unfold coveredLeft
  omega

/-- The amount that a span adds to a pixel is at most 51/1024 times the part of
the pixel that the span covers. -/
theorem spanWeightAA_le_covered (X0 X1 c : Int) (h : X0 ≤ X1) :
    spanWeightAA X0 X1 c * 1024 ≤ 51 * (coveredLeft c X1 - coveredLeft c X0) := by
  unfold spanWeightAA coveredLeft
  split_ifs <;> omega

/-- Inside the tile, `swnvg__fillScanlineAA` adds `spanWeightAA` modulo 256. -/
theorem fillScanlineAA_mod (s : Int → Nat) (left right X0 X1 : Int) (h01 : X0 ≤ X1)
    (k : Int) (hk0 : 0 ≤ k) (hk1 : k < right - left + 1) (hb : s k < 256) :
    (swnvg__fillScanlineAA s (right - left + 1) X0 X1 (X0 / 1024 - left) (X1 / 1024 - left) k : Int)
      = ((s k : Int) + spanWeightAA X0 X1 (k + left)) % 256 := by
  unfold spanWeightAA
  by_cases hij : X0 / 1024 - left = X1 / 1024 - left
  · rw [← hij, fillScanlineAA_same]
    split_ifs <;> omega
  · rw [fillScanlineAA_eq s _ X0 X1 _ _ k hij hk0 hk1]
    split_ifs <;> omega

/-- One step of the antialiased `swnvg__fillActiveEdges` on a node whose `x` is
not less than that of the nodes seen so far keeps the invariant, and the total
added to the byte only grows. -/
theorem fillActiveStep_total (left right : Int) (flags : CallFlags) (hAA : flags.noAA = false)
    (s0 : Int → Nat) (k : Int) (st : FillState) (e : SWNVGactiveEdge) (lo T : Int)
    (hlo : lo ≤ e.x) (hinv : PassInv left s0 k st lo T) :
    ∃ T1, T ≤ T1 ∧ PassInv left s0 k (fillActiveStep left right flags st e) e.x T1 := by
  obtain ⟨hT0, hT, hsc, hx0⟩ := hinv
  unfold fillActiveStep
  by_cases hw : st.w = 0
  · rw [if_pos hw]
    rw [if_pos hw] at hT
    refine ⟨T, le_refl _, hT0, ?_, hsc, fun _ => le_refl _⟩
    have hm := coveredLeft_mono (k + left) lo e.x hlo
    show T * 1024 ≤ 51 * coveredLeft (k + left) (if _ = 0 then e.x else e.x)
    rw [ite_self]
    omega
  · rw [if_neg hw]
    rw [if_neg hw] at hT
    have hx := hx0 hw
    dsimp only
    by_cases hw1 : (if flags.evenodd = true then (0 : Int) else st.w + e.dir) = 0
    · rw [if_pos hw1]
      have hm := coveredLeft_mono (k + left) st.x0 e.x (by omega)
      by_cases hg : st.x0 / SWNVG__FIX ≤ right ∧ e.x / SWNVG__FIX ≥ left
      · rw [if_pos hg, hAA, if_neg Bool.false_ne_true]
        by_cases hin : 0 ≤ k ∧ k < right - left + 1
        · have hb : st.scanline k < 256 := by omega
          have hmod := fillScanlineAA_mod st.scanline left right st.x0 e.x (by omega) k
            hin.1 hin.2 hb
          have hw2 := spanWeightAA_le_covered st.x0 e.x (k + left) (by omega)
          have hw3 := spanWeightAA_bounds st.x0 e.x (k + left) (by omega)
          refine ⟨T + spanWeightAA st.x0 e.x (k + left), by omega, by omega, ?_, ?_,
            fun h => absurd hw1 h⟩
          · show (T + spanWeightAA st.x0 e.x (k + left)) * 1024 ≤
              51 * coveredLeft (k + left) (if _ = 0 then e.x else st.x0)
            rw [if_pos hw1]
            omega
          · show ((swnvg__fillScanlineAA st.scanline (right - left + 1) st.x0 e.x
              (st.x0 / 1024 - left) (e.x / 1024 - left) k : Nat) : Int) = _
            rw [hmod, hsc]
            omega
        · have hout := fillScanlineAA_outside st.scanline left right st.x0 e.x hg k (by omega)
          refine ⟨T, le_refl _, hT0, ?_, ?_, fun h => absurd hw1 h⟩
          · show T * 1024 ≤ 51 * coveredLeft (k + left) (if _ = 0 then e.x else st.x0)
            rw [if_pos hw1]
            omega
          · show ((swnvg__fillScanlineAA st.scanline (right - left + 1) st.x0 e.x
              (st.x0 / 1024 - left) (e.x / 1024 - left) k : Nat) : Int) = _
            rw [hout, hsc]
      · rw [if_neg hg]
        refine ⟨T, le_refl _, hT0, ?_, hsc, fun h => absurd hw1 h⟩
        show T * 1024 ≤ 51 * coveredLeft (k + left) (if _ = 0 then e.x else st.x0)
        rw [if_pos hw1]
        omega
    · rw [if_neg hw1]
      refine ⟨T, le_refl _, hT0, ?_, hsc, fun _ => by show st.x0 ≤ e.x; omega⟩
      show T * 1024 ≤ 51 * coveredLeft (k + left) (if _ = 0 then e.x else st.x0)
      rw [if_neg hw1]
      exact hT

/-- The loop of the antialiased `swnvg__fillActiveEdges` over a list sorted by
`x` keeps the invariant: the total added to the byte only grows, and the new
bound on `x` is the old one or the `x` of a node of the list. -/
theorem fillActiveFold_total (left right : Int) (flags : CallFlags) (hAA : flags.noAA = false)
    (s0 : Int → Nat) (k : Int) :
    ∀ (l : List SWNVGactiveEdge) (st : FillState) (lo T : Int),
      l.Pairwise (fun a b => a.x ≤ b.x) → (∀ e ∈ l, lo ≤ e.x) → PassInv left s0 k st lo T →
      ∃ lo1 T1, T ≤ T1 ∧ PassInv left s0 k (l.foldl (fillActiveStep left right flags) st) lo1 T1 ∧
        (lo1 = lo ∨ ∃ e ∈ l, lo1 = e.x) ∧ ∀ e ∈ l, e.x ≤ lo1
  | [], st, lo, T, _, _, hinv =>
    ⟨lo, T, le_refl _, hinv, Or.inl rfl, fun e he => absurd he (List.not_mem_nil e)⟩
  | a :: l, st, lo, T, hs, hlo, hinv => by
    rw [List.foldl_cons]
    obtain ⟨T1, hT1, hinv1⟩ := fillActiveStep_total left right flags hAA s0 k st a lo T
      (hlo a (List.mem_cons_self a l)) hinv
    have hs1 := List.pairwise_cons.mp hs
    obtain ⟨lo2, T2, hT2, hinv2, hlo2, hle2⟩ := fillActiveFold_total left right flags hAA s0 k l
      (fillActiveStep left right flags st a) a.x T1 hs1.2 (fun e he => hs1.1 e he) hinv1
    refine ⟨lo2, T2, le_trans hT1 hT2, hinv2, ?_, ?_⟩
    · rcases hlo2 with h | ⟨e, he, h⟩
      · exact Or.inr ⟨a, List.mem_cons_self a l, h⟩
      · exact Or.inr ⟨e, List.mem_cons_of_mem a he, h⟩
    · intro e he
      rcases List.mem_cons.mp he with h | h
      · rw [h]
        rcases hlo2 with h2 | ⟨e2, he2, h2⟩
        · rw [h2]
        · rw [h2]
          exact hs1.1 e2 he2
      · exact hle2 e h

theorem passInv_total_le (left : Int) (s0 : Int → Nat) (k : Int) (st : FillState) (lo T : Int)
    (h : PassInv left s0 k st lo T) : 0 ≤ T ∧ T ≤ 51 ∧
      (st.scanline k : Int) = ((s0 k : Int) + T) % 256 := by
  obtain ⟨h0, h1, h2, _⟩ := h
  have hb := coveredLeft_bounds (k + left) (if st.w = 0 then lo else st.x0)
  exact ⟨h0, by omega, h2⟩

theorem sorted_lower_bound (l : List SWNVGactiveEdge) (hs : l.Pairwise (fun a b => a.x ≤ b.x)) :
    ∃ lo : Int, ∀ e ∈ l, lo ≤ e.x := by
  cases l with
  | nil => exact ⟨0, fun e he => absurd he (List.not_mem_nil e)⟩
  | cons a rest =>
    refine ⟨a.x, fun e he => ?_⟩
    rcases List.mem_cons.mp he with rfl | he
    · exact le_refl _
    · exact (List.pairwise_cons.mp hs).1 e he

/-- Totals added to byte `k` by the antialiased loop of `swnvg__fillActiveEdges`
after a prefix `l1` and after the whole of a list `l1 ++ l2` sorted by `x`: the
total only grows and never exceeds 51. -/
theorem fillActiveFold_split (left right : Int) (flags : CallFlags) (hAA : flags.noAA = false)
    (s0 : Int → Nat) (xmin xmax : Int) (l1 l2 : List SWNVGactiveEdge)
    (hs : (l1 ++ l2).Pairwise (fun a b => a.x ≤ b.x)) (k : Int) (hb : s0 k < 256) :
    ∃ T1 T2 : Int, 0 ≤ T1 ∧ T1 ≤ T2 ∧ T2 ≤ 51 ∧
      ((l1.foldl (fillActiveStep left right flags)
        { x0 := 0, w := 0, scanline := s0, xmin := xmin, xmax := xmax }).scanline k : Int) =
        ((s0 k : Int) + T1) % 256 ∧
      (((l1 ++ l2).foldl (fillActiveStep left right flags)
        { x0 := 0, w := 0, scanline := s0, xmin := xmin, xmax := xmax }).scanline k : Int) =
        ((s0 k : Int) + T2) % 256 := by
  obtain ⟨lo, hlo⟩ := sorted_lower_bound _ hs
  obtain ⟨hs1, hs2, hs12⟩ := List.pairwise_append.mp hs
  have hinit : PassInv left s0 k
      { x0 := 0, w := 0, scanline := s0, xmin := xmin, xmax := xmax } lo 0 := by
    refine ⟨le_refl _, ?_, ?_, fun h => absurd rfl h⟩
    · have := coveredLeft_bounds (k + left)
        (if ({ x0 := 0, w := 0, scanline := s0, xmin := xmin, xmax := xmax } : FillState).w = 0
          then lo else 0)
      show (0 : Int) * 1024 ≤ 51 * coveredLeft (k + left) (if _ = 0 then lo else 0)
      omega
    · show ((s0 k : Nat) : Int) = ((s0 k : Int) + 0) % 256
      omega
  obtain ⟨lo1, T1, hT1, hinv1, hlo1, _⟩ := fillActiveFold_total left right flags hAA s0 k l1 _ lo 0
    hs1 (fun e he => hlo e (List.mem_append_left l2 he)) hinit
  have hlo2 : ∀ e ∈ l2, lo1 ≤ e.x := by
    intro e he
    rcases hlo1 with h | ⟨e1, he1, h⟩
    · rw [h]
      exact hlo e (List.mem_append_right l1 he)
    · rw [h]
      exact hs12 e1 he1 e he
  obtain ⟨lo2, T2, hT2, hinv2, _, _⟩ := fillActiveFold_total left right flags hAA s0 k l2 _ lo1 T1
    hs2 hlo2 hinv1
  obtain ⟨_, _, e1⟩ := passInv_total_le left s0 k _ lo1 T1 hinv1
  obtain ⟨_, b2, e2⟩ := passInv_total_le left s0 k _ lo2 T2 hinv2
  rw [List.foldl_append]
  exact ⟨T1, T2, hT1, hT2, b2, e1, e2⟩

/-- One antialiased `swnvg__fillActiveEdges` pass over a list sorted by `x` adds
to every byte a total of at most 51, modulo 256. -/
theorem fillActiveEdges_total (r : SWNVGthreadCtx) (active : List SWNVGactiveEdge)
    (xmin xmax : Int) (flags : CallFlags) (hAA : flags.noAA = false)
    (hs : active.Pairwise (fun a b => a.x ≤ b.x)) (k : Int) (hb : r.scanline k < 256) :
    ∃ t : Nat, t ≤ 51 ∧
      (swnvg__fillActiveEdges r active xmin xmax flags).1 k = (r.scanline k + t) % 256 := by
  obtain ⟨T1, T2, h0, h1, h2, _, e2⟩ := fillActiveFold_split r.x0 r.x1 flags hAA r.scanline
    xmin xmax active [] (by rw [List.append_nil]; exact hs) k hb
  rw [List.append_nil] at e2
  refine ⟨T2.toNat, by omega, ?_⟩
  show (active.foldl (fillActiveStep r.x0 r.x1 flags)
    { x0 := 0, w := 0, scanline := r.scanline, xmin := xmin, xmax := xmax }).scanline k = _
  omega

/-- When the byte is at most 204 before the pass, its value after every prefix
of the list lies between the value before and the value after the whole list,
which is at most 51 more: no addition wraps around. -/
theorem fillActiveEdges_monotone (r : SWNVGthreadCtx) (l1 l2 : List SWNVGactiveEdge)
    (xmin xmax : Int) (flags : CallFlags) (hAA : flags.noAA = false)
    (hs : (l1 ++ l2).Pairwise (fun a b => a.x ≤ b.x)) (k : Int) (hb : r.scanline k ≤ 204) :
    r.scanline k ≤ (swnvg__fillActiveEdges r l1 xmin xmax flags).1 k ∧
    (swnvg__fillActiveEdges r l1 xmin xmax flags).1 k ≤
      (swnvg__fillActiveEdges r (l1 ++ l2) xmin xmax flags).1 k ∧
    (swnvg__fillActiveEdges r (l1 ++ l2) xmin xmax flags).1 k ≤ r.scanline k + 51 := by
  obtain ⟨T1, T2, h0, h1, h2, e1, e2⟩ := fillActiveFold_split r.x0 r.x1 flags hAA r.scanline
    xmin xmax l1 l2 hs k (by omega)
  show r.scanline k ≤ (l1.foldl (fillActiveStep r.x0 r.x1 flags)
      { x0 := 0, w := 0, scanline := r.scanline, xmin := xmin, xmax := xmax }).scanline k ∧
    (l1.foldl (fillActiveStep r.x0 r.x1 flags)
      { x0 := 0, w := 0, scanline := r.scanline, xmin := xmin, xmax := xmax }).scanline k ≤
    ((l1 ++ l2).foldl (fillActiveStep r.x0 r.x1 flags)
      { x0 := 0, w := 0, scanline := r.scanline, xmin := xmin, xmax := xmax }).scanline k ∧
    ((l1 ++ l2).foldl (fillActiveStep r.x0 r.x1 flags)
      { x0 := 0, w := 0, scanline := r.scanline, xmin := xmin, xmax := xmax }).scanline k ≤
      r.scanline k + 51
  omega

/-- An antialiased sub-scanline raises a byte that is at most 204 by at most 51,
without wrapping. -/
theorem subScanline_adds (r : SWNVGthreadCtx) (edges : List SWNVGedge) (call : SWNVGcall)
    (hAA : call.flags.noAA = false) (y : Int) (st : RowState) (s : Nat) (k : Int)
    (hb : st.scanline k ≤ 204) :
    st.scanline k ≤ (subScanline r edges call y st s).scanline k ∧
    (subScanline r edges call y st s).scanline k ≤ st.scanline k + 51 := by
  have hs := insertStarted_sorted edges
    (((y * SWNVG__SUBSAMPLES + s : Int) : Rat) + 1 / 2) call.flags.noAA
    (call.edgeOffset + call.edgeCount - st.e) st.e _
    (resortActive_fuel_adequate
      (advanceActive (((y * SWNVG__SUBSAMPLES + s : Int) : Rat) + 1 / 2) st.active)).2
  unfold subScanline
  split_ifs
  · exact ⟨le_refl _, Nat.le_add_right _ _⟩
  · dsimp only
    split
    · exact ⟨le_refl _, Nat.le_add_right _ _⟩
    · rename_i a rest heq
      dsimp only
      rw [← heq]
      have hm := fillActiveEdges_monotone { r with scanline := st.scanline } _ []
        st.xmin st.xmax call.flags hAA (by rw [List.append_nil]; exact hs) k hb
      exact ⟨hm.1, by rw [List.append_nil] at hm; exact hm.2.2⟩

/-- Over the first `n` sub-scanlines of an antialiased row that starts with an
all-zero coverage scanline, every byte is at most `51 * n`. -/
theorem subScanlines_bound (r : SWNVGthreadCtx) (edges : List SWNVGedge) (call : SWNVGcall)
    (hAA : call.flags.noAA = false) (y : Int) (st : RowState) (k : Int)
    (hz : st.scanline k = 0) :
    ∀ n : Nat, n ≤ 5 →
      ((List.range n).foldl (subScanline r edges call y) st).scanline k ≤ 51 * n
  | 0, _ => by
    rw [List.range_zero, List.foldl_nil, hz]
  | n + 1, hn => by
    have ih := subScanlines_bound r edges call hAA y st k hz n (by omega)
    rw [List.range_succ, List.foldl_append, List.foldl_cons, List.foldl_nil]
    have := subScanline_adds r edges call hAA y
      ((List.range n).foldl (subScanline r edges call y) st) n k (by omega)
    omega

/-- Claim C30.  For every active list sorted by `x`, one antialiased
`swnvg__fillActiveEdges` pass adds to each coverage byte a total of at most 51
over all the spans it emits (the byte after the pass is the byte before plus
`t <= 51`, modulo 256); when the byte is at most 204 before the pass, its value
after every prefix of the list only grows and ends at most 51 higher, so no
addition wraps around; and over the sub-samples of an antialiased row that
starts with an all-zero coverage scanline, after `n <= 5` sub-scanlines no byte
exceeds `51 * n`, each sub-scanline raises a byte by at most 51 without
wrapping, and no byte of the row's coverage exceeds 255. -/
theorem coverage_pass_adds_at_most_51 :
    (∀ (r : SWNVGthreadCtx) (active : List SWNVGactiveEdge) (xmin xmax : Int) (flags : CallFlags),
      flags.noAA = false → active.Pairwise (fun a b => a.x ≤ b.x) →
      ∀ k, r.scanline k < 256 →
        ∃ t : Nat, t ≤ 51 ∧
          (swnvg__fillActiveEdges r active xmin xmax flags).1 k = (r.scanline k + t) % 256) ∧
    (∀ (r : SWNVGthreadCtx) (l1 l2 : List SWNVGactiveEdge) (xmin xmax : Int) (flags : CallFlags),
      flags.noAA = false → (l1 ++ l2).Pairwise (fun a b => a.x ≤ b.x) →
      ∀ k, r.scanline k ≤ 204 →
        r.scanline k ≤ (swnvg__fillActiveEdges r l1 xmin xmax flags).1 k ∧
        (swnvg__fillActiveEdges r l1 xmin xmax flags).1 k ≤
          (swnvg__fillActiveEdges r (l1 ++ l2) xmin xmax flags).1 k ∧
        (swnvg__fillActiveEdges r (l1 ++ l2) xmin xmax flags).1 k ≤ r.scanline k + 51) ∧
    (∀ (gl : SWNVGcontext) (r : SWNVGthreadCtx) (call : SWNVGcall) (y : Int)
        (active : List SWNVGactiveEdge) (e : Nat) (scanline : Int → Nat),
      call.flags.noAA = false → (∀ k, scanline k = 0) →
      (∀ (n : Nat) (k : Int), n < 5 →
        ((List.range n).foldl (subScanline r gl.edges call y)
          { active := active, e := e, scanline := scanline, xmin := gl.width,
            xmax := 0 }).scanline k ≤ 51 * n ∧
        ((List.range n).foldl (subScanline r gl.edges call y)
          { active := active, e := e, scanline := scanline, xmin := gl.width,
            xmax := 0 }).scanline k ≤
        ((List.range (n + 1)).foldl (subScanline r gl.edges call y)
          { active := active, e := e, scanline := scanline, xmin := gl.width,
            xmax := 0 }).scanline k ∧
        ((List.range (n + 1)).foldl (subScanline r gl.edges call y)
          { active := active, e := e, scanline := scanline, xmin := gl.width,
            xmax := 0 }).scanline k ≤
        ((List.range n).foldl (subScanline r gl.edges call y)
          { active := active, e := e, scanline := scanline, xmin := gl.width,
            xmax := 0 }).scanline k + 51) ∧
      ∀ k, (rowCoverage gl r call y active e scanline).scanline k ≤ 255) := by
  refine ⟨fun r active xmin xmax flags hAA hs k hb =>
      fillActiveEdges_total r active xmin xmax flags hAA hs k hb,
    fun r l1 l2 xmin xmax flags hAA hs k hb =>
      fillActiveEdges_monotone r l1 l2 xmin xmax flags hAA hs k hb, ?_⟩
  intro gl r call y active e scanline hAA hz
  refine ⟨fun n k hn => ?_, fun k => ?_⟩
  · have hbn := subScanlines_bound r gl.edges call hAA y
      { active := active, e := e, scanline := scanline, xmin := gl.width, xmax := 0 } k (hz k)
      n (by omega)
    have hadd := subScanline_adds r gl.edges call hAA y
      ((List.range n).foldl (subScanline r gl.edges call y)
        { active := active, e := e, scanline := scanline, xmin := gl.width, xmax := 0 }) n k
      (by omega)
    rw [List.range_succ, List.foldl_append, List.foldl_cons, List.foldl_nil]
    exact ⟨hbn, hadd.1, hadd.2⟩
  · exact subScanlines_bound r gl.edges call hAA y
      { active := active, e := e, scanline := scanline, xmin := gl.width, xmax := 0 } k (hz k)
      5 (le_refl _)

/-- Witness for C30: on the 10-column tile with an all-zero scanline, the pass
over the span from `2*1024 + 256` to `5*1024 + 512` leaves 38, 51, 51, 25 in
the bytes 2..5, and the coverage pass of row 4 of the rectangle call leaves 204
in byte 4 after four sub-scanlines and 255 after five. -/
theorem coverage_pass_adds_at_most_51_witness :
    rectCall.flags.noAA = false ∧ oneSpan.Pairwise (fun a b => a.x ≤ b.x) ∧
    [2, 3, 4, 5].map (swnvg__fillActiveEdges sampleTile oneSpan 10 0 rectCall.flags).1 =
      [38, 51, 51, 25] ∧
    (∃ t : Nat, t ≤ 51 ∧ (swnvg__fillActiveEdges sampleTile oneSpan 10 0 rectCall.flags).1 2 =
      (sampleTile.scanline 2 + t) % 256) ∧
    ((List.range 4).foldl (subScanline sampleTile rectGl.edges rectCall 4)
      { active := [], e := 0, scanline := fun _ => 0, xmin := rectGl.width,
        xmax := 0 }).scanline 4 = 204 ∧
    (rowCoverage rectGl sampleTile rectCall 4 [] 0 (fun _ => 0)).scanline 4 = 255 ∧
    ∀ k, (rowCoverage rectGl sampleTile rectCall 4 [] 0 (fun _ => 0)).scanline k ≤ 255 :=
  ⟨rfl, by decide, by decide!,
    coverage_pass_adds_at_most_51.1 sampleTile oneSpan 10 0 rectCall.flags rfl (by decide) 2
      (by decide),
    by decide!, by decide!,
    (coverage_pass_adds_at_most_51.2.2 rectGl sampleTile rectCall 4 [] 0 (fun _ => 0) rfl
      (fun _ => rfl)).2⟩

/-! ### Active list: exactly the edges that cross the sub-scanline -/

theorem nodeKey_addActive (noAA : Bool) (ed : SWNVGedge) (scany : Rat) :
    nodeKey (if noAA = true then
        { swnvg__addActive ed scany with dx := (swnvg__addActive ed scany).dx * SWNVG__SUBSAMPLES }
      else swnvg__addActive ed scany) = edgeKey noAA ed := by
  cases noAA <;> rfl

theorem advanceActive_keys (scany : Rat) : ∀ l : List SWNVGactiveEdge,
    (advanceActive scany l).map nodeKey =
      (l.map nodeKey).filter (fun k => decide (scany < k.1))
  | [] => rfl
  | z :: rest => by
    unfold advanceActive
    rw [List.map_cons]
    by_cases h : z.ey ≤ scany
    · rw [if_pos h, List.filter_cons_of_neg (by
        show ¬ decide (scany < z.ey) = true
        simpa using h)]
      exact advanceActive_keys scany rest
    · rw [if_neg h, List.filter_cons_of_pos (by
        show decide (scany < z.ey) = true
        simpa using h), List.map_cons, advanceActive_keys scany rest]
      rfl

/-- The insertion loop consumes the longest run of edges at the cursor that
start at or before `scany`, and adds one node for each of them that ends after
`scany`. -/
theorem insertStarted_keys (edges : List SWNVGedge) (scany : Rat) (noAA : Bool) :
    ∀ (cnt e : Nat) (active : List SWNVGactiveEdge),
      (insertStarted edges scany noAA cnt e active).1 =
        e + (((edges.drop e).take cnt).takeWhile (fun ed => decide (ed.y0 ≤ scany))).length ∧
      ((insertStarted edges scany noAA cnt e active).2.map nodeKey).Perm
        (active.map nodeKey ++
          (((((edges.drop e).take cnt).takeWhile (fun ed => decide (ed.y0 ≤ scany))).filter
            (fun ed => decide (scany < ed.y1))).map (edgeKey noAA)))
  | 0, e, active => by
    simp [insertStarted]
  | cnt + 1, e, active => by
    unfold insertStarted
    cases hed : edges[e]? with
    | none =>
      have hd : edges.drop e = [] := List.drop_eq_nil_of_le (List.getElem?_eq_none_iff.mp hed)
      simp [hd]
    | some ed =>
      have hlt : e < edges.length := (List.getElem?_eq_some.mp hed).1
      have hd : edges.drop e = ed :: edges.drop (e + 1) := by
        rw [List.drop_eq_getElem_cons hlt, (List.getElem?_eq_some.mp hed).2]
      rw [hd, List.take_succ_cons]
      dsimp only
      by_cases h0 : ed.y0 ≤ scany
      · rw [if_pos h0, List.takeWhile_cons_of_pos (by simpa using h0)]
        by_cases h1 : ed.y1 > scany
        · rw [if_pos h1, List.filter_cons_of_pos (by simpa using h1)]
          obtain ⟨ih1, ih2⟩ := insertStarted_keys edges scany noAA cnt (e + 1)
            (insertActive (if noAA = true then
                { swnvg__addActive ed scany with
                  dx := (swnvg__addActive ed scany).dx * SWNVG__SUBSAMPLES }
              else swnvg__addActive ed scany) active)
          refine ⟨by rw [ih1, List.length_cons]; omega, ih2.trans ?_⟩
          rw [List.map_cons]
          refine (List.Perm.append_right _ ((insertActive_perm _ active).map nodeKey)).trans ?_
          rw [List.map_cons, nodeKey_addActive]
          exact (List.perm_middle).symm
        · rw [if_neg h1, List.filter_cons_of_neg (by simpa using h1)]
          obtain ⟨ih1, ih2⟩ := insertStarted_keys edges scany noAA cnt (e + 1) active
          exact ⟨by rw [ih1, List.length_cons]; omega, ih2⟩
      · rw [if_neg h0, List.takeWhile_cons_of_neg (by simpa using h0)]
        simp

theorem subScanline_skip (r : SWNVGthreadCtx) (edges : List SWNVGedge) (call : SWNVGcall)
    (y : Int) (st : RowState) (s : Nat)
    (hskip : call.flags.noAA = true ∧ s ≠ SWNVG__SUBSAMPLES / 2) :
    subScanline r edges call y st s = st := by
  unfold subScanline
  have hc : (call.flags.noAA && s != SWNVG__SUBSAMPLES / 2) = true := by
    simp [hskip.1, hskip.2]
  rw [hc, if_pos rfl]

/-- The active list and the cursor after a processed sub-scanline are those
that the insertion loop returns. -/
theorem subScanline_active (r : SWNVGthreadCtx) (edges : List SWNVGedge) (call : SWNVGcall)
    (y : Int) (st : RowState) (s : Nat)
    (hproc : ¬(call.flags.noAA = true ∧ s ≠ SWNVG__SUBSAMPLES / 2)) :
    (subScanline r edges call y st s).active =
      (insertStarted edges (scanCentre y s) call.flags.noAA
        (call.edgeOffset + call.edgeCount - st.e) st.e
        (resortActive ((advanceActive (scanCentre y s) st.active).length + 1)
          (advanceActive (scanCentre y s) st.active))).2 ∧
    (subScanline r edges call y st s).e =
      (insertStarted edges (scanCentre y s) call.flags.noAA
        (call.edgeOffset + call.edgeCount - st.e) st.e
        (resortActive ((advanceActive (scanCentre y s) st.active).length + 1)
          (advanceActive (scanCentre y s) st.active))).1 := by
  unfold subScanline scanCentre
  have hc : (call.flags.noAA && s != SWNVG__SUBSAMPLES / 2) = false := by
    cases hn : call.flags.noAA
    · rfl
    · have : s = SWNVG__SUBSAMPLES / 2 := by
        by_contra hne
        exact hproc ⟨hn, hne⟩
      simp [this]
  rw [hc, if_neg Bool.false_ne_true]
  dsimp only
  split
  · rename_i heq
    exact ⟨heq.symm, rfl⟩
  · rename_i a rest heq
    exact ⟨heq.symm, rfl⟩

theorem sorted_after_takeWhile (scany : Rat) : ∀ l : List SWNVGedge, SortedByY0 l →
    ∀ ed ∈ l.drop (l.takeWhile (fun ed => decide (ed.y0 ≤ scany))).length, scany < ed.y0
  | [], _, ed, he => by simp at he
  | a :: l, hs, ed, he => by
    have hs1 := List.pairwise_cons.mp hs
    by_cases h0 : a.y0 ≤ scany
    · rw [List.takeWhile_cons_of_pos (by simpa using h0), List.length_cons,
        List.drop_succ_cons] at he
      exact sorted_after_takeWhile scany l hs1.2 ed he
    · rw [List.takeWhile_cons_of_neg (by simpa using h0), List.length_nil, List.drop_zero] at he
      have ha : scany < a.y0 := lt_of_not_le h0
      rcases List.mem_cons.mp he with rfl | he
      · exact ha
      · exact lt_of_lt_of_le ha (hs1.1 ed he)

theorem slice_remaining (edges : List SWNVGedge) (off n e : Nat) (he : off ≤ e) :
    (edges.drop e).take (off + n - e) = (edgeSlice edges off n).drop (e - off) := by
  unfold edgeSlice
  rw [List.drop_take, List.drop_drop]
  have e1 : off + (e - off) = e := by omega
  have e2 : off + n - e = n - (e - off) := by omega
  rw [e1, e2]

/-- A processed sub-scanline at a centre `scany` not before `t` takes the
invariant at `t` to the invariant at `scany`; what remains of a slice sorted by
`y0` after the cursor starts after `scany`. -/
theorem activeInv_step (r : SWNVGthreadCtx) (edges : List SWNVGedge) (call : SWNVGcall)
    (y : Int) (st : RowState) (s : Nat) (t : Rat)
    (hproc : ¬(call.flags.noAA = true ∧ s ≠ SWNVG__SUBSAMPLES / 2))
    (ht : t ≤ scanCentre y s)
    (hinv : ActiveInv (edgeSlice edges call.edgeOffset call.edgeCount) call.edgeOffset
      call.flags.noAA t st.active st.e) :
    ActiveInv (edgeSlice edges call.edgeOffset call.edgeCount) call.edgeOffset
      call.flags.noAA (scanCentre y s) (subScanline r edges call y st s).active
      (subScanline r edges call y st s).e ∧
    (SortedByY0 (edgeSlice edges call.edgeOffset call.edgeCount) →
      ∀ ed ∈ (edgeSlice edges call.edgeOffset call.edgeCount).drop
        ((subScanline r edges call y st s).e - call.edgeOffset), scanCentre y s < ed.y0) := by
  obtain ⟨hoff, hy0, hperm⟩ := hinv
  obtain ⟨ha, he⟩ := subScanline_active r edges call y st s hproc
  obtain ⟨k1, k2⟩ := insertStarted_keys edges (scanCentre y s) call.flags.noAA
    (call.edgeOffset + call.edgeCount - st.e) st.e
    (resortActive ((advanceActive (scanCentre y s) st.active).length + 1)
      (advanceActive (scanCentre y s) st.active))
  rw [slice_remaining edges call.edgeOffset call.edgeCount st.e hoff] at k1 k2
  rw [ha, he, k1]
  generalize hsl : edgeSlice edges call.edgeOffset call.edgeCount = slice at *
  generalize hm : st.e - call.edgeOffset = m at *
  generalize hpre : (slice.drop m).takeWhile (fun ed => decide (ed.y0 ≤ scanCentre y s)) = pre
    at *
  have hem : st.e + pre.length - call.edgeOffset = m + pre.length := by omega
  have htake : slice.take (m + pre.length) = slice.take m ++ pre := by
    rw [List.take_add]
    congr 1
    have h1 := List.takeWhile_append_dropWhile (fun ed => decide (ed.y0 ≤ scanCentre y s))
      (slice.drop m)
    rw [hpre] at h1
    rw [← h1, List.take_left]
  unfold ActiveInv
  rw [hem]
  refine ⟨⟨by omega, ?_, ?_⟩, ?_⟩
  · intro ed hed
    rw [htake] at hed
    rcases List.mem_append.mp hed with h | h
    · exact le_trans (hy0 ed h) ht
    · rw [← hpre] at h
      have := (List.mem_takeWhile_imp h)
      simpa using this
  · rw [htake, List.filter_append, List.map_append]
    refine k2.trans (List.Perm.append_right _ ?_)
    refine ((resortActive_perm _ _).map nodeKey).trans ?_
    rw [advanceActive_keys]
    refine (hperm.filter _).trans ?_
    rw [List.filter_map, List.filter_filter]
    refine List.Perm.of_eq (congrArg (List.map (edgeKey call.flags.noAA)) ?_)
    apply List.filter_congr
    intro ed _
    show (decide (scanCentre y s < ed.y1) && decide (t < ed.y1)) = decide (scanCentre y s < ed.y1)
    by_cases h1 : scanCentre y s < ed.y1
    · have h2 : t < ed.y1 := lt_of_le_of_lt ht h1
      simp [h1, h2]
    · simp [h1]
  · intro hs ed hed
    have hs1 : SortedByY0 (slice.drop m) := List.Pairwise.sublist (List.drop_sublist m slice) hs
    have := sorted_after_takeWhile (scanCentre y s) (slice.drop m) hs1 ed
    rw [hpre, List.drop_drop] at this
    exact this hed

/-- The invariant at `scany`, with everything after the cursor starting after
`scany`, says that the nodes of the active list are those of the edges of the
slice with `y0 <= scany < y1`, each once. -/
theorem activeInv_exact (slice : List SWNVGedge) (off : Nat) (noAA : Bool) (scany : Rat)
    (active : List SWNVGactiveEdge) (e : Nat)
    (hinv : ActiveInv slice off noAA scany active e)
    (hrest : ∀ ed ∈ slice.drop (e - off), scany < ed.y0) :
    (active.map nodeKey).Perm
      ((slice.filter (fun ed => decide (ed.y0 ≤ scany ∧ scany < ed.y1))).map (edgeKey noAA)) := by
  obtain ⟨_, hy0, hperm⟩ := hinv
  refine hperm.trans (List.Perm.of_eq (congrArg (List.map (edgeKey noAA)) ?_))
  have hsplit : slice.filter (fun ed => decide (ed.y0 ≤ scany ∧ scany < ed.y1)) =
      (slice.take (e - off)).filter (fun ed => decide (ed.y0 ≤ scany ∧ scany < ed.y1)) ++
      (slice.drop (e - off)).filter (fun ed => decide (ed.y0 ≤ scany ∧ scany < ed.y1)) := by
    rw [← List.filter_append, List.take_append_drop]
  have hnil : (slice.drop (e - off)).filter
      (fun ed => decide (ed.y0 ≤ scany ∧ scany < ed.y1)) = [] := by
    rw [List.filter_eq_nil_iff]
    intro ed hed
    have := hrest ed hed
    simp only [decide_eq_true_eq, not_and]
    intro h
    exact absurd h (not_le_of_lt this)
  rw [hsplit, hnil, List.append_nil]
  apply List.filter_congr
  intro ed hed
  have := hy0 ed hed
  simp [this]

theorem scanCentre_succ (y : Int) (s : Nat) : scanCentre y s ≤ scanCentre y (s + 1) := by
  unfold scanCentre SWNVG__SUBSAMPLES
  push_cast
  linarith

theorem scanCentre_row (y : Int) : scanCentre y 5 = scanCentre (y + 1) 0 := by
  unfold scanCentre SWNVG__SUBSAMPLES
  push_cast
  ring

/-- The invariant holds after every number of sub-scanlines of a row. -/
theorem subScanlines_activeInv (r : SWNVGthreadCtx) (edges : List SWNVGedge) (call : SWNVGcall)
    (y : Int) (st : RowState)
    (hinv : ∃ t, t ≤ scanCentre y 0 ∧
      ActiveInv (edgeSlice edges call.edgeOffset call.edgeCount) call.edgeOffset
        call.flags.noAA t st.active st.e) :
    ∀ k : Nat, ∃ t, t ≤ scanCentre y k ∧
      ActiveInv (edgeSlice edges call.edgeOffset call.edgeCount) call.edgeOffset
        call.flags.noAA t ((List.range k).foldl (subScanline r edges call y) st).active
        ((List.range k).foldl (subScanline r edges call y) st).e
  | 0 => hinv
  | k + 1 => by
    obtain ⟨t, ht, hi⟩ := subScanlines_activeInv r edges call y st hinv k
    rw [List.range_succ, List.foldl_append, List.foldl_cons, List.foldl_nil]
    by_cases hproc : call.flags.noAA = true ∧ k ≠ SWNVG__SUBSAMPLES / 2
    · rw [subScanline_skip r edges call y _ k hproc]
      exact ⟨t, le_trans ht (scanCentre_succ y k), hi⟩
    · exact ⟨scanCentre y k, scanCentre_succ y k,
        (activeInv_step r edges call y _ k t hproc ht hi).1⟩

theorem rasterRow_activeInv (env : Env) (gl : SWNVGcontext) (r : SWNVGthreadCtx)
    (call : SWNVGcall) (tex : Option SWNVGtexture) (y : Int) (st st1 : RasterState)
    (h : rasterRow env gl r call tex y st = some st1)
    (hinv : ∃ t, t ≤ scanCentre y 0 ∧
      ActiveInv (edgeSlice gl.edges call.edgeOffset call.edgeCount) call.edgeOffset
        call.flags.noAA t st.active st.e) :
    ∃ t, t ≤ scanCentre (y + 1) 0 ∧
      ActiveInv (edgeSlice gl.edges call.edgeOffset call.edgeCount) call.edgeOffset
        call.flags.noAA t st1.active st1.e := by
  have hk := subScanlines_activeInv r gl.edges call y
    { active := st.active, e := st.e, scanline := st.scanline, xmin := gl.width, xmax := 0 }
    hinv 5
  rw [scanCentre_row] at hk
  unfold rasterRow at h
  dsimp only at h
  split at h
  · cases h
  · cases h
    exact hk

theorem rasterRows_activeInv (env : Env) (gl : SWNVGcontext) (r : SWNVGthreadCtx)
    (call : SWNVGcall) (tex : Option SWNVGtexture) :
    ∀ (i : Nat) (y : Int) (st sti : RasterState),
      rasterRows env gl r call tex i y st = some sti →
      (∃ t, t ≤ scanCentre y 0 ∧
        ActiveInv (edgeSlice gl.edges call.edgeOffset call.edgeCount) call.edgeOffset
          call.flags.noAA t st.active st.e) →
      ∃ t, t ≤ scanCentre (y + i) 0 ∧
        ActiveInv (edgeSlice gl.edges call.edgeOffset call.edgeCount) call.edgeOffset
          call.flags.noAA t sti.active sti.e
  | 0, y, st, sti, h, hinv => by
    simp only [rasterRows, Option.some.injEq] at h
    rw [← h, Nat.cast_zero, add_zero]
    exact hinv
  | i + 1, y, st, sti, h, hinv => by
    unfold rasterRows at h
    split at h
    · cases h
    · rename_i st2 h2
      have := rasterRows_activeInv env gl r call tex i (y + 1) st2 sti h
        (rasterRow_activeInv env gl r call tex y st st2 h2 hinv)
      rw [Nat.cast_succ, ← add_assoc, add_right_comm]
      exact this

/-- When the row loop returns after `i + j` rows, it returns after `i` rows. -/
theorem rasterRows_earlier (env : Env) (gl : SWNVGcontext) (r : SWNVGthreadCtx)
    (call : SWNVGcall) (tex : Option SWNVGtexture) (j : Nat) :
    ∀ (i : Nat) (y : Int) (st o : RasterState),
      rasterRows env gl r call tex (i + j) y st = some o →
      ∃ sti, rasterRows env gl r call tex i y st = some sti
  | 0, _, st, _, _ => ⟨st, rfl⟩
  | i + 1, y, st, o, h => by
    rw [Nat.add_right_comm] at h
    unfold rasterRows at h ⊢
    split at h
    · cases h
    · rename_i st2 h2
      exact rasterRows_earlier env gl r call tex j i (y + 1) st2 o h

/-- Claim C27.  For a call whose edge slice is sorted by `y0` (node allocation
is taken to succeed): in the state reached after any number `i` of rows of
`swnvg__rasterizeSortedEdges`, at every processed sub-scanline `s` of the next
row `y` (all of them with antialiasing, the middle one with `NVG_PATH_NO_AA`),
the active list that the sub-scanline hands to `swnvg__fillActiveEdges` has one
node for each edge of the slice with `y0 <= scany < y1`, `scany` being the
centre of the sub-scanline, and no other node: the nodes' `(ey, dir, dx)` are a
permutation of those of these edges.  The first row counts (`i = 0`), also when
the tile starts below the top of the shape.  When the function returns, the row
loop has returned after each smaller number of rows, so this covers every row
of the run. -/
theorem active_list_exact (env : Env) (gl : SWNVGcontext) (r : SWNVGthreadCtx)
    (call : SWNVGcall) (tex : Option SWNVGtexture)
    (hs : SortedByY0 (edgeSlice gl.edges call.edgeOffset call.edgeCount)) :
    (∀ (i : Nat) (sti : RasterState),
      rasterRows env gl r call tex i (swnvg__maxi r.y0 call.bounds1)
        { bitmap := gl.bitmap, scanline := r.scanline, active := [], e := call.edgeOffset } =
        some sti →
      ∀ s : Nat, ¬(call.flags.noAA = true ∧ s ≠ SWNVG__SUBSAMPLES / 2) →
        (((List.range (s + 1)).foldl
          (subScanline r gl.edges call (swnvg__maxi r.y0 call.bounds1 + i))
          { active := sti.active, e := sti.e, scanline := sti.scanline, xmin := gl.width,
            xmax := 0 }).active.map nodeKey).Perm
        (((edgeSlice gl.edges call.edgeOffset call.edgeCount).filter (fun ed =>
            decide (ed.y0 ≤ scanCentre (swnvg__maxi r.y0 call.bounds1 + i) s ∧
              scanCentre (swnvg__maxi r.y0 call.bounds1 + i) s < ed.y1))).map
          (edgeKey call.flags.noAA))) ∧
    (∀ o, swnvg__rasterizeSortedEdges env gl r call tex = some o →
      ∀ i : Nat, i ≤ (swnvg__mini r.y1 call.bounds3 - swnvg__maxi r.y0 call.bounds1 + 1).toNat →
        ∃ sti, rasterRows env gl r call tex i (swnvg__maxi r.y0 call.bounds1)
          { bitmap := gl.bitmap, scanline := r.scanline, active := [], e := call.edgeOffset } =
          some sti) := by
  constructor
  · intro i sti hrows s hproc
    have hinit : ∃ t, t ≤ scanCentre (swnvg__maxi r.y0 call.bounds1) 0 ∧
        ActiveInv (edgeSlice gl.edges call.edgeOffset call.edgeCount) call.edgeOffset
          call.flags.noAA t
          ({ bitmap := gl.bitmap, scanline := r.scanline, active := [],
             e := call.edgeOffset } : RasterState).active
          ({ bitmap := gl.bitmap, scanline := r.scanline, active := [],
             e := call.edgeOffset } : RasterState).e :=
      ⟨_, le_refl _, le_refl _, by
        intro ed hed
        rw [Nat.sub_self, List.take_zero] at hed
        exact absurd hed (List.not_mem_nil ed), by
        show ([] : List SWNVGactiveEdge).map nodeKey |>.Perm _
        rw [Nat.sub_self, List.take_zero]
        exact List.Perm.refl _⟩
    have hrow := rasterRows_activeInv env gl r call tex i _ _ sti hrows hinit
    obtain ⟨t, ht, hi⟩ := subScanlines_activeInv r gl.edges call
      (swnvg__maxi r.y0 call.bounds1 + i)
      { active := sti.active, e := sti.e, scanline := sti.scanline, xmin := gl.width, xmax := 0 }
      hrow s
    rw [List.range_succ, List.foldl_append, List.foldl_cons, List.foldl_nil]
    obtain ⟨h1, h2⟩ := activeInv_step r gl.edges call (swnvg__maxi r.y0 call.bounds1 + i) _ s t
      hproc ht hi
    exact activeInv_exact _ _ _ _ _ _ h1 (h2 hs)
  · intro o ho i hi
    unfold swnvg__rasterizeSortedEdges at ho
    dsimp only at ho
    split at ho
    · cases ho
    · rename_i st hst
      obtain ⟨j, hj⟩ := Nat.exists_eq_add_of_le hi
      rw [hj] at hst
      exact rasterRows_earlier env gl r call tex j i _ _ st hst

/-- Witness for C27: for the rectangle call on the 10x10 tile (two vertical
edges from `y0 = 15` to `y1 = 35`, rows from 3), the row loop returns after one
row, and at sub-scanline 0 of row 4 (centre 20.5) the active list has the nodes
of both edges, `(ey, dir, dx) = (35, -1, 0)` and `(35, 1, 0)`; at sub-scanline 0 of row 7 (centre 35.5) no edge qualifies. -/
theorem active_list_exact_witness :
    SortedByY0 (edgeSlice rectGl.edges rectCall.edgeOffset rectCall.edgeCount) ∧
    ((edgeSlice rectGl.edges rectCall.edgeOffset rectCall.edgeCount).filter (fun ed =>
      decide (ed.y0 ≤ scanCentre (swnvg__maxi sampleTile.y0 rectCall.bounds1 + (1 : Nat)) 0 ∧
        scanCentre (swnvg__maxi sampleTile.y0 rectCall.bounds1 + (1 : Nat)) 0 < ed.y1))).map
      (edgeKey rectCall.flags.noAA) = [(35, -1, 0), (35, 1, 0)] ∧
    ((edgeSlice rectGl.edges rectCall.edgeOffset rectCall.edgeCount).filter (fun ed =>
      decide (ed.y0 ≤ scanCentre 7 0 ∧ scanCentre 7 0 < ed.y1))) = [] ∧
    (rasterRows sampleEnv rectGl sampleTile rectCall none 1
        (swnvg__maxi sampleTile.y0 rectCall.bounds1)
        { bitmap := rectGl.bitmap, scanline := sampleTile.scanline, active := [],
          e := rectCall.edgeOffset }).map (fun sti =>
      ((List.range (0 + 1)).foldl
        (subScanline sampleTile rectGl.edges rectCall
          (swnvg__maxi sampleTile.y0 rectCall.bounds1 + (1 : Nat)))
        { active := sti.active, e := sti.e, scanline := sti.scanline, xmin := rectGl.width,
          xmax := 0 }).active.map nodeKey) = some [(35, -1, 0), (35, 1, 0)] ∧
    ∃ sti, rasterRows sampleEnv rectGl sampleTile rectCall none 1
        (swnvg__maxi sampleTile.y0 rectCall.bounds1)
        { bitmap := rectGl.bitmap, scanline := sampleTile.scanline, active := [],
          e := rectCall.edgeOffset } = some sti ∧
      (((List.range (0 + 1)).foldl
        (subScanline sampleTile rectGl.edges rectCall
          (swnvg__maxi sampleTile.y0 rectCall.bounds1 + (1 : Nat)))
        { active := sti.active, e := sti.e, scanline := sti.scanline, xmin := rectGl.width,
          xmax := 0 }).active.map nodeKey).Perm
      (((edgeSlice rectGl.edges rectCall.edgeOffset rectCall.edgeCount).filter (fun ed =>
          decide (ed.y0 ≤ scanCentre (swnvg__maxi sampleTile.y0 rectCall.bounds1 + (1 : Nat)) 0 ∧
            scanCentre (swnvg__maxi sampleTile.y0 rectCall.bounds1 + (1 : Nat)) 0 < ed.y1))).map
        (edgeKey rectCall.flags.noAA)) := by
  have hsorted : SortedByY0 (edgeSlice rectGl.edges rectCall.edgeOffset rectCall.edgeCount) := by
    unfold SortedByY0
    decide!
  have hs : (rasterRows sampleEnv rectGl sampleTile rectCall none 1
      (swnvg__maxi sampleTile.y0 rectCall.bounds1)
      { bitmap := rectGl.bitmap, scanline := sampleTile.scanline, active := [],
        e := rectCall.edgeOffset }).isSome = true := by decide!
  obtain ⟨sti, hsti⟩ := Option.isSome_iff_exists.mp hs
  exact ⟨hsorted, by decide!, by decide!, by decide!, sti, hsti,
    (active_list_exact sampleEnv rectGl sampleTile rectCall none hsorted).1 1 sti hsti 0
      (by decide)⟩

/-! ### Non-antialiased spans: the pixel-centre test -/

/-- Claim C31.  For every span with fixed-point ends `x0 <= x1` and every pixel
column `k` with `x0 >> 10 <= k <= x1 >> 10` that is in range (`0 <= k - left <
len`), the non-antialiased `swnvg__fillScanline` sets the coverage byte of `k`
to 255 exactly when the pixel centre lies in the span,
`x0 <= 1024*k + 512 < x1`, and to 0 otherwise. -/
theorem fillScanline_centre_test (s : Int → Nat) (len left x0 x1 : Int) (h : x0 ≤ x1)
    (k : Int) (hk0 : 0 ≤ k - left) (hk1 : k - left < len)
    (hik : x0 / 1024 ≤ k) (hkj : k ≤ x1 / 1024) :
    swnvg__fillScanline s len x0 x1 (x0 / 1024 - left) (x1 / 1024 - left) (k - left) =
      if x0 ≤ 1024 * k + 512 ∧ 1024 * k + 512 < x1 then 255 else 0 := by
  have e2 : (1024 : Int) / 2 = 512 := by decide
  unfold swnvg__fillScanline
  simp only [SWNVG__FIX, e2]
  by_cases hij : x0 / 1024 - left = x1 / 1024 - left
  · rw [if_pos hij]
    have hk : k - left = x0 / 1024 - left := by omega
    rw [setByte_apply, if_pos hk]
    split_ifs <;> first | rfl | (exfalso; omega)
  · rw [if_neg hij]
    by_cases hi : k - left = x0 / 1024 - left
    · have hj : ¬ k - left = x1 / 1024 - left := by omega
      rw [if_pos (show x0 / 1024 - left ≥ 0 by omega)]
      split_ifs <;> (try simp only [setByte_apply, hi, hij, if_true, if_false]) <;>
        first | rfl | (exfalso; omega)
    · by_cases hj : k - left = x1 / 1024 - left
      · rw [if_pos (show x1 / 1024 - left < len by omega)]
        split_ifs <;> (try simp only [setByte_apply, hj, if_true, if_false]) <;>
          first | rfl | (exfalso; omega)
      · have hin : (if x0 / 1024 - left ≥ 0 then x0 / 1024 - left else -1) < k - left ∧
            k - left < (if x1 / 1024 - left < len then x1 / 1024 - left else len) := by
          constructor <;> split_ifs <;> omega
        rw [if_pos hin, if_pos ⟨by omega, by omega⟩]

/-- Witness for C31: for the span from `2*1024 + 600` to `5*1024 + 600` on a
10-column scanline, column 2 (centre 2560, left of the span) gets 0 and the
columns 3, 4 and 5 get 255. -/
theorem fillScanline_centre_test_witness :
    [2, 3, 4, 5].map (swnvg__fillScanline (fun _ => 7) 10 2648 5720 (2648 / 1024 - 0)
      (5720 / 1024 - 0)) = [0, 255, 255, 255] ∧
    swnvg__fillScanline (fun _ => 7) 10 2648 5720 (2648 / 1024 - 0) (5720 / 1024 - 0) (2 - 0) =
      (if (2648 : Int) ≤ 1024 * 2 + 512 ∧ (1024 : Int) * 2 + 512 < 5720 then 255 else 0) :=
  ⟨by decide, fillScanline_centre_test (fun _ => 7) 10 0 2648 5720 (by decide) 2 (by decide)
    (by decide) (by decide) (by decide)⟩

/-! ### Blend arithmetic: ranges of the channel values -/

theorem blend_srca_le (cover ca : Nat) (hc : cover ≤ 255) (ha : ca ≤ 255) :
    cover * ca / 255 ≤ 255 :=
  Nat.div_le_of_le_mul (Nat.mul_le_mul hc ha)

/-- The source-over mix `(srca*c + (255 - srca)*d)/255` of two values that are
at most `M` is at most `M`. -/
theorem blend_mix_le (srca c d M : Nat) (hs : srca ≤ 255) (hc : c ≤ M) (hd : d ≤ M) :
    (srca * c + (255 - srca) * d) / 255 ≤ M := by
  apply Nat.div_le_of_le_mul
  have h1 : srca * c ≤ srca * M := Nat.mul_le_mul_left _ hc
  have h2 : (255 - srca) * d ≤ (255 - srca) * M := Nat.mul_le_mul_left _ hd
  have h3 : srca * M + (255 - srca) * M = 255 * M := by
    rw [← Nat.add_mul]
    congr 1
    omega
  omega

theorem blend_alpha_le (srca d : Nat) (hs : srca ≤ 255) (hd : d ≤ 255) :
    srca + (255 - srca) * d / 255 ≤ 255 := by
  have h1 : (255 - srca) * d / 255 ≤ 255 - srca :=
    Nat.div_le_of_le_mul (by rw [Nat.mul_comm 255]; exact Nat.mul_le_mul_left _ hd)
  omega

/-- Claim C38.  For every cover, colour channel, alpha and destination byte in
`0..255`: the four channel values that `swnvg__blendSRGB` computes are at most
255, so narrowing them to bytes changes nothing; and when every entry of
`sRGBToLinear` (indices `0..255`) is at most 2047, the three indices at which
`swnvg__blendLinear` reads `linearToSRGB` are at most 2047 (the result is the
same for any two tables that agree on `0..2047`) and its alpha value is at most
255. -/
theorem blend_values_in_range (env : Env) (dst : Pixel) (cover cr cg cb ca : Nat)
    (hcover : cover ≤ 255) (hcr : cr ≤ 255) (hcg : cg ≤ 255) (hcb : cb ≤ 255) (hca : ca ≤ 255)
    (hd0 : dst.b0 ≤ 255) (hd1 : dst.b1 ≤ 255) (hd2 : dst.b2 ≤ 255) (hd3 : dst.b3 ≤ 255) :
    ((cover * ca / 255 * cr + (255 - cover * ca / 255) * dst.b0) / 255 ≤ 255 ∧
     (cover * ca / 255 * cg + (255 - cover * ca / 255) * dst.b1) / 255 ≤ 255 ∧
     (cover * ca / 255 * cb + (255 - cover * ca / 255) * dst.b2) / 255 ≤ 255 ∧
     cover * ca / 255 + (255 - cover * ca / 255) * dst.b3 / 255 ≤ 255 ∧
     swnvg__blendSRGB dst cover cr cg cb ca =
      ⟨(cover * ca / 255 * cr + (255 - cover * ca / 255) * dst.b0) / 255,
       (cover * ca / 255 * cg + (255 - cover * ca / 255) * dst.b1) / 255,
       (cover * ca / 255 * cb + (255 - cover * ca / 255) * dst.b2) / 255,
       cover * ca / 255 + (255 - cover * ca / 255) * dst.b3 / 255⟩) ∧
    ((∀ i, i ≤ 255 → env.sRGBToLinear i ≤ 2047) →
     (cover * ca / 255 * env.sRGBToLinear cr +
        (255 - cover * ca / 255) * env.sRGBToLinear dst.b0) / 255 ≤ 2047 ∧
     (cover * ca / 255 * env.sRGBToLinear cg +
        (255 - cover * ca / 255) * env.sRGBToLinear dst.b1) / 255 ≤ 2047 ∧
     (cover * ca / 255 * env.sRGBToLinear cb +
        (255 - cover * ca / 255) * env.sRGBToLinear dst.b2) / 255 ≤ 2047 ∧
     swnvg__blendLinear env dst cover cr cg cb ca =
      ⟨env.linearToSRGB ((cover * ca / 255 * env.sRGBToLinear cr +
          (255 - cover * ca / 255) * env.sRGBToLinear dst.b0) / 255) % 256,
       env.linearToSRGB ((cover * ca / 255 * env.sRGBToLinear cg +
          (255 - cover * ca / 255) * env.sRGBToLinear dst.b1) / 255) % 256,
       env.linearToSRGB ((cover * ca / 255 * env.sRGBToLinear cb +
          (255 - cover * ca / 255) * env.sRGBToLinear dst.b2) / 255) % 256,
       cover * ca / 255 + (255 - cover * ca / 255) * dst.b3 / 255⟩ ∧
     ∀ table : Nat → Nat, (∀ i, i ≤ 2047 → table i = env.linearToSRGB i) →
       swnvg__blendLinear { env with linearToSRGB := table } dst cover cr cg cb ca =
         swnvg__blendLinear env dst cover cr cg cb ca) := by
  have hs := blend_srca_le cover ca hcover hca
  have r0 := blend_mix_le _ cr dst.b0 255 hs hcr hd0
  have r1 := blend_mix_le _ cg dst.b1 255 hs hcg hd1
  have r2 := blend_mix_le _ cb dst.b2 255 hs hcb hd2
  have r3 := blend_alpha_le _ dst.b3 hs hd3
  refine ⟨⟨r0, r1, r2, r3, ?_⟩, ?_⟩
  · unfold swnvg__blendSRGB
    dsimp only
    rw [Nat.mod_eq_of_lt (by omega), Nat.mod_eq_of_lt (by omega), Nat.mod_eq_of_lt (by omega),
      Nat.mod_eq_of_lt (by omega)]
  · intro hlut
    have l0 := blend_mix_le _ _ _ 2047 hs (hlut cr hcr) (hlut dst.b0 hd0)
    have l1 := blend_mix_le _ _ _ 2047 hs (hlut cg hcg) (hlut dst.b1 hd1)
    have l2 := blend_mix_le _ _ _ 2047 hs (hlut cb hcb) (hlut dst.b2 hd2)
    refine ⟨l0, l1, l2, ?_, ?_⟩
    · unfold swnvg__blendLinear
      dsimp only
      rw [Nat.mod_eq_of_lt (show cover * ca / 255 + (255 - cover * ca / 255) * dst.b3 / 255 < 256
        by omega)]
    · intro table htable
      unfold swnvg__blendLinear
      dsimp only
      rw [htable _ l0, htable _ l1, htable _ l2]

/-- Witness for C38: cover 200, colour `(255, 128, 0)` with alpha 255 over the
destination pixel `(10, 20, 30, 40)` with the identity tables: the gamma-space
blend gives `(202, 104, 6, 208)`. -/
theorem blend_values_in_range_witness :
    swnvg__blendSRGB ⟨10, 20, 30, 40⟩ 200 255 128 0 255 = ⟨202, 104, 6, 208⟩ ∧
    (∀ i, i ≤ 255 → sampleEnv.sRGBToLinear i ≤ 2047) ∧
    (200 * 255 / 255 * sampleEnv.sRGBToLinear 255 +
      (255 - 200 * 255 / 255) * sampleEnv.sRGBToLinear (10 : Nat)) / 255 ≤ 2047 :=
  ⟨by decide, fun i hi => le_trans hi (by decide),
    ((blend_values_in_range sampleEnv ⟨10, 20, 30, 40⟩ 200 255 128 0 255 (by decide) (by decide)
      (by decide) (by decide) (by decide) (by decide) (by decide) (by decide) (by decide)).2
      (fun i hi => le_trans hi (by decide))).1⟩

/-! ### Blend with zero coverage -/

/-- Counterexample to C39: with the colour tables that `swnvg__sRGBLUTCalc`
computes from any `powf` within `1/10000` of the real power (such functions
exist), in linear mode `swnvg__blend` with `cover = 0` turns the destination
pixel `(1, 0, 0, 0)` into one with red byte `0`, for every source colour:
`sRGBToLinear[1] = 0` and `linearToSRGB[0] = 0`. -/
theorem blend_zero_cover_changes_dark_pixel :
    (∀ powf, PowfAccurate powf (1 / 10000) → ∀ cr cg cb ca : Nat,
      (swnvg__blend (lutEnv powf) ⟨1, 0, 0, 0⟩ 0 cr cg cb ca true).b0 = 0 ∧
      swnvg__blend (lutEnv powf) ⟨1, 0, 0, 0⟩ 0 cr cg cb ca true ≠ ⟨1, 0, 0, 0⟩) ∧
    (∃ powf, PowfAccurate powf (1 / 10000)) := by
  refine ⟨?_, powfAccurate_exists _ (by norm_num)⟩
  intro powf h cr cg cb ca
  have h1 := lut_sRGBToLinear_one powf h
  have h2 := lut_linearToSRGB_zero powf h
  have hb : (swnvg__blend (lutEnv powf) ⟨1, 0, 0, 0⟩ 0 cr cg cb ca true).b0 = 0 := by
    simp [swnvg__blend, swnvg__blendLinear, lutEnv, h1, h2]
  refine ⟨hb, fun heq => ?_⟩
  rw [heq] at hb
  exact absurd hb (by decide)

/-- Claim C39 (amended).  For every destination pixel with bytes in `0..255` and
every source colour, `swnvg__blend` with `cover = 0` leaves all four bytes
unchanged in gamma-space mode; in linear mode it leaves the alpha byte unchanged
and writes `linearToSRGB[sRGBToLinear[d]]` to each colour byte `d`, so it leaves
the pixel unchanged exactly when the colour tables map each of its three colour
bytes back to itself.  So the zero-coverage pixels that a solid-colour call of
`swnvg__rasterizeSortedEdges` passes to the blender keep the background in
gamma-space mode. -/
theorem blend_zero_cover (env : Env) (dst : Pixel) (cr cg cb ca : Nat)
    (hd0 : dst.b0 ≤ 255) (hd1 : dst.b1 ≤ 255) (hd2 : dst.b2 ≤ 255) (hd3 : dst.b3 ≤ 255) :
    swnvg__blend env dst 0 cr cg cb ca false = dst ∧
    swnvg__blend env dst 0 cr cg cb ca true =
      ⟨env.linearToSRGB (env.sRGBToLinear dst.b0) % 256,
       env.linearToSRGB (env.sRGBToLinear dst.b1) % 256,
       env.linearToSRGB (env.sRGBToLinear dst.b2) % 256, dst.b3⟩ ∧
    (swnvg__blend env dst 0 cr cg cb ca true = dst ↔
      env.linearToSRGB (env.sRGBToLinear dst.b0) % 256 = dst.b0 ∧
      env.linearToSRGB (env.sRGBToLinear dst.b1) % 256 = dst.b1 ∧
      env.linearToSRGB (env.sRGBToLinear dst.b2) % 256 = dst.b2) ∧
    (∀ call : SWNVGcall, call.flags.srgb = false → colorBlend env call 0 dst = dst) := by
  have hs : swnvg__blend env dst 0 cr cg cb ca false = dst := by
    obtain ⟨b0, b1, b2, b3⟩ := dst
    simp only at hd0 hd1 hd2 hd3
    simp only [swnvg__blend, swnvg__blendSRGB, Bool.false_eq_true, if_false, Nat.zero_mul,
      Nat.zero_div, Nat.sub_zero, Nat.zero_add, Pixel.mk.injEq]
    refine ⟨?_, ?_, ?_, ?_⟩ <;> omega
  have hl : swnvg__blend env dst 0 cr cg cb ca true =
      ⟨env.linearToSRGB (env.sRGBToLinear dst.b0) % 256,
       env.linearToSRGB (env.sRGBToLinear dst.b1) % 256,
       env.linearToSRGB (env.sRGBToLinear dst.b2) % 256, dst.b3⟩ := by
    obtain ⟨b0, b1, b2, b3⟩ := dst
    simp only at hd0 hd1 hd2 hd3
    simp only [swnvg__blend, swnvg__blendLinear, if_true, Nat.zero_mul,
      Nat.zero_div, Nat.sub_zero, Nat.zero_add, Pixel.mk.injEq]
    have e : ∀ v : Nat, 255 * v / 255 = v := fun v => Nat.mul_div_cancel_left v (by decide)
    rw [e, e, e, e]
    exact ⟨rfl, rfl, rfl, Nat.mod_eq_of_lt (by omega)⟩
  refine ⟨hs, hl, ?_, ?_⟩
  · rw [hl]
    obtain ⟨b0, b1, b2, b3⟩ := dst
    simp only [Pixel.mk.injEq, and_true]
  · intro call hcall
    unfold colorBlend swnvg__blendOpaque
    rw [hcall]
    have h0 : ¬ (0 : Nat) = 255 := by decide
    have hg : ∀ a b c d : Nat, swnvg__blend env dst 0 a b c d false = dst := by
      intro a b c d
      obtain ⟨b0, b1, b2, b3⟩ := dst
      simp only at hd0 hd1 hd2 hd3
      simp only [swnvg__blend, swnvg__blendSRGB, Bool.false_eq_true, if_false, Nat.zero_mul,
        Nat.zero_div, Nat.sub_zero, Nat.zero_add, Pixel.mk.injEq]
      refine ⟨?_, ?_, ?_, ?_⟩ <;> omega
    split_ifs <;> first | exact hg _ _ _ _ | contradiction

/-- Witness for C39 (amended): the pixel `(10, 20, 30, 40)` under the source
colour `(255, 128, 0, 255)` with cover 0 and the identity tables. -/
theorem blend_zero_cover_witness :
    swnvg__blend sampleEnv ⟨10, 20, 30, 40⟩ 0 255 128 0 255 false = ⟨10, 20, 30, 40⟩ ∧
    swnvg__blend sampleEnv ⟨10, 20, 30, 40⟩ 0 255 128 0 255 true = ⟨10, 20, 30, 40⟩ :=
  ⟨(blend_zero_cover sampleEnv ⟨10, 20, 30, 40⟩ 255 128 0 255 (by decide) (by decide) (by decide)
    (by decide)).1, by decide⟩

/-! ### Fill recorder: empty bounds -/

/-- When the integer geometry box lies beside the scissor-clipped framebuffer
rectangle that `swnvg__convertPaint` computes (the test of `swnvg__renderFill`),
nothing is recorded: the calls and `nedges` are unchanged. -/
theorem renderFill_drops_disjoint (env : Env) (gl : SWNVGcontext) (allocOk : Bool)
    (paint : NVGpaint) (scissor : NVGscissor) (flags : CallFlags) (b0 b1 b2 b3 : Rat)
    (paths : List NVGpath)
    (hdis : truncf b0 > (swnvg__convertPaint env gl zeroCall paint scissor flags).bounds2 ∨
      truncf b1 > (swnvg__convertPaint env gl zeroCall paint scissor flags).bounds3 ∨
      Int.ceil b2 < (swnvg__convertPaint env gl zeroCall paint scissor flags).bounds0 ∨
      Int.ceil b3 < (swnvg__convertPaint env gl zeroCall paint scissor flags).bounds1) :
    (swnvg__renderFill env gl allocOk paint scissor flags b0 b1 b2 b3 paths).calls = gl.calls ∧
    (swnvg__renderFill env gl allocOk paint scissor flags b0 b1 b2 b3 paths).nedges =
      gl.nedges := by
  unfold swnvg__renderFill
  dsimp only
  by_cases h1 : (paths.map (fun q => q.fill.length)).sum = 0
  · rw [if_pos h1]; exact ⟨rfl, rfl⟩
  rw [if_neg h1]
  by_cases h2 : gl.calls.length + 1 > gl.ccalls ∧ allocOk = false
  · rw [if_pos h2]; exact ⟨rfl, rfl⟩
  rw [if_neg h2]
  cases hxc : (gl.pathsXC && !(swnvg__convertPaint env gl zeroCall paint scissor flags).flags.noAA
      && !(swnvg__convertPaint env gl zeroCall paint scissor flags).flags.evenodd)
  · simp only [Bool.false_eq_true, if_false]
    rw [if_pos hdis]
    exact ⟨rfl, rfl⟩
  · simp only [if_true]
    rw [if_pos hdis]
    exact ⟨rfl, rfl⟩

/-- When the scissor-clipped framebuffer rectangle of `swnvg__convertPaint` is
not empty and the integer geometry box is ordered, a call that
`swnvg__renderFill` records has `bounds[0] <= bounds[2]` and
`bounds[1] <= bounds[3]`. -/
theorem renderFill_nonempty_bounds (env : Env) (gl : SWNVGcontext) (allocOk : Bool)
    (paint : NVGpaint) (scissor : NVGscissor) (flags : CallFlags) (b0 b1 b2 b3 : Rat)
    (paths : List NVGpath)
    (hclip : (swnvg__convertPaint env gl zeroCall paint scissor flags).bounds0 ≤
        (swnvg__convertPaint env gl zeroCall paint scissor flags).bounds2 ∧
      (swnvg__convertPaint env gl zeroCall paint scissor flags).bounds1 ≤
        (swnvg__convertPaint env gl zeroCall paint scissor flags).bounds3)
    (hgeo : truncf b0 ≤ Int.ceil b2 ∧ truncf b1 ≤ Int.ceil b3) :
    (swnvg__renderFill env gl allocOk paint scissor flags b0 b1 b2 b3 paths).calls = gl.calls ∨
    ∃ c, (swnvg__renderFill env gl allocOk paint scissor flags b0 b1 b2 b3 paths).calls =
        gl.calls ++ [c] ∧ c.bounds0 ≤ c.bounds2 ∧ c.bounds1 ≤ c.bounds3 := by
  unfold swnvg__renderFill
  dsimp only
  by_cases h1 : (paths.map (fun q => q.fill.length)).sum = 0
  · rw [if_pos h1]; exact Or.inl rfl
  rw [if_neg h1]
  by_cases h2 : gl.calls.length + 1 > gl.ccalls ∧ allocOk = false
  · rw [if_pos h2]; exact Or.inl rfl
  rw [if_neg h2]
  have hF : ∀ x : Bool, ∀ g : SWNVGcontext,
      (paths.foldl (fun g q => q.fill.foldl (fun g v =>
        if x = true then swnvg__addEdgeXC g allocOk v q.bounds2
        else swnvg__addEdge g allocOk v) g) g).calls = g.calls := fun x g =>
    (fillFold_frame (fun g q v => if x = true then swnvg__addEdgeXC g allocOk v q.bounds2
        else swnvg__addEdge g allocOk v)
      (fun g q v => by
        split_ifs
        · exact addEdgeXC_frame g allocOk v q.bounds2
        · exact addEdge_frame g allocOk v) paths g).1
  have hX := fillFold_frame (fun g q v => swnvg__addEdgeXC g allocOk v q.bounds2)
    (fun g q v => addEdgeXC_frame g allocOk v q.bounds2) paths
  by_cases hdis : truncf b0 > (swnvg__convertPaint env gl zeroCall paint scissor flags).bounds2 ∨
      truncf b1 > (swnvg__convertPaint env gl zeroCall paint scissor flags).bounds3 ∨
      Int.ceil b2 < (swnvg__convertPaint env gl zeroCall paint scissor flags).bounds0 ∨
      Int.ceil b3 < (swnvg__convertPaint env gl zeroCall paint scissor flags).bounds1
  · cases hxc : (gl.pathsXC &&
        !(swnvg__convertPaint env gl zeroCall paint scissor flags).flags.noAA
        && !(swnvg__convertPaint env gl zeroCall paint scissor flags).flags.evenodd)
    · simp only [Bool.false_eq_true, if_false]
      rw [if_pos hdis]
      exact Or.inl rfl
    · simp only [if_true]
      rw [if_pos hdis]
      exact Or.inl rfl
  · have hn : truncf b0 ≤ (swnvg__convertPaint env gl zeroCall paint scissor flags).bounds2 ∧
        truncf b1 ≤ (swnvg__convertPaint env gl zeroCall paint scissor flags).bounds3 ∧
        (swnvg__convertPaint env gl zeroCall paint scissor flags).bounds0 ≤ Int.ceil b2 ∧
        (swnvg__convertPaint env gl zeroCall paint scissor flags).bounds1 ≤ Int.ceil b3 := by
      simpa only [not_or, not_lt, gt_iff_lt] using hdis
    have hb02 := le_mini _ _ _ (maxi_le _ _ _ hgeo.1 hn.2.2.1) (maxi_le _ _ _ hn.1 hclip.1)
    have hb13 := le_mini _ _ _ (maxi_le _ _ _ hgeo.2 hn.2.2.2) (maxi_le _ _ _ hn.2.1 hclip.2)
    cases hxc : (gl.pathsXC &&
        !(swnvg__convertPaint env gl zeroCall paint scissor flags).flags.noAA
        && !(swnvg__convertPaint env gl zeroCall paint scissor flags).flags.evenodd)
    · simp only [Bool.false_eq_true, if_false]
      rw [if_neg hdis]
      exact Or.inr ⟨_, congrArg (fun l => l ++ [_]) (hF _ _), hb02, hb13⟩
    · simp only [if_true]
      rw [if_neg hdis]
      exact Or.inr ⟨_, congrArg (fun l => l ++ [_]) (hX _).1, hb02, hb13⟩

/-- C40 (failing input).  On the 10x10 framebuffer with the scissor rectangle
`[50, 60] x [0, 10]` (to the right of the framebuffer) the scissor-clipped
framebuffer rectangle is `bounds = (50, 0, 9, 9)`, which is empty; for the
geometry box `(0, 0, 100, 10)` none of the four tests of `swnvg__renderFill`
fires, and a call with the empty bounds `(50, 0, 9, 9)` and two edges is
recorded. -/
theorem renderFill_records_empty_bounds :
    ((swnvg__convertPaint sampleEnv sampleGl zeroCall redPaint offScissor
        ⟨false, false, false, false⟩).bounds0,
      (swnvg__convertPaint sampleEnv sampleGl zeroCall redPaint offScissor
        ⟨false, false, false, false⟩).bounds2) = (50, 9) ∧
    sampleGl.calls.length = 0 ∧ sampleGl.nedges = 0 ∧
    (swnvg__renderFill sampleEnv sampleGl true redPaint offScissor ⟨false, false, false, false⟩
      0 0 100 10 [⟨squareSegs, 3, 3, 7, 7⟩]).calls.map
        (fun c => (c.bounds0, c.bounds1, c.bounds2, c.bounds3)) = [(50, 0, 9, 9)] ∧
    (swnvg__renderFill sampleEnv sampleGl true redPaint offScissor ⟨false, false, false, false⟩
      0 0 100 10 [⟨squareSegs, 3, 3, 7, 7⟩]).nedges = 2 := by
  decide!

/-! ### Sort phase: round-robin over the calls -/

/-- The indices visited from `s` on are `s, s + n, s + 2n, ...` below `ncalls`,
each once. -/
theorem sortVisits_count (ncalls n : Nat) (hn : 1 ≤ n) :
    ∀ (fuel s i : Nat), ncalls ≤ s + fuel →
      (sortVisits ncalls n fuel s).count i =
        if s ≤ i ∧ i < ncalls ∧ (i - s) % n = 0 then 1 else 0
  | 0, s, i, h => by
    rw [if_neg (by omega)]
    rfl
  | fuel + 1, s, i, h => by
    unfold sortVisits
    by_cases hs : s < ncalls
    · rw [if_pos hs, List.count_cons, sortVisits_count ncalls n hn fuel (s + n) i (by omega)]
      by_cases his : s = i
      · subst his
        have hno : ¬ (s + n ≤ s) := by omega
        simp [hno, hs]
      · have hbeq : (s == i) = false := by simpa using his
        rw [hbeq]
        simp only [Bool.false_eq_true, if_false, Nat.add_zero]
        by_cases h1 : s ≤ i ∧ i < ncalls ∧ (i - s) % n = 0
        · obtain ⟨a, b, c⟩ := h1
          have hpos : 0 < i - s := by omega
          have hge : n ≤ i - s := by
            by_contra hlt
            rw [Nat.mod_eq_of_lt (by omega)] at c
            omega
          have e1 : i - s = (i - (s + n)) + n := by omega
          rw [e1, Nat.add_mod_right] at c
          rw [if_pos ⟨by omega, b, c⟩, if_pos ⟨a, b, by rw [e1, Nat.add_mod_right]; exact c⟩]
        · rw [if_neg h1, if_neg]
          rintro ⟨a, b, c⟩
          apply h1
          refine ⟨by omega, b, ?_⟩
          have e1 : i - s = (i - (s + n)) + n := by omega
          rw [e1, Nat.add_mod_right]
          exact c
    · rw [if_neg hs, if_neg (by omega)]
      rfl

/-- Thread `t < n` visits exactly the call indices `i < ncalls` with
`i % n = t`, each once. -/
theorem sortVisits_thread (ncalls n : Nat) (hn : 1 ≤ n) (t : Nat) (ht : t < n) (i : Nat) :
    (sortVisits ncalls n ncalls t).count i = if i < ncalls ∧ i % n = t then 1 else 0 := by
  rw [sortVisits_count ncalls n hn ncalls t i (by omega)]
  have hiff : (t ≤ i ∧ i < ncalls ∧ (i - t) % n = 0) ↔ (i < ncalls ∧ i % n = t) := by
    constructor
    · rintro ⟨a, b, c⟩
      refine ⟨b, ?_⟩
      have e1 : i = (i - t) + t := by omega
      rw [e1, Nat.add_mod, c, Nat.zero_add, Nat.mod_mod, Nat.mod_eq_of_lt ht]
    · rintro ⟨b, c⟩
      have hle : t ≤ i := by rw [← c]; exact Nat.mod_le i n
      refine ⟨hle, b, ?_⟩
      have e1 : i - t = n * (i / n) := by
        have := Nat.mod_add_div i n
        omega
      rw [e1, Nat.mul_mod_right]
  by_cases h : i < ncalls ∧ i % n = t
  · rw [if_pos h, if_pos (hiff.mpr h)]
  · rw [if_neg h, if_neg (fun h1 => h (hiff.mp h1))]

/-- The loop of `swnvg__sortEdges` runs its body for the visited indices, in
order; with at least one thread the budget `ncalls` is never exhausted. -/
theorem sortEdgesLoop_eq (gl : SWNVGcontext) (n : Nat) (hn : 1 ≤ n) :
    ∀ (fuel i : Nat) (edges : List SWNVGedge), gl.calls.length ≤ i + fuel →
      sortEdgesLoop gl n fuel i edges =
        sortCalls gl.calls (sortVisits gl.calls.length n fuel i) edges
  | 0, i, edges, h => by
    unfold sortEdgesLoop sortVisits sortCalls
    rw [if_neg (by omega)]
  | fuel + 1, i, edges, h => by
    unfold sortEdgesLoop sortVisits
    by_cases hi : i < gl.calls.length
    · rw [if_pos hi]
      unfold sortCalls sortCallAt
      obtain ⟨c, hc⟩ : ∃ c, gl.calls[i]? = some c :=
        ⟨gl.calls[i], List.getElem?_eq_getElem hi⟩
      rw [hc]
      dsimp only
      by_cases hx : c.flags.xc = true
      · rw [if_pos hx, if_pos hx]
        exact sortEdgesLoop_eq gl n hn fuel (i + n) edges (by omega)
      · rw [if_neg hx, if_neg hx]
        cases hsort : swnvg__sortCallEdges edges c.edgeOffset c.edgeCount with
        | none => rfl
        | some e1 => exact sortEdgesLoop_eq gl n hn fuel (i + n) e1 (by omega)
    · rw [if_neg hi, List.getElem?_eq_none (by omega)]
      rfl

theorem edgeSlice_congr (p q : List SWNVGedge) (off n : Nat)
    (h : ∀ k, off ≤ k → k < off + n → q[k]? = p[k]?) : edgeSlice q off n = edgeSlice p off n := by
  apply List.ext_getElem?
  intro k
  simp only [edgeSlice, List.getElem?_take, List.getElem?_drop]
  split_ifs
  · exact h (off + k) (by omega) (by omega)
  · rfl

/-- One run of the loop body keeps the slices that are already sorted, and sorts
the slice of the visited call. -/
theorem sortCallAt_sorted (calls : List SWNVGcall) (L : Nat)
    (hslices : ∀ c ∈ calls, c.flags.xc = false → c.edgeOffset + c.edgeCount ≤ L)
    (hdisj : calls.Pairwise
      (fun a b => a.edgeOffset + a.edgeCount ≤ b.edgeOffset ∨ b.edgeCount = 0))
    (edges : List SWNVGedge) (D : Nat → Prop) (hgood : SortedCalls calls L edges D) (j : Nat) :
    ∃ q, sortCallAt calls edges j = some q ∧
      SortedCalls calls L q (fun k => D k ∨ k = j) ∧ q.Perm edges := by
  obtain ⟨hL, hsorted⟩ := hgood
  have hkeep : sortCallAt calls edges j = some edges →
      (∀ c, calls[j]? = some c → c.flags.xc = false → False) →
      ∃ q, sortCallAt calls edges j = some q ∧
        SortedCalls calls L q (fun k => D k ∨ k = j) ∧ q.Perm edges := by
    intro h1 h2
    refine ⟨edges, h1, ⟨hL, ?_⟩, List.Perm.refl _⟩
    intro k c hk hc hx
    rcases hk with hk | hk
    · exact hsorted k c hk hc hx
    · subst hk
      exact absurd hx (fun hx => h2 c hc hx)
  unfold sortCallAt at hkeep ⊢
  cases hj : calls[j]? with
  | none =>
    rw [hj] at hkeep
    exact hkeep rfl (fun c hc _ => by cases hc)
  | some c =>
    rw [hj] at hkeep
    dsimp only at hkeep ⊢
    by_cases hx : c.flags.xc = true
    · rw [if_pos hx] at hkeep ⊢
      exact hkeep rfl (fun c1 hc1 hx1 => by
        cases hc1
        rw [hx] at hx1
        cases hx1)
    · rw [if_neg hx]
      have hxf : c.flags.xc = false := by simpa using hx
      obtain ⟨hjlt, hjc⟩ := List.getElem?_eq_some.mp hj
      have hin : c.edgeOffset + c.edgeCount ≤ edges.length := by
        rw [hL]
        exact hslices c (List.getElem?_mem hj) hxf
      obtain ⟨q, hq, hrel, hsq⟩ := sortCallEdges_spec edges c.edgeOffset c.edgeCount hin
      refine ⟨q, hq, ⟨hrel.1.trans hL, ?_⟩, hrel.2.2⟩
      intro k c1 hk hc1 hx1
      by_cases hkj : k = j
      · subst hkj
        rw [hj] at hc1
        cases hc1
        exact hsq
      · have hD : D k := by
          rcases hk with hk | hk
          · exact hk
          · exact absurd hk hkj
        have hold := hsorted k c1 hD hc1 hx1
        obtain ⟨hklt, hkc⟩ := List.getElem?_eq_some.mp hc1
        have hsame : edgeSlice q c1.edgeOffset c1.edgeCount =
            edgeSlice edges c1.edgeOffset c1.edgeCount := by
          apply edgeSlice_congr
          intro i hi1 hi2
          apply hrel.2.1
          rcases Nat.lt_or_gt_of_ne hkj with hlt | hgt
          · have := List.pairwise_iff_getElem.mp hdisj k j hklt hjlt hlt
            rw [hkc, hjc] at this
            omega
          · have := List.pairwise_iff_getElem.mp hdisj j k hjlt hklt hgt
            rw [hkc, hjc] at this
            omega
        rw [hsame]
        exact hold

theorem sortCalls_sorted (calls : List SWNVGcall) (L : Nat)
    (hslices : ∀ c ∈ calls, c.flags.xc = false → c.edgeOffset + c.edgeCount ≤ L)
    (hdisj : calls.Pairwise
      (fun a b => a.edgeOffset + a.edgeCount ≤ b.edgeOffset ∨ b.edgeCount = 0)) :
    ∀ (js : List Nat) (edges : List SWNVGedge) (D : Nat → Prop),
      SortedCalls calls L edges D →
      ∃ q, sortCalls calls js edges = some q ∧
        SortedCalls calls L q (fun k => D k ∨ k ∈ js) ∧ q.Perm edges
  | [], edges, D, hgood =>
    ⟨edges, rfl, ⟨hgood.1, fun k c hk hc hx => hgood.2 k c
      (hk.elim id (fun h => absurd h (List.not_mem_nil k))) hc hx⟩, List.Perm.refl _⟩
  | j :: js, edges, D, hgood => by
    obtain ⟨q1, h1, hg1, hp1⟩ := sortCallAt_sorted calls L hslices hdisj edges D hgood j
    obtain ⟨q2, h2, hg2, hp2⟩ := sortCalls_sorted calls L hslices hdisj js q1 _ hg1
    refine ⟨q2, ?_, ⟨hg2.1, ?_⟩, hp2.trans hp1⟩
    · unfold sortCalls
      rw [h1]
      exact h2
    · intro k c hk hc hx
      apply hg2.2 k c _ hc hx
      rcases hk with hk | hk
      · exact Or.inl (Or.inl hk)
      · rcases List.mem_cons.mp hk with hk | hk
        · exact Or.inl (Or.inr hk)
        · exact Or.inr hk

/-- The sort phase over the threads `ts`: it returns, changes only the edge
array, permutes it, and leaves sorted the slices of the calls that the threads
of `ts` visit. -/
theorem sortPhase_sorted (gl : SWNVGcontext) (hn : 1 ≤ gl.xthreads * gl.ythreads)
    (hslices : ∀ c ∈ gl.calls, c.flags.xc = false →
      c.edgeOffset + c.edgeCount ≤ gl.edges.length)
    (hdisj : gl.calls.Pairwise
      (fun a b => a.edgeOffset + a.edgeCount ≤ b.edgeOffset ∨ b.edgeCount = 0)) :
    ∀ (ts : List Nat), (∀ t ∈ ts, ∃ r, gl.threads[t]? = some r ∧ r.threadnum = t) →
      ∀ (edges : List SWNVGedge) (D : Nat → Prop),
      SortedCalls gl.calls gl.edges.length edges D →
      ∃ q, sortPhase ts { gl with edges := edges } = some { gl with edges := q } ∧
        SortedCalls gl.calls gl.edges.length q (fun k => D k ∨ ∃ t ∈ ts,
          k ∈ sortVisits gl.calls.length (gl.xthreads * gl.ythreads) gl.calls.length t) ∧
        q.Perm edges
  | [], _, edges, D, hgood =>
    ⟨edges, rfl, ⟨hgood.1, fun k c hk hc hx => hgood.2 k c
      (hk.elim id (fun ⟨t, ht, _⟩ => absurd ht (List.not_mem_nil t))) hc hx⟩, List.Perm.refl _⟩
  | t :: ts, hth, edges, D, hgood => by
    obtain ⟨r, hr, hrt⟩ := hth t (List.mem_cons_self t ts)
    obtain ⟨q1, h1, hg1, hp1⟩ := sortCalls_sorted gl.calls gl.edges.length hslices hdisj
      (sortVisits gl.calls.length (gl.xthreads * gl.ythreads) gl.calls.length t) edges D hgood
    have hloop := sortEdgesLoop_eq { gl with edges := edges } (gl.xthreads * gl.ythreads) hn
      gl.calls.length t edges (Nat.le_add_left _ _)
    have hsort : swnvg__sortEdges { gl with edges := edges } r = some { gl with edges := q1 } := by
      unfold swnvg__sortEdges
      show (match sortEdgesLoop { gl with edges := edges } (gl.xthreads * gl.ythreads)
        gl.calls.length r.threadnum edges with
        | none => none
        | some e => some { gl with edges := e }) = _
      rw [hrt, hloop]
      show (match sortCalls gl.calls
          (sortVisits gl.calls.length (gl.xthreads * gl.ythreads) gl.calls.length t) edges with
        | none => none
        | some e => some { gl with edges := e }) = _
      rw [h1]
    obtain ⟨q2, h2, hg2, hp2⟩ := sortPhase_sorted gl hn hslices hdisj ts
      (fun u hu => hth u (List.mem_cons_of_mem t hu)) q1 _ hg1
    refine ⟨q2, ?_, ⟨hg2.1, ?_⟩, hp2.trans hp1⟩
    · unfold sortPhase
      show (match gl.threads[t]? with
        | none => none
        | some r => match swnvg__sortEdges { gl with edges := edges } r with
          | none => none
          | some gl1 => sortPhase ts gl1) = _
      rw [hr]
      dsimp only
      rw [hsort]
      exact h2
    · intro k c hk hc hx
      apply hg2.2 k c _ hc hx
      rcases hk with hk | ⟨u, hu, hk⟩
      · exact Or.inl (Or.inl hk)
      · rcases List.mem_cons.mp hu with hu | hu
        · subst hu
          exact Or.inl (Or.inr hk)
        · exact Or.inr ⟨u, hu, hk⟩

/-- Claim C36.  For every number of calls and every thread count `n >= 1`: the
loop of `swnvg__sortEdges` for thread `t < n` visits the call index `i` once
when `i < ncalls` and `i % n = t`, and not at all otherwise, so every call index
in `[0, ncalls)` is visited exactly once, by thread `i mod n`; a run of
`swnvg__sortEdges` is the loop body run for these indices in order; and when the
tile contexts carry their own thread numbers and the edge slices of the calls
lie inside the edge array, one after the other (as the recorder stores them),
the sort phase over the threads `0..n-1` returns, keeps the calls, permutes the
edge array, and leaves the edge slice of every call without the exact-coverage
flag sorted by `y0`. -/
theorem sort_phase_round_robin :
    (∀ (ncalls n : Nat), 1 ≤ n → ∀ t, t < n → ∀ i,
      (sortVisits ncalls n ncalls t).count i = if i < ncalls ∧ i % n = t then 1 else 0) ∧
    (∀ (gl : SWNVGcontext) (r : SWNVGthreadCtx), 1 ≤ gl.xthreads * gl.ythreads →
      swnvg__sortEdges gl r =
        (sortCalls gl.calls
          (sortVisits gl.calls.length (gl.xthreads * gl.ythreads) gl.calls.length r.threadnum)
          gl.edges).map (fun e => { gl with edges := e })) ∧
    (∀ gl : SWNVGcontext, 1 ≤ gl.xthreads * gl.ythreads →
      (∀ t, t < gl.xthreads * gl.ythreads → ∃ r, gl.threads[t]? = some r ∧ r.threadnum = t) →
      (∀ c ∈ gl.calls, c.flags.xc = false → c.edgeOffset + c.edgeCount ≤ gl.edges.length) →
      gl.calls.Pairwise
        (fun a b => a.edgeOffset + a.edgeCount ≤ b.edgeOffset ∨ b.edgeCount = 0) →
      ∃ gl1, sortPhase (List.range (gl.xthreads * gl.ythreads)) gl = some gl1 ∧
        gl1.calls = gl.calls ∧ gl1.edges.Perm gl.edges ∧
        ∀ c ∈ gl.calls, c.flags.xc = false →
          SortedByY0 (edgeSlice gl1.edges c.edgeOffset c.edgeCount)) := by
  refine ⟨fun ncalls n hn t ht i => sortVisits_thread ncalls n hn t ht i, ?_, ?_⟩
  · intro gl r hn
    unfold swnvg__sortEdges
    rw [sortEdgesLoop_eq gl _ hn gl.calls.length r.threadnum gl.edges (Nat.le_add_left _ _)]
    cases sortCalls gl.calls (sortVisits gl.calls.length (gl.xthreads * gl.ythreads)
      gl.calls.length r.threadnum) gl.edges <;> rfl
  · intro gl hn hth hslices hdisj
    obtain ⟨q, hq, hgood, hperm⟩ := sortPhase_sorted gl hn hslices hdisj
      (List.range (gl.xthreads * gl.ythreads)) (fun t ht => hth t (List.mem_range.mp ht))
      gl.edges (fun _ => False) ⟨rfl, fun k c hk => absurd hk not_false⟩
    refine ⟨{ gl with edges := q }, hq, rfl, hperm, ?_⟩
    intro c hc hx
    obtain ⟨k, hk⟩ := List.mem_iff_getElem?.mp hc
    obtain ⟨hklt, -⟩ := List.getElem?_eq_some.mp hk
    refine hgood.2 k c (Or.inr ⟨k % (gl.xthreads * gl.ythreads),
      List.mem_range.mpr (Nat.mod_lt k (by omega)), ?_⟩) hk hx
    apply List.count_pos_iff.mp
    rw [sortVisits_thread gl.calls.length _ hn _ (Nat.mod_lt k (by omega)) k,
      if_pos ⟨hklt, rfl⟩]
    exact Nat.one_pos

/-- Witness for C36: three calls on two threads.  Thread 0 visits the calls 0
and 2, thread 1 visits call 1; after the sort phase the `y0` values of the
slices `[1, 8)` and `[10, 15)` are in ascending order and the slice `[8, 10)` of
the exact-coverage call is as before. -/
theorem sort_phase_round_robin_witness :
    sortVisits 3 2 3 0 = [0, 2] ∧ sortVisits 3 2 3 1 = [1] ∧
    sortGl.edges.map (fun e => e.y0) = [99, 7, 3, 7, 1, 7, 0, 5, 7, 2, 7, 4, 7, 6, 7, -5] ∧
    (sortPhase (List.range (sortGl.xthreads * sortGl.ythreads)) sortGl).map
      (fun g => g.edges.map (fun e => e.y0)) =
      some [99, 0, 1, 3, 5, 7, 7, 7, 7, 2, 4, 6, 7, 7, 7, -5] ∧
    ∃ gl1, sortPhase (List.range (sortGl.xthreads * sortGl.ythreads)) sortGl = some gl1 ∧
      gl1.calls = sortGl.calls ∧ gl1.edges.Perm sortGl.edges ∧
      ∀ c ∈ sortGl.calls, c.flags.xc = false →
        SortedByY0 (edgeSlice gl1.edges c.edgeOffset c.edgeCount) :=
  ⟨by decide, by decide, by decide!, by decide!,
    sort_phase_round_robin.2.2 sortGl (by decide)
      (by
        intro t ht
        have h2 : t < 2 := ht
        interval_cases t
        · exact ⟨_, rfl, rfl⟩
        · exact ⟨_, rfl, rfl⟩)
      (by
        intro c hc _
        have hlen : sortGl.edges.length = 16 := rfl
        rw [hlen]
        simp only [sortGl, List.mem_cons, List.mem_singleton, List.not_mem_nil, or_false] at hc
        rcases hc with rfl | rfl | rfl <;> decide)
      (by
        simp only [sortGl, List.pairwise_cons, List.mem_cons, List.mem_singleton,
          List.not_mem_nil, forall_eq_or_imp, forall_eq, IsEmpty.forall_iff, implies_true,
          List.Pairwise.nil, and_true]
        decide)⟩

/-! ### Edge sorter: scan indices of a partition pass -/

theorem extends_take (p : List SWNVGedge) (m : Nat) : Extends (p.take m) p := by
  refine ⟨by rw [List.length_take]; exact Nat.min_le_right _ _, ?_⟩
  intro x e h
  rw [List.getElem?_take] at h
  split_ifs at h
  exact h

theorem swapEdges_extends (p q : List SWNVGedge) (a b : Nat) (h : Extends p q)
    (p1 : List SWNVGedge) (hs : swapEdges p a b = some p1) :
    ∃ q1, swapEdges q a b = some q1 ∧ Extends p1 q1 := by
  unfold swapEdges at hs ⊢
  cases ha : p[a]? with
  | none => rw [ha] at hs; cases hs
  | some ea =>
    cases hb : p[b]? with
    | none => rw [ha, hb] at hs; cases hs
    | some eb =>
      rw [ha, hb] at hs
      rw [h.2 a ea ha, h.2 b eb hb]
      cases hs
      refine ⟨_, rfl, by simpa using h.1, ?_⟩
      intro x e hx
      rw [List.getElem?_set, List.getElem?_set] at hx ⊢
      have hxa : a < p.length := (List.getElem?_eq_some.mp ha).1
      have hxb : b < p.length := (List.getElem?_eq_some.mp hb).1
      by_cases h1 : b = x
      · subst h1
        simp only [if_true, List.length_set] at hx ⊢
        rw [if_pos hxb] at hx
        rw [if_pos (by have := h.1; omega)]
        exact hx
      · simp only [h1, if_false] at hx ⊢
        by_cases h2 : a = x
        · subst h2
          simp only [if_true] at hx ⊢
          rw [if_pos hxa] at hx
          rw [if_pos (by have := h.1; omega)]
          exact hx
        · simp only [h2, if_false] at hx ⊢
          exact h.2 x e hx

theorem scanUp_extends (p q : List SWNVGedge) (off : Nat) (h : Extends p q) :
    ∀ (k i r : Nat), scanUp p off k i = some r → ∀ k1, k ≤ k1 → scanUp q off k1 i = some r
  | 0, _, _, hs, _, _ => by
    simp [scanUp] at hs
  | k + 1, i, r, hs, k1, hk => by
    obtain ⟨k2, rfl⟩ : ∃ k2, k1 = k2 + 1 := ⟨k1 - 1, by omega⟩
    unfold scanUp at hs ⊢
    cases ha : p[off + i]? with
    | none => rw [ha] at hs; cases hs
    | some a =>
      cases hv : p[off]? with
      | none => rw [ha, hv] at hs; cases hs
      | some pv =>
        rw [ha, hv] at hs
        rw [h.2 _ a ha, h.2 _ pv hv]
        dsimp only at hs ⊢
        split_ifs at hs ⊢
        · exact scanUp_extends p q off h k (i + 1) r hs k2 (by omega)
        · exact hs

theorem scanDown_extends (p q : List SWNVGedge) (off : Nat) (h : Extends p q) :
    ∀ (j r : Nat), scanDown p off j = some r → scanDown q off j = some r
  | 0, r, hs => by
    unfold scanDown at hs ⊢
    cases hv : p[off]? with
    | none => rw [hv] at hs; cases hs
    | some pv =>
      cases hb : p[off + 0]? with
      | none => rw [hv, hb] at hs; cases hs
      | some b =>
        rw [hv, hb] at hs
        rw [h.2 _ pv hv, h.2 _ b hb]
        exact hs
  | j + 1, r, hs => by
    unfold scanDown at hs ⊢
    cases hv : p[off]? with
    | none => rw [hv] at hs; cases hs
    | some pv =>
      cases hb : p[off + (j + 1)]? with
      | none => rw [hv, hb] at hs; cases hs
      | some b =>
        rw [hv, hb] at hs
        rw [h.2 _ pv hv, h.2 _ b hb]
        dsimp only at hs ⊢
        split_ifs at hs ⊢
        · exact scanDown_extends p q off h j r hs
        · exact hs

theorem swapEdges_length (p p1 : List SWNVGedge) (a b : Nat) (hs : swapEdges p a b = some p1) :
    p1.length = p.length := by
  unfold swapEdges at hs
  split at hs
  · cases hs
    simp
  · cases hs

theorem partitionLoop_extends (off : Nat) :
    ∀ (k : Nat) (p q : List SWNVGedge) (i j : Nat) (p1 : List SWNVGedge) (i1 j1 : Nat),
      Extends p q → partitionLoop off k p i j = some (p1, i1, j1) →
      ∃ q1, partitionLoop off k q i j = some (q1, i1, j1) ∧ Extends p1 q1
  | 0, _, _, _, _, _, _, _, _, hs => by
    simp [partitionLoop] at hs
  | k + 1, p, q, i, j, p1, i1, j1, h, hs => by
    unfold partitionLoop at hs ⊢
    cases hu : scanUp p off p.length i with
    | none => rw [hu] at hs; cases hs
    | some iu =>
      rw [hu] at hs
      rw [scanUp_extends p q off h p.length i iu hu q.length h.1]
      dsimp only at hs ⊢
      cases hd : scanDown p off j with
      | none => rw [hd] at hs; cases hs
      | some jd =>
        rw [hd] at hs
        rw [scanDown_extends p q off h j jd hd]
        dsimp only at hs ⊢
        by_cases hij : iu ≥ jd
        · rw [if_pos hij] at hs ⊢
          cases hs
          exact ⟨q, rfl, h⟩
        · rw [if_neg hij] at hs ⊢
          cases hsw : swapEdges p (off + iu) (off + jd) with
          | none => rw [hsw] at hs; cases hs
          | some p2 =>
            rw [hsw] at hs
            obtain ⟨q2, hq2, he2⟩ := swapEdges_extends p q _ _ h p2 hsw
            rw [hq2]
            exact partitionLoop_extends off k p2 q2 (iu + 1) (jd - 1) p1 i1 j1 he2 hs

theorem medianOfThree_extends (p q : List SWNVGedge) (off n : Nat) (h : Extends p q)
    (p1 : List SWNVGedge) (hs : medianOfThree p off n = some p1) :
    ∃ q1, medianOfThree q off n = some q1 ∧ Extends p1 q1 := by
  unfold medianOfThree at hs ⊢
  dsimp only at hs ⊢
  cases h0 : p[off]? with
  | none => rw [h0] at hs; cases hs
  | some e0 =>
    cases hm : p[off + n / 2]? with
    | none => rw [h0, hm] at hs; cases hs
    | some em =>
      cases hl : p[off + (n - 1)]? with
      | none => rw [h0, hm, hl] at hs; cases hs
      | some en =>
        rw [h0, hm, hl] at hs
        rw [h.2 _ e0 h0, h.2 _ em hm, h.2 _ en hl]
        dsimp only at hs ⊢
        by_cases hc : (SWNVG__COMPARE e0 em != SWNVG__COMPARE em en) = true
        · rw [if_pos hc] at hs ⊢
          cases hsw : swapEdges p (off + if (SWNVG__COMPARE e0 en == SWNVG__COMPARE em en) = true
              then 0 else n - 1) (off + n / 2) with
          | none => rw [hsw] at hs; cases hs
          | some p2 =>
            rw [hsw] at hs
            obtain ⟨q2, hq2, he2⟩ := swapEdges_extends p q _ _ h p2 hsw
            rw [hq2]
            dsimp only at hs ⊢
            exact swapEdges_extends p2 q2 _ _ he2 p1 hs
        · rw [if_neg hc] at hs ⊢
          dsimp only at hs ⊢
          exact swapEdges_extends p q _ _ h p1 hs

/-- A partition pass that returns on an array returns the same indices on every
array that extends it. -/
theorem partitionEdges_extends (p q : List SWNVGedge) (off n : Nat) (h : Extends p q)
    (p1 : List SWNVGedge) (i j : Nat) (hs : partitionEdges p off n = some (p1, i, j)) :
    ∃ q1, partitionEdges q off n = some (q1, i, j) ∧ Extends p1 q1 := by
  unfold partitionEdges at hs ⊢
  cases hm : medianOfThree p off n with
  | none => rw [hm] at hs; cases hs
  | some p2 =>
    rw [hm] at hs
    obtain ⟨q2, hq2, he2⟩ := medianOfThree_extends p q off n h p2 hm
    rw [hq2]
    exact partitionLoop_extends off n p2 q2 1 (n - 1) p1 i j he2 hs

/-- Claim C32.  For every array and every slice `[off, off + n)` of `n > 12`
edges in it, whatever the keys: a partition pass of `swnvg__quickSortEdges`
(median of three and partition loop) run on the array cut off at the end of the
slice returns, so no read and no exchange of the pass uses an index above
`n - 1` (such an access gives no result in the cut array), and none uses an
index below `0` (the downward scan gives no result rather than step below
`p[0]`); the final scan indices satisfy `1 <= i <= n - 1` and `0 <= j <= n - 1`;
and on the whole array the pass takes the same steps: it returns the same `i`
and `j` and an array that extends the one of the cut run. -/
theorem partition_scans_inside_slice (p : List SWNVGedge) (off n : Nat) (hn : 12 < n)
    (hlen : off + n ≤ p.length) :
    ∃ q i j, partitionEdges (p.take (off + n)) off n = some (q, i, j) ∧
      1 ≤ i ∧ i ≤ n - 1 ∧ j ≤ n - 1 ∧ q.length = off + n ∧
      ∃ q1, partitionEdges p off n = some (q1, i, j) ∧ Extends q q1 := by
  have hl : (p.take (off + n)).length = off + n := by
    rw [List.length_take]
    omega
  obtain ⟨q, i, j, h1, h2, h3, h4, h5⟩ :=
    partitionEdges_spec (p.take (off + n)) off n (by omega) (by omega)
  exact ⟨q, i, j, h1, h3, by omega, by omega, h2.1.trans hl,
    partitionEdges_extends _ p off n (extends_take p (off + n)) q i j h1⟩

/-- Witness for C32: fourteen edges that all have the same `y0` followed by two
more edges; the pass on the slice `[0, 14)` ends with `i = j = 7`, on the cut
array and on the whole array. -/
theorem partition_scans_inside_slice_witness :
    0 + 14 ≤ (List.replicate 14 (vEdge 0 7 9 1) ++ [vEdge 1 0 1 1, vEdge 2 0 1 1]).length ∧
    (partitionEdges ((List.replicate 14 (vEdge 0 7 9 1) ++
      [vEdge 1 0 1 1, vEdge 2 0 1 1]).take (0 + 14)) 0 14).map (fun o => (o.2.1, o.2.2)) =
      some (7, 7) ∧
    ∃ q i j, partitionEdges ((List.replicate 14 (vEdge 0 7 9 1) ++
        [vEdge 1 0 1 1, vEdge 2 0 1 1]).take (0 + 14)) 0 14 = some (q, i, j) ∧
      1 ≤ i ∧ i ≤ 14 - 1 ∧ j ≤ 14 - 1 ∧ q.length = 0 + 14 ∧
      ∃ q1, partitionEdges (List.replicate 14 (vEdge 0 7 9 1) ++
        [vEdge 1 0 1 1, vEdge 2 0 1 1]) 0 14 = some (q1, i, j) ∧ Extends q q1 :=
  ⟨by decide, by decide!,
    partition_scans_inside_slice
      (List.replicate 14 (vEdge 0 7 9 1) ++ [vEdge 1 0 1 1, vEdge 2 0 1 1]) 0 14 (by decide)
      (by decide)⟩

/-! ### Exact-coverage rasterizer: the scratch scanline -/

theorem xcPixels_scanline (dcover : Int) (emit : Nat → Int → XCFill → XCFill)
    (hemit : ∀ (i : Nat) (ic : Int) (s : XCFill), (emit i ic s).scanline = s.scanline) :
    ∀ (n : Nat) (st : XCFill), (xcPixels dcover emit n st).scanline = st.scanline
  | 0, st => by simp [xcPixels]
  | n + 1, st => by
    have ih := xcPixels_scanline dcover emit hemit n st
    unfold xcPixels at ih ⊢
    rw [List.range_succ, List.foldl_append]
    simp only [List.foldl_cons, List.foldl_nil]
    unfold xcPixel
    simp only
    rw [hemit]
    split_ifs <;> exact ih

theorem xcFillRow_color_scanline (env : Env) (gl : SWNVGcontext) (call : SWNVGcall)
    (tex : Option SWNVGtexture) (xb0 xb1 iy li : Int) (st st1 : XCOut)
    (hc : call.type = SWNVGpaintType.COLOR)
    (h : xcFillRow env gl call tex xb0 xb1 iy li st = some st1) :
    st1.scanline = st.scanline := by
  unfold xcFillRow at h
  dsimp only at h
  rw [if_pos hc] at h
  cases h
  dsimp only
  split_ifs
  · rw [xcPixels_scanline]
    intro i ic s
    split_ifs <;> rfl
  · rw [xcPixels_scanline]
    intro i ic s
    split_ifs <;> rfl

theorem xcFillRows_color_scanline (env : Env) (gl : SWNVGcontext) (call : SWNVGcall)
    (tex : Option SWNVGtexture) (xb0 xb1 : Int) (hc : call.type = SWNVGpaintType.COLOR) :
    ∀ (n : Nat) (iy li : Int) (st st1 : XCOut),
      xcFillRows env gl call tex xb0 xb1 n iy li st = some st1 → st1.scanline = st.scanline
  | 0, _, _, st, st1, h => by
    simp only [xcFillRows, Option.some.injEq] at h
    rw [h]
  | n + 1, iy, li, st, st1, h => by
    unfold xcFillRows at h
    split at h
    · cases h
    · rename_i st2 h2
      rw [xcFillRows_color_scanline env gl call tex xb0 xb1 hc n (iy + 1) (li + 2) st2 st1 h,
        xcFillRow_color_scanline env gl call tex xb0 xb1 iy li st st2 hc h2]

/-- For a solid-colour call `swnvg__rasterizeXC` does not touch the tile's
scratch scanline. -/
theorem rasterizeXC_color_scanline (env : Env) (gl : SWNVGcontext) (r : SWNVGthreadCtx)
    (call : SWNVGcall) (tex : Option SWNVGtexture) (covtex : Int → Rat) (lims : Int → Int)
    (hc : call.type = SWNVGpaintType.COLOR) (o : XCOut)
    (h : swnvg__rasterizeXC env gl r call tex covtex lims = some o) :
    o.scanline = r.scanline :=
  xcFillRows_color_scanline env gl call tex _ _ hc _ _ _ _ o h

/-- C35 (failing input).  On the 10x10 tile with an all-zero scratch scanline, a
gradient call of `swnvg__rasterizeXC` over the rectangle `[3, 7] x [3, 13/2]`
returns with the scanline bytes `128, 128, 128, 128` at the indices 0..3 (the
coverage bytes of its last row).  In a flush after a gradient fill of that
rectangle (rendered by `swnvg__rasterizeXC`) and an even-odd fill of the
rectangle `[1/2, 2] x [3, 7]` in opaque red (rendered by
`swnvg__rasterizeSortedEdges`), pixel `(2, 3)`, which no shape covers, becomes
`(128, 0, 0, 128)`; with a solid-colour first fill it stays `(0, 0, 0, 0)`. -/
theorem rasterizeXC_leaves_scanline_dirty :
    (∀ k, xcTile.scanline k = 0) ∧
    (swnvg__rasterizeXC sampleEnv xcHalfRowGl xcTile xcGradCall none (fun _ => 0)
      (resetLimits 10)).map (fun o => [o.scanline 0, o.scanline 1, o.scanline 2, o.scanline 3,
        o.scanline 4]) = some [128, 128, 128, 128, 0] ∧
    pixelOf (mixedScenario gradPaint) 2 3 = some ⟨128, 0, 0, 128⟩ ∧
    pixelOf (mixedScenario redPaint) 2 3 = some ⟨0, 0, 0, 0⟩ :=
  ⟨fun _ => rfl, by decide!, by decide!, by decide!⟩

/-! ### Paint position of image and gradient calls -/

/-- The colour that a gradient call blends for the paint position `(x, y)` with
coverage `cover` into the destination pixel `d`. -/
theorem gradBlend_eq (env : Env) (call : SWNVGcall) (cover : Nat) (x y : Int) (d : Pixel) :
    swnvg__blend8888 env d cover
      (gradientChannel (COLOR0 call.innerCol) (COLOR0 call.outerCol) (gradientD env call x y))
      (gradientChannel (COLOR1 call.innerCol) (COLOR1 call.outerCol) (gradientD env call x y))
      (gradientChannel (COLOR2 call.innerCol) (COLOR2 call.outerCol) (gradientD env call x y))
      (gradientChannel (COLOR3 call.innerCol) (COLOR3 call.outerCol) (gradientD env call x y))
      call.flags.srgb = gradBlend env call cover x y d := rfl

/-- In a row of `swnvg__rasterizeSortedEdges` for a gradient call, every pixel
`(x, y)` of the blended run gets the gradient evaluated at `(x, y)`. -/
theorem rasterRow_grad_pixel (env : Env) (gl : SWNVGcontext) (r : SWNVGthreadCtx)
    (call : SWNVGcall) (tex : Option SWNVGtexture) (y : Int) (st st1 : RasterState)
    (hg : call.type = SWNVGpaintType.GRAD)
    (h : rasterRow env gl r call tex y st = some st1) (x : Int)
    (hx0 : swnvg__maxi (swnvg__maxi (rowCoverage gl r call y st.active st.e st.scanline).xmin
      r.x0) call.bounds0 ≤ x)
    (hx1 : x ≤ swnvg__mini (swnvg__mini (rowCoverage gl r call y st.active st.e st.scanline).xmax
      r.x1) call.bounds2) :
    readPixel st1.bitmap (y * gl.stride + 4 * x) =
      gradBlend env call ((rowCoverage gl r call y st.active st.e st.scanline).scanline (x - r.x0))
        x y (readPixel st.bitmap (y * gl.stride + 4 * x)) := by
  unfold rasterRow at h
  dsimp only at h
  rw [if_pos (le_trans hx0 hx1)] at h
  simp only [swnvg__scanlineSolid, hg] at h
  cases h
  dsimp only
  generalize swnvg__maxi (swnvg__maxi (rowCoverage gl r call y st.active st.e st.scanline).xmin
    r.x0) call.bounds0 = xmin1 at hx0 ⊢
  generalize swnvg__mini (swnvg__mini (rowCoverage gl r call y st.active st.e st.scanline).xmax
    r.x1) call.bounds2 = xmax1 at hx1 ⊢
  have e1 : y * gl.stride + 4 * x = y * gl.stride + xmin1 * 4 + 4 * (x - xmin1) := by ring
  have e2 : x - r.x0 = xmin1 - r.x0 + (x - xmin1) := by ring
  have e3 : x = xmin1 + (x - xmin1) := by ring
  rw [e1, scanlineGrad_read env _ _ _ _ _ _ _ _ (x - xmin1) (by omega) (by omega), gradBlend_eq,
    ← e2, ← e3]

/-- In a row of the fill pass of `swnvg__rasterizeXC` for a gradient call, pixel
`lims[0] + i` of the run gets the gradient evaluated at `(xb0 + i, iy)`. -/
theorem xcFillRow_grad_pixel (env : Env) (gl : SWNVGcontext) (call : SWNVGcall)
    (tex : Option SWNVGtexture) (xb0 xb1 iy li : Int) (st st1 : XCOut)
    (hg : call.type = SWNVGpaintType.GRAD)
    (h : xcFillRow env gl call tex xb0 xb1 iy li st = some st1) (i : Int) (h0 : 0 ≤ i)
    (h1 : i < swnvg__mini (st.lims (li + 1)) xb1 - st.lims li + 1) :
    readPixel st1.bitmap (iy * gl.stride + 4 * (st.lims li + i)) =
      gradBlend env call (st1.scanline i) (xb0 + i) iy
        (readPixel st.bitmap (iy * gl.stride + 4 * (st.lims li + i))) := by
  unfold xcFillRow at h
  dsimp only at h
  have hne : ¬ call.type = SWNVGpaintType.COLOR := by rw [hg]; decide
  rw [if_neg hne] at h
  simp only [swnvg__scanlineSolid, hg, Option.some.injEq] at h
  subst h
  dsimp only
  have e1 : iy * gl.stride + 4 * (st.lims li + i) = iy * gl.stride + st.lims li * 4 + 4 * i := by
    ring
  have hb : ∀ (dc : Int) (n : Nat) (s0 : XCFill),
      (xcPixels dc (fun (i : Nat) icover s =>
        { s with scanline := setByte s.scanline i (icover % 256).toNat }) n s0).bitmap =
        s0.bitmap :=
    fun dc n s0 => funext (fun k => xcPixels_bitmap dc (fun (i : Nat) icover s =>
      { s with scanline := setByte s.scanline i (icover % 256).toNat }) k n
      (fun j _ ic s => rfl) s0)
  rw [e1, scanlineGrad_read env _ _ _ _ _ _ _ _ i h0 h1, gradBlend_eq, Int.zero_add, hb]

/-- C34 (failing input).  On the 10x10 tile, for the gradient of `xcGradCall`
(black at the paint position `x = 0`, value 77 at `x = 3`) and the rectangle
`[3, 7] x [3, 13/2]`, whose call bounds start at column `xb0 = 0` while the
row limits start at column 3: `swnvg__rasterizeXC` writes `(0, 0, 0, 255)`, the
paint at `(0, 4)`, into pixel `(3, 4)` and `(77, 77, 77, 255)`, the paint at
`(3, 4)`, into pixel `(6, 4)`, whereas `swnvg__rasterizeSortedEdges` writes
`(77, 77, 77, 255)` into pixel `(3, 4)` for the same gradient. -/
theorem rasterizeXC_gradient_shifted :
    gradientChannel 0 255 (gradientD sampleEnv xcGradCall 0 4) = 0 ∧
    gradientChannel 0 255 (gradientD sampleEnv xcGradCall 3 4) = 77 ∧
    (swnvg__rasterizeXC sampleEnv xcHalfRowGl xcTile xcGradCall none (fun _ => 0)
      (resetLimits 10)).map (fun o => readPixel o.bitmap (4 * 40 + 4 * 3)) =
      some ⟨0, 0, 0, 255⟩ ∧
    (swnvg__rasterizeXC sampleEnv xcHalfRowGl xcTile xcGradCall none (fun _ => 0)
      (resetLimits 10)).map (fun o => readPixel o.bitmap (4 * 40 + 4 * 6)) =
      some ⟨77, 77, 77, 255⟩ ∧
    (swnvg__rasterizeSortedEdges sampleEnv gradRectGl xcTile gradRectCall none).map
      (fun o => readPixel o.1 (4 * 40 + 4 * 3)) = some ⟨77, 77, 77, 255⟩ := by
  decide!

/-! ### Exact-coverage rasterizer: running sum of the deltas of one edge in one row -/

theorem runningSum_congr (f g : Int → Rat) (lo : Int) :
    ∀ n : Nat, (∀ t : Nat, t < n → f (lo + t) = g (lo + t)) →
      runningSum f lo n = runningSum g lo n
  | 0, _ => rfl
  | n + 1, h => by
    unfold runningSum
    rw [runningSum_congr f g lo n (fun t ht => h t (by omega)), h n (by omega)]

theorem runningSum_zero (f : Int → Rat) (lo : Int) :
    ∀ n : Nat, (∀ t : Nat, t < n → f (lo + t) = 0) → runningSum f lo n = 0
  | 0, _ => rfl
  | n + 1, h => by
    unfold runningSum
    rw [runningSum_zero f lo n (fun t ht => h t (by omega)), h n (by omega), add_zero]

theorem runningSum_add (f : Int → Rat) (lo : Int) (n : Nat) :
    ∀ m : Nat, runningSum f lo (n + m) = runningSum f lo n + runningSum f (lo + n) m
  | 0 => by simp [runningSum]
  | m + 1 => by
    show runningSum f lo (n + m) + f (lo + ((n + m : Nat) : Int)) =
      runningSum f lo n + (runningSum f (lo + n) m + f (lo + n + m))
    rw [runningSum_add f lo n m, add_assoc]
    congr 3
    push_cast
    ring

/-- The differences `A c - A (c - 1)`, with `cov` in place of `A (lo - 1)`, sum
to `A (lo + m) - cov`. -/
theorem runningSum_telescope (A : Int → Rat) (lo : Int) (cov : Rat) :
    ∀ m : Nat, runningSum (fun c => A c - (if c = lo then cov else A (c - 1))) lo (m + 1) =
      A (lo + m) - cov
  | 0 => by
    simp [runningSum]
  | m + 1 => by
    unfold runningSum
    rw [runningSum_telescope A lo cov m]
    have hne : ¬ (lo + ((m + 1 : Nat) : Int) = lo) := by push_cast; omega
    have e : lo + ((m + 1 : Nat) : Int) - 1 = lo + (m : Int) := by push_cast; ring
    simp only [hne, if_false, e]
    ring

/-- What the column loop of `swnvg__rasterizeXC` leaves in row `iy`: the final
`cov` is the area of the last column, and the cell of a column `c` of the loop
has been raised by the area of `c` minus that of the column before (minus the
initial `cov` for the first column). -/
theorem xcColumns_spec (edge : SWNVGedge) (invslope : Rat) (W iy : Int) :
    ∀ (n : Nat) (ix : Int) (cov : Rat) (cv : Int → Rat),
      (xcColumns edge invslope W iy n ix cov cv).2 =
        (if n = 0 then cov else xcArea edge invslope iy (ix + n - 1)) ∧
      ∀ c : Int, (xcColumns edge invslope W iy n ix cov cv).1 (iy * W + c) =
        if ix ≤ c ∧ c < ix + n then
          cv (iy * W + c) +
            (xcArea edge invslope iy c - (if c = ix then cov else xcArea edge invslope iy (c - 1)))
        else cv (iy * W + c)
  | 0, ix, cov, cv => by
    refine ⟨rfl, fun c => ?_⟩
    rw [if_neg (by push_cast; omega)]
    rfl
  | n + 1, ix, cov, cv => by
    unfold xcColumns
    dsimp only
    obtain ⟨ih1, ih2⟩ := xcColumns_spec edge invslope W iy n (ix + 1)
      (xcArea edge invslope iy ix)
      (fun k => if k = iy * W + ix then cv (iy * W + ix) + (xcArea edge invslope iy ix - cov)
        else cv k)
    refine ⟨?_, fun c => ?_⟩
    · rw [if_neg (Nat.succ_ne_zero n)]
      refine Eq.trans ih1 ?_
      by_cases hn : n = 0
      · subst hn
        rw [if_pos rfl]
        congr 1
        push_cast
        ring
      · rw [if_neg hn]
        congr 1
        push_cast
        ring
    · refine Eq.trans (ih2 c) ?_
      have hcast : ix + ((n + 1 : Nat) : Int) = ix + 1 + n := by push_cast; ring
      have e : ∀ a b : Int, a = b → xcArea edge invslope iy a = xcArea edge invslope iy b :=
        fun a b h => by rw [h]
      rw [hcast]
      split_ifs <;>
        first
        | rfl
        | (exfalso; omega)
        | (subst_vars; rfl)
        | (rw [e ix (c - 1) (by omega)])

theorem rowRunning_step (A : Int → Rat) (ixmin ixmax xedge : Int) (H : Rat) (c : Int) :
    rowRunning A ixmin ixmax xedge H (c - 1) + rowDelta A ixmin ixmax xedge H c =
      rowRunning A ixmin ixmax xedge H c := by
  have e : ∀ a b : Int, a = b → A a = A b := fun a b h => by rw [h]
  unfold rowRunning rowDelta xcAfter
  split_ifs <;>
    first
    | (exfalso; omega)
    | ring1
    | (rw [e (c - 1) ixmax (by omega)]; ring1)

theorem runningSum_rowDelta (A : Int → Rat) (ixmin ixmax xedge : Int) (H : Rat) (lo : Int)
    (hlo : lo ≤ ixmin) :
    ∀ n : Nat, runningSum (rowDelta A ixmin ixmax xedge H) lo n =
      rowRunning A ixmin ixmax xedge H (lo + n - 1)
  | 0 => by
    show (0 : Rat) = _
    unfold rowRunning
    rw [if_pos (by push_cast; omega)]
  | n + 1 => by
    show runningSum (rowDelta A ixmin ixmax xedge H) lo n +
      rowDelta A ixmin ixmax xedge H (lo + n) = _
    rw [runningSum_rowDelta A ixmin ixmax xedge H lo hlo n]
    have e : lo + ((n + 1 : Nat) : Int) - 1 = lo + (n : Int) := by push_cast; ring
    rw [e, ← rowRunning_step A ixmin ixmax xedge H (lo + n)]

/-- One row of the accumulation pass on a zero accumulator leaves in column `c`
of that row exactly the delta `rowDelta`. -/
theorem xcRow_delta (edge : SWNVGedge) (invslope : Rat) (W : Int) (dir : Int) (ymin ymax : Rat)
    (ixleft ixright xedge iy li : Int) (xmin xmax : Rat) (lims : Int → Int) (c : Int) :
    (xcRows edge invslope W dir ymin ymax ixleft ixright xedge 1 iy li xmin xmax
        ⟨fun _ => 0, lims⟩).covtex (iy * W + c) =
      rowDelta (xcArea edge invslope iy) (swnvg__maxi (truncf xmin) ixleft)
        (swnvg__mini (truncf xmax) ixright) xedge
        ((dir : Rat) * (swnvg__minf ymax (iy + 1) - swnvg__maxf ymin iy)) c := by
  generalize hmin : swnvg__maxi (truncf xmin) ixleft = ixmin
  generalize hmax : swnvg__mini (truncf xmax) ixright = ixmax
  generalize hH : (dir : Rat) * (swnvg__minf ymax (iy + 1) - swnvg__maxf ymin iy) = H
  obtain ⟨s2, s1⟩ := xcColumns_spec edge invslope W iy (ixmax - ixmin + 1).toNat ixmin 0
    (fun _ => 0)
  have e : ∀ a b : Int, a = b → xcArea edge invslope iy a = xcArea edge invslope iy b :=
    fun a b h => by rw [h]
  unfold xcRows xcRows
  simp only [hmin, hmax, hH]
  unfold rowDelta xcAfter
  by_cases hne : ixmin ≤ ixmax
  · have hn : ((ixmax - ixmin + 1).toNat : Int) = ixmax - ixmin + 1 := by omega
    have hn0 : ¬ ((ixmax - ixmin + 1).toNat = 0) := by omega
    rw [if_neg hn0, hn] at s2
    simp only [hn] at s1
    simp only [if_pos hne]
    by_cases hx : ixmax + 1 ≤ xedge
    · simp only [hx, if_true, true_and]
      by_cases hc : c = ixmax + 1
      · have hk : iy * W + c = iy * W + (ixmax + 1) := by rw [hc]
        rw [if_pos hk, s1 (ixmax + 1), s2, if_neg (by omega), if_neg (by omega), if_pos hc,
          e (ixmin + (ixmax - ixmin + 1) - 1) ixmax (by omega)]
      · have hk : ¬ (iy * W + c = iy * W + (ixmax + 1)) := by omega
        rw [if_neg hk, s1 c, if_neg hc]
        split_ifs <;> first | (exfalso; omega) | ring1
    · simp only [hx, false_and, if_false]
      rw [s1 c]
      split_ifs <;> first | (exfalso; omega) | ring1
  · have hn : (ixmax - ixmin + 1).toNat = 0 := by omega
    rw [hn] at s1 s2
    rw [if_pos rfl] at s2
    simp only [hn, if_neg hne]
    have s0 : ∀ k : Int, (xcColumns edge invslope W iy 0 ixmin 0 (fun _ => 0)).1 k = 0 :=
      fun k => rfl
    by_cases hx : ixmin ≤ xedge
    · simp only [hx, if_true, true_and, s0, s2]
      split_ifs <;> first | (exfalso; omega) | ring1
    · simp only [hx, false_and, if_false, s0]
      split_ifs <;> first | (exfalso; omega) | ring1

/-- C33 (counterexample): the edge from (1,0) to (1,2) of a path whose right
bound is column 9, in row 0 of a call whose region starts at column 5, on a zero
accumulator. The clipped range is empty (`ixmin = 5`, `ixmax = 1`), so the row
coverage `dir*(min(ymax, iy+1) - max(ymin, iy)) = 1` is stored at column
`ixmin = 5`: the running sum over the columns 0, 1, 2 is 0, although column
`ixmax + 1 = 2` is not right of `xedge = 9`. -/
theorem running_sum_zero_after_empty_range :
    swnvg__maxi (truncf 1) 5 = 5 ∧ swnvg__mini (truncf 1) 1 = 1 ∧
    runningSum (fun c => (xcRows ⟨1, 0, 1, 2, 9⟩ 0 10 1 0 2 5 1 9 1 0 0 1 1
        ⟨fun _ => 0, resetLimits 10⟩).covtex (0 * 10 + c)) 0 3 = 0 ∧
    ((1 : Int) : Rat) * (swnvg__minf 2 (((0 : Int) : Rat) + 1) - swnvg__maxf 0 ((0 : Int) : Rat))
      = 1 ∧
    (2 : Int) ≤ 9 ∧
    (xcRows ⟨1, 0, 1, 2, 9⟩ 0 10 1 0 2 5 1 9 1 0 0 1 1
        ⟨fun _ => 0, resetLimits 10⟩).covtex (0 * 10 + 5) = 1 ∧
    (xcEdge xcLeftGl xcTile xcLeftCall ⟨fun _ => 0, resetLimits 10⟩ ⟨1, 0, 1, 2, 9⟩).covtex
        (0 * 10 + 5) = 1 ∧
    runningSum (fun c =>
      (xcEdge xcLeftGl xcTile xcLeftCall ⟨fun _ => 0, resetLimits 10⟩ ⟨1, 0, 1, 2, 9⟩).covtex
        (0 * 10 + c)) 0 3 = 0 := by
  decide!

/-- C33 (amended): with exact arithmetic, for one edge and one row `iy` of the
accumulation pass of `swnvg__rasterizeXC` on a zero accumulator, the running
left-to-right sum of the deltas written in that row (summed from any column
`lo` at or left of `ixmin`) equals `areaEdge2` of the edge in pixel `(ix, iy)`
for every column `ix` in `[ixmin, ixmax]`, and equals
`dir*(min(ymax, iy+1) - max(ymin, iy))` for every column from the column on
which the column loop ends (`ixmax + 1`, or `ixmin` when the clipped range is
empty) up to `xedge`. -/
theorem xc_row_running_sum (edge : SWNVGedge) (invslope : Rat) (W : Int) (dir : Int)
    (ymin ymax : Rat) (ixleft ixright xedge iy li : Int) (xmin xmax : Rat) (lims : Int → Int)
    (lo : Int) (hlo : lo ≤ swnvg__maxi (truncf xmin) ixleft) :
    (∀ ix : Int, swnvg__maxi (truncf xmin) ixleft ≤ ix → ix ≤ swnvg__mini (truncf xmax) ixright →
      runningSum (fun c => (xcRows edge invslope W dir ymin ymax ixleft ixright xedge 1 iy li
          xmin xmax ⟨fun _ => 0, lims⟩).covtex (iy * W + c)) lo (ix - lo + 1).toNat =
        areaEdge2 (edge.y0 - iy - 1 / 2) (edge.x0 - ix - 1 / 2) (edge.y1 - iy - 1 / 2)
          (edge.x1 - ix - 1 / 2) invslope) ∧
    (∀ ix : Int,
      (if swnvg__maxi (truncf xmin) ixleft ≤ swnvg__mini (truncf xmax) ixright
        then swnvg__mini (truncf xmax) ixright + 1 else swnvg__maxi (truncf xmin) ixleft) ≤ ix →
      ix ≤ xedge →
      runningSum (fun c => (xcRows edge invslope W dir ymin ymax ixleft ixright xedge 1 iy li
          xmin xmax ⟨fun _ => 0, lims⟩).covtex (iy * W + c)) lo (ix - lo + 1).toNat =
        (dir : Rat) * (swnvg__minf ymax (iy + 1) - swnvg__maxf ymin iy)) := by
  have hf : (fun c => (xcRows edge invslope W dir ymin ymax ixleft ixright xedge 1 iy li
      xmin xmax ⟨fun _ => 0, lims⟩).covtex (iy * W + c)) =
      rowDelta (xcArea edge invslope iy) (swnvg__maxi (truncf xmin) ixleft)
        (swnvg__mini (truncf xmax) ixright) xedge
        ((dir : Rat) * (swnvg__minf ymax (iy + 1) - swnvg__maxf ymin iy)) :=
    funext (fun c => xcRow_delta edge invslope W dir ymin ymax ixleft ixright xedge iy li
      xmin xmax lims c)
  rw [hf]
  generalize swnvg__maxi (truncf xmin) ixleft = ixmin at hlo ⊢
  generalize swnvg__mini (truncf xmax) ixright = ixmax
  generalize (dir : Rat) * (swnvg__minf ymax (iy + 1) - swnvg__maxf ymin iy) = H
  refine ⟨fun ix h0 h1 => ?_, fun ix h0 h1 => ?_⟩
  · rw [runningSum_rowDelta _ ixmin ixmax xedge H lo hlo]
    have e : lo + (((ix - lo + 1).toNat : Nat) : Int) - 1 = ix := by omega
    rw [e]
    unfold rowRunning
    rw [if_neg (by omega), if_pos h1]
    rfl
  · rw [runningSum_rowDelta _ ixmin ixmax xedge H lo hlo]
    have hge : ixmin ≤ ix ∧ ixmax < ix := by
      split_ifs at h0 <;> omega
    have e : lo + (((ix - lo + 1).toNat : Nat) : Int) - 1 = ix := by omega
    rw [e]
    unfold rowRunning xcAfter
    rw [if_neg (by omega), if_neg (by omega), if_pos (by omega)]

theorem xc_row_running_sum_witness :
    (0 : Int) ≤ swnvg__maxi (truncf (3 / 2)) 1 ∧
    swnvg__maxi (truncf (3 / 2)) 1 = 1 ∧ swnvg__mini (truncf (7 / 2)) 3 = 3 ∧
    runningSum (fun c => (xcRows ⟨3 / 2, 0, 7 / 2, 1, 9⟩ 2 10 1 0 1 1 3 9 1 0 0
        (3 / 2) (7 / 2) ⟨fun _ => 0, resetLimits 10⟩).covtex (0 * 10 + c)) 0 3 =
      areaEdge2 (0 - ((0 : Int) : Rat) - 1 / 2) (3 / 2 - ((2 : Int) : Rat) - 1 / 2)
        (1 - ((0 : Int) : Rat) - 1 / 2) (7 / 2 - ((2 : Int) : Rat) - 1 / 2) 2 ∧
    runningSum (fun c => (xcRows ⟨3 / 2, 0, 7 / 2, 1, 9⟩ 2 10 1 0 1 1 3 9 1 0 0
        (3 / 2) (7 / 2) ⟨fun _ => 0, resetLimits 10⟩).covtex (0 * 10 + c)) 0 3 = 1 / 2 ∧
    runningSum (fun c => (xcRows ⟨3 / 2, 0, 7 / 2, 1, 9⟩ 2 10 1 0 1 1 3 9 1 0 0
        (3 / 2) (7 / 2) ⟨fun _ => 0, resetLimits 10⟩).covtex (0 * 10 + c)) 0 7 = 1 :=
  have h := xc_row_running_sum ⟨3 / 2, 0, 7 / 2, 1, 9⟩ 2 10 1 0 1 1 3 9 0 0 (3 / 2) (7 / 2)
    (resetLimits 10) 0 (by decide!)
  ⟨by decide!, by decide!, by decide!, h.1 2 (by decide!) (by decide!), by decide!,
    (h.2 6 (by decide!) (by decide!)).trans (by decide!)⟩

/-! ### Exact-coverage rasterizer: cells and limits outside the region -/

/-- The column loop computes the same `cov` whatever the accumulator holds, and
two accumulators that agree on a set `C` containing the cells of the loop agree
on `C` afterwards. -/
theorem xcColumns_agree (edge : SWNVGedge) (invslope : Rat) (W iy : Int) (C : Int → Prop) :
    ∀ (n : Nat) (ix : Int) (cov : Rat) (cv cw : Int → Rat),
      (∀ c : Int, ix ≤ c → c < ix + n → C (iy * W + c)) → (∀ k, C k → cw k = cv k) →
      (xcColumns edge invslope W iy n ix cov cw).2 = (xcColumns edge invslope W iy n ix cov cv).2 ∧
      ∀ k, C k → (xcColumns edge invslope W iy n ix cov cw).1 k =
        (xcColumns edge invslope W iy n ix cov cv).1 k
  | 0, _, _, _, _, _, h => ⟨rfl, h⟩
  | n + 1, ix, cov, cv, cw, hC, h => by
    unfold xcColumns
    dsimp only
    apply xcColumns_agree edge invslope W iy C n (ix + 1)
    · intro c h1 h2
      exact hC c (by omega) (by push_cast; omega)
    · intro k hk
      dsimp only
      rw [h k hk, h (iy * W + ix) (hC ix (le_refl _) (by push_cast; omega))]

/-- The update of a row's limits in the accumulation pass gives the same value
at an entry `j` for two `lineLimits` that agree at `lims[0]`, `lims[1]` and `j`. -/
theorem xcLims_agree (l m : Int → Int) (li ixmin ixmax j : Int) (h0 : m li = l li)
    (h1 : m (li + 1) = l (li + 1)) (hj : m j = l j) :
    (if ixmax ≥ (if ixmin < m li then fun k => if k = li then ixmin else m k else m) (li + 1)
      then fun k => if k = li + 1 then ixmax + 1
        else (if ixmin < m li then fun k => if k = li then ixmin else m k else m) k
      else (if ixmin < m li then fun k => if k = li then ixmin else m k else m)) j =
    (if ixmax ≥ (if ixmin < l li then fun k => if k = li then ixmin else l k else l) (li + 1)
      then fun k => if k = li + 1 then ixmax + 1
        else (if ixmin < l li then fun k => if k = li then ixmin else l k else l) k
      else (if ixmin < l li then fun k => if k = li then ixmin else l k else l)) j := by
  have hne : ¬ (li + 1 = li) := by omega
  rw [h0]
  by_cases ha : ixmin < l li
  · simp only [if_pos ha, hne, if_false, h1]
    by_cases hb : ixmax ≥ l (li + 1)
    · simp only [if_pos hb, hj]
    · simp only [if_neg hb, hj]
  · simp only [if_neg ha, h1]
    by_cases hb : ixmax ≥ l (li + 1)
    · simp only [if_pos hb, hj]
    · simp only [if_neg hb, hj]

/-- The accumulation pass for one edge reads and writes only accumulator cells
and `lineLimits` entries of the region: cells and entries outside it are
unchanged, and two states that agree inside it agree inside it afterwards. -/
theorem xcRows_region (edge : SWNVGedge) (invslope : Rat) (W dir : Int) (ymin ymax : Rat)
    (ixleft ixright xedge y0 xb0 xb1 yb0 yb1 : Int) (hxl : xb0 ≤ ixleft) (hr : ixright ≤ xb1)
    (he : xedge ≤ xb1) :
    ∀ (n : Nat) (iy li : Int) (xmin xmax : Rat) (st su : XCState),
      li = 2 * (iy - y0) → yb0 ≤ iy → (0 < n → iy + n ≤ yb1 + 1) →
      (∀ k, XCCell W xb0 xb1 yb0 yb1 k → su.covtex k = st.covtex k) →
      (∀ j, XCLim y0 yb0 yb1 j → su.lims j = st.lims j) →
      (∀ k, XCCell W xb0 xb1 yb0 yb1 k →
        (xcRows edge invslope W dir ymin ymax ixleft ixright xedge n iy li xmin xmax su).covtex k =
        (xcRows edge invslope W dir ymin ymax ixleft ixright xedge n iy li xmin xmax st).covtex k) ∧
      (∀ j, XCLim y0 yb0 yb1 j →
        (xcRows edge invslope W dir ymin ymax ixleft ixright xedge n iy li xmin xmax su).lims j =
        (xcRows edge invslope W dir ymin ymax ixleft ixright xedge n iy li xmin xmax st).lims j) ∧
      (∀ k, ¬ XCCell W xb0 xb1 yb0 yb1 k →
        (xcRows edge invslope W dir ymin ymax ixleft ixright xedge n iy li xmin xmax st).covtex k =
          st.covtex k) ∧
      (∀ j, ¬ XCLim y0 yb0 yb1 j →
        (xcRows edge invslope W dir ymin ymax ixleft ixright xedge n iy li xmin xmax st).lims j =
          st.lims j)
  | 0, _, _, _, _, _, _, _, _, _, hc, hl => ⟨hc, hl, fun _ _ => rfl, fun _ _ => rfl⟩
  | n + 1, iy, li, xmin, xmax, st, su, hli, hlo, hhi, hc, hl => by
    have hhi := hhi (Nat.succ_pos n)
    have hrow : yb0 ≤ iy ∧ iy ≤ yb1 := ⟨hlo, by push_cast at hhi; omega⟩
    have hL0 : XCLim y0 yb0 yb1 li := ⟨iy, hrow.1, hrow.2, Or.inl hli⟩
    have hL1 : XCLim y0 yb0 yb1 (li + 1) := ⟨iy, hrow.1, hrow.2, Or.inr (by omega)⟩
    unfold xcRows
    dsimp only
    have hmn := maxi_ge_right (truncf xmin) ixleft
    have hmx := mini_le_right (truncf xmax) ixright
    generalize swnvg__maxi (truncf xmin) ixleft = ixmin at hmn ⊢
    generalize swnvg__mini (truncf xmax) ixright = ixmax at hmx ⊢
    have hcell : ∀ c : Int, ixmin ≤ c → c ≤ xb1 → XCCell W xb0 xb1 yb0 yb1 (iy * W + c) :=
      fun c h1 h2 => ⟨c, iy, by omega, h2, hrow.1, hrow.2, rfl⟩
    have hcols : ∀ c : Int, ixmin ≤ c → c < ixmin + ((ixmax - ixmin + 1).toNat : Int) →
        XCCell W xb0 xb1 yb0 yb1 (iy * W + c) := fun c h1 h2 => hcell c h1 (by omega)
    obtain ⟨a2, a1⟩ := xcColumns_agree edge invslope W iy (XCCell W xb0 xb1 yb0 yb1)
      (ixmax - ixmin + 1).toNat ixmin 0 st.covtex su.covtex hcols hc
    have hcolf : ∀ k, ¬ XCCell W xb0 xb1 yb0 yb1 k →
        (xcColumns edge invslope W iy (ixmax - ixmin + 1).toNat ixmin 0 st.covtex).1 k =
          st.covtex k := by
      intro k hk
      apply xcColumns_frame
      intro c h1 h2 heq
      exact hk (heq ▸ hcols c h1 h2)
    have hafter : (if ixmin ≤ ixmax then ixmax + 1 else ixmin) ≤ xedge →
        XCCell W xb0 xb1 yb0 yb1 (iy * W + (if ixmin ≤ ixmax then ixmax + 1 else ixmin)) := by
      intro hw
      apply hcell
      · split_ifs <;> omega
      · omega
    obtain ⟨r1, r2, r3, r4⟩ := xcRows_region edge invslope W dir ymin ymax ixleft ixright xedge
      y0 xb0 xb1 yb0 yb1 hxl hr he n (iy + 1) (li + 2) (xmin + invslope) (xmax + invslope)
      { covtex :=
          if (if ixmin ≤ ixmax then ixmax + 1 else ixmin) ≤ xedge then
            fun k =>
              if k = iy * W + (if ixmin ≤ ixmax then ixmax + 1 else ixmin) then
                (xcColumns edge invslope W iy (ixmax - ixmin + 1).toNat ixmin 0 st.covtex).1
                    (iy * W + (if ixmin ≤ ixmax then ixmax + 1 else ixmin)) +
                  ((dir : Rat) * (swnvg__minf ymax (iy + 1) - swnvg__maxf ymin iy) -
                    (xcColumns edge invslope W iy (ixmax - ixmin + 1).toNat ixmin 0 st.covtex).2)
              else (xcColumns edge invslope W iy (ixmax - ixmin + 1).toNat ixmin 0 st.covtex).1 k
          else (xcColumns edge invslope W iy (ixmax - ixmin + 1).toNat ixmin 0 st.covtex).1,
        lims :=
          if ixmax ≥ (if ixmin < st.lims li then fun k => if k = li then ixmin else st.lims k
              else st.lims) (li + 1) then
            fun k => if k = li + 1 then ixmax + 1
              else (if ixmin < st.lims li then fun k => if k = li then ixmin else st.lims k
                else st.lims) k
          else (if ixmin < st.lims li then fun k => if k = li then ixmin else st.lims k
            else st.lims) }
      { covtex :=
          if (if ixmin ≤ ixmax then ixmax + 1 else ixmin) ≤ xedge then
            fun k =>
              if k = iy * W + (if ixmin ≤ ixmax then ixmax + 1 else ixmin) then
                (xcColumns edge invslope W iy (ixmax - ixmin + 1).toNat ixmin 0 su.covtex).1
                    (iy * W + (if ixmin ≤ ixmax then ixmax + 1 else ixmin)) +
                  ((dir : Rat) * (swnvg__minf ymax (iy + 1) - swnvg__maxf ymin iy) -
                    (xcColumns edge invslope W iy (ixmax - ixmin + 1).toNat ixmin 0 su.covtex).2)
              else (xcColumns edge invslope W iy (ixmax - ixmin + 1).toNat ixmin 0 su.covtex).1 k
          else (xcColumns edge invslope W iy (ixmax - ixmin + 1).toNat ixmin 0 su.covtex).1,
        lims :=
          if ixmax ≥ (if ixmin < su.lims li then fun k => if k = li then ixmin else su.lims k
              else su.lims) (li + 1) then
            fun k => if k = li + 1 then ixmax + 1
              else (if ixmin < su.lims li then fun k => if k = li then ixmin else su.lims k
                else su.lims) k
          else (if ixmin < su.lims li then fun k => if k = li then ixmin else su.lims k
            else su.lims) }
      (by omega) (by omega) (by intro _; push_cast at hhi; omega)
      (by
        intro k hk
        dsimp only
        rw [a2]
        by_cases hw : (if ixmin ≤ ixmax then ixmax + 1 else ixmin) ≤ xedge
        · simp only [if_pos hw]
          rw [a1 _ (hafter hw), a1 k hk]
        · simp only [if_neg hw]
          exact a1 k hk)
      (by
        intro j hj
        exact xcLims_agree st.lims su.lims li ixmin ixmax j (hl li hL0) (hl (li + 1) hL1)
          (hl j hj))
    refine ⟨r1, r2, fun k hk => ?_, fun j hj => ?_⟩
    · rw [r3 k hk]
      dsimp only
      by_cases hw : (if ixmin ≤ ixmax then ixmax + 1 else ixmin) ≤ xedge
      · simp only [if_pos hw]
        have hne : k ≠ iy * W + (if ixmin ≤ ixmax then ixmax + 1 else ixmin) :=
          fun heq => hk (heq ▸ hafter hw)
        rw [if_neg hne]
        exact hcolf k hk
      · simp only [if_neg hw]
        exact hcolf k hk
    · rw [r4 j hj]
      have h0 : j ≠ li := fun heq => hj (heq ▸ hL0)
      have h1 : j ≠ li + 1 := fun heq => hj (heq ▸ hL1)
      exact (xcLims_update st.lims _ _ li ixmin ixmax rfl rfl).2.2 j h0 h1

theorem xcEdge_region (gl : SWNVGcontext) (r : SWNVGthreadCtx) (call : SWNVGcall)
    (st su : XCState) (edge : SWNVGedge)
    (hc : ∀ k, XCCell gl.width (swnvg__maxi call.bounds0 r.x0) (swnvg__mini call.bounds2 r.x1)
      (swnvg__maxi call.bounds1 r.y0) (swnvg__mini call.bounds3 r.y1) k →
      su.covtex k = st.covtex k)
    (hl : ∀ j, XCLim r.y0 (swnvg__maxi call.bounds1 r.y0) (swnvg__mini call.bounds3 r.y1) j →
      su.lims j = st.lims j) :
    (∀ k, XCCell gl.width (swnvg__maxi call.bounds0 r.x0) (swnvg__mini call.bounds2 r.x1)
      (swnvg__maxi call.bounds1 r.y0) (swnvg__mini call.bounds3 r.y1) k →
      (xcEdge gl r call su edge).covtex k = (xcEdge gl r call st edge).covtex k) ∧
    (∀ j, XCLim r.y0 (swnvg__maxi call.bounds1 r.y0) (swnvg__mini call.bounds3 r.y1) j →
      (xcEdge gl r call su edge).lims j = (xcEdge gl r call st edge).lims j) ∧
    (∀ k, ¬ XCCell gl.width (swnvg__maxi call.bounds0 r.x0) (swnvg__mini call.bounds2 r.x1)
      (swnvg__maxi call.bounds1 r.y0) (swnvg__mini call.bounds3 r.y1) k →
      (xcEdge gl r call st edge).covtex k = st.covtex k) ∧
    (∀ j, ¬ XCLim r.y0 (swnvg__maxi call.bounds1 r.y0) (swnvg__mini call.bounds3 r.y1) j →
      (xcEdge gl r call st edge).lims j = st.lims j) := by
  unfold xcEdge
  dsimp only
  have h1 := maxi_ge_right (truncf (swnvg__minf edge.y0 edge.y1)) (swnvg__maxi call.bounds1 r.y0)
  have h2 := mini_le_right (truncf (swnvg__maxf edge.y0 edge.y1)) (swnvg__mini call.bounds3 r.y1)
  apply xcRows_region edge _ gl.width _ _ _ _ _ _ r.y0 _ _ _ _
    (maxi_ge_right _ _) (mini_le_right _ _) (mini_le_right _ _) _ _ _ _ _ st su rfl h1 ?_ hc hl
  generalize swnvg__maxi (truncf (swnvg__minf edge.y0 edge.y1)) (swnvg__maxi call.bounds1 r.y0) =
    iymin at h1 ⊢
  generalize swnvg__mini (truncf (swnvg__maxf edge.y0 edge.y1)) (swnvg__mini call.bounds3 r.y1) =
    iymax at h2 ⊢
  intro hpos
  omega

theorem xcEdges_region (gl : SWNVGcontext) (r : SWNVGthreadCtx) (call : SWNVGcall) :
    ∀ (es : List SWNVGedge) (st su : XCState),
      (∀ k, XCCell gl.width (swnvg__maxi call.bounds0 r.x0) (swnvg__mini call.bounds2 r.x1)
        (swnvg__maxi call.bounds1 r.y0) (swnvg__mini call.bounds3 r.y1) k →
        su.covtex k = st.covtex k) →
      (∀ j, XCLim r.y0 (swnvg__maxi call.bounds1 r.y0) (swnvg__mini call.bounds3 r.y1) j →
        su.lims j = st.lims j) →
      (∀ k, XCCell gl.width (swnvg__maxi call.bounds0 r.x0) (swnvg__mini call.bounds2 r.x1)
        (swnvg__maxi call.bounds1 r.y0) (swnvg__mini call.bounds3 r.y1) k →
        (es.foldl (xcEdge gl r call) su).covtex k = (es.foldl (xcEdge gl r call) st).covtex k) ∧
      (∀ j, XCLim r.y0 (swnvg__maxi call.bounds1 r.y0) (swnvg__mini call.bounds3 r.y1) j →
        (es.foldl (xcEdge gl r call) su).lims j = (es.foldl (xcEdge gl r call) st).lims j) ∧
      (∀ k, ¬ XCCell gl.width (swnvg__maxi call.bounds0 r.x0) (swnvg__mini call.bounds2 r.x1)
        (swnvg__maxi call.bounds1 r.y0) (swnvg__mini call.bounds3 r.y1) k →
        (es.foldl (xcEdge gl r call) st).covtex k = st.covtex k) ∧
      (∀ j, ¬ XCLim r.y0 (swnvg__maxi call.bounds1 r.y0) (swnvg__mini call.bounds3 r.y1) j →
        (es.foldl (xcEdge gl r call) st).lims j = st.lims j)
  | [], _, _, hc, hl => ⟨hc, hl, fun _ _ => rfl, fun _ _ => rfl⟩
  | e :: es, st, su, hc, hl => by
    simp only [List.foldl_cons]
    obtain ⟨a1, a2, a3, a4⟩ := xcEdge_region gl r call st su e hc hl
    obtain ⟨b1, b2, b3, b4⟩ := xcEdges_region gl r call es _ _ a1 a2
    exact ⟨b1, b2, fun k hk => (b3 k hk).trans (a3 k hk), fun j hj => (b4 j hj).trans (a4 j hj)⟩

/-- One pixel of the fill pass keeps two states in agreement when its cell
belongs to `C` and `emit` keeps states in agreement. -/
theorem xcPixel_agree (C : Int → Prop) (dc : Int) (emit : Int → XCFill → XCFill)
    (hemit : ∀ (ic : Int) (s t : XCFill), XCFillAgree C s t →
      XCFillAgree C (emit ic s) (emit ic t))
    (hdc : C dc) (s t : XCFill) (h : XCFillAgree C s t) :
    XCFillAgree C (xcPixel dc emit s) (xcPixel dc emit t) := by
  obtain ⟨h1, h2, h3, h4, h5⟩ := h
  unfold xcPixel
  dsimp only
  have hi : (if t.covtex dc ≠ 0 then
      ({ t with cover := t.cover + t.covtex dc, icover := xcCoverByte (t.cover + t.covtex dc),
                covtex := fun k => if k = dc then 0 else t.covtex k } : XCFill)
      else t).icover =
    (if s.covtex dc ≠ 0 then
      ({ s with cover := s.cover + s.covtex dc, icover := xcCoverByte (s.cover + s.covtex dc),
                covtex := fun k => if k = dc then 0 else s.covtex k } : XCFill)
      else s).icover := by
    rw [h5 dc hdc, h1]
    split_ifs
    · rfl
    · exact h2
  rw [hi]
  apply hemit
  rw [h5 dc hdc]
  by_cases hz : s.covtex dc ≠ 0
  · rw [if_pos hz, if_pos hz]
    refine ⟨?_, ?_, h3, h4, fun k hk => ?_⟩
    · show t.cover + s.covtex dc = s.cover + s.covtex dc
      rw [h1]
    · show xcCoverByte (t.cover + s.covtex dc) = xcCoverByte (s.cover + s.covtex dc)
      rw [h1]
    · show (if k = dc then 0 else t.covtex k) = (if k = dc then 0 else s.covtex k)
      rw [h5 k hk]
  · rw [if_neg hz, if_neg hz]
    exact ⟨h1, h2, h3, h4, h5⟩

theorem xcPixels_agree (C : Int → Prop) (dcover : Int) (emit : Nat → Int → XCFill → XCFill)
    (hemit : ∀ (i : Nat) (ic : Int) (s t : XCFill), XCFillAgree C s t →
      XCFillAgree C (emit i ic s) (emit i ic t)) :
    ∀ (n : Nat), (∀ i : Nat, i < n → C (dcover + i)) → ∀ s t : XCFill, XCFillAgree C s t →
      XCFillAgree C (xcPixels dcover emit n s) (xcPixels dcover emit n t)
  | 0, _, s, t, h => by
    simpa [xcPixels] using h
  | n + 1, hC, s, t, h => by
    have ih := xcPixels_agree C dcover emit hemit n (fun i hi => hC i (by omega)) s t h
    unfold xcPixels at ih ⊢
    rw [List.range_succ, List.foldl_append, List.foldl_append]
    simp only [List.foldl_cons, List.foldl_nil]
    exact xcPixel_agree C _ _ (hemit n) (hC n (by omega)) _ _ ih

/-- One row of the fill pass reads and writes only accumulator cells and
`lineLimits` entries of the region, when the row's `lims[0]` is not left of the
region. -/
theorem xcFillRow_region (env : Env) (gl : SWNVGcontext) (call : SWNVGcall)
    (tex : Option SWNVGtexture) (y0 xb0 xb1 yb0 yb1 iy li : Int) (st su o : XCOut)
    (hli : li = 2 * (iy - y0)) (hrow : yb0 ≤ iy ∧ iy ≤ yb1) (hl0 : xb0 ≤ st.lims li)
    (hb : su.bitmap = st.bitmap) (hs : su.scanline = st.scanline)
    (hc : ∀ k, XCCell gl.width xb0 xb1 yb0 yb1 k → su.covtex k = st.covtex k)
    (hl : ∀ j, XCLim y0 yb0 yb1 j → su.lims j = st.lims j)
    (h : xcFillRow env gl call tex xb0 xb1 iy li st = some o) :
    (∃ p, xcFillRow env gl call tex xb0 xb1 iy li su = some p ∧ p.bitmap = o.bitmap ∧
      p.scanline = o.scanline ∧
      (∀ k, XCCell gl.width xb0 xb1 yb0 yb1 k → p.covtex k = o.covtex k) ∧
      (∀ j, XCLim y0 yb0 yb1 j → p.lims j = o.lims j)) ∧
    (∀ k, ¬ XCCell gl.width xb0 xb1 yb0 yb1 k → o.covtex k = st.covtex k) ∧
    (∀ j, ¬ XCLim y0 yb0 yb1 j → o.lims j = st.lims j) ∧
    (∀ j, j ≠ li → j ≠ li + 1 → o.lims j = st.lims j) := by
  have hL0 : XCLim y0 yb0 yb1 li := ⟨iy, hrow.1, hrow.2, Or.inl hli⟩
  have hL1 : XCLim y0 yb0 yb1 (li + 1) := ⟨iy, hrow.1, hrow.2, Or.inr (by omega)⟩
  have e0 : su.lims li = st.lims li := hl li hL0
  have e1 : su.lims (li + 1) = st.lims (li + 1) := hl (li + 1) hL1
  have hm := mini_le_right (st.lims (li + 1)) xb1
  have hcells : ∀ i : Nat, i < (swnvg__mini (st.lims (li + 1)) xb1 - st.lims li + 1).toNat →
      XCCell gl.width xb0 xb1 yb0 yb1 (iy * gl.width + st.lims li + i) := by
    intro i hi
    exact ⟨st.lims li + i, iy, by omega, by omega, hrow.1, hrow.2, by ring⟩
  have hst0 : XCFillAgree (XCCell gl.width xb0 xb1 yb0 yb1)
      ⟨0, 0, st.covtex, st.bitmap, st.scanline⟩ ⟨0, 0, su.covtex, su.bitmap, su.scanline⟩ :=
    ⟨rfl, rfl, hb, hs, hc⟩
  obtain ⟨c1, c2⟩ := xcFillRow_covtex env gl call tex xb0 xb1 iy li st o h
  refine ⟨?_, fun k hk => ?_, fun j hj => ?_, c1⟩
  · have A1 := xcPixels_agree (XCCell gl.width xb0 xb1 yb0 yb1) (iy * gl.width + st.lims li)
      (fun i icover s =>
        if icover > 0 then
          { s with bitmap := blendAt s.bitmap (iy * gl.stride + st.lims li * 4 + 4 * i) (fun d =>
              swnvg__blendOpaque env d icover.toNat call.innerCol call.flags.srgb) }
        else s)
      (by
        intro i ic s t hst
        obtain ⟨h1, h2, h3, h4, h5⟩ := hst
        dsimp only
        split_ifs
        · exact ⟨h1, h2, by dsimp only; rw [h3], h4, h5⟩
        · exact ⟨h1, h2, h3, h4, h5⟩)
      _ hcells _ _ hst0
    have A2 := xcPixels_agree (XCCell gl.width xb0 xb1 yb0 yb1) (iy * gl.width + st.lims li)
      (fun i icover s =>
        if icover > 0 then
          { s with bitmap := blendAt s.bitmap (iy * gl.stride + st.lims li * 4 + 4 * i) (fun d =>
              swnvg__blend env d icover.toNat (COLOR0 call.innerCol) (COLOR1 call.innerCol)
                (COLOR2 call.innerCol) (COLOR3 call.innerCol) call.flags.srgb) }
        else s)
      (by
        intro i ic s t hst
        obtain ⟨h1, h2, h3, h4, h5⟩ := hst
        dsimp only
        split_ifs
        · exact ⟨h1, h2, by dsimp only; rw [h3], h4, h5⟩
        · exact ⟨h1, h2, h3, h4, h5⟩)
      _ hcells _ _ hst0
    have A3 := xcPixels_agree (XCCell gl.width xb0 xb1 yb0 yb1) (iy * gl.width + st.lims li)
      (fun i _icover s =>
        { s with scanline := setByte s.scanline i (_icover % 256).toNat })
      (by
        intro i ic s t hst
        obtain ⟨h1, h2, h3, h4, h5⟩ := hst
        exact ⟨h1, h2, h3, by dsimp only; rw [h4], h5⟩)
      _ hcells _ _ hst0
    have hlims : ∀ j, XCLim y0 yb0 yb1 j →
        (fun k => if k = li then gl.width else if k = li + 1 then 0 else su.lims k) j =
        (fun k => if k = li then gl.width else if k = li + 1 then 0 else st.lims k) j := by
      intro j hj
      dsimp only
      rw [hl j hj]
    unfold xcFillRow at h ⊢
    dsimp only at h ⊢
    rw [e0, e1]
    by_cases ht : call.type = SWNVGpaintType.COLOR
    · rw [if_pos ht] at h ⊢
      cases h
      refine ⟨_, rfl, ?_⟩
      dsimp only
      by_cases hop : RGBA32_IS_OPAQUE call.innerCol = true
      · simp only [hop, if_true]
        exact ⟨A1.2.2.1, A1.2.2.2.1, A1.2.2.2.2, hlims⟩
      · simp only [hop, if_false]
        exact ⟨A2.2.2.1, A2.2.2.2.1, A2.2.2.2.2, hlims⟩
    · rw [if_neg ht] at h ⊢
      rw [A3.2.2.1, A3.2.2.2.1]
      generalize swnvg__scanlineSolid env _ _ _ _ _ _ _ _ _ = res at h ⊢
      cases res with
      | none => cases h
      | some bm =>
        dsimp only at h ⊢
        cases h
        exact ⟨_, rfl, rfl, rfl, A3.2.2.2.2, hlims⟩
  · rw [c2 k, if_neg]
    intro hin
    apply hk
    have := hcells (k - (iy * gl.width + st.lims li)).toNat (by omega)
    have e : iy * gl.width + st.lims li + ((k - (iy * gl.width + st.lims li)).toNat : Int) = k := by
      omega
    rwa [e] at this
  · have h0 : j ≠ li := fun heq => hj (heq ▸ hL0)
    have h1 : j ≠ li + 1 := fun heq => hj (heq ▸ hL1)
    exact c1 j h0 h1

theorem xcFillRows_region (env : Env) (gl : SWNVGcontext) (call : SWNVGcall)
    (tex : Option SWNVGtexture) (y0 xb0 xb1 yb0 yb1 : Int) :
    ∀ (n : Nat) (iy li : Int) (st su o : XCOut),
      li = 2 * (iy - y0) → yb0 ≤ iy → (0 < n → iy + n ≤ yb1 + 1) →
      (∀ j : Int, 0 ≤ j → j < n → xb0 ≤ st.lims (li + 2 * j)) →
      su.bitmap = st.bitmap → su.scanline = st.scanline →
      (∀ k, XCCell gl.width xb0 xb1 yb0 yb1 k → su.covtex k = st.covtex k) →
      (∀ j, XCLim y0 yb0 yb1 j → su.lims j = st.lims j) →
      xcFillRows env gl call tex xb0 xb1 n iy li st = some o →
      (∃ p, xcFillRows env gl call tex xb0 xb1 n iy li su = some p ∧ p.bitmap = o.bitmap ∧
        p.scanline = o.scanline ∧
        (∀ k, XCCell gl.width xb0 xb1 yb0 yb1 k → p.covtex k = o.covtex k) ∧
        (∀ j, XCLim y0 yb0 yb1 j → p.lims j = o.lims j)) ∧
      (∀ k, ¬ XCCell gl.width xb0 xb1 yb0 yb1 k → o.covtex k = st.covtex k) ∧
      (∀ j, ¬ XCLim y0 yb0 yb1 j → o.lims j = st.lims j)
  | 0, _, _, st, su, o, _, _, _, _, hb, hs, hc, hl, h => by
    simp only [xcFillRows, Option.some.injEq] at h
    subst h
    exact ⟨⟨su, rfl, hb, hs, hc, hl⟩, fun _ _ => rfl, fun _ _ => rfl⟩
  | n + 1, iy, li, st, su, o, hli, hlo, hhi, hx, hb, hs, hc, hl, h => by
    have hhi := hhi (Nat.succ_pos n)
    have hrow : yb0 ≤ iy ∧ iy ≤ yb1 := ⟨hlo, by push_cast at hhi; omega⟩
    unfold xcFillRows at h
    split at h
    · cases h
    · rename_i st2 h2
      have hl0 : xb0 ≤ st.lims li := by simpa using hx 0 (le_refl _) (by push_cast; omega)
      obtain ⟨⟨p2, q1, q2, q3, q4, q5⟩, f1, f2, f3⟩ :=
        xcFillRow_region env gl call tex y0 xb0 xb1 yb0 yb1 iy li st su st2 hli hrow hl0 hb hs
          hc hl h2
      have hx2 : ∀ j : Int, 0 ≤ j → j < n → xb0 ≤ st2.lims (li + 2 + 2 * j) := by
        intro j hj hjn
        rw [f3 _ (by omega) (by omega)]
        have := hx (j + 1) (by omega) (by push_cast; omega)
        have e : li + 2 * (j + 1) = li + 2 + 2 * j := by ring
        rwa [e] at this
      obtain ⟨⟨p, r1, r2, r3, r4, r5⟩, g1, g2⟩ :=
        xcFillRows_region env gl call tex y0 xb0 xb1 yb0 yb1 n (iy + 1) (li + 2) st2 p2 o
          (by omega) (by omega) (by intro _; push_cast at hhi; omega) hx2 q2 q3 q4 q5 h
      refine ⟨⟨p, ?_, r2, r3, r4, r5⟩, fun k hk => (g1 k hk).trans (f1 k hk),
        fun j hj => (g2 j hj).trans (f2 j hj)⟩
      unfold xcFillRows
      rw [q1]
      exact r1

/-- A pixel inside the image columns `0 .. W-1` that is not a pixel of the
region has an accumulator cell different from every cell of the region, when
the region lies inside the image columns. -/
theorem xcCell_pixel (W xb0 xb1 yb0 yb1 x y : Int) (hx : 0 ≤ x ∧ x < W) (h0 : 0 ≤ xb0)
    (h1 : xb1 < W) (hout : ¬ (xb0 ≤ x ∧ x ≤ xb1 ∧ yb0 ≤ y ∧ y ≤ yb1)) :
    ¬ XCCell W xb0 xb1 yb0 yb1 (y * W + x) := by
  rintro ⟨ix, iy, a1, a2, a3, a4, e⟩
  have hW : 0 < W := by omega
  have e1 : (y * W + x) % W = x := by
    rw [add_comm, Int.add_mul_emod_self]
    exact Int.emod_eq_of_lt hx.1 hx.2
  have e2 : (iy * W + ix) % W = ix := by
    rw [add_comm, Int.add_mul_emod_self]
    exact Int.emod_eq_of_lt (by omega) (by omega)
  have hxe : x = ix := by rw [← e1, e, e2]
  subst hxe
  have hye : y = iy := by
    have : y * W = iy * W := by omega
    exact Int.eq_of_mul_eq_mul_right (by omega) this
  subst hye
  exact hout ⟨a1, a2, a3, a4⟩

/-- The accumulation pass keeps `lims[0]` of every row of the region at or
right of the region's first column when it is so before. -/
theorem xcEdges_lims_region (gl : SWNVGcontext) (r : SWNVGthreadCtx) (call : SWNVGcall)
    (es : List SWNVGedge) (st : XCState)
    (hl : ∀ iy : Int, swnvg__maxi call.bounds1 r.y0 ≤ iy → iy ≤ swnvg__mini call.bounds3 r.y1 →
      swnvg__maxi call.bounds0 r.x0 ≤ st.lims (2 * (iy - r.y0))) :
    ∀ iy : Int, swnvg__maxi call.bounds1 r.y0 ≤ iy → iy ≤ swnvg__mini call.bounds3 r.y1 →
      swnvg__maxi call.bounds0 r.x0 ≤ (es.foldl (xcEdge gl r call) st).lims (2 * (iy - r.y0)) := by
  classical
  intro iy h0 h1
  have hin : XCLim r.y0 (swnvg__maxi call.bounds1 r.y0) (swnvg__mini call.bounds3 r.y1)
      (2 * (iy - r.y0)) := ⟨iy, h0, h1, Or.inl rfl⟩
  obtain ⟨-, b2, -, -⟩ := xcEdges_region gl r call es st
    ⟨st.covtex, fun j =>
      if XCLim r.y0 (swnvg__maxi call.bounds1 r.y0) (swnvg__mini call.bounds3 r.y1) j
      then st.lims j else swnvg__maxi call.bounds0 r.x0⟩
    (fun _ _ => rfl) (fun j hj => by dsimp only; rw [if_pos hj])
  rw [← b2 _ hin]
  apply xcEdges_lims
  intro j
  dsimp only
  split_ifs with hj
  · obtain ⟨y, y0, y1, e | e⟩ := hj
    · rw [e]
      exact hl y y0 y1
    · exfalso; omega
  · exact le_refl _

/-- C37: for every tile, call and edge list, when `lims[0]` of each row of the
region (the tile rectangle intersected with the call bounds) is not left of the
region, as in the reset state that the fill pass restores, a run of
`swnvg__rasterizeXC` that returns (1) leaves every accumulator cell that is not
the cell of a pixel of the region as it was, (2) leaves every `lineLimits`
entry that is not `lims[0]` or `lims[1]` of a row of the region as it was,
(3) in particular leaves the cell of every pixel outside the region, such as a
pixel of another tile, as it was when the region lies in the image columns,
and (4) reads nothing else: on any other accumulator and `lineLimits` with the
same contents in the cells and entries of the region it returns as well, with
the same bitmap, the same scratch scanline and the same contents in the cells
and entries of the region. -/
theorem rasterizeXC_touches_only_region (env : Env) (gl : SWNVGcontext) (r : SWNVGthreadCtx)
    (call : SWNVGcall) (tex : Option SWNVGtexture) (covtex : Int → Rat) (lims : Int → Int)
    (o : XCOut) (h : swnvg__rasterizeXC env gl r call tex covtex lims = some o)
    (hl : ∀ iy : Int, swnvg__maxi call.bounds1 r.y0 ≤ iy → iy ≤ swnvg__mini call.bounds3 r.y1 →
      swnvg__maxi call.bounds0 r.x0 ≤ lims (2 * (iy - r.y0))) :
    (∀ k, ¬ XCCell gl.width (swnvg__maxi call.bounds0 r.x0) (swnvg__mini call.bounds2 r.x1)
        (swnvg__maxi call.bounds1 r.y0) (swnvg__mini call.bounds3 r.y1) k →
      o.covtex k = covtex k) ∧
    (∀ j, ¬ XCLim r.y0 (swnvg__maxi call.bounds1 r.y0) (swnvg__mini call.bounds3 r.y1) j →
      o.lims j = lims j) ∧
    (∀ x y : Int, 0 ≤ x ∧ x < gl.width → 0 ≤ swnvg__maxi call.bounds0 r.x0 →
      swnvg__mini call.bounds2 r.x1 < gl.width →
      ¬ (swnvg__maxi call.bounds0 r.x0 ≤ x ∧ x ≤ swnvg__mini call.bounds2 r.x1 ∧
        swnvg__maxi call.bounds1 r.y0 ≤ y ∧ y ≤ swnvg__mini call.bounds3 r.y1) →
      o.covtex (y * gl.width + x) = covtex (y * gl.width + x)) ∧
    ∀ (covtex2 : Int → Rat) (lims2 : Int → Int),
      (∀ k, XCCell gl.width (swnvg__maxi call.bounds0 r.x0) (swnvg__mini call.bounds2 r.x1)
        (swnvg__maxi call.bounds1 r.y0) (swnvg__mini call.bounds3 r.y1) k →
        covtex2 k = covtex k) →
      (∀ j, XCLim r.y0 (swnvg__maxi call.bounds1 r.y0) (swnvg__mini call.bounds3 r.y1) j →
        lims2 j = lims j) →
      ∃ p, swnvg__rasterizeXC env gl r call tex covtex2 lims2 = some p ∧
        p.bitmap = o.bitmap ∧ p.scanline = o.scanline ∧
        (∀ k, XCCell gl.width (swnvg__maxi call.bounds0 r.x0) (swnvg__mini call.bounds2 r.x1)
          (swnvg__maxi call.bounds1 r.y0) (swnvg__mini call.bounds3 r.y1) k →
          p.covtex k = o.covtex k) ∧
        (∀ j, XCLim r.y0 (swnvg__maxi call.bounds1 r.y0) (swnvg__mini call.bounds3 r.y1) j →
          p.lims j = o.lims j) := by
  unfold swnvg__rasterizeXC at h
  dsimp only at h
  have hacc := xcEdges_lims_region gl r call
    ((gl.edges.drop call.edgeOffset).take call.edgeCount) ⟨covtex, lims⟩ hl
  have hx : ∀ j : Int, 0 ≤ j →
      j < ((swnvg__mini call.bounds3 r.y1 - swnvg__maxi call.bounds1 r.y0 + 1).toNat : Int) →
      swnvg__maxi call.bounds0 r.x0 ≤
        (((gl.edges.drop call.edgeOffset).take call.edgeCount).foldl (xcEdge gl r call)
          ⟨covtex, lims⟩).lims (2 * (swnvg__maxi call.bounds1 r.y0 - r.y0) + 2 * j) := by
    intro j h0 h1
    have := hacc (swnvg__maxi call.bounds1 r.y0 + j) (by omega) (by omega)
    have e : 2 * (swnvg__maxi call.bounds1 r.y0 + j - r.y0) =
        2 * (swnvg__maxi call.bounds1 r.y0 - r.y0) + 2 * j := by ring
    rwa [e] at this
  have hn : 0 < (swnvg__mini call.bounds3 r.y1 - swnvg__maxi call.bounds1 r.y0 + 1).toNat →
      swnvg__maxi call.bounds1 r.y0 +
        ((swnvg__mini call.bounds3 r.y1 - swnvg__maxi call.bounds1 r.y0 + 1).toNat : Int) ≤
        swnvg__mini call.bounds3 r.y1 + 1 := by
    intro _
    omega
  obtain ⟨-, -, a3, a4⟩ := xcEdges_region gl r call
    ((gl.edges.drop call.edgeOffset).take call.edgeCount) ⟨covtex, lims⟩ ⟨covtex, lims⟩
    (fun _ _ => rfl) (fun _ _ => rfl)
  obtain ⟨-, f1, f2⟩ := xcFillRows_region env gl call tex r.y0 _ _ _ _ _ _ _ _ _ o rfl
    (le_refl _) hn hx rfl rfl (fun _ _ => rfl) (fun _ _ => rfl) h
  have hC : ∀ k, ¬ XCCell gl.width (swnvg__maxi call.bounds0 r.x0)
      (swnvg__mini call.bounds2 r.x1) (swnvg__maxi call.bounds1 r.y0)
      (swnvg__mini call.bounds3 r.y1) k → o.covtex k = covtex k :=
    fun k hk => (f1 k hk).trans (a3 k hk)
  refine ⟨hC, fun j hj => (f2 j hj).trans (a4 j hj), ?_, ?_⟩
  · intro x y hx0 hb0 hb1 hout
    exact hC _ (xcCell_pixel _ _ _ _ _ x y hx0 hb0 hb1 hout)
  · intro covtex2 lims2 hc2 hl2
    obtain ⟨b1, b2, -, -⟩ := xcEdges_region gl r call
      ((gl.edges.drop call.edgeOffset).take call.edgeCount) ⟨covtex, lims⟩ ⟨covtex2, lims2⟩
      hc2 hl2
    obtain ⟨⟨p, g1, g2, g3, g4, g5⟩, -, -⟩ := xcFillRows_region env gl call tex r.y0 _ _ _ _ _
      _ _
      ⟨gl.bitmap, (((gl.edges.drop call.edgeOffset).take call.edgeCount).foldl (xcEdge gl r call)
          ⟨covtex, lims⟩).covtex,
        (((gl.edges.drop call.edgeOffset).take call.edgeCount).foldl (xcEdge gl r call)
          ⟨covtex, lims⟩).lims, r.scanline⟩
      ⟨gl.bitmap, (((gl.edges.drop call.edgeOffset).take call.edgeCount).foldl (xcEdge gl r call)
          ⟨covtex2, lims2⟩).covtex,
        (((gl.edges.drop call.edgeOffset).take call.edgeCount).foldl (xcEdge gl r call)
          ⟨covtex2, lims2⟩).lims, r.scanline⟩
      o rfl (le_refl _) hn hx rfl rfl b1 b2 h
    exact ⟨p, g1, g2, g3, g4, g5⟩

/-- Witness for C37: the left-half tile (columns 0..4) of the 10x10 framebuffer
runs the red square call. The run returns and paints pixel (4, 5); the cell of
pixel (7, 5), which belongs to the right half, is left as it was; and a run on
an accumulator that holds 1 in that cell returns the same bitmap. -/
theorem rasterizeXC_touches_only_region_witness :
    (∀ iy : Int, swnvg__maxi xcSquareCall.bounds1 xcHalfTile.y0 ≤ iy →
      iy ≤ swnvg__mini xcSquareCall.bounds3 xcHalfTile.y1 →
      swnvg__maxi xcSquareCall.bounds0 xcHalfTile.x0 ≤
        resetLimits 10 (2 * (iy - xcHalfTile.y0))) ∧
    (swnvg__rasterizeXC sampleEnv xcSquareGl xcHalfTile xcSquareCall none (fun _ => 0)
      (resetLimits 10)).map (fun o => readPixel o.bitmap (5 * 40 + 4 * 4)) =
        some ⟨255, 0, 0, 255⟩ ∧
    ∃ o, swnvg__rasterizeXC sampleEnv xcSquareGl xcHalfTile xcSquareCall none (fun _ => 0)
        (resetLimits 10) = some o ∧
      o.covtex (5 * xcSquareGl.width + 7) = 0 ∧
      ∃ p, swnvg__rasterizeXC sampleEnv xcSquareGl xcHalfTile xcSquareCall none
          (fun k => if k = 57 then 1 else 0) (resetLimits 10) = some p ∧
        p.bitmap = o.bitmap := by
  have hl : ∀ iy : Int, swnvg__maxi xcSquareCall.bounds1 xcHalfTile.y0 ≤ iy →
      iy ≤ swnvg__mini xcSquareCall.bounds3 xcHalfTile.y1 →
      swnvg__maxi xcSquareCall.bounds0 xcHalfTile.x0 ≤
        resetLimits 10 (2 * (iy - xcHalfTile.y0)) := by
    intro iy _ _
    have e : resetLimits 10 (2 * (iy - xcHalfTile.y0)) = 10 := by
      unfold resetLimits
      rw [if_pos (by omega)]
    rw [e]
    decide
  have hs : (swnvg__rasterizeXC sampleEnv xcSquareGl xcHalfTile xcSquareCall none (fun _ => 0)
      (resetLimits 10)).isSome = true := by decide!
  obtain ⟨o, ho⟩ := Option.isSome_iff_exists.mp hs
  have T := rasterizeXC_touches_only_region sampleEnv xcSquareGl xcHalfTile xcSquareCall none
    (fun _ => 0) (resetLimits 10) o ho hl
  have hout : ¬ XCCell xcSquareGl.width (swnvg__maxi xcSquareCall.bounds0 xcHalfTile.x0)
      (swnvg__mini xcSquareCall.bounds2 xcHalfTile.x1)
      (swnvg__maxi xcSquareCall.bounds1 xcHalfTile.y0)
      (swnvg__mini xcSquareCall.bounds3 xcHalfTile.y1) 57 :=
    xcCell_pixel _ _ _ _ _ 7 5 (by decide) (by decide) (by decide) (by decide)
  obtain ⟨p, hp, hb, -⟩ := T.2.2.2 (fun k => if k = 57 then 1 else 0) (resetLimits 10)
    (fun k hk => by
      have hne : k ≠ 57 := fun heq => hout (heq ▸ hk)
      simp only [if_neg hne])
    (fun _ _ => rfl)
  exact ⟨hl, by decide!, o, ho,
    T.2.2.1 7 5 (by decide) (by decide) (by decide) (by decide), p, hp, hb⟩

/-! ### Float rounding of the stored edge ordinates -/

theorem pow2_eq (e : Int) : pow2 e = (2 : Rat) ^ e := by
  unfold pow2
  split_ifs with h
  · have : e = ((e.toNat : Nat) : Int) := (Int.toNat_of_nonneg h).symm
    conv_rhs => rw [this]
    rw [zpow_natCast]
    push_cast
    rfl
  · have : e = -(((-e).toNat : Nat) : Int) := by
      rw [Int.toNat_of_nonneg (by omega)]; omega
    conv_rhs => rw [this]
    rw [zpow_neg, zpow_natCast]
    push_cast
    rw [one_div]

theorem pow2_pos (e : Int) : 0 < pow2 e := by
  rw [pow2_eq]
  positivity

theorem pow2_mono (a b : Int) (h : a ≤ b) : pow2 a ≤ pow2 b := by
  rw [pow2_eq, pow2_eq]
  exact zpow_le_zpow_right₀ (by norm_num) h

theorem pow2_add (a b : Int) : pow2 (a + b) = pow2 a * pow2 b := by
  rw [pow2_eq, pow2_eq, pow2_eq, zpow_add₀ (by norm_num)]

theorem log2Fuel_spec : ∀ (fuel n : Nat), n ≤ fuel → n ≠ 0 →
    2 ^ log2Fuel fuel n ≤ n ∧ n < 2 ^ (log2Fuel fuel n + 1)
  | 0, n, h, h0 => absurd (Nat.le_zero.mp h) h0
  | fuel + 1, n, h, h0 => by
    unfold log2Fuel
    split_ifs with h2
    · constructor
      · simp only [pow_zero]; omega
      · simp only [zero_add, pow_one]; exact h2
    · have hd : n / 2 ≤ fuel := by omega
      have hd0 : n / 2 ≠ 0 := by omega
      obtain ⟨a, b⟩ := log2Fuel_spec fuel (n / 2) hd hd0
      constructor
      · rw [pow_succ]
        omega
      · rw [pow_succ]
        omega

theorem floatExp_spec (a : Rat) (ha : 0 < a) :
    pow2 (floatExp a) ≤ a ∧ a < pow2 (floatExp a + 1) := by
  have hn : 0 < a.num := Rat.num_pos.mpr ha
  have hn0 : a.num.natAbs ≠ 0 := by omega
  obtain ⟨n1, n2⟩ := log2Fuel_spec a.num.natAbs a.num.natAbs (le_refl _) hn0
  obtain ⟨d1, d2⟩ := log2Fuel_spec a.den a.den (le_refl _) a.den_nz
  have hcast : (a.num : Rat) = (a.num.natAbs : Rat) := by
    rw [← Int.cast_natCast, Int.natAbs_of_nonneg hn.le]
  have hdpos : (0 : Rat) < a.den := by exact_mod_cast a.den_pos
  have ha_eq : a = (a.num.natAbs : Rat) / a.den := by
    rw [← hcast]
    exact (Rat.num_div_den a).symm
  unfold floatExp
  dsimp only
  generalize log2Fuel a.num.natAbs a.num.natAbs = ln at n1 n2 ⊢
  generalize log2Fuel a.den a.den = ld at d1 d2 ⊢
  have N1 : ((2 : Rat) ^ ln) ≤ (a.num.natAbs : Rat) := by exact_mod_cast n1
  have N2 : (a.num.natAbs : Rat) < (2 : Rat) ^ (ln + 1) := by exact_mod_cast n2
  have D1 : ((2 : Rat) ^ ld) ≤ (a.den : Rat) := by exact_mod_cast d1
  have D2 : (a.den : Rat) < (2 : Rat) ^ (ld + 1) := by exact_mod_cast d2
  have hlo : pow2 ((ln : Int) - (ld : Int) - 1) ≤ a := by
    rw [pow2_eq, show ((ln : Int) - (ld : Int) - 1) = (ln : Int) - ((ld + 1 : Nat) : Int) by
      push_cast; ring, zpow_sub₀ (by norm_num), zpow_natCast, zpow_natCast]
    rw [ha_eq, div_le_div_iff₀ (by positivity) hdpos]
    calc (2 : Rat) ^ ln * a.den ≤ a.num.natAbs * a.den :=
          mul_le_mul_of_nonneg_right N1 hdpos.le
      _ ≤ a.num.natAbs * 2 ^ (ld + 1) :=
          mul_le_mul_of_nonneg_left D2.le (by positivity)
  have hhi : a < pow2 ((ln : Int) - (ld : Int) + 1) := by
    rw [pow2_eq, show ((ln : Int) - (ld : Int) + 1) = ((ln + 1 : Nat) : Int) - (ld : Int) by
      push_cast; ring, zpow_sub₀ (by norm_num), zpow_natCast, zpow_natCast]
    rw [ha_eq, div_lt_div_iff₀ hdpos (by positivity)]
    calc (a.num.natAbs : Rat) * 2 ^ ld < 2 ^ (ln + 1) * 2 ^ ld :=
          mul_lt_mul_of_pos_right N2 (by positivity)
      _ ≤ 2 ^ (ln + 1) * a.den := mul_le_mul_of_nonneg_left D1 (by positivity)
  split_ifs with h
  · refine ⟨hlo, ?_⟩
    rw [show (ln : Int) - (ld : Int) - 1 + 1 = (ln : Int) - (ld : Int) by ring]
    exact h
  · exact ⟨not_lt.mp h, hhi⟩

theorem roundEven_bounds (m : Rat) : Int.floor m ≤ roundEven m ∧ roundEven m ≤ Int.floor m + 1 := by
  unfold roundEven
  dsimp only
  split_ifs <;> omega

theorem roundEven_intCast (k : Int) : roundEven (k : Rat) = k := by
  unfold roundEven
  dsimp only
  rw [Int.floor_intCast, if_pos (by simp)]

theorem roundEven_le (m : Rat) (k : Int) (h : m ≤ k) : roundEven m ≤ k := by
  have hf : Int.floor m ≤ k := (Int.floor_mono h).trans (by rw [Int.floor_intCast])
  rcases lt_or_eq_of_le hf with h1 | h1
  · have := (roundEven_bounds m).2
    omega
  · have hm : m = k := by
      apply le_antisymm h
      rw [← h1]
      exact Int.floor_le m
    rw [hm, roundEven_intCast]

theorem le_roundEven (m : Rat) (k : Int) (h : (k : Rat) ≤ m) : k ≤ roundEven m :=
  (Int.le_floor.mpr h).trans (roundEven_bounds m).1

theorem roundEven_mono (m1 m2 : Rat) (h : m1 ≤ m2) : roundEven m1 ≤ roundEven m2 := by
  have hf : Int.floor m1 ≤ Int.floor m2 := Int.floor_mono h
  rcases lt_or_eq_of_le hf with h1 | h1
  · have a := (roundEven_bounds m1).2
    have b := (roundEven_bounds m2).1
    omega
  · unfold roundEven
    dsimp only
    rw [← h1]
    have hr : m1 - Int.floor m1 ≤ m2 - Int.floor m1 := by linarith
    split_ifs <;> first | omega | (exfalso; linarith)

theorem roundFloatPos_mono (a b : Rat) (ha : 0 < a) (hab : a ≤ b) :
    roundFloatPos a ≤ roundFloatPos b := by
  have hb : 0 < b := lt_of_lt_of_le ha hab
  obtain ⟨a1, a2⟩ := floatExp_spec a ha
  obtain ⟨b1, b2⟩ := floatExp_spec b hb
  have he : floatExp a ≤ floatExp b := by
    by_contra hc
    have h1 : floatExp b + 1 ≤ floatExp a := by omega
    have := pow2_mono _ _ h1
    linarith
  unfold roundFloatPos
  dsimp only
  generalize floatExp a = ea at a1 a2 he
  generalize floatExp b = eb at b1 b2 he
  rcases lt_or_eq_of_le (max_le_max he (le_refl (-126 : Int))) with hlt | heq
  · have hEb : max eb (-126) = eb := by omega
    rw [hEb] at hlt ⊢
    generalize hEa : max ea (-126) = Ea at hlt
    have hea : ea ≤ Ea := by omega
    have hua := pow2_pos (Ea - 23)
    have hub := pow2_pos (eb - 23)
    have k24 : pow2 (Ea + 1) = ((2 ^ 24 : Int) : Rat) * pow2 (Ea - 23) := by
      rw [show Ea + 1 = 24 + (Ea - 23) by ring, pow2_add]
      congr 1
    have k23 : pow2 eb = ((2 ^ 23 : Int) : Rat) * pow2 (eb - 23) := by
      rw [show eb = 23 + (eb - 23) by ring, pow2_add, show 23 + (eb - 23) - 23 = eb - 23 by ring]
      congr 1
    have ha24 : a / pow2 (Ea - 23) ≤ ((2 ^ 24 : Int) : Rat) := by
      rw [div_le_iff₀ hua, ← k24]
      exact (a2.le).trans (pow2_mono _ _ (by omega))
    have hb23 : ((2 ^ 23 : Int) : Rat) ≤ b / pow2 (eb - 23) := by
      rw [le_div_iff₀ hub, ← k23]
      exact b1
    have r1 := roundEven_le _ _ ha24
    have r2 := le_roundEven _ _ hb23
    calc (roundEven (a / pow2 (Ea - 23)) : Rat) * pow2 (Ea - 23)
        ≤ ((2 ^ 24 : Int) : Rat) * pow2 (Ea - 23) :=
          mul_le_mul_of_nonneg_right (by exact_mod_cast r1) hua.le
      _ = pow2 (Ea + 1) := k24.symm
      _ ≤ pow2 eb := pow2_mono _ _ (by omega)
      _ = ((2 ^ 23 : Int) : Rat) * pow2 (eb - 23) := k23
      _ ≤ (roundEven (b / pow2 (eb - 23)) : Rat) * pow2 (eb - 23) :=
          mul_le_mul_of_nonneg_right (by exact_mod_cast r2) hub.le
  · rw [heq]
    have hu := pow2_pos (max eb (-126) - 23)
    have hm := roundEven_mono (a / pow2 (max eb (-126) - 23)) (b / pow2 (max eb (-126) - 23))
      (div_le_div_of_nonneg_right hab hu.le)
    exact mul_le_mul_of_nonneg_right (by exact_mod_cast hm) hu.le

theorem roundFloatPos_nonneg (a : Rat) (ha : 0 < a) : 0 ≤ roundFloatPos a := by
  unfold roundFloatPos
  dsimp only
  have hu := pow2_pos (max (floatExp a) (-126) - 23)
  have h0 : ((0 : Int) : Rat) ≤ a / pow2 (max (floatExp a) (-126) - 23) := by
    simp only [Int.cast_zero]
    positivity
  have := le_roundEven _ 0 h0
  exact mul_nonneg (by exact_mod_cast this) hu.le

/-- Rounding to the nearest `float` is monotone. -/
theorem roundFloat_mono (p q : Rat) (h : p ≤ q) : roundFloat p ≤ roundFloat q := by
  unfold roundFloat
  rcases lt_trichotomy p 0 with hp | hp | hp
  · rw [if_neg hp.ne, if_neg (not_lt.mpr hp.le)]
    rcases lt_trichotomy q 0 with hq | hq | hq
    · rw [if_neg hq.ne, if_neg (not_lt.mpr hq.le)]
      have := roundFloatPos_mono (-q) (-p) (by linarith) (by linarith)
      linarith
    · rw [if_pos hq]
      have := roundFloatPos_nonneg (-p) (by linarith)
      linarith
    · rw [if_neg hq.ne', if_pos hq]
      have := roundFloatPos_nonneg (-p) (by linarith)
      have := roundFloatPos_nonneg q hq
      linarith
  · rw [if_pos hp]
    rcases lt_or_eq_of_le (hp ▸ h) with hq | hq
    · rw [if_neg hq.ne', if_pos hq]
      exact roundFloatPos_nonneg q hq
    · rw [if_pos hq.symm]
  · have hq : 0 < q := lt_of_lt_of_le hp h
    rw [if_neg hp.ne', if_pos hp, if_neg hq.ne', if_pos hq]
    exact roundFloatPos_mono p q hp h

/-- C14 (counterexample): the segment from `(1, 13421774/2^23)` to
`(3, 13421775/2^23)` joins two adjacent `float` values `y0 < y1`.  Both float
products `y0 * 5` and `y1 * 5` round to `8 + 2^-20`, so the edge that
`swnvg__addEdge` stores has `y0 == y1`: its stored `y0` is not strictly less
than its stored `y1`, and is not the exact product. -/
theorem addEdge_adjacent_floats_stored_equal :
    ((13421774 / 8388608 : Rat) ≠ 13421775 / 8388608 ∧
      (13421774 / 8388608 : Rat) < 13421775 / 8388608) ∧
    (roundFloat (13421774 / 8388608) = 13421774 / 8388608 ∧
      roundFloat (13421775 / 8388608) = 13421775 / 8388608) ∧
    (swnvg__addEdge (nvgswCreate false false) true
        ⟨1, 13421774 / 8388608, 3, 13421775 / 8388608⟩).edges[0]? =
      some ⟨1, 8388609 / 1048576, 3, 8388609 / 1048576, 1⟩ ∧
    ¬ ((8388609 / 1048576 : Rat) < 8388609 / 1048576) ∧
    (8388609 / 1048576 : Rat) ≠ 13421774 / 8388608 * 5 := by
  decide!

/-- C14 (amended): for a vertex segment with `y0 != y1`, when the edge array has
room or its reallocation succeeds, `swnvg__addEdge` appends exactly one edge at
index `nedges`: its stored `y0` is less than or equal to its stored `y1`, and
strictly less when the two stored values differ; its endpoints are those of the
segment with `y` multiplied by 5 in `float` arithmetic (the product rounded to
the nearest `float`), swapped exactly when the segment had `y0 > y1`; its `dir`
is `+1` when the segment had `y0 < y1` and `-1` otherwise; all previously
stored edges are unchanged. -/
theorem addEdge_appends_rounded (r : SWNVGcontext) (allocOk : Bool) (vtx : NVGvertex)
    (hy : vtx.y0 ≠ vtx.y1) (hn : r.nedges ≤ r.cedges) (hlen : r.cedges ≤ r.edges.length)
    (halloc : allocOk = true ∨ r.nedges + 1 ≤ r.cedges) :
    (swnvg__addEdge r allocOk vtx).nedges = r.nedges + 1 ∧
    (∃ e, (swnvg__addEdge r allocOk vtx).edges[r.nedges]? = some e ∧ e.y0 ≤ e.y1 ∧
      (roundFloat (vtx.y0 * 5) ≠ roundFloat (vtx.y1 * 5) → e.y0 < e.y1) ∧
      (vtx.y0 < vtx.y1 →
        e = ⟨vtx.x0, roundFloat (vtx.y0 * 5), vtx.x1, roundFloat (vtx.y1 * 5), 1⟩) ∧
      (vtx.y1 < vtx.y0 →
        e = ⟨vtx.x1, roundFloat (vtx.y1 * 5), vtx.x0, roundFloat (vtx.y0 * 5), -1⟩)) ∧
    (∀ k, k < r.nedges → (swnvg__addEdge r allocOk vtx).edges[k]? = r.edges[k]?) ∧
    (swnvg__addEdge r allocOk vtx).nedges ≤ (swnvg__addEdge r allocOk vtx).cedges ∧
    (swnvg__addEdge r allocOk vtx).cedges ≤ (swnvg__addEdge r allocOk vtx).edges.length := by
  obtain ⟨g1, g2, g3, g4, g5, -⟩ := growEdges_spec r allocOk hn hlen halloc
  unfold swnvg__addEdge
  rw [if_neg hy]
  dsimp only
  rw [if_pos g1]
  generalize growEdges r allocOk = g at g1 g2 g3 g4 g5
  have hlt : r.nedges < g.1.edges.length := by omega
  have e5 : ((SWNVG__SUBSAMPLES : Nat) : Rat) = 5 := by norm_num [SWNVG__SUBSAMPLES]
  refine ⟨?_, ?_, ?_, ?_, ?_⟩
  · show g.1.nedges + 1 = r.nedges + 1
    rw [g2]
  · rw [g2, e5]
    refine ⟨_, List.getElem?_set_eq_of_lt _ hlt, ?_, ?_, ?_, ?_⟩
    · split_ifs with h
      · show roundFloat (vtx.y0 * 5) ≤ roundFloat (vtx.y1 * 5)
        exact roundFloat_mono _ _ (by linarith)
      · show roundFloat (vtx.y1 * 5) ≤ roundFloat (vtx.y0 * 5)
        exact roundFloat_mono _ _ (by linarith)
    · intro hne
      split_ifs with h
      · show roundFloat (vtx.y0 * 5) < roundFloat (vtx.y1 * 5)
        exact lt_of_le_of_ne (roundFloat_mono _ _ (by linarith)) hne
      · show roundFloat (vtx.y1 * 5) < roundFloat (vtx.y0 * 5)
        exact lt_of_le_of_ne (roundFloat_mono _ _ (by linarith)) (Ne.symm hne)
    · intro h
      rw [if_pos h]
    · intro h
      rw [if_neg (not_lt.mpr h.le)]
  · intro k hk
    show (g.1.edges.set g.1.nedges _)[k]? = r.edges[k]?
    rw [g2, List.getElem?_set_ne (by omega)]
    exact g5 k (by omega)
  · show g.1.nedges + 1 ≤ g.1.cedges
    omega
  · show g.1.cedges ≤ (g.1.edges.set g.1.nedges _).length
    rw [List.length_set]
    exact g4

/-- Witness for C14 (amended): the falling segment from `(1, 4)` to `(3, 1/10)`,
with `1/10` taken as the nearest `float` `13421773/2^27`, added to the freshly
created context; the stored edge runs from `(3, 1/2)` to `(1, 20)`. -/
theorem addEdge_appends_rounded_witness :
    ((4 : Rat) ≠ 13421773 / 134217728 ∧
      (nvgswCreate false false).nedges ≤ (nvgswCreate false false).cedges) ∧
    (swnvg__addEdge (nvgswCreate false false) true ⟨1, 4, 3, 13421773 / 134217728⟩).edges[0]? =
      some ⟨3, 1 / 2, 1, 20, -1⟩ ∧
    ((swnvg__addEdge (nvgswCreate false false) true ⟨1, 4, 3, 13421773 / 134217728⟩).nedges =
        (nvgswCreate false false).nedges + 1 ∧
    (∃ e, (swnvg__addEdge (nvgswCreate false false) true
        ⟨1, 4, 3, 13421773 / 134217728⟩).edges[(nvgswCreate false false).nedges]? = some e ∧
      e.y0 ≤ e.y1 ∧
      (roundFloat (4 * 5) ≠ roundFloat (13421773 / 134217728 * 5) → e.y0 < e.y1) ∧
      ((4 : Rat) < 13421773 / 134217728 →
        e = ⟨1, roundFloat (4 * 5), 3, roundFloat (13421773 / 134217728 * 5), 1⟩) ∧
      ((13421773 / 134217728 : Rat) < 4 →
        e = ⟨3, roundFloat (13421773 / 134217728 * 5), 1, roundFloat (4 * 5), -1⟩)) ∧
    (∀ k, k < (nvgswCreate false false).nedges →
      (swnvg__addEdge (nvgswCreate false false) true ⟨1, 4, 3, 13421773 / 134217728⟩).edges[k]? =
        (nvgswCreate false false).edges[k]?) ∧
    (swnvg__addEdge (nvgswCreate false false) true ⟨1, 4, 3, 13421773 / 134217728⟩).nedges ≤
      (swnvg__addEdge (nvgswCreate false false) true ⟨1, 4, 3, 13421773 / 134217728⟩).cedges ∧
    (swnvg__addEdge (nvgswCreate false false) true ⟨1, 4, 3, 13421773 / 134217728⟩).cedges ≤
      (swnvg__addEdge (nvgswCreate false false) true
        ⟨1, 4, 3, 13421773 / 134217728⟩).edges.length) :=
  ⟨⟨by norm_num, by decide⟩, by decide!,
    addEdge_appends_rounded (nvgswCreate false false) true ⟨1, 4, 3, 13421773 / 134217728⟩
      (by norm_num) (by decide) (by decide) (Or.inl rfl)⟩

/-! ### Axis-aligned rectangles as stored -/

theorem castInt_of_lt (q : Rat) (h0 : 0 ≤ q) (h1 : q < 2147483648) :
    castInt q = truncf q ∧ 0 ≤ castInt q := by
  have hf0 := truncf_nonneg q h0
  have hf1 : truncf q < 2147483648 := by
    unfold truncf
    rw [if_pos h0]
    exact Int.floor_lt.mpr (by exact_mod_cast h1)
  unfold castInt
  rw [if_pos ⟨by omega, by omega⟩]
  exact ⟨rfl, hf0⟩

/-- The two texel coordinates `min((int)ij, dim-1)` and `min((int)ij + 1, dim-1)`
of `swnvg__lerpAndBlend` lie in `[0, dim-1]` when the sample position is below
`2^31`. -/
theorem lerpTap_mem (ij : Rat) (dim : Int) (h : 1 ≤ dim) (hb : ij < 2147483648) :
    (0 ≤ swnvg__mini (castInt (swnvg__maxf 0 ij)) (dim - 1) ∧
      swnvg__mini (castInt (swnvg__maxf 0 ij)) (dim - 1) ≤ dim - 1) ∧
    (0 ≤ swnvg__mini (castInt (swnvg__maxf 0 ij) + 1) (dim - 1) ∧
      swnvg__mini (castInt (swnvg__maxf 0 ij) + 1) (dim - 1) ≤ dim - 1) := by
  have hm : swnvg__maxf 0 ij < 2147483648 := by
    unfold swnvg__maxf
    split_ifs
    · exact hb
    · norm_num
  have h0 := (castInt_of_lt _ (maxf_zero_nonneg ij) hm).2
  exact ⟨⟨le_mini _ _ _ h0 (by omega), mini_le_right _ _⟩,
    ⟨le_mini _ _ _ (by omega) (by omega), mini_le_right _ _⟩⟩

/-- Texel coordinates of image paint sampling: the nearest-neighbour
coordinates of `swnvg__scanlineSolid` lie in the texture for every sample
position, and the four taps of `swnvg__lerpAndBlend` lie in the texture for
sample positions below `2^31`. -/
theorem image_taps_in_range (tex : SWNVGtexture) (hw : 1 ≤ tex.width) (hh : 1 ≤ tex.height)
    (qx qy : Rat) :
    (0 ≤ swnvg__clampi (castInt (1 / 2 + qx)) 0 (tex.width - 1) ∧
      swnvg__clampi (castInt (1 / 2 + qx)) 0 (tex.width - 1) ≤ tex.width - 1) ∧
    (0 ≤ swnvg__clampi (castInt (1 / 2 + qy)) 0 (tex.height - 1) ∧
      swnvg__clampi (castInt (1 / 2 + qy)) 0 (tex.height - 1) ≤ tex.height - 1) ∧
    (qx < 2147483648 →
      (0 ≤ swnvg__mini (castInt (swnvg__maxf 0 qx)) (tex.width - 1) ∧
        swnvg__mini (castInt (swnvg__maxf 0 qx)) (tex.width - 1) ≤ tex.width - 1) ∧
      (0 ≤ swnvg__mini (castInt (swnvg__maxf 0 qx) + 1) (tex.width - 1) ∧
        swnvg__mini (castInt (swnvg__maxf 0 qx) + 1) (tex.width - 1) ≤ tex.width - 1)) ∧
    (qy < 2147483648 →
      (0 ≤ swnvg__mini (castInt (swnvg__maxf 0 qy)) (tex.height - 1) ∧
        swnvg__mini (castInt (swnvg__maxf 0 qy)) (tex.height - 1) ≤ tex.height - 1) ∧
      (0 ≤ swnvg__mini (castInt (swnvg__maxf 0 qy) + 1) (tex.height - 1) ∧
        swnvg__mini (castInt (swnvg__maxf 0 qy) + 1) (tex.height - 1) ≤ tex.height - 1)) :=
  ⟨clampi_mem _ _ (by omega), clampi_mem _ _ (by omega),
    fun h => lerpTap_mem qx tex.width hw h, fun h => lerpTap_mem qy tex.height hh h⟩

/-- Claim C25 fails on the code: on the 2x2 texture, `swnvg__lerpAndBlend` at
the sample position `(2^31, 0)` converts `ijx` with `(int)ijx`, which gives
`INT_MIN`; `swnvg__mini` bounds it only from above, so the taps have the
`x` coordinates `-2^31` and `-2^31 + 1`, outside `[0, width-1]`.  The result
depends on what lies outside the texture: two textures with the same size and
the same four texels give different pixels.  The image branch of
`swnvg__scanlineSolid` reaches such a position for a paint extent of `2^-32`. -/
theorem lerpAndBlend_reads_outside_texture :
    (1 ≤ tex2x2.width ∧ 1 ≤ tex2x2.height) ∧
    (swnvg__mini (castInt (swnvg__maxf 0 2147483648)) (tex2x2.width - 1) = -2147483648 ∧
      swnvg__mini (castInt (swnvg__maxf 0 2147483648) + 1) (tex2x2.width - 1) = -2147483647) ∧
    (tex2x2Alt.width = tex2x2.width ∧ tex2x2Alt.height = tex2x2.height ∧
      tex2x2Alt.nearest = tex2x2.nearest ∧
      ∀ k : Int, 0 ≤ k → k < 4 → tex2x2Alt.texels k = tex2x2.texels k) ∧
    swnvg__lerpAndBlend sampleEnv ⟨0, 0, 0, 0⟩ 255 tex2x2 2147483648 0 false ≠
      swnvg__lerpAndBlend sampleEnv ⟨0, 0, 0, 0⟩ 255 tex2x2Alt 2147483648 0 false ∧
    ((((nvgTransformPoint tinyExtentCall.paintMat 0 0).1 + 1 / 2) * tex2x2.width /
        tinyExtentCall.extent0 - 1 / 2 : Rat) = 4294967296 - 1 / 2 ∧
      swnvg__mini (castInt (swnvg__maxf 0 (4294967296 - 1 / 2))) (tex2x2.width - 1) =
        -2147483648) ∧
    swnvg__scanlineSolid sampleEnv (fun _ => 0) 0 1 (fun _ => 255) 0 0 0 tinyExtentCall
        (some tex2x2) ≠
      swnvg__scanlineSolid sampleEnv (fun _ => 0) 0 1 (fun _ => 255) 0 0 0 tinyExtentCall
        (some tex2x2Alt) := by
  have hpix : swnvg__lerpAndBlend sampleEnv ⟨0, 0, 0, 0⟩ 255 tex2x2 2147483648 0 false ≠
      swnvg__lerpAndBlend sampleEnv ⟨0, 0, 0, 0⟩ 255 tex2x2Alt 2147483648 0 false := by
    decide!
  have hrun : (swnvg__scanlineSolid sampleEnv (fun _ => 0) 0 1 (fun _ => 255) 0 0 0
        tinyExtentCall (some tex2x2)).map (fun bm => readPixel bm 0) ≠
      (swnvg__scanlineSolid sampleEnv (fun _ => 0) 0 1 (fun _ => 255) 0 0 0
        tinyExtentCall (some tex2x2Alt)).map (fun bm => readPixel bm 0) := by
    decide!
  refine ⟨by decide!, by decide!, ⟨rfl, rfl, rfl, fun k h0 h1 => ?_⟩, hpix, by decide!,
    fun heq => hrun (by rw [heq])⟩
  show (if 0 ≤ k ∧ k < 4 then (k + 1).toNat else 4278190335) =
    (if 0 ≤ k ∧ k < 4 then (k + 1).toNat else 99)
  rw [if_pos ⟨h0, h1⟩, if_pos ⟨h0, h1⟩]

/-! ### Exact-coverage rasterizer: accumulator after a closed path -/

/-- Claim C15 fails on the code, for a closed path recorded by
`swnvg__renderFill`.  The stepped polygon `stepSegs` is filled on the 10x10
exact-coverage context under a scissor that leaves the columns 5..9, so the
call has the bounds `(5, 0, 9, 4)`.  Its side from `(3/2, -7/8)` to
`(3/2, -1/2)` lies above the framebuffer, but `(int)ymin` and `(int)ymax` are
both `0` (the conversion truncates toward zero), so the accumulation pass
visits row 0 for it and stores `min(ymax, 1) - max(ymin, 0) = -1/2` into the
cell of pixel `(5, 0)`; the two long sides add `+1` and `-1`.  All three lie
left of the region, no edge widens the limits of row 0, and the fill pass
consumes nothing there: started on an all-zero accumulator,
`swnvg__rasterizeXC` returns with `-1/2` in that cell, and so does the flush. -/
theorem flush_leaves_accumulator_dirty :
    (stepRecorded.calls.length = 1 ∧ stepCall.flags.xc = true ∧ stepCall.edgeCount = 4 ∧
      (stepCall.bounds0, stepCall.bounds1, stepCall.bounds2, stepCall.bounds3) = (5, 0, 9, 4)) ∧
    (truncf (-7 / 8) = 0 ∧ truncf (-1 / 2) = 0) ∧
    inTile xcTile 5 0 ∧
    (swnvg__rasterizeXC sampleEnv stepRecorded xcTile stepCall none (fun _ => 0)
      (resetLimits 10)).map (fun o => o.covtex (0 * stepRecorded.width + 5)) = some (-1 / 2) ∧
    (swnvg__renderFlush sampleEnv stepRecorded).map
      (fun gl => gl.covtex.map (fun f => f (0 * gl.width + 5))) = some (some (-1 / 2)) := by
  refine ⟨by decide!, by decide!, ?_, by decide!, by decide!⟩
  unfold inTile
  decide

end NanoVGSW
